import Mathlib

/-!
A shallow embedding, in Lean 4, of the core data structures of the pigo
hybrid-retrieval index, together with machine-checked statements about the
behaviour its specification claims.

Source files embedded here:
* `index/detail/scalar/bitmap_holder/bitmap.{h,cpp}` (the `Bitmap` class)
* `index/detail/scalar/bitmap_holder/ranged_map.{h,cpp}` (`RangedMap`, `RangedMap2D`)
* `index/detail/scalar/bitmap_holder/bitmap_field_group.{h,cpp}` (`FieldBitmapGroupSet`)
* `index/detail/scalar/filter/filter_ops.cpp` (the filter DSL operators)
* `index/detail/vector/common/bruteforce.h` (`BruteforceSearch`)
* `index/detail/vector/sparse_retrieval/sparse_distance_measure.h`
* `index/detail/index_manager_impl.cpp` and `index/common_structs.h`

Modelling conventions.  C++ `double` / `float` values are modelled by `ℚ`:
every property treated here is about comparison, merge and bookkeeping
structure, never about rounding.  `NaN`, which `RangedMap` stores as its
"absent" marker, is modelled by `Option`.  Machine integers are `ℕ`, with an
explicit `% 2 ^ 32` where the source truncates a wider value into a
`uint32_t` (`BruteforceSearch::add_point`).  `std::map` / `std::unordered_map`
are association lists with the corresponding insert-or-assign and erase
operations; `roaring::Roaring` and `std::set<uint32_t>` are modelled by the
finite set of ids they hold.
-/

namespace Pigo

/-! ### Bitmap (`bitmap.h`, `bitmap.cpp`)

The C++ class keeps two backing containers (a roaring bitmap and a small
`std::set`), a flag saying which one is active, and a cached cardinality
with a validity flag.  Iteration over a `std::set<uint32_t>` is in ascending
key order, which is how the element-by-element loops below are written. -/

/-- `kSetThreshold` from `bitmap.h`: bound of the small-set representation. -/
def kSetThreshold : Nat := 32

/-- State of `vectordb::Bitmap`. -/
structure Bitmap where
  roaring : Finset Nat
  set : Finset Nat
  is_roaring : Bool
  nbit_cache : Nat
  has_nbit_cache : Bool
deriving DecidableEq

/-- A default-constructed `Bitmap`. -/
def Bitmap.init : Bitmap := ⟨∅, ∅, false, 0, false⟩

/-- `Bitmap::to_roaring` (private helper): move the small-set content into
the roaring container. -/
def Bitmap.to_roaring (b : Bitmap) : Bitmap :=
  if b.is_roaring then b
  else { b with roaring := b.roaring ∪ b.set, set := ∅, is_roaring := true }

/-- `Bitmap::clear` (`bitmap.cpp`): empty both containers, drop the cache
validity flag (the cached number itself is left behind). -/
def Bitmap.clear (b : Bitmap) : Bitmap :=
  { roaring := ∅, set := ∅, is_roaring := false,
    nbit_cache := b.nbit_cache, has_nbit_cache := false }

/-- `Bitmap::to_set` (private helper): materialise the roaring content into
the small-set container (via `get_set_list` and `clear`). -/
def Bitmap.to_set (b : Bitmap) : Bitmap :=
  if b.is_roaring then { b.clear with set := b.roaring } else b

/-- `Bitmap::nbit`: the true cardinality of the active container. -/
def Bitmap.nbit (b : Bitmap) : Nat :=
  if b.is_roaring then b.roaring.card else b.set.card

/-- `Bitmap::Isset`. -/
def Bitmap.Isset (b : Bitmap) (id : Nat) : Bool :=
  if b.is_roaring then id ∈ b.roaring else id ∈ b.set

/-- `Bitmap::empty`. -/
def Bitmap.isempty (b : Bitmap) : Bool :=
  b.roaring = (∅ : Finset Nat) ∧ b.set = (∅ : Finset Nat)

/-- `Bitmap::Set`: insert, promoting to roaring when the small set grows
past `kSetThreshold`; always drops the cardinality cache. -/
def Bitmap.Set (b : Bitmap) (id : Nat) : Bitmap :=
  let b' :=
    if b.is_roaring then { b with roaring := insert id b.roaring }
    else
      let s := insert id b.set
      if kSetThreshold < s.card then Bitmap.to_roaring { b with set := s }
      else { b with set := s }
  { b' with has_nbit_cache := false }

/-- `Bitmap::Unset`. -/
def Bitmap.Unset (b : Bitmap) (id : Nat) : Bitmap :=
  let b' :=
    if b.is_roaring then { b with roaring := b.roaring.erase id }
    else { b with set := b.set.erase id }
  { b' with has_nbit_cache := false }

/-- `Bitmap::SetRange`: add `[x, y)` (roaring `addRange`) after forcing the
roaring representation. -/
def Bitmap.SetRange (b : Bitmap) (x y : Nat) : Bitmap :=
  let br := b.to_roaring
  { br with roaring := br.roaring ∪ Finset.Ico x y, has_nbit_cache := false }

/-- `Bitmap::SetMany`: bulk-add (roaring `addMany`) after forcing the roaring
representation; a no-op apart from the cache drop when `ids` is empty. -/
def Bitmap.SetMany (b : Bitmap) (ids : List Nat) : Bitmap :=
  let b' :=
    if ids.isEmpty then b
    else
      let br := b.to_roaring
      { br with roaring := br.roaring ∪ ids.toFinset }
  { b' with has_nbit_cache := false }

/-- `Bitmap::Union` (reference overload).  When `other` is roaring, promote
and OR; otherwise `Set` every id of `other`'s small set in ascending order. -/
def Bitmap.Union (b : Bitmap) (other : Bitmap) : Bitmap :=
  let b' :=
    if other.is_roaring then
      let br := b.to_roaring
      { br with roaring := br.roaring ∪ other.roaring }
    else (other.set.sort (· ≤ ·)).foldl Bitmap.Set b
  { b' with has_nbit_cache := false }

/-- `Bitmap::Exclude` (reference overload).  NOTE: in the roaring-roaring
case the source returns early, before the `has_nbit_cache_ = false` line at
the end of the function, so the cardinality cache is left as it was. -/
def Bitmap.Exclude (b : Bitmap) (other : Bitmap) : Bitmap :=
  if b.is_roaring && other.is_roaring then
    { b with roaring := b.roaring \ other.roaring }
  else
    let b' :=
      if !other.is_roaring then (other.set.sort (· ≤ ·)).foldl Bitmap.Unset b
      else { b with set := b.set.filter (fun id => ¬ other.Isset id) }
    { b' with has_nbit_cache := false }

/-- `Bitmap::Intersect` (reference overload).  NOTE: as with `Exclude`, the
roaring-roaring case returns early and keeps the stale cardinality cache. -/
def Bitmap.Intersect (b : Bitmap) (other : Bitmap) : Bitmap :=
  if b.is_roaring && other.is_roaring then
    { b with roaring := b.roaring ∩ other.roaring }
  else if b.is_roaring then
    { b.clear with set := other.set.filter (fun id => b.Isset id) }
  else
    { b with set := b.set.filter (fun id => other.Isset id),
             has_nbit_cache := false }

/-- `Bitmap::Xor` (reference overload): forced-roaring symmetric difference. -/
def Bitmap.Xor (b : Bitmap) (other : Bitmap) : Bitmap :=
  let br := b.to_roaring
  let o := if other.is_roaring then other.roaring else other.set
  { br with roaring := (br.roaring \ o) ∪ (o \ br.roaring),
            has_nbit_cache := false }

/-- `Bitmap::Union(const Bitmap*)`: the pointer overload delegates and then
drops the cache flag (again); a null pointer is a no-op. -/
def Bitmap.UnionP (b : Bitmap) (pother : Option Bitmap) : Bitmap :=
  match pother with
  | some o => { b.Union o with has_nbit_cache := false }
  | none => b

/-- `Bitmap::Exclude(const Bitmap*)`. -/
def Bitmap.ExcludeP (b : Bitmap) (pother : Option Bitmap) : Bitmap :=
  match pother with
  | some o => { b.Exclude o with has_nbit_cache := false }
  | none => b

/-- `Bitmap::Intersect(const Bitmap*)`. -/
def Bitmap.IntersectP (b : Bitmap) (pother : Option Bitmap) : Bitmap :=
  match pother with
  | some o => { b.Intersect o with has_nbit_cache := false }
  | none => b

/-- `Bitmap::Xor(const Bitmap*)`. -/
def Bitmap.XorP (b : Bitmap) (pother : Option Bitmap) : Bitmap :=
  match pother with
  | some o => { b.Xor o with has_nbit_cache := false }
  | none => b

/-- `Bitmap::FastUnion`.  The source first lazy-ORs every roaring input into
the forced-roaring receiver (removing each by a swap-with-back, which only
permutes the survivors), repairs, then `Union`s the remaining small-set
inputs; set union is order-independent, so the roaring fold is written over
the input list in order.  The empty input returns untouched; a single input
goes through the pointer `Union` overload. -/
def Bitmap.FastUnion (b : Bitmap) (bitmaps : List Bitmap) : Bitmap :=
  match bitmaps with
  | [] => b
  | [x] => b.UnionP (some x)
  | _ =>
    let br := b.to_roaring
    let lazyOr :=
      bitmaps.foldl (fun acc o => if o.is_roaring then acc ∪ o.roaring else acc) br.roaring
    let br := { br with roaring := lazyOr }
    let b' := (bitmaps.filter (fun o => !o.is_roaring)).foldl Bitmap.Union br
    { b' with has_nbit_cache := false }

/-- `Bitmap::copy(const Bitmap&)`: overwrite the containers and drop the
cache flag. -/
def Bitmap.copy (b other : Bitmap) : Bitmap :=
  { roaring := other.roaring, set := other.set, is_roaring := other.is_roaring,
    nbit_cache := b.nbit_cache, has_nbit_cache := false }

/-- `Bitmap::ParseFromString`, with the decoded roaring content abstracted
as the set it denotes: clear, install as roaring, demote to the small set
when the cardinality is within threshold. -/
def Bitmap.ParseFromString (b : Bitmap) (content : Finset Nat) : Bitmap :=
  let b1 := { b.clear with is_roaring := true, roaring := content }
  let b2 := if b1.roaring.card ≤ kSetThreshold then b1.to_set else b1
  { b2 with has_nbit_cache := false }

/-- `Bitmap::get_cached_nbit`: returns the cached cardinality, computing and
storing it first when the cache flag is down.  Returned together with the
updated bitmap, since the call mutates the cache fields. -/
def Bitmap.get_cached_nbit (b : Bitmap) : Nat × Bitmap :=
  if !b.has_nbit_cache then
    (b.nbit, { b with nbit_cache := b.nbit, has_nbit_cache := true })
  else (b.nbit_cache, b)

/-- `Bitmap::get_set_list`: the ascending id sequence. -/
def Bitmap.get_set_list (b : Bitmap) : List Nat :=
  if b.is_roaring then b.roaring.sort (· ≤ ·) else b.set.sort (· ≤ ·)

/-- C7.  The claim says that after every mutating `Bitmap` operation
(`Set`, `Unset`, `SetRange`, `SetMany`, `Union`, `Intersect`, `Exclude`,
`Xor`, `FastUnion`, `clear`, `copy`, `ParseFromString`) the cached
cardinality is invalidated, so that `get_cached_nbit()` always equals
`nbit()`.  This fails: `Bitmap::Exclude(const Bitmap&)` (and likewise
`Intersect`) returns early in the roaring-roaring case, before the
`has_nbit_cache_ = false` statement at the end of the function, so the stale
cache survives the mutation.  Concretely: build `{0,1,2,3,4}` via `SetRange`
(roaring), read `get_cached_nbit` (caches 5), then `Exclude` the roaring
bitmap `{0,1,2}`; the next `get_cached_nbit` still reports 5 while the true
cardinality `nbit` is 2. -/
theorem C7_exclude_keeps_stale_cache :
    ((((Bitmap.get_cached_nbit (Bitmap.init.SetRange 0 5)).2.Exclude
        (Bitmap.init.SetRange 0 3)).get_cached_nbit).1 = 5) ∧
    (((Bitmap.get_cached_nbit (Bitmap.init.SetRange 0 5)).2.Exclude
        (Bitmap.init.SetRange 0 3)).nbit = 2) := by
  decide

/-! ### RangedMap (`ranged_map.h`, `ranged_map.cpp`)

`offset → double` container sharded into value-sorted slots.  Doubles are
modelled by `ℚ`; the `NaN` absent-marker in `offset_to_value_` is `none`.
Slot bitmaps are only ever read through their set of members inside
`RangedMap`, so they are modelled by that set directly (the
representation-level `Bitmap` behaviour is embedded above). -/

/-- `kRangedMapSlotSize` (`ranged_map.h`). -/
def kRangedMapSlotSize : Nat := 10000

/-- `kRangedMapSortMultiplier = 2.0`, only used in the integer product
`topk * kRangedMapSortMultiplier`. -/
def kRangedMapSortMultiplier : Nat := 2

/-- `RangedMap::SlotMeta`. -/
structure SlotMeta where
  left : ℚ
  right : ℚ
  bitmap : Finset Nat
  value_vec : List ℚ
  offset_vec : List Nat
deriving DecidableEq

/-- The default slot, as the brace-initialised `{0.0f, 0.0f, ∅, {}, {}}`
literal used at the split site in `add_offset_and_score`. -/
instance : Inhabited SlotMeta := ⟨⟨0, 0, ∅, [], []⟩⟩

/-- State of `vectordb::RangedMap`. -/
structure RangedMap where
  offset_to_value : List (Option ℚ)
  slots : List SlotMeta
deriving DecidableEq

/-- A default-constructed `RangedMap`. -/
def RangedMap.init : RangedMap := ⟨[], []⟩

/-- `RangedMap::size`. -/
def RangedMap.size (m : RangedMap) : Nat := m.offset_to_value.length

/-- Read `offset_to_value_[offset]`, with the out-of-range and the stored
`NaN` case both collapsing to `none`. -/
def RangedMap.lookupValue (m : RangedMap) (offset : Nat) : Option ℚ :=
  m.offset_to_value.getD offset none

/-- `RangedMap::get_score_by_offset`: in-range lookups return the stored
double (possibly the `NaN` marker, i.e. `none`); out-of-range lookups return
the sentinel `-99999999.0`. -/
def RangedMap.get_score_by_offset (m : RangedMap) (offset : Nat) : Option ℚ :=
  if offset < m.offset_to_value.length then m.offset_to_value.getD offset none
  else some (-99999999)

/-- IEEE `!=` on possibly-`NaN` doubles: true whenever either side is `NaN`. -/
def dblNe (a b : Option ℚ) : Bool :=
  match a, b with
  | some x, some y => x ≠ y
  | _, _ => true

/-- IEEE `>` on possibly-`NaN` doubles: false whenever either side is `NaN`. -/
def dblGt (a b : Option ℚ) : Bool :=
  match a, b with
  | some x, some y => y < x
  | _, _ => false

/-- Loop of `RangedMap::slot_lower_bound_idx` (`ranged_map.h`): binary search
on `[l, r)` over the slot vector, descending to the left when
`val ≤ slots[mid].left`, to the right when `val > slots[mid].right`, and
breaking at `mid` otherwise.  Each iteration strictly shrinks `r - l`, so a
fuel of the initial `r - l` makes the recursion structural. -/
def slotLowerBoundAux (slots : List SlotMeta) (val : ℚ) :
    Nat → Nat → Nat → Nat
  | 0, l, _ => l
  | fuel + 1, l, r =>
    if l < r then
      let mid := l + (r - l) / 2
      if (slots.getD mid default).right < val then
        slotLowerBoundAux slots val fuel (mid + 1) r
      else if val ≤ (slots.getD mid default).left then
        slotLowerBoundAux slots val fuel l mid
      else mid
    else l

/-- Loop of `RangedMap::slot_upper_bound_idx`: as above with the comparisons
`val ≥ slots[mid].right` / `val < slots[mid].left`. -/
def slotUpperBoundAux (slots : List SlotMeta) (val : ℚ) :
    Nat → Nat → Nat → Nat
  | 0, l, _ => l
  | fuel + 1, l, r =>
    if l < r then
      let mid := l + (r - l) / 2
      if (slots.getD mid default).right ≤ val then
        slotUpperBoundAux slots val fuel (mid + 1) r
      else if val < (slots.getD mid default).left then
        slotUpperBoundAux slots val fuel l mid
      else mid
    else l

/-- `RangedMap::slot_lower_bound_idx`. -/
def RangedMap.slot_lower_bound_idx (m : RangedMap) (val : ℚ) : Nat :=
  slotLowerBoundAux m.slots val m.slots.length 0 m.slots.length

/-- `RangedMap::slot_upper_bound_idx`. -/
def RangedMap.slot_upper_bound_idx (m : RangedMap) (val : ℚ) : Nat :=
  slotUpperBoundAux m.slots val m.slots.length 0 m.slots.length

/-- `RangedMap::find_right_slot_index` (may be `-1`).  The source reads
`slots_[slot_idx].left` after clamping to `size - 1`; callers only invoke it
with a non-empty slot vector, where the clamped index is in range. -/
def RangedMap.find_right_slot_index (m : RangedMap) (lower_than : ℚ)
    (include_le : Bool) : Int :=
  if include_le then
    let idx : Int := min (m.slot_upper_bound_idx lower_than : Int)
      ((m.slots.length : Int) - 1)
    if lower_than < (m.slots.getD idx.toNat default).left then idx - 1 else idx
  else
    let idx : Int := min (m.slot_lower_bound_idx lower_than : Int)
      ((m.slots.length : Int) - 1)
    if lower_than ≤ (m.slots.getD idx.toNat default).left then idx - 1 else idx

/-- `RangedMap::find_left_slot_index` (in `[0, size]`). -/
def RangedMap.find_left_slot_index (m : RangedMap) (greater_than : ℚ)
    (include_ge : Bool) : Int :=
  if include_ge then (m.slot_lower_bound_idx greater_than : Int)
  else (m.slot_upper_bound_idx greater_than : Int)

/-- `std::upper_bound` over an ascending `value_vec`, by its contract: the
first position whose element exceeds the probe, i.e. the number of entries
`≤ v`. -/
def ubIdx (vs : List ℚ) (v : ℚ) : Nat := (vs.takeWhile (fun x => x ≤ v)).length

/-- `std::lower_bound` over an ascending `value_vec`: the number of entries
`< v`. -/
def lbIdx (vs : List ℚ) (v : ℚ) : Nat := (vs.takeWhile (fun x => x < v)).length

/-- `SlotMeta::get_right_border`. -/
def SlotMeta.get_right_border (s : SlotMeta) (lower_than : ℚ)
    (include_le : Bool) : Nat :=
  if include_le then ubIdx s.value_vec lower_than else lbIdx s.value_vec lower_than

/-- `SlotMeta::get_left_border`. -/
def SlotMeta.get_left_border (s : SlotMeta) (greater_than : ℚ)
    (include_ge : Bool) : Nat :=
  if include_ge then lbIdx s.value_vec greater_than else ubIdx s.value_vec greater_than

/-- `SlotMeta::get_lower_than_data`: adds `offset_vec[0, border)` to the
accumulator, returning the count of positions visited. -/
def SlotMeta.get_lower_than_data (s : SlotMeta) (acc : Finset Nat)
    (lower_than : ℚ) (include_le : Bool) : Finset Nat × Nat :=
  let bound := s.get_right_border lower_than include_le
  (acc ∪ (s.offset_vec.take bound).toFinset, bound)

/-- `SlotMeta::get_greater_than_data`: adds `offset_vec[border, end)`. -/
def SlotMeta.get_greater_than_data (s : SlotMeta) (acc : Finset Nat)
    (greater_than : ℚ) (include_ge : Bool) : Finset Nat × Nat :=
  let bound := s.get_left_border greater_than include_ge
  (acc ∪ (s.offset_vec.drop bound).toFinset, s.offset_vec.length - bound)

/-- `SlotMeta::get_range_data`: adds `offset_vec[l_border, r_border)` and
returns `r_border - l_border` computed in `uint32_t`, which UNDERFLOWS when
the left border passes the right one (crossed query bounds inside one
slot). -/
def SlotMeta.get_range_data (s : SlotMeta) (acc : Finset Nat) (lower_than : ℚ)
    (include_le : Bool) (greater_than : ℚ) (include_ge : Bool) :
    Finset Nat × Nat :=
  let lb := s.get_left_border greater_than include_ge
  let rb := s.get_right_border lower_than include_le
  (acc ∪ ((s.offset_vec.take rb).drop lb).toFinset,
    (((rb : Int) - (lb : Int)).emod (2 ^ 32)).toNat)

/-- The `for` loops unioning whole slots with index strictly between `lo`
and `hi` into the running bitmap, also accumulating
`cnt += offset_vec.size()` into the `uint32_t` accumulator `cnt`, i.e.
wrapping modulo `2^32` at every addition. -/
def slotsBetween (slots : List SlotMeta) (lo hi : Int) : Finset Nat × Nat :=
  slots.enum.foldl
    (fun acc p =>
      if lo < (p.1 : Int) ∧ (p.1 : Int) < hi then
        (acc.1 ∪ p.2.bitmap, (acc.2 + p.2.offset_vec.length) % 2 ^ 32)
      else acc)
    (∅, 0)

/-- `RangedMap::get_range_bitmap_with_slot_data` (`ranged_map.cpp`).  Returns
the offsets whose value lies in the queried interval (or outside it when
`range_out`); `nullptr` is `none`.  For `range_out` with
`lower_than < greater_than` the source swaps the bounds and their
inclusivity flags first.  The per-query counter `cnt` is a `uint32_t`, so
every `cnt +=` wraps modulo `2^32`, and the final `cnt <= 0` null test
fires exactly when the wrapped counter is zero. -/
def RangedMap.get_range_bitmap_with_slot_data (m : RangedMap) (range_out : Bool)
    (lower_than : ℚ) (include_le : Bool) (greater_than : ℚ)
    (include_ge : Bool) : Option (Finset Nat) :=
  if m.slots.isEmpty then none
  else
    let q :=
      if range_out ∧ lower_than < greater_than then
        (greater_than, include_ge, lower_than, include_le)
      else (lower_than, include_le, greater_than, include_ge)
    match q with
  | (lt, ile, gt, ige) =>
    let r_index := m.find_right_slot_index lt ile
    let l_index := m.find_left_slot_index gt ige
    let n : Int := m.slots.length
    if !range_out then
      let st := slotsBetween m.slots l_index r_index
      let st :=
        if r_index ≠ -1 ∧ l_index ≠ n then
          if l_index < r_index then
            let a1 := (m.slots.getD r_index.toNat default).get_lower_than_data
              st.1 lt ile
            let a2 := (m.slots.getD l_index.toNat default).get_greater_than_data
              a1.1 gt ige
            (a2.1, ((st.2 + a1.2) % 2 ^ 32 + a2.2) % 2 ^ 32)
          else if l_index = r_index then
            let a1 := (m.slots.getD r_index.toNat default).get_range_data
              st.1 lt ile gt ige
            (a1.1, (st.2 + a1.2) % 2 ^ 32)
          else st
        else st
      if st.2 = 0 then none else some st.1
    else
      let st := slotsBetween m.slots (-1) l_index
      let st :=
        if l_index ≠ n ∧ l_index ≠ -1 then
          let a1 := (m.slots.getD l_index.toNat default).get_lower_than_data
            st.1 gt (!ige)
          (a1.1, (st.2 + a1.2) % 2 ^ 32)
        else st
      let st2 := slotsBetween m.slots r_index n
      let st := (st.1 ∪ st2.1, (st.2 + st2.2) % 2 ^ 32)
      let st :=
        if r_index ≠ -1 ∧ r_index ≠ n then
          let a1 := (m.slots.getD r_index.toNat default).get_greater_than_data
            st.1 lt (!ile)
          (a1.1, (st.2 + a1.2) % 2 ^ 32)
        else st
      if st.2 = 0 then none else some st.1

/-- `RangedMap::get_range_bitmap` (header wrapper). -/
def RangedMap.get_range_bitmap (m : RangedMap) (range_out : Bool)
    (lower_than : ℚ) (include_le : Bool) (greater_than : ℚ)
    (include_ge : Bool) : Option (Finset Nat) :=
  m.get_range_bitmap_with_slot_data range_out lower_than include_le
    greater_than include_ge

/-- `SlotMeta::split_half_to_new_slot`: move the upper half of the vectors
into `new_slot` (the default-initialised slot the caller just inserted),
rebuild both bitmaps, adjust boundaries.  Returns `(old, new)`; below the
2-element minimum nothing happens, as in the source. -/
def SlotMeta.split_half_to_new_slot (s newSlot : SlotMeta) :
    SlotMeta × SlotMeta :=
  if s.value_vec.length < 2 then (s, newSlot)
  else
    let splitIdx := s.value_vec.length / 2
    let nvv := s.value_vec.drop splitIdx
    let nov := s.offset_vec.drop splitIdx
    let ns : SlotMeta :=
      { left := nvv.headD 0, right := nvv.getLastD 0,
        bitmap := newSlot.bitmap ∪ nov.toFinset,
        value_vec := nvv, offset_vec := nov }
    let ovv := s.value_vec.take splitIdx
    let oov := s.offset_vec.take splitIdx
    let os : SlotMeta :=
      { left := s.left, right := ovv.getLastD 0,
        bitmap := oov.toFinset, value_vec := ovv, offset_vec := oov }
    (os, ns)

/-- The `offset_to_value_` update of `add_offset_and_score`: pad with the
`NaN` marker up to `offset`, then store the value. -/
def RangedMap.addOtv (m : RangedMap) (offset : Nat) (value : ℚ) :
    List (Option ℚ) :=
  let otv :=
    if offset < m.offset_to_value.length then m.offset_to_value
    else m.offset_to_value ++
      List.replicate (offset + 1 - m.offset_to_value.length) none
  otv.set offset (some value)

/-- The slot update of `add_offset_and_score` (non-empty slot vector):
insert into the slot found by `find_right_slot_index` at the
`std::upper_bound` position, splitting the slot when it outgrows
`2 * kRangedMapSlotSize`. -/
def RangedMap.addSlots (m : RangedMap) (offset : Nat) (value : ℚ) :
    List SlotMeta :=
  let si := m.find_right_slot_index value true
  let slot_idx : Nat := if si = -1 then 0 else si.toNat
  let s := m.slots.getD slot_idx default
  let vec_idx := ubIdx s.value_vec value
  let s :=
    { s with bitmap := insert offset s.bitmap,
             value_vec := s.value_vec.insertIdx vec_idx value,
             offset_vec := s.offset_vec.insertIdx vec_idx offset }
  let s := { s with left := min value s.left, right := max value s.right }
  let slots := m.slots.set slot_idx s
  if kRangedMapSlotSize * 2 < s.value_vec.length then
    let pr := s.split_half_to_new_slot default
    (slots.set slot_idx pr.1).insertIdx (slot_idx + 1) pr.2
  else slots

/-- `RangedMap::add_offset_and_score` (`ranged_map.cpp`): reject a live
offset, extend `offset_to_value_` with `NaN` padding, store the value, and
insert into the slot found by `find_right_slot_index` at the
`std::upper_bound` position, splitting the slot when it outgrows
`2 * kRangedMapSlotSize`. -/
def RangedMap.add_offset_and_score (m : RangedMap) (offset : Nat) (value : ℚ) :
    Int × RangedMap :=
  if offset < m.offset_to_value.length ∧
      (m.offset_to_value.getD offset none).isSome then (-1, m)
  else
    if m.slots.isEmpty then
      let slot : SlotMeta :=
        { left := value, right := value, bitmap := {offset},
          value_vec := [value], offset_vec := [offset] }
      (0, { offset_to_value := m.addOtv offset value, slots := [slot] })
    else
      (0, { offset_to_value := m.addOtv offset value,
            slots := m.addSlots offset value })

/-- Scan over a slot suffix carrying the absolute index. -/
def findSlotFromAux (offset : Nat) : List SlotMeta → Nat → Option Nat
  | [], _ => none
  | s :: rest, i =>
    if offset ∈ s.bitmap then some i else findSlotFromAux offset rest (i + 1)

/-- The `while (slot_idx < slots_.size() && !bitmap->Isset(offset))` walk of
`delete_offset`, starting at slot `i`. -/
def findSlotFrom (slots : List SlotMeta) (i : Nat) (offset : Nat) :
    Option Nat :=
  findSlotFromAux offset (slots.drop i) i

/-- Scan over an offset-vector suffix carrying the absolute index. -/
def findOffsetFromAux (offset : Nat) : List Nat → Nat → Option Nat
  | [], _ => none
  | o :: rest, j =>
    if o = offset then some j else findOffsetFromAux offset rest (j + 1)

/-- The `while (offset_it != end && *offset_it != offset)` walk of
`delete_offset`, starting at the `std::lower_bound` position `j`. -/
def findOffsetFrom (ov : List Nat) (j : Nat) (offset : Nat) : Option Nat :=
  findOffsetFromAux offset (ov.drop j) j

/-- `RangedMap::delete_offset` (`ranged_map.cpp`).  Note that the two error
returns inside the body happen after `offset_to_value_[offset] = NaN` (and,
for the second, after `bitmap->Unset`) have already run, which the embedding
reproduces. -/
def RangedMap.delete_offset (m : RangedMap) (offset : Nat) : Int × RangedMap :=
  if m.slots.isEmpty then (-1, m)
  else if (m.lookupValue offset).isNone then (-1, m)
  else
    let value := (m.lookupValue offset).getD 0
    let otv := m.offset_to_value.set offset none
    let start := (m.find_left_slot_index value true).toNat
    match findSlotFrom m.slots start offset with
    | none => (-1, { offset_to_value := otv, slots := m.slots })
    | some si =>
      let s := m.slots.getD si default
      let s1 := { s with bitmap := s.bitmap.erase offset }
      let vec_it := lbIdx s1.value_vec value
      match findOffsetFrom s1.offset_vec vec_it offset with
      | none => (-1, { offset_to_value := otv, slots := m.slots.set si s1 })
      | some j =>
        let s2 := { s1 with offset_vec := s1.offset_vec.eraseIdx j,
                            value_vec := s1.value_vec.eraseIdx j }
        if s2.value_vec.isEmpty then
          (0, { offset_to_value := otv, slots := m.slots.eraseIdx si })
        else
          let s3 := { s2 with left := s2.value_vec.headD 0,
                              right := s2.value_vec.getLastD 0 }
          (0, { offset_to_value := otv, slots := m.slots.set si s3 })

/-- `RecallResult` (`common/ann_utils.h`), restricted to the two vectors the
`RangedMap` queries fill.  Scores are possibly-`NaN` doubles. -/
structure RecallResult where
  scores : List (Option ℚ)
  offsets : List Nat
deriving DecidableEq

/-- The inner offset loop of
`get_topk_result_with_slot_data_with_conditions`, over one slot's
`(value, offset)` pairs in scan order.  State: collected offsets, `cnt`,
`last_score`.  Breaks at `cnt ≥ max_size`, or past `max(topk, 1)` on a
primary-score change. -/
def condCollectSlot (filt : Option (Nat → Bool)) (topk max_size : Nat) :
    List (ℚ × Nat) → List Nat × Nat × ℚ → List Nat × Nat × ℚ
  | [], st => st
  | (v, o) :: rest, (acc, cnt, last) =>
    if (filt.map (fun f => f o)).getD false then
      condCollectSlot filt topk max_size rest (acc, cnt, last)
    else
      let acc := acc ++ [o]
      let cnt := cnt + 1
      if max_size ≤ cnt then (acc, cnt, last)
      else if max topk 1 < cnt ∧ last ≠ v then (acc, cnt, last)
      else condCollectSlot filt topk max_size rest (acc, cnt, v)

/-- The outer slot loop of
`get_topk_result_with_slot_data_with_conditions`.  The source computes
`slot_from`, `slot_to` and `step` for the requested direction, but the loop
header is hard-coded `slot_idx = 0; slot_idx < size; slot_idx++`, so slots
are ALWAYS visited in ascending order; only the within-slot scan obeys
`this_order_asc`.  The embedding reproduces that. -/
def condCollect (filt : Option (Nat → Bool)) (topk max_size : Nat)
    (asc : Bool) : List SlotMeta → List Nat × Nat × ℚ → List Nat × Nat × ℚ
  | [], st => st
  | s :: rest, (acc, cnt, last) =>
    if cnt < max_size then
      let pairs :=
        if asc then s.value_vec.zip s.offset_vec
        else (s.value_vec.zip s.offset_vec).reverse
      condCollect filt topk max_size asc rest
        (condCollectSlot filt topk max_size pairs (acc, cnt, last))
    else (acc, cnt, last)

/-- The tie-break loop of the comparator in
`RangedMap::sort_with_conditions` over the condition maps. -/
def condsLoop : List (RangedMap × Bool) → Nat → Nat → Bool
  | [], _, _ => false
  | (cm, casc) :: rest, l, r =>
    let vl := cm.get_score_by_offset l
    let vr := cm.get_score_by_offset r
    if dblNe vl vr then (dblGt vl vr).xor casc else condsLoop rest l r

/-- The `cond_func` comparator of `RangedMap::sort_with_conditions`:
`(value_l > value_r) XOR order_asc` on the first differing key. -/
def RangedMap.cond_func (m : RangedMap) (asc : Bool)
    (conds : List (RangedMap × Bool)) (l r : Nat) : Bool :=
  let vl := m.get_score_by_offset l
  let vr := m.get_score_by_offset r
  if dblNe vl vr then (dblGt vl vr).xor asc else condsLoop conds l r

/-- Ordered insert for the comparator sort below. -/
def insertCmp (cmp : Nat → Nat → Bool) (x : Nat) : List Nat → List Nat
  | [] => [x]
  | y :: ys => if cmp x y then x :: y :: ys else y :: insertCmp cmp x ys

/-- `std::sort` with a strict-weak comparator yields an unspecified sorted
permutation; insertion sort realises one such. -/
def sortByCmp (cmp : Nat → Nat → Bool) : List Nat → List Nat
  | [] => []
  | x :: xs => insertCmp cmp x (sortByCmp cmp xs)

/-- `RangedMap::sort_with_conditions`: full sort of the bucket by the
lexicographic `(primary, conditions…)` key, truncation to `topk`, score
materialisation.  (`swap_offsets_vec` always returns 0, so the `nullptr`
branch of the source is dead.) -/
def RangedMap.sort_with_conditions (m : RangedMap) (offsets : List Nat)
    (topk : Nat) (asc : Bool) (conds : List (RangedMap × Bool)) :
    Option RecallResult :=
  let sorted := sortByCmp (m.cond_func asc conds) offsets
  let sorted := sorted.take (min sorted.length topk)
  some { scores := sorted.map (fun o => m.get_score_by_offset o),
         offsets := sorted }

/-- `RangedMap::get_topk_result_with_slot_data_with_conditions`. -/
def RangedMap.get_topk_result_with_slot_data_with_conditions (m : RangedMap)
    (topk : Nat) (asc : Bool) (filt : Option (Nat → Bool))
    (conds : List (RangedMap × Bool)) : Option RecallResult :=
  let max_size := topk * kRangedMapSortMultiplier
  let st := condCollect filt topk max_size asc m.slots ([], 0, 0)
  m.sort_with_conditions st.1 topk asc conds

/-- `RangedMap2D` (`ranged_map.h`): a pair of references to the x and y
maps. -/
structure RangedMap2D where
  x : RangedMap
  y : RangedMap

/-- `RangedMap2D::dist_square_to`.  The source dereferences
`offset_to_value_[offset]` directly; the query path only probes offsets
live in both maps, where the stored value is a number. -/
def RangedMap2D.dist_square_to (m2 : RangedMap2D) (x y : ℚ) (offset : Nat) :
    ℚ :=
  let xv := (m2.x.offset_to_value.getD offset none).getD 0
  let yv := (m2.y.offset_to_value.getD offset none).getD 0
  (xv - x) * (xv - x) + (yv - y) * (yv - y)

/-- `RangedMap2D::get_range2d_bitmap_with_slot_data` (`ranged_map.cpp`):
guard `radius ≤ 0`, intersect the two 1-D range bitmaps, prune offsets with
squared distance beyond `radius²` (the result bitmap is freshly mutated, so
its `get_cached_nbit` is its true cardinality). -/
def RangedMap2D.get_range2d_bitmap_with_slot_data (m2 : RangedMap2D)
    (x y radius : ℚ) : Option (Finset Nat) :=
  if radius ≤ 0 then none
  else
    match m2.x.get_range_bitmap_with_slot_data false (x + radius) true
      (x - radius) true with
    | none => none
    | some temp =>
      if temp = ∅ then none
      else
        match m2.y.get_range_bitmap_with_slot_data false (y + radius) true
          (y - radius) true with
        | none => none
        | some ytemp =>
          if ytemp = ∅ then none
          else
            let both := temp ∩ ytemp
            let pruned := both.filter
              (fun o => ¬ radius * radius < m2.dist_square_to x y o)
            if pruned.card = 0 then none else some pruned

/-- `RangedMap2D::get_range2d_bitmap` (header wrapper). -/
def RangedMap2D.get_range2d_bitmap (m2 : RangedMap2D) (x y radius : ℚ) :
    Option (Finset Nat) :=
  m2.get_range2d_bitmap_with_slot_data x y radius

/-- C10.  A 2-D radius query with `radius ≤ 0` returns null before looking
at either map, even when a live offset sits exactly at the centre:
`RangedMap2D::get_range2d_bitmap_with_slot_data` opens with
`if (radius <= 0.0) return nullptr;`. -/
theorem C10_radius_nonpositive_returns_null (m2 : RangedMap2D) (x y r : ℚ)
    (h : r ≤ 0) : m2.get_range2d_bitmap x y r = none := by
  unfold RangedMap2D.get_range2d_bitmap
  unfold RangedMap2D.get_range2d_bitmap_with_slot_data
  simp [h]

/-- Witness for C10 at a concrete input: both maps hold offset 0 with value
exactly the centre `(1, 2)`, and the radius-0 query still returns null. -/
theorem C10_radius_nonpositive_returns_null_witness :
    (RangedMap2D.mk (RangedMap.add_offset_and_score RangedMap.init 0 1).2
        (RangedMap.add_offset_and_score RangedMap.init 0 2).2).get_range2d_bitmap
        1 2 0 = none ∧
    (RangedMap.add_offset_and_score RangedMap.init 0 1).2.lookupValue 0 =
      some 1 := by
  constructor
  · exact C10_radius_nonpositive_returns_null _ 1 2 0 le_rfl
  · decide

/-- The two-slot state used to exhibit the C4 slot-direction defect: values
1, 2 in the first slot (offsets 0, 1) and 10, 20 in the second (offsets 2,
3).  A `RangedMap` reaches this shape after a slot split. -/
def c4State : RangedMap :=
  { offset_to_value := [some 1, some 2, some 10, some 20],
    slots :=
      [ { left := 1, right := 2, bitmap := {0, 1},
          value_vec := [1, 2], offset_vec := [0, 1] },
        { left := 10, right := 20, bitmap := {2, 3},
          value_vec := [10, 20], offset_vec := [2, 3] } ] }

/-- C4.  The claim says the oversized bucket is collected "scanned in the
direction of the primary order (extreme primary values first)".  The code
computes `slot_from` / `slot_to` / `step` for that direction but then
iterates `slot_idx = 0; slot_idx < size; slot_idx++`, i.e. slots always in
ascending order (only the within-slot scan is reversed), so a descending
query on `c4State` with `topk = 1` collects its bucket `{offsets 1, 0}` from
the LOW-value slot and returns offset 1 (value 2), although the map's
maximum value is 20 at offset 3.  The dead `slot_from` / `slot_to`
initialisation and the sibling `get_topk_result_with_slot_data` (which does
walk slots backwards for descending order) show the intent. -/
theorem C4_descending_scan_starts_at_wrong_slot :
    c4State.get_topk_result_with_slot_data_with_conditions 1 false none [] =
      some { scores := [some 2], offsets := [1] } ∧
    c4State.get_score_by_offset 3 = some 20 := by
  decide

/-! ### C2: the range-query contract -/

/-- A mutation step on a `RangedMap` (the two writers of the class). -/
inductive RMOp where
  | add (offset : Nat) (value : ℚ)
  | del (offset : Nat)

/-- Apply one mutation, discarding the status code as callers do. -/
def RMOp.apply (m : RangedMap) : RMOp → RangedMap
  | .add o v => (m.add_offset_and_score o v).2
  | .del o => (m.delete_offset o).2

/-- A `RangedMap` state reached from empty by a sequence of adds/deletes. -/
def applyRMOps (ops : List RMOp) (m : RangedMap) : RangedMap :=
  ops.foldl RMOp.apply m

/-- Membership of `v` in the queried interval, as the spec words it:
`v ≤ / < lower_than` on the high side and `v ≥ / > greater_than` on the low
side, each bound inclusive iff its flag is set. -/
def inIntervalQ (lt : ℚ) (ile : Bool) (gt : ℚ) (ige : Bool) (v : ℚ) : Prop :=
  (if ile then v ≤ lt else v < lt) ∧ (if ige then gt ≤ v else gt < v)

instance (lt : ℚ) (ile : Bool) (gt : ℚ) (ige : Bool) (v : ℚ) :
    Decidable (inIntervalQ lt ile gt ige v) := by
  unfold inIntervalQ; infer_instance

/-- The interval predicate of the C2 claim, written from the spec: inside
the interval, or outside it when `range_out`; for `range_out` with
`lower_than < greater_than` the spec (§9, preserved behaviour) swaps the
bounds together with their inclusivity flags before complementing. -/
def specRangePred (range_out : Bool) (lt : ℚ) (ile : Bool) (gt : ℚ)
    (ige : Bool) (v : ℚ) : Prop :=
  if range_out then
    if lt < gt then ¬ inIntervalQ gt ige lt ile v
    else ¬ inIntervalQ lt ile gt ige v
  else inIntervalQ lt ile gt ige v

instance (range_out : Bool) (lt : ℚ) (ile : Bool) (gt : ℚ) (ige : Bool)
    (v : ℚ) : Decidable (specRangePred range_out lt ile gt ige v) := by
  unfold specRangePred; infer_instance

/-- Offset `o` is live with a value satisfying the query. -/
def RangedMap.specMatches (m : RangedMap) (range_out : Bool) (lt : ℚ)
    (ile : Bool) (gt : ℚ) (ige : Bool) (o : Nat) : Prop :=
  ∃ v, m.lookupValue o = some v ∧ specRangePred range_out lt ile gt ige v

/-- C2 counterexample.  On the reachable three-point map
`{0 ↦ 1, 1 ↦ 5, 2 ↦ 9}` (one slot), the in-range query
`lower_than = 2 (incl), greater_than = 6 (incl)` matches nothing (the
interval `[6, 2]` is empty), yet `get_range_bitmap` returns a non-null
empty bitmap instead of the claimed null: inside the single probed slot the
left border (2 values `< 6`) exceeds the right border (1 value `≤ 2`), and
`get_range_data` returns the `uint32_t` difference `1 - 2`, which
underflows to `2^32 - 1`, so the `cnt <= 0 → nullptr` test at the end of
`get_range_bitmap_with_slot_data` does not fire. -/
theorem C2_crossed_borders_return_nonnull_empty :
    (applyRMOps [.add 0 1, .add 1 5, .add 2 9]
        RangedMap.init).get_range_bitmap false 2 true 6 true =
      some (∅ : Finset Nat) ∧
    ∀ v : ℚ, ¬ specRangePred false 2 true 6 true v := by
  constructor
  · decide
  · intro v h
    rcases h with ⟨h1, h2⟩
    simp only [if_true] at h1 h2
    linarith

/-! ### BruteforceSearch (`bruteforce.h`)

A contiguous buffer of rows, each holding the encoded vector, the label
(`uint64_t`) and the logical offset (`uint32_t`), plus two hash maps for
O(1) lookup and an optional sparse side whose row count always matches the
dense one.  The buffer is modelled by the list of its first
`current_count_` rows (capacity growth is a memory concern); the float
quantizer is the identity, so a row stores its vector as `List ℚ`.
`std::unordered_map` is an association list: `m[k] = v` overwrites in place
or appends, `erase` removes the key. -/

/-- One packed row of the buffer. -/
structure BFRow where
  vec : List ℚ
  label : Nat
  offset : Nat
deriving DecidableEq

instance : Inhabited BFRow := ⟨⟨[], 0, 0⟩⟩

/-- `m[k] = v` on an `unordered_map` modelled as an association list. -/
def mapAssign (m : List (Nat × Nat)) (k v : Nat) : List (Nat × Nat) :=
  if m.any (fun p => p.1 == k) then
    m.map (fun p => if p.1 == k then (k, v) else p)
  else m ++ [(k, v)]

/-- `m.erase(k)`. -/
def mapErase (m : List (Nat × Nat)) (k : Nat) : List (Nat × Nat) :=
  m.filter (fun p => p.1 != k)

/-- `m.find(k)`. -/
def mapFind (m : List (Nat × Nat)) (k : Nat) : Option Nat :=
  (m.find? (fun p => p.1 == k)).map Prod.snd

/-- The configuration of a `BruteforceSearch` instance (from
`BruteForceMeta`): the distance space, the dimension, whether the sparse
head exists, and the search-side fusion weight. -/
structure BFMeta where
  distL2 : Bool
  dim : Nat
  enableSparse : Bool
  alpha : ℚ
deriving DecidableEq

/-- Mutable state of `BruteforceSearch`. -/
structure BFState where
  rows : List BFRow
  label_map : List (Nat × Nat)
  offset_map : List (Nat × Nat)
  sparse_rows : List (List (Nat × ℚ))
  next_logical_offset : Nat
deriving DecidableEq

/-- The freshly constructed index. -/
def BFState.init : BFState := ⟨[], [], [], [], 0⟩

/-- `BruteforceSearch::get_data_num`. -/
def BFState.get_data_num (s : BFState) : Nat := s.rows.length

/-- `BruteforceSearch::add_point` (`bruteforce.h`).  An existing label is
overwritten in place (vector bytes and sparse row); a fresh label appends a
sparse row (the given one or an empty one), appends a dense row, and
allocates `logical_offset = static_cast<uint32_t>(next_logical_offset_++)`
-- the 64-bit counter TRUNCATED to 32 bits.  The sparse/dense row-count
consistency check throws before any mutation, which the embedding renders
as returning the state unchanged. -/
def BFState.add_point (s : BFState) (meta : BFMeta) (vector : Option (List ℚ))
    (label : Nat) (sparse : Option (List (Nat × ℚ))) : BFState :=
  match mapFind s.label_map label with
  | some index =>
    let sp :=
      if meta.enableSparse then
        match sparse with
        | some dp => s.sparse_rows.set index dp
        | none => s.sparse_rows
      else s.sparse_rows
    let row := s.rows.getD index default
    let row :=
      match vector with
      | some v => { row with vec := v, label := label }
      | none => { row with label := label }
    { s with rows := s.rows.set index row, sparse_rows := sp }
  | none =>
    if meta.enableSparse ∧ s.rows.length ≠ s.sparse_rows.length then s
    else
      let sp :=
        if meta.enableSparse then s.sparse_rows ++ [sparse.getD []]
        else s.sparse_rows
      let index := s.rows.length
      let lm := mapAssign s.label_map label index
      let logical_offset := s.next_logical_offset % 2 ^ 32
      let om := mapAssign s.offset_map logical_offset index
      let row : BFRow :=
        { vec := vector.getD [], label := label, offset := logical_offset }
      { rows := s.rows ++ [row], label_map := lm, offset_map := om,
        sparse_rows := sp, next_logical_offset := s.next_logical_offset + 1 }

/-- `BruteforceSearch::remove_point`: erase from both maps, backfill the
removed row (dense and sparse) with the last row when it is not the last,
updating the moved row's two map entries, then pop the tail. -/
def BFState.remove_point (s : BFState) (meta : BFMeta) (label : Nat) :
    BFState :=
  match mapFind s.label_map label with
  | none => s
  | some idx_to_remove =>
    let idx_last := s.rows.length - 1
    let lm := mapErase s.label_map label
    let offset_to_remove := (s.rows.getD idx_to_remove default).offset
    let om := mapErase s.offset_map offset_to_remove
    if 0 < s.rows.length ∧ idx_to_remove ≠ idx_last then
      let lastRow := s.rows.getD idx_last default
      let rows := s.rows.set idx_to_remove lastRow
      let lm := mapAssign lm lastRow.label idx_to_remove
      let om := mapAssign om lastRow.offset idx_to_remove
      let sp :=
        if meta.enableSparse then
          s.sparse_rows.set idx_to_remove (s.sparse_rows.getD idx_last [])
        else s.sparse_rows
      let sp := if meta.enableSparse then sp.dropLast else sp
      { rows := rows.dropLast, label_map := lm, offset_map := om,
        sparse_rows := sp, next_logical_offset := s.next_logical_offset }
    else
      let sp := if meta.enableSparse then s.sparse_rows.dropLast
        else s.sparse_rows
      { rows := s.rows.dropLast, label_map := lm, offset_map := om,
        sparse_rows := sp, next_logical_offset := s.next_logical_offset }

/-- `BruteforceSearch::get_offset_by_label`: the logical offset read back
from the row buffer, `-1` (as `int`) when the label is absent. -/
def BFState.get_offset_by_label (s : BFState) (label : Nat) : Int :=
  match mapFind s.label_map label with
  | some idx => ((s.rows.getD idx default).offset : Int)
  | none => -1

/-- `BruteforceSearch::get_label_by_offset`: takes an `int`, which converts
to the `uint32_t` key type modulo `2^32`; returns `-1` cast to `uint64_t`
when the offset is absent. -/
def BFState.get_label_by_offset (s : BFState) (offset : Int) : Nat :=
  match mapFind s.offset_map (offset.emod (2 ^ 32)).toNat with
  | some idx => (s.rows.getD idx default).label
  | none => 2 ^ 64 - 1

/-- A call against the vector store, as the index manager issues them. -/
inductive BFOp where
  | add (label : Nat) (vec : Option (List ℚ)) (sparse : Option (List (Nat × ℚ)))
  | remove (label : Nat)

/-- Count of `add_point` calls in a sequence. -/
def countAdds (ops : List BFOp) : Nat :=
  ops.countP (fun op => match op with | .add .. => true | .remove _ => false)

/-- Apply one call. -/
def BFOp.apply (meta : BFMeta) (s : BFState) : BFOp → BFState
  | .add label v sp => s.add_point meta v label sp
  | .remove label => s.remove_point meta label

/-- The state after a sequence of calls. -/
def applyBFOps (meta : BFMeta) (ops : List BFOp) (s : BFState) : BFState :=
  ops.foldl (BFOp.apply meta) s

/-! ### C1: label/offset bookkeeping -/

/-- A minimal configuration: float quantizer, inner-product space, no
sparse head. -/
def meta0 : BFMeta := ⟨false, 0, false, 0⟩

/-- The store state holding exactly the label-0 record in row 0 with
logical offset 0, allocation counter at `next`. -/
def c1S (next : Nat) : BFState :=
  ⟨[⟨[], 0, 0⟩], [(0, 0)], [(0, 0)], [], next⟩

/-- `j` add/remove rounds on the throwaway label 1. -/
def c1Cycles : Nat → List BFOp
  | 0 => []
  | j + 1 => .add 1 none none :: .remove 1 :: c1Cycles j

/-- The C1 breaking sequence: keep label 0 live, spin the logical-offset
allocator up to `2^32` with add/remove rounds, then add label 1. -/
def c1Ops : List BFOp :=
  .add 0 none none :: (c1Cycles (2 ^ 32 - 1) ++ [.add 1 none none])

lemma c1_cycle_step (next : Nat) (h1 : 1 ≤ next) (h2 : next < 2 ^ 32) :
    BFOp.apply meta0 (BFOp.apply meta0 (c1S next) (.add 1 none none))
      (.remove 1) = c1S (next + 1) := by
  have hmod : next % 4294967296 = next := Nat.mod_eq_of_lt (by omega)
  have hne : (0 == next) = false := by
    simp only [beq_eq_false_iff_ne, ne_eq]
    omega
  have hne' : (next != 0) = true := by
    simp only [bne_iff_ne, ne_eq]
    omega
  have h0ne : ¬ ((0 : Nat) = next) := by omega
  have h0ne' : ¬ (next = 0) := by omega
  have hbne : ((0 : Nat) != next) = true := by
    simp only [bne_iff_ne, ne_eq]
    omega
  simp [BFOp.apply, BFState.add_point, BFState.remove_point, mapFind,
    mapAssign, mapErase, c1S, meta0, hmod, hne, hne', h0ne, h0ne', hbne,
    List.find?, List.any, List.filter_cons]
  split_ifs with hA hB hB
  · exact absurd hA h0ne
  · exact absurd hA h0ne
  · rfl
  · exact absurd rfl hB

lemma c1_cycles_run (j : Nat) : ∀ next, 1 ≤ next → next + j ≤ 2 ^ 32 →
    applyBFOps meta0 (c1Cycles j) (c1S next) = c1S (next + j) := by
  induction j with
  | zero => intro next _ _; simp [c1Cycles, applyBFOps]
  | succ j ih =>
    intro next h1 h2
    have step := c1_cycle_step next h1 (by omega)
    have tail := ih (next + 1) (by omega) (by omega)
    calc applyBFOps meta0 (c1Cycles (j + 1)) (c1S next)
        = applyBFOps meta0 (c1Cycles j)
            (BFOp.apply meta0 (BFOp.apply meta0 (c1S next) (.add 1 none none))
              (.remove 1)) := by
          simp [c1Cycles, applyBFOps]
      _ = c1S (next + (j + 1)) := by
          rw [step, tail]
          ring_nf

lemma mapFind_nil (k : Nat) : mapFind [] k = none := rfl

lemma mapFind_cons (a b : Nat) (m : List (Nat × Nat)) (k : Nat) :
    mapFind ((a, b) :: m) k = if a = k then some b else mapFind m k := by
  by_cases h : a = k <;> simp [mapFind, List.find?_cons, h]

lemma any_key_eq_isSome (m : List (Nat × Nat)) (k : Nat) :
    m.any (fun p => p.1 == k) = (mapFind m k).isSome := by
  induction m with
  | nil => simp [mapFind]
  | cons p m ih =>
    obtain ⟨a, b⟩ := p
    by_cases h : a = k <;> simp [mapFind_cons, h, ih]

lemma mapFind_mapReplace_ne (m : List (Nat × Nat)) (k v k' : Nat)
    (h : k' ≠ k) :
    mapFind (m.map (fun p => if p.1 == k then (k, v) else p)) k' =
      mapFind m k' := by
  induction m with
  | nil => rfl
  | cons p m ih =>
    obtain ⟨a, b⟩ := p
    by_cases hak : a = k
    · subst hak
      simp only [List.map_cons, beq_self_eq_true, if_true]
      rw [mapFind_cons, mapFind_cons, if_neg (fun hh => h hh.symm),
        if_neg (fun hh => h hh.symm), ih]
    · simp only [List.map_cons, beq_eq_false_iff_ne.mpr hak, Bool.false_eq_true,
        if_false]
      rw [mapFind_cons, mapFind_cons, ih]

lemma mapFind_mapReplace_self (m : List (Nat × Nat)) (k v : Nat)
    (h : (mapFind m k).isSome) :
    mapFind (m.map (fun p => if p.1 == k then (k, v) else p)) k = some v := by
  induction m with
  | nil => simp [mapFind] at h
  | cons p m ih =>
    obtain ⟨a, b⟩ := p
    by_cases hak : a = k
    · simp only [List.map_cons, hak, beq_self_eq_true, if_true]
      rw [mapFind_cons, if_pos rfl]
    · simp only [List.map_cons, beq_eq_false_iff_ne.mpr hak, Bool.false_eq_true,
        if_false]
      rw [mapFind_cons, if_neg hak]
      rw [mapFind_cons, if_neg hak] at h
      exact ih h

lemma mapFind_append_single (m : List (Nat × Nat)) (k v k' : Nat)
    (h : mapFind m k = none) :
    mapFind (m ++ [(k, v)]) k' = if k' = k then some v else mapFind m k' := by
  induction m with
  | nil =>
    rw [List.nil_append, mapFind_cons, mapFind_nil]
    by_cases hk : k' = k
    · rw [if_pos hk.symm, if_pos hk]
    · rw [if_neg (fun hh => hk hh.symm), if_neg hk]
  | cons p m ih =>
    obtain ⟨a, b⟩ := p
    rw [mapFind_cons] at h
    have hak : a ≠ k := by
      intro hh; rw [if_pos hh] at h; exact Option.noConfusion h
    rw [if_neg hak] at h
    rw [List.cons_append, mapFind_cons, ih h, mapFind_cons]
    by_cases hk : k' = k
    · rw [if_pos hk, if_pos hk, if_neg (fun hh => hak (hh.trans hk))]
    · rw [if_neg hk, if_neg hk]

lemma mapFind_assign (m : List (Nat × Nat)) (k v k' : Nat) :
    mapFind (mapAssign m k v) k' = if k' = k then some v else mapFind m k' := by
  unfold mapAssign
  by_cases hany : m.any (fun p => p.1 == k)
  · rw [if_pos hany]
    rw [any_key_eq_isSome] at hany
    by_cases hk : k' = k
    · subst hk; rw [if_pos rfl, mapFind_mapReplace_self m k' v hany]
    · rw [if_neg hk, mapFind_mapReplace_ne m k v k' hk]
  · rw [if_neg hany]
    have hnone : mapFind m k = none := by
      cases hfind : mapFind m k with
      | none => rfl
      | some i =>
        exact absurd (by rw [any_key_eq_isSome, hfind]; rfl) hany
    exact mapFind_append_single m k v k' hnone

lemma mapFind_erase (m : List (Nat × Nat)) (k k' : Nat) :
    mapFind (mapErase m k) k' = if k' = k then none else mapFind m k' := by
  induction m with
  | nil => simp [mapErase, mapFind_nil]
  | cons p m ih =>
    obtain ⟨a, b⟩ := p
    by_cases hak : a = k
    · subst hak
      have hbf : ((a, b).1 != a) = false := by simp
      simp only [mapErase, List.filter_cons, hbf, Bool.false_eq_true, if_false]
      rw [show List.filter (fun p => p.1 != a) m = mapErase m a from rfl, ih]
      by_cases hk : k' = a
      · rw [if_pos hk, if_pos hk]
      · rw [if_neg hk, if_neg hk, mapFind_cons, if_neg (fun hh => hk hh.symm)]
    · have hbt : ((a, b).1 != k) = true := by simp [hak]
      simp only [mapErase, List.filter_cons, hbt, if_true]
      rw [show List.filter (fun p => p.1 != k) m = mapErase m k from rfl]
      rw [mapFind_cons, ih, mapFind_cons]
      by_cases hk : k' = k
      · rw [if_pos hk, if_pos hk, if_neg (fun hh => hak (hh.trans hk))]
      · rw [if_neg hk, if_neg hk]

lemma mapErase_of_none (m : List (Nat × Nat)) (k : Nat)
    (h : mapFind m k = none) : mapErase m k = m := by
  induction m with
  | nil => rfl
  | cons p m ih =>
    obtain ⟨a, b⟩ := p
    rw [mapFind_cons] at h
    have hak : a ≠ k := by
      intro hh; rw [if_pos hh] at h; exact Option.noConfusion h
    rw [if_neg hak] at h
    have : ((a, b).1 != k) = true := by simp [hak]
    simp only [mapErase, List.filter_cons, this, if_true]
    rw [show List.filter (fun p => p.1 != k) m = mapErase m k from rfl, ih h]

lemma length_assign_isSome (m : List (Nat × Nat)) (k v : Nat)
    (h : (mapFind m k).isSome) : (mapAssign m k v).length = m.length := by
  unfold mapAssign
  rw [if_pos (by rw [any_key_eq_isSome]; exact h), List.length_map]

lemma length_assign_none (m : List (Nat × Nat)) (k v : Nat)
    (h : mapFind m k = none) : (mapAssign m k v).length = m.length + 1 := by
  unfold mapAssign
  rw [if_neg (by rw [any_key_eq_isSome, h]; simp), List.length_append]
  rfl

lemma length_erase_isSome (m : List (Nat × Nat)) (k : Nat)
    (hnd : (m.map Prod.fst).Nodup) (h : (mapFind m k).isSome) :
    (mapErase m k).length + 1 = m.length := by
  induction m with
  | nil => simp [mapFind] at h
  | cons p m ih =>
    obtain ⟨a, b⟩ := p
    simp only [List.map_cons, List.nodup_cons] at hnd
    by_cases hak : a = k
    · subst hak
      have hbf : ((a, b).1 != a) = false := by simp
      simp only [mapErase, List.filter_cons, hbf, Bool.false_eq_true, if_false]
      rw [show List.filter (fun p => p.1 != a) m = mapErase m a from rfl]
      have hnone : mapFind m a = none := by
        cases hfind : mapFind m a with
        | none => rfl
        | some i =>
          exfalso
          have hs : (m.any (fun p => p.1 == a)) = true := by
            rw [any_key_eq_isSome, hfind]; rfl
          rcases List.any_eq_true.mp hs with ⟨q, hq, hqk⟩
          have hqa : q.1 = a := by simpa using hqk
          exact hnd.1 (hqa ▸ List.mem_map_of_mem Prod.fst hq)
      rw [mapErase_of_none m a hnone]
      simp
    · have hbt : ((a, b).1 != k) = true := by simp [hak]
      simp only [mapErase, List.filter_cons, hbt, if_true]
      rw [show List.filter (fun p => p.1 != k) m = mapErase m k from rfl]
      rw [mapFind_cons, if_neg hak] at h
      simp only [List.length_cons]
      rw [← ih hnd.2 h]

lemma nodupKeys_assign (m : List (Nat × Nat)) (k v : Nat)
    (h : (m.map Prod.fst).Nodup) :
    ((mapAssign m k v).map Prod.fst).Nodup := by
  unfold mapAssign
  by_cases hany : m.any (fun p => p.1 == k)
  · rw [if_pos hany]
    have : (m.map (fun p => if p.1 == k then (k, v) else p)).map Prod.fst =
        m.map Prod.fst := by
      rw [List.map_map]
      apply List.map_congr_left
      intro p _
      by_cases hp : p.1 = k <;> simp [hp]
    rw [this]; exact h
  · rw [if_neg hany]
    rw [List.map_append]
    have hk : k ∉ m.map Prod.fst := by
      intro hmem
      rcases List.mem_map.mp hmem with ⟨q, hq, hqk⟩
      exact hany (List.any_eq_true.mpr ⟨q, hq, by simp [hqk]⟩)
    simp [List.nodup_append, h, hk]

lemma nodupKeys_erase (m : List (Nat × Nat)) (k : Nat)
    (h : (m.map Prod.fst).Nodup) :
    ((mapErase m k).map Prod.fst).Nodup := by
  have hsub : List.Sublist ((mapErase m k).map Prod.fst) (m.map Prod.fst) :=
    (List.filter_sublist m).map Prod.fst
  exact hsub.nodup h

/-- The bookkeeping invariant of the vector store: each hash map is exactly
the graph `row field ↦ physical index` over the live rows, keys are unique,
map sizes match the live count, and every stored logical offset is below the
allocation counter. -/
def BFInv (s : BFState) : Prop :=
  (s.label_map.map Prod.fst).Nodup ∧
  (s.offset_map.map Prod.fst).Nodup ∧
  s.label_map.length = s.rows.length ∧
  s.offset_map.length = s.rows.length ∧
  (∀ l i, mapFind s.label_map l = some i ↔
    i < s.rows.length ∧ (s.rows.getD i default).label = l) ∧
  (∀ o i, mapFind s.offset_map o = some i ↔
    i < s.rows.length ∧ (s.rows.getD i default).offset = o) ∧
  (∀ i, i < s.rows.length →
    (s.rows.getD i default).offset < s.next_logical_offset)

lemma BFInv_init : BFInv BFState.init := by
  refine ⟨by simp [BFState.init], by simp [BFState.init], rfl, rfl, ?_, ?_, ?_⟩
  · intro l i
    simp [BFState.init, mapFind_nil]
  · intro o i
    simp [BFState.init, mapFind_nil]
  · intro i hi
    simp [BFState.init] at hi

lemma getD_append_lt {α} [Inhabited α] (l : List α) (x : α) (i : Nat)
    (h : i < l.length) : (l ++ [x]).getD i default = l.getD i default :=
  List.getD_append l [x] default i h

lemma getD_append_len {α} [Inhabited α] (l : List α) (x : α) :
    (l ++ [x]).getD l.length default = x := by
  rw [List.getD_eq_getElem?_getD, List.getElem?_concat_length]
  rfl

lemma getD_dropLast {α} [Inhabited α] (l : List α) (i : Nat)
    (h : i < l.length - 1) : l.dropLast.getD i default = l.getD i default := by
  rw [List.dropLast_eq_take, List.getD_eq_getElem?_getD,
    List.getD_eq_getElem?_getD, List.getElem?_take, if_pos h]

lemma getD_set {α} [Inhabited α] (l : List α) (idx : Nat) (x : α) (i : Nat) :
    (l.set idx x).getD i default =
      if idx = i ∧ idx < l.length then x else l.getD i default := by
  rw [List.getD_eq_getElem?_getD, List.getD_eq_getElem?_getD,
    List.getElem?_set]
  by_cases h1 : idx = i
  · subst h1
    by_cases h2 : idx < l.length
    · simp [h2]
    · simp only [h2, and_false, if_false, if_true]
      rw [List.getElem?_eq_none (by omega)]
  · simp [h1]

lemma BFInv_add (s : BFState) (meta : BFMeta) (vector : Option (List ℚ))
    (label : Nat) (sparse : Option (List (Nat × ℚ))) (h : BFInv s)
    (hb : s.next_logical_offset < 2 ^ 32) :
    BFInv (s.add_point meta vector label sparse) ∧
    (s.add_point meta vector label sparse).next_logical_offset ≤
      s.next_logical_offset + 1 := by
  obtain ⟨h1, h2, h3, h4, h5, h6, h7⟩ := h
  unfold BFState.add_point
  cases hfind : mapFind s.label_map label with
  | some index =>
    -- overwrite in place: the row keeps its label and offset
    obtain ⟨hilt, hilab⟩ := (h5 label index).mp hfind
    have hfields : ∀ i,
        ((s.rows.set index ((match vector with
          | some v => { s.rows.getD index default with vec := v, label := label }
          | none => { s.rows.getD index default with label := label }) :
            BFRow)).getD i default).label = (s.rows.getD i default).label ∧
        ((s.rows.set index ((match vector with
          | some v => { s.rows.getD index default with vec := v, label := label }
          | none => { s.rows.getD index default with label := label }) :
            BFRow)).getD i default).offset = (s.rows.getD i default).offset := by
      intro i
      rw [getD_set]
      by_cases hii : index = i ∧ index < s.rows.length
      · rw [if_pos hii]
        obtain ⟨rfl, hlt⟩ := hii
        constructor
        · cases vector with
          | none => exact hilab.symm
          | some v => exact hilab.symm
        · cases vector with
          | none => rfl
          | some v => rfl
      · rw [if_neg hii]
        exact ⟨rfl, rfl⟩
    simp only []
    constructor
    · refine ⟨h1, h2, by simpa using h3, by simpa using h4, ?_, ?_, ?_⟩
      · intro l i
        rw [h5 l i]
        simp only [List.length_set]
        rw [(hfields i).1]
      · intro o i
        rw [h6 o i]
        simp only [List.length_set]
        rw [(hfields i).2]
      · intro i hi
        simp only [List.length_set] at hi
        rw [(hfields i).2]
        exact h7 i hi
    · exact Nat.le_succ _
  | none =>
    dsimp only
    by_cases hsp : meta.enableSparse ∧ s.rows.length ≠ s.sparse_rows.length
    · rw [if_pos hsp]
      exact ⟨⟨h1, h2, h3, h4, h5, h6, h7⟩, Nat.le_succ _⟩
    · rw [if_neg hsp]
      dsimp only
      have hmod : s.next_logical_offset % 2 ^ 32 = s.next_logical_offset :=
        Nat.mod_eq_of_lt hb
      have hofind : mapFind s.offset_map s.next_logical_offset = none := by
        cases hof : mapFind s.offset_map s.next_logical_offset with
        | none => rfl
        | some i =>
          obtain ⟨hbound, hoff⟩ := (h6 _ i).mp hof
          exact absurd hoff (by have := h7 i hbound; omega)
      set n := s.rows.length with hn
      constructor
      · refine ⟨nodupKeys_assign _ _ _ h1, nodupKeys_assign _ _ _ h2,
          ?_, ?_, ?_, ?_, ?_⟩
        · rw [length_assign_none _ _ _ hfind]
          simp [h3]
        · rw [hmod, length_assign_none _ _ _ hofind]
          simp [h4]
        · intro l i
          rw [mapFind_assign]
          simp only [List.length_append, List.length_singleton]
          constructor
          · intro hsome
            by_cases hl : l = label
            · rw [if_pos hl] at hsome
              obtain rfl : n = i := Option.some_injective _ hsome
              refine ⟨by omega, ?_⟩
              rw [getD_append_len]
              exact hl.symm
            · rw [if_neg hl] at hsome
              obtain ⟨hlt, hlab⟩ := (h5 l i).mp hsome
              exact ⟨by omega, by rw [getD_append_lt _ _ _ hlt]; exact hlab⟩
          · rintro ⟨hlt, hlab⟩
            by_cases hi : i < n
            · rw [getD_append_lt _ _ _ hi] at hlab
              have := (h5 l i).mpr ⟨hi, hlab⟩
              by_cases hl : l = label
              · exfalso
                rw [hl] at this
                rw [this] at hfind
                exact Option.noConfusion hfind
              · rw [if_neg hl]
                exact this
            · obtain rfl : i = n := by omega
              rw [getD_append_len] at hlab
              rw [if_pos (by simpa using hlab.symm)]
        · intro o i
          rw [hmod, mapFind_assign]
          simp only [List.length_append, List.length_singleton]
          constructor
          · intro hsome
            by_cases ho : o = s.next_logical_offset
            · rw [if_pos ho] at hsome
              obtain rfl : n = i := Option.some_injective _ hsome
              refine ⟨by omega, ?_⟩
              rw [getD_append_len]
              exact ho.symm
            · rw [if_neg ho] at hsome
              obtain ⟨hlt, hoff⟩ := (h6 o i).mp hsome
              exact ⟨by omega, by rw [getD_append_lt _ _ _ hlt]; exact hoff⟩
          · rintro ⟨hlt, hoff⟩
            by_cases hi : i < n
            · rw [getD_append_lt _ _ _ hi] at hoff
              have := (h6 o i).mpr ⟨hi, hoff⟩
              by_cases ho : o = s.next_logical_offset
              · exfalso
                rw [ho] at this
                rw [this] at hofind
                exact Option.noConfusion hofind
              · rw [if_neg ho]
                exact this
            · obtain rfl : i = n := by omega
              rw [getD_append_len] at hoff
              rw [if_pos (by simpa using hoff.symm)]
        · intro i hi
          simp only [List.length_append, List.length_singleton] at hi
          by_cases hilt : i < n
          · rw [getD_append_lt _ _ _ hilt]
            show (s.rows.getD i default).offset < s.next_logical_offset + 1
            have := h7 i hilt
            omega
          · obtain rfl : i = n := by omega
            rw [getD_append_len]
            show s.next_logical_offset % 2 ^ 32 < s.next_logical_offset + 1
            omega
      · exact le_rfl

lemma graph_swap_remove (m : List (Nat × Nat)) (rows : List BFRow)
    (f : BFRow → Nat) (idx ekey : Nat)
    (hchar : ∀ k i, mapFind m k = some i ↔
      i < rows.length ∧ f (rows.getD i default) = k)
    (hilt : idx < rows.length) (hne : idx ≠ rows.length - 1)
    (hkey : f (rows.getD idx default) = ekey) (k i : Nat) :
    mapFind (mapAssign (mapErase m ekey)
        (f (rows.getD (rows.length - 1) default)) idx) k = some i ↔
      (i < (rows.set idx (rows.getD (rows.length - 1) default)).dropLast.length ∧
        f (((rows.set idx
          (rows.getD (rows.length - 1) default)).dropLast).getD i default) =
          k) := by
  have hlen : (rows.set idx (rows.getD (rows.length - 1) default)).dropLast.length
      = rows.length - 1 := by
    simp [List.length_dropLast, List.length_set]
  have hlast_m : mapFind m (f (rows.getD (rows.length - 1) default)) =
      some (rows.length - 1) := (hchar _ _).mpr ⟨by omega, rfl⟩
  have hm_idx : mapFind m ekey = some idx := (hchar _ _).mpr ⟨hilt, hkey⟩
  have hrow' : ∀ j, j < rows.length - 1 →
      ((rows.set idx (rows.getD (rows.length - 1) default)).dropLast).getD
        j default =
      if idx = j then rows.getD (rows.length - 1) default
      else rows.getD j default := by
    intro j hj
    rw [getD_dropLast _ _ (by rw [List.length_set]; omega), getD_set]
    by_cases hid : idx = j
    · rw [if_pos ⟨hid, hilt⟩, if_pos hid]
    · rw [if_neg (fun hc => hid hc.1), if_neg hid]
  rw [mapFind_assign, hlen]
  by_cases hk1 : k = f (rows.getD (rows.length - 1) default)
  · rw [if_pos hk1]
    constructor
    · intro hsome
      obtain rfl : idx = i := Option.some_injective _ hsome
      refine ⟨by omega, ?_⟩
      rw [hrow' idx (by omega), if_pos rfl]
      exact hk1.symm
    · rintro ⟨hi, hfi⟩
      rw [hrow' i hi] at hfi
      by_cases hid : idx = i
      · rw [hid]
      · rw [if_neg hid] at hfi
        have hsome := (hchar k i).mpr ⟨by omega, hfi⟩
        rw [hk1, hlast_m] at hsome
        exfalso
        have := Option.some_injective _ hsome
        omega
  · rw [if_neg hk1, mapFind_erase]
    by_cases hk2 : k = ekey
    · rw [if_pos hk2]
      constructor
      · intro hsome
        exact Option.noConfusion hsome
      · rintro ⟨hi, hfi⟩
        rw [hrow' i hi] at hfi
        by_cases hid : idx = i
        · rw [if_pos hid] at hfi
          exact absurd hfi.symm hk1
        · rw [if_neg hid] at hfi
          have hsome := (hchar k i).mpr ⟨by omega, hfi⟩
          rw [hk2, hm_idx] at hsome
          exact (hid (Option.some_injective _ hsome)).elim
    · rw [if_neg hk2]
      constructor
      · intro hsome
        obtain ⟨hi, hfi⟩ := (hchar k i).mp hsome
        have hine : i ≠ rows.length - 1 := by
          intro he
          rw [he] at hfi
          exact hk1 hfi.symm
        have hiidx : idx ≠ i := by
          intro he
          rw [← he, hkey] at hfi
          exact hk2 hfi.symm
        refine ⟨by omega, ?_⟩
        rw [hrow' i (by omega), if_neg hiidx]
        exact hfi
      · rintro ⟨hi, hfi⟩
        rw [hrow' i hi] at hfi
        by_cases hid : idx = i
        · rw [if_pos hid] at hfi
          exact absurd hfi.symm hk1
        · rw [if_neg hid] at hfi
          exact (hchar k i).mpr ⟨by omega, hfi⟩

lemma graph_pop_remove (m : List (Nat × Nat)) (rows : List BFRow)
    (f : BFRow → Nat) (ekey : Nat)
    (hchar : ∀ k i, mapFind m k = some i ↔
      i < rows.length ∧ f (rows.getD i default) = k)
    (hn : 0 < rows.length)
    (hkey : f (rows.getD (rows.length - 1) default) = ekey) (k i : Nat) :
    mapFind (mapErase m ekey) k = some i ↔
      (i < rows.dropLast.length ∧
        f (rows.dropLast.getD i default) = k) := by
  have hlen : rows.dropLast.length = rows.length - 1 := by simp
  rw [mapFind_erase, hlen]
  by_cases hk : k = ekey
  · rw [if_pos hk]
    constructor
    · intro hsome
      exact Option.noConfusion hsome
    · rintro ⟨hi, hfi⟩
      rw [getD_dropLast _ _ hi] at hfi
      have hsome := (hchar k i).mpr ⟨by omega, hfi⟩
      have hlast := (hchar ekey (rows.length - 1)).mpr ⟨by omega, hkey⟩
      rw [hk, hlast] at hsome
      exfalso
      have := Option.some_injective _ hsome
      omega
  · rw [if_neg hk]
    constructor
    · intro hsome
      obtain ⟨hi, hfi⟩ := (hchar k i).mp hsome
      have hine : i ≠ rows.length - 1 := by
        intro he
        rw [he, hkey] at hfi
        exact hk hfi.symm
      refine ⟨by omega, ?_⟩
      rw [getD_dropLast _ _ (by omega)]
      exact hfi
    · rintro ⟨hi, hfi⟩
      rw [getD_dropLast _ _ hi] at hfi
      exact (hchar k i).mpr ⟨by omega, hfi⟩

lemma BFInv_remove (s : BFState) (meta : BFMeta) (label : Nat)
    (h : BFInv s) :
    BFInv (s.remove_point meta label) ∧
    (s.remove_point meta label).next_logical_offset =
      s.next_logical_offset := by
  obtain ⟨h1, h2, h3, h4, h5, h6, h7⟩ := h
  unfold BFState.remove_point
  cases hfind : mapFind s.label_map label with
  | none => exact ⟨⟨h1, h2, h3, h4, h5, h6, h7⟩, rfl⟩
  | some idx =>
    dsimp only
    obtain ⟨hilt, hilab⟩ := (h5 label idx).mp hfind
    have hofind : mapFind s.offset_map ((s.rows.getD idx default).offset) =
        some idx := (h6 _ _).mpr ⟨hilt, rfl⟩
    by_cases hswap : 0 < s.rows.length ∧ idx ≠ s.rows.length - 1
    · rw [if_pos hswap]
      constructor
      · refine ⟨nodupKeys_assign _ _ _ (nodupKeys_erase _ _ h1),
          nodupKeys_assign _ _ _ (nodupKeys_erase _ _ h2), ?_, ?_, ?_, ?_, ?_⟩
        · -- label-map length
          have hlast_lm : mapFind s.label_map
              ((s.rows.getD (s.rows.length - 1) default).label) =
              some (s.rows.length - 1) := (h5 _ _).mpr ⟨by omega, rfl⟩
          have hne : (s.rows.getD (s.rows.length - 1) default).label ≠ label := by
            intro he
            rw [he, hfind] at hlast_lm
            have := Option.some_injective _ hlast_lm
            omega
          rw [length_assign_isSome _ _ _
            (by rw [mapFind_erase, if_neg hne, hlast_lm]; rfl)]
          have := length_erase_isSome s.label_map label h1
            (by rw [hfind]; rfl)
          simp only [List.length_dropLast, List.length_set]
          omega
        · -- offset-map length
          have hlast_om : mapFind s.offset_map
              ((s.rows.getD (s.rows.length - 1) default).offset) =
              some (s.rows.length - 1) := (h6 _ _).mpr ⟨by omega, rfl⟩
          have hne : (s.rows.getD (s.rows.length - 1) default).offset ≠
              (s.rows.getD idx default).offset := by
            intro he
            rw [he, hofind] at hlast_om
            have := Option.some_injective _ hlast_om
            omega
          rw [length_assign_isSome _ _ _
            (by rw [mapFind_erase, if_neg hne, hlast_om]; rfl)]
          have := length_erase_isSome s.offset_map
            ((s.rows.getD idx default).offset) h2 (by rw [hofind]; rfl)
          simp only [List.length_dropLast, List.length_set]
          omega
        · intro l i
          exact graph_swap_remove s.label_map s.rows BFRow.label idx label
            h5 hilt hswap.2 hilab l i
        · intro o i
          exact graph_swap_remove s.offset_map s.rows BFRow.offset idx
            ((s.rows.getD idx default).offset) h6 hilt hswap.2 rfl o i
        · intro i hi
          simp only [List.length_dropLast, List.length_set] at hi
          rw [getD_dropLast _ _ (by rw [List.length_set]; omega), getD_set]
          by_cases hid : idx = i
          · rw [if_pos ⟨hid, hilt⟩]
            exact h7 _ (by omega)
          · rw [if_neg (fun hc => hid hc.1)]
            exact h7 _ (by omega)
      · rfl
    · rw [if_neg hswap]
      have hidx_last : idx = s.rows.length - 1 := by
        rcases Decidable.not_and_iff_or_not.mp hswap with hc | hc
        · omega
        · omega
      constructor
      · refine ⟨nodupKeys_erase _ _ h1, nodupKeys_erase _ _ h2, ?_, ?_,
          ?_, ?_, ?_⟩
        · have := length_erase_isSome s.label_map label h1 (by rw [hfind]; rfl)
          simp only [List.length_dropLast]
          omega
        · have := length_erase_isSome s.offset_map
            ((s.rows.getD idx default).offset) h2 (by rw [hofind]; rfl)
          simp only [List.length_dropLast]
          omega
        · intro l i
          exact graph_pop_remove s.label_map s.rows BFRow.label label h5
            (by omega) (by rw [← hidx_last]; exact hilab) l i
        · intro o i
          exact graph_pop_remove s.offset_map s.rows BFRow.offset
            ((s.rows.getD idx default).offset) h6 (by omega)
            (by rw [← hidx_last]) o i
        · intro i hi
          simp only [List.length_dropLast] at hi
          rw [getD_dropLast _ _ hi]
          exact h7 _ (by omega)
      · rfl

lemma BFInv_apply (meta : BFMeta) (s : BFState) (op : BFOp) (h : BFInv s)
    (hb : s.next_logical_offset + countAdds [op] ≤ 2 ^ 32) :
    BFInv (BFOp.apply meta s op) ∧
    (BFOp.apply meta s op).next_logical_offset ≤
      s.next_logical_offset + countAdds [op] := by
  cases op with
  | add label v sp =>
    have hc : countAdds [BFOp.add label v sp] = 1 := rfl
    rw [hc] at hb ⊢
    exact BFInv_add s meta v label sp h (by omega)
  | remove label =>
    have hc : countAdds [BFOp.remove label] = 0 := rfl
    rw [hc]
    obtain ⟨hi, hn⟩ := BFInv_remove s meta label h
    refine ⟨hi, ?_⟩
    show (s.remove_point meta label).next_logical_offset ≤
      s.next_logical_offset + 0
    omega

lemma BFInv_ops (meta : BFMeta) (ops : List BFOp) :
    ∀ s : BFState, BFInv s →
      s.next_logical_offset + countAdds ops ≤ 2 ^ 32 →
      BFInv (applyBFOps meta ops s) ∧
      (applyBFOps meta ops s).next_logical_offset ≤
        s.next_logical_offset + countAdds ops := by
  induction ops with
  | nil =>
    intro s h _
    exact ⟨h, Nat.le_add_right _ _⟩
  | cons op rest ih =>
    intro s h hb
    have hcount : countAdds (op :: rest) = countAdds [op] + countAdds rest := by
      cases op
      · simp [countAdds]
        omega
      · simp [countAdds]
    rw [hcount] at hb ⊢
    obtain ⟨hi1, hn1⟩ := BFInv_apply meta s op h (by omega)
    obtain ⟨hi2, hn2⟩ := ih (BFOp.apply meta s op) hi1 (by omega)
    have happ : applyBFOps meta (op :: rest) s =
        applyBFOps meta rest (BFOp.apply meta s op) := by
      simp [applyBFOps]
    rw [happ]
    exact ⟨hi2, by omega⟩

/-- C1 (amended).  As long as the total number of `add_point` calls stays
at or below `2^32` -- so the truncated `uint32_t` logical offsets never
wrap -- the bookkeeping IS a bijection: for every live label the
label-to-offset round trip returns the label, for every live logical
offset the offset-to-label round trip returns the offset, and
`get_data_num()` equals the size of the label map. -/
theorem C1_bijection_below_offset_wrap (meta : BFMeta) (ops : List BFOp)
    (h : countAdds ops ≤ 2 ^ 32) :
    (∀ l, (mapFind (applyBFOps meta ops BFState.init).label_map l).isSome →
      (applyBFOps meta ops BFState.init).get_label_by_offset
        ((applyBFOps meta ops BFState.init).get_offset_by_label l) = l) ∧
    (∀ o, (mapFind (applyBFOps meta ops BFState.init).offset_map o).isSome →
      (applyBFOps meta ops BFState.init).get_offset_by_label
        (((applyBFOps meta ops BFState.init).get_label_by_offset (o : Int)))
        = (o : Int)) ∧
    (applyBFOps meta ops BFState.init).get_data_num =
      (applyBFOps meta ops BFState.init).label_map.length := by
  obtain ⟨hinv, hnext⟩ := BFInv_ops meta ops BFState.init BFInv_init
    (by show 0 + countAdds ops ≤ 2 ^ 32; omega)
  set s := applyBFOps meta ops BFState.init with hs
  obtain ⟨h1, h2, h3, h4, h5, h6, h7⟩ := hinv
  have hnext2 : s.next_logical_offset ≤ 2 ^ 32 := by
    have hz : BFState.init.next_logical_offset = 0 := rfl
    omega
  refine ⟨?_, ?_, h3.symm⟩
  · intro l hl
    cases hfind : mapFind s.label_map l with
    | none =>
      rw [hfind] at hl
      exact absurd hl (by simp)
    | some i =>
      obtain ⟨hi, hlab⟩ := (h5 l i).mp hfind
      have hoff : mapFind s.offset_map ((s.rows.getD i default).offset) =
          some i := (h6 _ _).mpr ⟨hi, rfl⟩
      have hlt : (s.rows.getD i default).offset < 2 ^ 32 := by
        have := h7 i hi
        omega
      have hkey : ((((s.rows.getD i default).offset : ℤ)).emod (2 ^ 32)).toNat
          = (s.rows.getD i default).offset := by
        show ((((s.rows.getD i default).offset : ℤ)) % (2 ^ 32)).toNat
          = (s.rows.getD i default).offset
        omega
      unfold BFState.get_offset_by_label BFState.get_label_by_offset
      rw [hfind]
      dsimp only
      rw [hkey, hoff]
      exact hlab
  · intro o ho
    cases hfind : mapFind s.offset_map o with
    | none =>
      rw [hfind] at ho
      exact absurd ho (by simp)
    | some i =>
      obtain ⟨hi, hoff⟩ := (h6 o i).mp hfind
      have hlab : mapFind s.label_map ((s.rows.getD i default).label) =
          some i := (h5 _ _).mpr ⟨hi, rfl⟩
      have hlt : o < 2 ^ 32 := by
        have := h7 i hi
        omega
      have hkey : (((o : ℤ)).emod (2 ^ 32)).toNat = o := by
        show (((o : ℤ)) % (2 ^ 32)).toNat = o
        omega
      unfold BFState.get_label_by_offset BFState.get_offset_by_label
      rw [hkey, hfind]
      dsimp only
      rw [hlab]
      dsimp only
      rw [hoff]

/-- Witness: three calls (add 3, add 5, remove 3) are far below the wrap
bound, and the label-5 round trip closes. -/
theorem C1_bijection_below_offset_wrap_witness :
    countAdds [BFOp.add 3 none none, BFOp.add 5 none none,
      BFOp.remove 3] ≤ 2 ^ 32 ∧
    ((applyBFOps meta0 [BFOp.add 3 none none, BFOp.add 5 none none,
        BFOp.remove 3] BFState.init).get_label_by_offset
      ((applyBFOps meta0 [BFOp.add 3 none none, BFOp.add 5 none none,
        BFOp.remove 3] BFState.init).get_offset_by_label 5) = 5) :=
  ⟨by decide,
    (C1_bijection_below_offset_wrap meta0
      [BFOp.add 3 none none, BFOp.add 5 none none, BFOp.remove 3]
      (by decide)).1 5 (by decide)⟩

/-- C1.  The claim quantifies over EVERY sequence of `add_point` /
`remove_point` calls.  `add_point` allocates
`logical_offset = static_cast<uint32_t>(next_logical_offset_++)`, a 64-bit
counter truncated to 32 bits, so after `2^32` allocations a fresh row
reuses logical offset 0 and its `offset_map_[0] = index` assignment
overwrites the entry of the still-live label 0: afterwards
`get_label_by_offset(get_offset_by_label(0)) = 1 ≠ 0` although label 0 is
live.  (`get_data_num() = |label_map|` still holds there; the label-side
round-trip bullet is what breaks.) -/
theorem C1_truncated_offset_breaks_roundtrip :
    ((applyBFOps meta0 c1Ops BFState.init).get_label_by_offset
        ((applyBFOps meta0 c1Ops BFState.init).get_offset_by_label 0) ≠ 0) ∧
    (mapFind (applyBFOps meta0 c1Ops BFState.init).label_map 0).isSome := by
  have h0 : BFOp.apply meta0 BFState.init (.add 0 none none) = c1S 1 := by
    decide
  have hrun : applyBFOps meta0 (c1Cycles (2 ^ 32 - 1)) (c1S 1) =
      c1S (2 ^ 32) := by
    have := c1_cycles_run (2 ^ 32 - 1) 1 le_rfl (by omega)
    rwa [show 1 + (2 ^ 32 - 1) = 2 ^ 32 by omega] at this
  have hsplit : applyBFOps meta0 c1Ops BFState.init =
      BFOp.apply meta0 (c1S (2 ^ 32)) (.add 1 none none) := by
    show List.foldl (BFOp.apply meta0) BFState.init c1Ops = _
    rw [c1Ops, List.foldl_cons, List.foldl_append, h0]
    rw [show List.foldl (BFOp.apply meta0) (c1S 1) (c1Cycles (2 ^ 32 - 1)) =
      c1S (2 ^ 32) from hrun]
    rfl
  rw [hsplit]
  constructor
  · decide
  · decide

/-! ### C8: `get_state` -/

/-- `StateResult` (`index/common_structs.h`): both fields default to 0. -/
structure StateResult where
  update_timestamp : Nat
  element_count : Nat
deriving DecidableEq

/-- The default-initialised `StateResult`. -/
def StateResult.initStruct : StateResult := ⟨0, 0⟩

/-- The slice of `IndexManagerImpl` state that `get_state` can draw on: the
meta timestamp and the vector store (whose `get_data_num` is the live
element count). -/
structure IndexManagerImpl where
  update_timestamp : Nat
  vector_index : BFState

/-- `IndexManagerImpl::get_state` (`index_manager_impl.cpp`): writes ONLY
the timestamp into the caller's `StateResult`. -/
def IndexManagerImpl.get_state (m : IndexManagerImpl) (state_result : StateResult) :
    StateResult :=
  { state_result with update_timestamp := m.update_timestamp }

/-- `IndexEngine::get_state` (`index_engine.cpp`): default-constructs a
`StateResult` and lets the impl fill it. -/
def IndexEngine.get_state (m : IndexManagerImpl) : StateResult :=
  m.get_state StateResult.initStruct

/-- C8.  The claim says `get_state` returns both the update timestamp and
the element count.  The implementation only assigns `update_timestamp`;
`element_count` keeps its default 0.  On a manager whose vector store holds
one record (after `add_point` of label 7), the engine reports
`element_count = 0` while `get_data_num()` is 1. -/
theorem C8_get_state_element_count_left_default :
    (IndexEngine.get_state
        { update_timestamp := 123,
          vector_index := BFState.init.add_point ⟨false, 0, false, 0⟩
            none 7 none }).element_count = 0 ∧
    (BFState.init.add_point ⟨false, 0, false, 0⟩ none 7 none).get_data_num
      = 1 := by
  decide

/-! ### C9: the sparse dot-product reduction
(`sparse_retrieval/sparse_distance_measure.h`)

A sparse view is an index array with a parallel value array.  `IndexT` ids
are naturals, `float` values are `ℚ`.  The bidirectional two-pointer loop of
`sparse_distance_measure_only_reduce_two` is embedded with a fuel argument
equal to the initial pointer gap `(n1-1) + (n2-1)`: every iteration moves
the front pointers forward by at least one and the back pointers backward by
at least one, so the gap strictly shrinks and the fuel never runs out. -/

/-- `DotProductReduceTwo::operator()`: `*acc += a * b`. -/
def DotProductReduceTwo (acc a b : ℚ) : ℚ := acc + a * b

/-- `DoNothingReduce::is_noop()` is `true`: `sparse_distance` dispatches to
`sparse_distance_measure_only_reduce_two` for the dot-product reduction. -/
def DoNothingReduce.is_noop : Bool := true

/-- The pointer/accumulator state of the two-pointer loop. -/
structure SDMSt where
  i1f : Nat
  i2f : Nat
  i1b : Nat
  i2b : Nat
  acc : ℚ
deriving DecidableEq

/-- One iteration of the `while (i1_front < i1_back && i2_front < i2_back)`
loop: compare the two front ids and the two back ids, fold the front pair
and the back pair into the accumulator when the ids agree, then advance the
pointer(s) holding the smaller (front) / larger (back) id. -/
def sdmStep (idx1 : List Nat) (vals1 : List ℚ) (idx2 : List Nat)
    (vals2 : List ℚ) (red : ℚ → ℚ → ℚ → ℚ) (st : SDMSt) : SDMSt :=
  let a1 : Nat := if idx1.getD st.i1f 0 ≤ idx2.getD st.i2f 0 then 1 else 0
  let a2 : Nat := if idx2.getD st.i2f 0 ≤ idx1.getD st.i1f 0 then 1 else 0
  let s2 : Nat := if idx1.getD st.i1b 0 ≤ idx2.getD st.i2b 0 then 1 else 0
  let s1 : Nat := if idx2.getD st.i2b 0 ≤ idx1.getD st.i1b 0 then 1 else 0
  let acc := if idx1.getD st.i1f 0 = idx2.getD st.i2f 0 then
    red st.acc (vals1.getD st.i1f 0) (vals2.getD st.i2f 0) else st.acc
  let acc := if idx1.getD st.i1b 0 = idx2.getD st.i2b 0 then
    red acc (vals1.getD st.i1b 0) (vals2.getD st.i2b 0) else acc
  ⟨st.i1f + a1, st.i2f + a2, st.i1b - s1, st.i2b - s2, acc⟩

/-- The loop itself, stepping while both gaps are open. -/
def sdmLoop (idx1 : List Nat) (vals1 : List ℚ) (idx2 : List Nat)
    (vals2 : List ℚ) (red : ℚ → ℚ → ℚ → ℚ) : Nat → SDMSt → SDMSt
  | 0, st => st
  | fuel + 1, st =>
    if st.i1f < st.i1b ∧ st.i2f < st.i2b then
      sdmLoop idx1 vals1 idx2 vals2 red fuel
        (sdmStep idx1 vals1 idx2 vals2 red st)
    else st

/-- The `i1_front == i1_back` tail: scan `indices2[i2_front..i2_back]` for
the single remaining left id, fold once on a hit, and break.  Fuel is
`i2_back + 1 - i2_front`, the exact number of loop tests. -/
def sdmScan2 (target : Nat) (v1 : ℚ) (idx2 : List Nat) (vals2 : List ℚ)
    (red : ℚ → ℚ → ℚ → ℚ) : Nat → Nat → ℚ → ℚ
  | 0, _, acc => acc
  | fuel + 1, i2f, acc =>
    if idx2.getD i2f 0 = target then red acc v1 (vals2.getD i2f 0)
    else sdmScan2 target v1 idx2 vals2 red fuel (i2f + 1) acc

/-- The symmetric `i2_front == i2_back` tail over `indices1`. -/
def sdmScan1 (target : Nat) (v2 : ℚ) (idx1 : List Nat) (vals1 : List ℚ)
    (red : ℚ → ℚ → ℚ → ℚ) : Nat → Nat → ℚ → ℚ
  | 0, _, acc => acc
  | fuel + 1, i1f, acc =>
    if idx1.getD i1f 0 = target then red acc (vals1.getD i1f 0) v2
    else sdmScan1 target v2 idx1 vals1 red fuel (i1f + 1) acc

/-- `sparse_distance_measure_only_reduce_two` (`sparse_distance_measure.h`
lines 51-104): early `0` on an empty side, the bidirectional two-pointer
merge, then one of the two single-id tail scans. -/
def sparse_distance_measure_only_reduce_two (idx1 : List Nat) (vals1 : List ℚ)
    (n1 : Nat) (idx2 : List Nat) (vals2 : List ℚ) (n2 : Nat)
    (red : ℚ → ℚ → ℚ → ℚ) : ℚ :=
  if n1 = 0 ∨ n2 = 0 then 0
  else
    let st := sdmLoop idx1 vals1 idx2 vals2 red ((n1 - 1) + (n2 - 1))
      ⟨0, 0, n1 - 1, n2 - 1, 0⟩
    if st.i1f = st.i1b then
      sdmScan2 (idx1.getD st.i1f 0) (vals1.getD st.i1f 0) idx2 vals2 red
        (st.i2b + 1 - st.i2f) st.i2f st.acc
    else if st.i2f = st.i2b then
      sdmScan1 (idx2.getD st.i2f 0) (vals2.getD st.i2f 0) idx1 vals1 red
        (st.i1b + 1 - st.i1f) st.i1f st.acc
    else st.acc

/-- `SparseRowIndex::sparse_dot_product_reduce` (`sparse_row_index.h`):
`sparse_distance(doc_ts, x, DotProductReduceTwo(), DoNothingReduce())`,
which dispatches on `DoNothingReduce::is_noop() = true` to
`sparse_distance_measure_only_reduce_two` with the document view first. -/
def sparse_dot_product_reduce (docIdx : List Nat) (docVals : List ℚ)
    (xIdx : List Nat) (xVals : List ℚ) : ℚ :=
  sparse_distance_measure_only_reduce_two docIdx docVals docIdx.length
    xIdx xVals xIdx.length DotProductReduceTwo

/-- The sum of `a_i * b_j` over the matching index pairs of the window
`[i1f, i1b] × [i2f, i2b]`. -/
def windowSum (idx1 : List Nat) (vals1 : List ℚ) (idx2 : List Nat)
    (vals2 : List ℚ) (i1f i1b i2f i2b : Nat) : ℚ :=
  ∑ i in Finset.Icc i1f i1b, ∑ j in Finset.Icc i2f i2b,
    (if idx1.getD i 0 = idx2.getD j 0
      then vals1.getD i 0 * vals2.getD j 0 else 0)

lemma pairwise_lt_getD (l : List Nat) (h : List.Pairwise (· < ·) l)
    (i j : Nat) (hij : i < j) (hj : j < l.length) :
    l.getD i 0 < l.getD j 0 := by
  have hi : i < l.length := lt_trans hij hj
  rw [List.getD_eq_getElem?_getD, List.getD_eq_getElem?_getD,
    List.getElem?_eq_getElem hi, List.getElem?_eq_getElem hj]
  exact List.pairwise_iff_getElem.mp h i j hi hj hij

lemma pairwise_le_getD (l : List Nat) (h : List.Pairwise (· < ·) l)
    (i j : Nat) (hij : i ≤ j) (hj : j < l.length) :
    l.getD i 0 ≤ l.getD j 0 := by
  rcases Nat.lt_or_ge i j with hlt | hge
  · exact le_of_lt (pairwise_lt_getD l h i j hlt hj)
  · have : i = j := by omega
    rw [this]

lemma Icc_eq_insert_bot (a b : Nat) (h : a ≤ b) :
    Finset.Icc a b = insert a (Finset.Icc (a + 1) b) := by
  ext x
  simp only [Finset.mem_Icc, Finset.mem_insert]
  omega

lemma Icc_eq_insert_top (a b : Nat) (h : a ≤ b) (hb : 0 < b) :
    Finset.Icc a b = insert b (Finset.Icc a (b - 1)) := by
  ext x
  simp only [Finset.mem_Icc, Finset.mem_insert]
  omega

lemma bot_not_mem_Icc (a b : Nat) : a ∉ Finset.Icc (a + 1) b := by
  intro hmem
  rw [Finset.mem_Icc] at hmem
  omega

lemma top_not_mem_Icc (a b : Nat) (hb : 0 < b) : b ∉ Finset.Icc a (b - 1) := by
  intro hmem
  rw [Finset.mem_Icc] at hmem
  omega

lemma Icc_zero_pred (n : Nat) (h : 0 < n) :
    Finset.Icc 0 (n - 1) = Finset.range n := by
  ext x
  simp only [Finset.mem_Icc, Finset.mem_range]
  omega

lemma windowSum_front (idx1 : List Nat) (vals1 : List ℚ) (idx2 : List Nat)
    (vals2 : List ℚ) (h1 : List.Pairwise (· < ·) idx1)
    (h2 : List.Pairwise (· < ·) idx2) (i1f i1b i2f i2b : Nat)
    (hf1 : i1f < i1b) (hf2 : i2f < i2b) (hb1 : i1b < idx1.length)
    (hb2 : i2b < idx2.length) :
    windowSum idx1 vals1 idx2 vals2 i1f i1b i2f i2b =
      (if idx1.getD i1f 0 = idx2.getD i2f 0
        then vals1.getD i1f 0 * vals2.getD i2f 0 else 0) +
      windowSum idx1 vals1 idx2 vals2
        (i1f + if idx1.getD i1f 0 ≤ idx2.getD i2f 0 then 1 else 0) i1b
        (i2f + if idx2.getD i2f 0 ≤ idx1.getD i1f 0 then 1 else 0) i2b := by
  rcases lt_trichotomy (idx1.getD i1f 0) (idx2.getD i2f 0) with hlt | heq | hgt
  · rw [if_neg (by omega), if_pos (le_of_lt hlt), if_neg (by omega)]
    simp only [zero_add, Nat.add_zero]
    unfold windowSum
    rw [Icc_eq_insert_bot i1f i1b (le_of_lt hf1),
      Finset.sum_insert (bot_not_mem_Icc i1f i1b)]
    have hrow : ∑ j in Finset.Icc i2f i2b,
        (if idx1.getD i1f 0 = idx2.getD j 0
          then vals1.getD i1f 0 * vals2.getD j 0 else 0) = 0 := by
      apply Finset.sum_eq_zero
      intro j hj
      rw [Finset.mem_Icc] at hj
      have := pairwise_le_getD idx2 h2 i2f j hj.1 (lt_of_le_of_lt hj.2 hb2)
      rw [if_neg (by omega)]
    rw [hrow, zero_add]
  · rw [if_pos heq, if_pos (le_of_eq heq), if_pos (le_of_eq heq.symm)]
    unfold windowSum
    rw [Icc_eq_insert_bot i1f i1b (le_of_lt hf1),
      Finset.sum_insert (bot_not_mem_Icc i1f i1b)]
    have hrow : ∑ j in Finset.Icc i2f i2b,
        (if idx1.getD i1f 0 = idx2.getD j 0
          then vals1.getD i1f 0 * vals2.getD j 0 else 0) =
        vals1.getD i1f 0 * vals2.getD i2f 0 := by
      rw [Icc_eq_insert_bot i2f i2b (le_of_lt hf2),
        Finset.sum_insert (bot_not_mem_Icc i2f i2b), if_pos heq]
      have hrest : ∑ j in Finset.Icc (i2f + 1) i2b,
          (if idx1.getD i1f 0 = idx2.getD j 0
            then vals1.getD i1f 0 * vals2.getD j 0 else 0) = 0 := by
        apply Finset.sum_eq_zero
        intro j hj
        rw [Finset.mem_Icc] at hj
        have := pairwise_lt_getD idx2 h2 i2f j (by omega)
          (lt_of_le_of_lt hj.2 hb2)
        rw [if_neg (by omega)]
      rw [hrest, add_zero]
    have hcols : ∀ i ∈ Finset.Icc (i1f + 1) i1b,
        (∑ j in Finset.Icc i2f i2b,
          (if idx1.getD i 0 = idx2.getD j 0
            then vals1.getD i 0 * vals2.getD j 0 else 0)) =
        ∑ j in Finset.Icc (i2f + 1) i2b,
          (if idx1.getD i 0 = idx2.getD j 0
            then vals1.getD i 0 * vals2.getD j 0 else 0) := by
      intro i hi
      rw [Finset.mem_Icc] at hi
      rw [Icc_eq_insert_bot i2f i2b (le_of_lt hf2),
        Finset.sum_insert (bot_not_mem_Icc i2f i2b)]
      have := pairwise_lt_getD idx1 h1 i1f i (by omega)
        (lt_of_le_of_lt hi.2 hb1)
      rw [if_neg (by omega), zero_add]
    rw [hrow, Finset.sum_congr rfl hcols]
  · rw [if_neg (by omega), if_neg (by omega), if_pos (le_of_lt hgt)]
    simp only [zero_add, Nat.add_zero]
    unfold windowSum
    have hcols : ∀ i ∈ Finset.Icc i1f i1b,
        (∑ j in Finset.Icc i2f i2b,
          (if idx1.getD i 0 = idx2.getD j 0
            then vals1.getD i 0 * vals2.getD j 0 else 0)) =
        ∑ j in Finset.Icc (i2f + 1) i2b,
          (if idx1.getD i 0 = idx2.getD j 0
            then vals1.getD i 0 * vals2.getD j 0 else 0) := by
      intro i hi
      rw [Finset.mem_Icc] at hi
      rw [Icc_eq_insert_bot i2f i2b (le_of_lt hf2),
        Finset.sum_insert (bot_not_mem_Icc i2f i2b)]
      have := pairwise_le_getD idx1 h1 i1f i hi.1 (lt_of_le_of_lt hi.2 hb1)
      rw [if_neg (by omega), zero_add]
    rw [Finset.sum_congr rfl hcols]

lemma windowSum_back (idx1 : List Nat) (vals1 : List ℚ) (idx2 : List Nat)
    (vals2 : List ℚ) (h1 : List.Pairwise (· < ·) idx1)
    (h2 : List.Pairwise (· < ·) idx2) (i1f i1b i2f i2b : Nat)
    (hf1 : i1f ≤ i1b) (hf2 : i2f ≤ i2b) (hp1 : 0 < i1b) (hp2 : 0 < i2b)
    (hb1 : i1b < idx1.length) (hb2 : i2b < idx2.length) :
    windowSum idx1 vals1 idx2 vals2 i1f i1b i2f i2b =
      (if idx1.getD i1b 0 = idx2.getD i2b 0
        then vals1.getD i1b 0 * vals2.getD i2b 0 else 0) +
      windowSum idx1 vals1 idx2 vals2
        i1f (i1b - if idx2.getD i2b 0 ≤ idx1.getD i1b 0 then 1 else 0)
        i2f (i2b - if idx1.getD i1b 0 ≤ idx2.getD i2b 0 then 1 else 0) := by
  rcases lt_trichotomy (idx1.getD i1b 0) (idx2.getD i2b 0) with hlt | heq | hgt
  · rw [if_neg (by omega), if_neg (by omega), if_pos (le_of_lt hlt)]
    simp only [zero_add, Nat.sub_zero]
    unfold windowSum
    have hcols : ∀ i ∈ Finset.Icc i1f i1b,
        (∑ j in Finset.Icc i2f i2b,
          (if idx1.getD i 0 = idx2.getD j 0
            then vals1.getD i 0 * vals2.getD j 0 else 0)) =
        ∑ j in Finset.Icc i2f (i2b - 1),
          (if idx1.getD i 0 = idx2.getD j 0
            then vals1.getD i 0 * vals2.getD j 0 else 0) := by
      intro i hi
      rw [Finset.mem_Icc] at hi
      rw [Icc_eq_insert_top i2f i2b hf2 hp2,
        Finset.sum_insert (top_not_mem_Icc i2f i2b hp2)]
      have := pairwise_le_getD idx1 h1 i i1b hi.2 hb1
      rw [if_neg (by omega), zero_add]
    rw [Finset.sum_congr rfl hcols]
  · rw [if_pos heq, if_pos (le_of_eq heq), if_pos (le_of_eq heq.symm)]
    unfold windowSum
    rw [Icc_eq_insert_top i1f i1b hf1 hp1,
      Finset.sum_insert (top_not_mem_Icc i1f i1b hp1)]
    have hrow : ∑ j in Finset.Icc i2f i2b,
        (if idx1.getD i1b 0 = idx2.getD j 0
          then vals1.getD i1b 0 * vals2.getD j 0 else 0) =
        vals1.getD i1b 0 * vals2.getD i2b 0 := by
      rw [Icc_eq_insert_top i2f i2b hf2 hp2,
        Finset.sum_insert (top_not_mem_Icc i2f i2b hp2), if_pos heq]
      have hrest : ∑ j in Finset.Icc i2f (i2b - 1),
          (if idx1.getD i1b 0 = idx2.getD j 0
            then vals1.getD i1b 0 * vals2.getD j 0 else 0) = 0 := by
        apply Finset.sum_eq_zero
        intro j hj
        rw [Finset.mem_Icc] at hj
        have := pairwise_lt_getD idx2 h2 j i2b (by omega) hb2
        rw [if_neg (by omega)]
      rw [hrest, add_zero]
    have hcols : ∀ i ∈ Finset.Icc i1f (i1b - 1),
        (∑ j in Finset.Icc i2f i2b,
          (if idx1.getD i 0 = idx2.getD j 0
            then vals1.getD i 0 * vals2.getD j 0 else 0)) =
        ∑ j in Finset.Icc i2f (i2b - 1),
          (if idx1.getD i 0 = idx2.getD j 0
            then vals1.getD i 0 * vals2.getD j 0 else 0) := by
      intro i hi
      rw [Finset.mem_Icc] at hi
      rw [Icc_eq_insert_top i2f i2b hf2 hp2,
        Finset.sum_insert (top_not_mem_Icc i2f i2b hp2)]
      have := pairwise_lt_getD idx1 h1 i i1b (by omega) hb1
      rw [if_neg (by omega), zero_add]
    rw [hrow, Finset.sum_congr rfl hcols]
  · rw [if_neg (by omega), if_pos (le_of_lt hgt), if_neg (by omega)]
    simp only [zero_add, Nat.sub_zero]
    unfold windowSum
    rw [Icc_eq_insert_top i1f i1b hf1 hp1,
      Finset.sum_insert (top_not_mem_Icc i1f i1b hp1)]
    have hrow : ∑ j in Finset.Icc i2f i2b,
        (if idx1.getD i1b 0 = idx2.getD j 0
          then vals1.getD i1b 0 * vals2.getD j 0 else 0) = 0 := by
      apply Finset.sum_eq_zero
      intro j hj
      rw [Finset.mem_Icc] at hj
      have := pairwise_le_getD idx2 h2 j i2b hj.2 hb2
      rw [if_neg (by omega)]
    rw [hrow, zero_add]

lemma sdmStep_i1f (idx1 : List Nat) (vals1 : List ℚ) (idx2 : List Nat)
    (vals2 : List ℚ) (red : ℚ → ℚ → ℚ → ℚ) (st : SDMSt) :
    (sdmStep idx1 vals1 idx2 vals2 red st).i1f =
      st.i1f + (if idx1.getD st.i1f 0 ≤ idx2.getD st.i2f 0 then 1 else 0) :=
  rfl

lemma sdmStep_i2f (idx1 : List Nat) (vals1 : List ℚ) (idx2 : List Nat)
    (vals2 : List ℚ) (red : ℚ → ℚ → ℚ → ℚ) (st : SDMSt) :
    (sdmStep idx1 vals1 idx2 vals2 red st).i2f =
      st.i2f + (if idx2.getD st.i2f 0 ≤ idx1.getD st.i1f 0 then 1 else 0) :=
  rfl

lemma sdmStep_i1b (idx1 : List Nat) (vals1 : List ℚ) (idx2 : List Nat)
    (vals2 : List ℚ) (red : ℚ → ℚ → ℚ → ℚ) (st : SDMSt) :
    (sdmStep idx1 vals1 idx2 vals2 red st).i1b =
      st.i1b - (if idx2.getD st.i2b 0 ≤ idx1.getD st.i1b 0 then 1 else 0) :=
  rfl

lemma sdmStep_i2b (idx1 : List Nat) (vals1 : List ℚ) (idx2 : List Nat)
    (vals2 : List ℚ) (red : ℚ → ℚ → ℚ → ℚ) (st : SDMSt) :
    (sdmStep idx1 vals1 idx2 vals2 red st).i2b =
      st.i2b - (if idx1.getD st.i1b 0 ≤ idx2.getD st.i2b 0 then 1 else 0) :=
  rfl

lemma sdmStep_acc_dot (idx1 : List Nat) (vals1 : List ℚ) (idx2 : List Nat)
    (vals2 : List ℚ) (st : SDMSt) :
    (sdmStep idx1 vals1 idx2 vals2 DotProductReduceTwo st).acc =
      st.acc +
      (if idx1.getD st.i1f 0 = idx2.getD st.i2f 0
        then vals1.getD st.i1f 0 * vals2.getD st.i2f 0 else 0) +
      (if idx1.getD st.i1b 0 = idx2.getD st.i2b 0
        then vals1.getD st.i1b 0 * vals2.getD st.i2b 0 else 0) := by
  unfold sdmStep DotProductReduceTwo
  dsimp only
  split_ifs <;> ring

lemma sdmStep_spec (idx1 : List Nat) (vals1 : List ℚ) (idx2 : List Nat)
    (vals2 : List ℚ) (h1 : List.Pairwise (· < ·) idx1)
    (h2 : List.Pairwise (· < ·) idx2) (st : SDMSt)
    (hg1 : st.i1f < st.i1b) (hg2 : st.i2f < st.i2b)
    (hb1 : st.i1b < idx1.length) (hb2 : st.i2b < idx2.length) :
    ((sdmStep idx1 vals1 idx2 vals2 DotProductReduceTwo st).acc +
      windowSum idx1 vals1 idx2 vals2
        (sdmStep idx1 vals1 idx2 vals2 DotProductReduceTwo st).i1f
        (sdmStep idx1 vals1 idx2 vals2 DotProductReduceTwo st).i1b
        (sdmStep idx1 vals1 idx2 vals2 DotProductReduceTwo st).i2f
        (sdmStep idx1 vals1 idx2 vals2 DotProductReduceTwo st).i2b =
      st.acc + windowSum idx1 vals1 idx2 vals2 st.i1f st.i1b st.i2f st.i2b) ∧
    (sdmStep idx1 vals1 idx2 vals2 DotProductReduceTwo st).i1b ≤ st.i1b ∧
    (sdmStep idx1 vals1 idx2 vals2 DotProductReduceTwo st).i2b ≤ st.i2b ∧
    (sdmStep idx1 vals1 idx2 vals2 DotProductReduceTwo st).i1b -
        (sdmStep idx1 vals1 idx2 vals2 DotProductReduceTwo st).i1f +
        ((sdmStep idx1 vals1 idx2 vals2 DotProductReduceTwo st).i2b -
          (sdmStep idx1 vals1 idx2 vals2 DotProductReduceTwo st).i2f) + 1 ≤
      st.i1b - st.i1f + (st.i2b - st.i2f) := by
  refine ⟨?_, ?_, ?_, ?_⟩
  · rw [sdmStep_acc_dot, sdmStep_i1f, sdmStep_i2f, sdmStep_i1b, sdmStep_i2b]
    rw [windowSum_front idx1 vals1 idx2 vals2 h1 h2 st.i1f st.i1b st.i2f
      st.i2b hg1 hg2 hb1 hb2]
    rw [windowSum_back idx1 vals1 idx2 vals2 h1 h2
      (st.i1f + if idx1.getD st.i1f 0 ≤ idx2.getD st.i2f 0 then 1 else 0)
      st.i1b
      (st.i2f + if idx2.getD st.i2f 0 ≤ idx1.getD st.i1f 0 then 1 else 0)
      st.i2b
      (by split_ifs <;> omega) (by split_ifs <;> omega)
      (by omega) (by omega) hb1 hb2]
    ring
  · rw [sdmStep_i1b]
    split_ifs <;> omega
  · rw [sdmStep_i2b]
    split_ifs <;> omega
  · rw [sdmStep_i1f, sdmStep_i2f, sdmStep_i1b, sdmStep_i2b]
    split_ifs <;> omega

lemma sdmLoop_spec (idx1 : List Nat) (vals1 : List ℚ) (idx2 : List Nat)
    (vals2 : List ℚ) (h1 : List.Pairwise (· < ·) idx1)
    (h2 : List.Pairwise (· < ·) idx2) :
    ∀ (fuel : Nat) (st : SDMSt), st.i1b < idx1.length →
      st.i2b < idx2.length → st.i1b - st.i1f + (st.i2b - st.i2f) ≤ fuel →
      ((sdmLoop idx1 vals1 idx2 vals2 DotProductReduceTwo fuel st).acc +
        windowSum idx1 vals1 idx2 vals2
          (sdmLoop idx1 vals1 idx2 vals2 DotProductReduceTwo fuel st).i1f
          (sdmLoop idx1 vals1 idx2 vals2 DotProductReduceTwo fuel st).i1b
          (sdmLoop idx1 vals1 idx2 vals2 DotProductReduceTwo fuel st).i2f
          (sdmLoop idx1 vals1 idx2 vals2 DotProductReduceTwo fuel st).i2b =
        st.acc +
          windowSum idx1 vals1 idx2 vals2 st.i1f st.i1b st.i2f st.i2b) ∧
      ¬((sdmLoop idx1 vals1 idx2 vals2 DotProductReduceTwo fuel st).i1f <
          (sdmLoop idx1 vals1 idx2 vals2 DotProductReduceTwo fuel st).i1b ∧
        (sdmLoop idx1 vals1 idx2 vals2 DotProductReduceTwo fuel st).i2f <
          (sdmLoop idx1 vals1 idx2 vals2 DotProductReduceTwo fuel st).i2b) ∧
      (sdmLoop idx1 vals1 idx2 vals2 DotProductReduceTwo fuel st).i1b ≤
        st.i1b ∧
      (sdmLoop idx1 vals1 idx2 vals2 DotProductReduceTwo fuel st).i2b ≤
        st.i2b := by
  intro fuel
  induction fuel with
  | zero =>
    intro st hb1 hb2 hm
    exact ⟨rfl, by show ¬(st.i1f < st.i1b ∧ st.i2f < st.i2b); omega,
      le_rfl, le_rfl⟩
  | succ fuel ih =>
    intro st hb1 hb2 hm
    simp only [sdmLoop]
    by_cases hg : st.i1f < st.i1b ∧ st.i2f < st.i2b
    · rw [if_pos hg]
      obtain ⟨hse, hsb1, hsb2, hsm⟩ := sdmStep_spec idx1 vals1 idx2 vals2
        h1 h2 st hg.1 hg.2 hb1 hb2
      obtain ⟨hre, hrx, hrb1, hrb2⟩ := ih
        (sdmStep idx1 vals1 idx2 vals2 DotProductReduceTwo st)
        (by omega) (by omega) (by omega)
      exact ⟨by rw [hre, hse], hrx, by omega, by omega⟩
    · rw [if_neg hg]
      exact ⟨rfl, hg, le_rfl, le_rfl⟩

lemma sdmScan2_spec (idx2 : List Nat) (vals2 : List ℚ)
    (h2 : List.Pairwise (· < ·) idx2) (target : Nat) (v1 : ℚ) (i2b : Nat)
    (hb : i2b < idx2.length) :
    ∀ (fuel i2f : Nat) (acc : ℚ), fuel = i2b + 1 - i2f →
      sdmScan2 target v1 idx2 vals2 DotProductReduceTwo fuel i2f acc =
        acc + ∑ j in Finset.Icc i2f i2b,
          (if target = idx2.getD j 0 then v1 * vals2.getD j 0 else 0) := by
  intro fuel
  induction fuel with
  | zero =>
    intro i2f acc hf
    rw [Finset.Icc_eq_empty (by omega), Finset.sum_empty, add_zero]
    rfl
  | succ fuel ih =>
    intro i2f acc hf
    have hle : i2f ≤ i2b := by omega
    simp only [sdmScan2]
    rw [Icc_eq_insert_bot i2f i2b hle,
      Finset.sum_insert (bot_not_mem_Icc i2f i2b)]
    by_cases hc : idx2.getD i2f 0 = target
    · rw [if_pos hc, if_pos hc.symm]
      have hrest : ∑ j in Finset.Icc (i2f + 1) i2b,
          (if target = idx2.getD j 0 then v1 * vals2.getD j 0 else 0) = 0 := by
        apply Finset.sum_eq_zero
        intro j hj
        rw [Finset.mem_Icc] at hj
        have := pairwise_lt_getD idx2 h2 i2f j (by omega)
          (lt_of_le_of_lt hj.2 hb)
        rw [if_neg (by omega)]
      rw [hrest, add_zero]
      show acc + v1 * vals2.getD i2f 0 = acc + v1 * vals2.getD i2f 0
      rfl
    · rw [if_neg hc, if_neg (fun h => hc h.symm), zero_add]
      exact ih (i2f + 1) acc (by omega)

lemma sdmScan1_spec (idx1 : List Nat) (vals1 : List ℚ)
    (h1 : List.Pairwise (· < ·) idx1) (target : Nat) (v2 : ℚ) (i1b : Nat)
    (hb : i1b < idx1.length) :
    ∀ (fuel i1f : Nat) (acc : ℚ), fuel = i1b + 1 - i1f →
      sdmScan1 target v2 idx1 vals1 DotProductReduceTwo fuel i1f acc =
        acc + ∑ i in Finset.Icc i1f i1b,
          (if idx1.getD i 0 = target then vals1.getD i 0 * v2 else 0) := by
  intro fuel
  induction fuel with
  | zero =>
    intro i1f acc hf
    rw [Finset.Icc_eq_empty (by omega), Finset.sum_empty, add_zero]
    rfl
  | succ fuel ih =>
    intro i1f acc hf
    have hle : i1f ≤ i1b := by omega
    simp only [sdmScan1]
    rw [Icc_eq_insert_bot i1f i1b hle,
      Finset.sum_insert (bot_not_mem_Icc i1f i1b)]
    by_cases hc : idx1.getD i1f 0 = target
    · rw [if_pos hc, if_pos hc]
      have hrest : ∑ i in Finset.Icc (i1f + 1) i1b,
          (if idx1.getD i 0 = target then vals1.getD i 0 * v2 else 0) = 0 := by
        apply Finset.sum_eq_zero
        intro i hi
        rw [Finset.mem_Icc] at hi
        have := pairwise_lt_getD idx1 h1 i1f i (by omega)
          (lt_of_le_of_lt hi.2 hb)
        rw [if_neg (by omega)]
      rw [hrest, add_zero]
      show acc + vals1.getD i1f 0 * v2 = acc + vals1.getD i1f 0 * v2
      rfl
    · rw [if_neg hc, if_neg hc, zero_add]
      exact ih (i1f + 1) acc (by omega)

/-- C9.  For strictly increasing (sorted, unique) index arrays, the
dot-product reduction (`sparse_distance` with `DotProductReduceTwo` and the
no-op one-sided reducer, i.e. `sparse_distance_measure_only_reduce_two`)
returns exactly the sum over all matching index pairs of the products of the
corresponding values, each matching pair contributing exactly once. -/
theorem C9_dot_product_reduce_exact (docIdx : List Nat) (docVals : List ℚ)
    (xIdx : List Nat) (xVals : List ℚ)
    (h1 : List.Pairwise (· < ·) docIdx) (h2 : List.Pairwise (· < ·) xIdx) :
    sparse_dot_product_reduce docIdx docVals xIdx xVals =
      ∑ i in Finset.range docIdx.length, ∑ j in Finset.range xIdx.length,
        (if docIdx.getD i 0 = xIdx.getD j 0
          then docVals.getD i 0 * xVals.getD j 0 else 0) := by
  unfold sparse_dot_product_reduce sparse_distance_measure_only_reduce_two
  by_cases hz : docIdx.length = 0 ∨ xIdx.length = 0
  · rw [if_pos hz]
    rcases hz with hz | hz
    · rw [hz]
      simp
    · rw [hz]
      simp
  · rw [if_neg hz]
    push_neg at hz
    have hn1 : 0 < docIdx.length := by omega
    have hn2 : 0 < xIdx.length := by omega
    dsimp only
    obtain ⟨hle, hexit, hlb1, hlb2⟩ := sdmLoop_spec docIdx docVals xIdx
      xVals h1 h2 ((docIdx.length - 1) + (xIdx.length - 1))
      ⟨0, 0, docIdx.length - 1, xIdx.length - 1, 0⟩
      (by show docIdx.length - 1 < docIdx.length; omega)
      (by show xIdx.length - 1 < xIdx.length; omega)
      (by show docIdx.length - 1 - 0 + (xIdx.length - 1 - 0) ≤ _; omega)
    set r := sdmLoop docIdx docVals xIdx xVals DotProductReduceTwo
      ((docIdx.length - 1) + (xIdx.length - 1))
      ⟨0, 0, docIdx.length - 1, xIdx.length - 1, 0⟩ with hr
    have hlb1' : r.i1b ≤ docIdx.length - 1 := hlb1
    have hlb2' : r.i2b ≤ xIdx.length - 1 := hlb2
    have hle' : r.acc + windowSum docIdx docVals xIdx xVals r.i1f r.i1b
        r.i2f r.i2b =
        windowSum docIdx docVals xIdx xVals 0 (docIdx.length - 1) 0
          (xIdx.length - 1) := by
      rw [hle]
      show (0 : ℚ) + _ = _
      rw [zero_add]
    have hWfull : windowSum docIdx docVals xIdx xVals 0
        (docIdx.length - 1) 0 (xIdx.length - 1) =
        ∑ i in Finset.range docIdx.length, ∑ j in Finset.range xIdx.length,
          (if docIdx.getD i 0 = xIdx.getD j 0
            then docVals.getD i 0 * xVals.getD j 0 else 0) := by
      unfold windowSum
      rw [Icc_zero_pred docIdx.length hn1]
      apply Finset.sum_congr rfl
      intro i _
      rw [Icc_zero_pred xIdx.length hn2]
    by_cases hc1 : r.i1f = r.i1b
    · rw [if_pos hc1]
      rw [sdmScan2_spec xIdx xVals h2 (docIdx.getD r.i1f 0)
        (docVals.getD r.i1f 0) r.i2b (by omega) (r.i2b + 1 - r.i2f)
        r.i2f r.acc rfl]
      have hrow : windowSum docIdx docVals xIdx xVals r.i1f r.i1b r.i2f
          r.i2b =
          ∑ j in Finset.Icc r.i2f r.i2b,
            (if docIdx.getD r.i1f 0 = xIdx.getD j 0
              then docVals.getD r.i1f 0 * xVals.getD j 0 else 0) := by
        unfold windowSum
        rw [← hc1, Finset.Icc_self, Finset.sum_singleton]
      rw [← hrow, hle', hWfull]
    · rw [if_neg hc1]
      by_cases hc2 : r.i2f = r.i2b
      · rw [if_pos hc2]
        rw [sdmScan1_spec docIdx docVals h1 (xIdx.getD r.i2f 0)
          (xVals.getD r.i2f 0) r.i1b (by omega) (r.i1b + 1 - r.i1f)
          r.i1f r.acc rfl]
        have hcol : windowSum docIdx docVals xIdx xVals r.i1f r.i1b r.i2f
            r.i2b =
            ∑ i in Finset.Icc r.i1f r.i1b,
              (if docIdx.getD i 0 = xIdx.getD r.i2f 0
                then docVals.getD i 0 * xVals.getD r.i2f 0 else 0) := by
          unfold windowSum
          rw [← hc2]
          apply Finset.sum_congr rfl
          intro i _
          rw [Finset.Icc_self, Finset.sum_singleton]
        rw [← hcol, hle', hWfull]
      · rw [if_neg hc2]
        have hempty : windowSum docIdx docVals xIdx xVals r.i1f r.i1b
            r.i2f r.i2b = 0 := by
          have hcross : r.i1b < r.i1f ∨ r.i2b < r.i2f := by omega
          rcases hcross with h | h
          · unfold windowSum
            rw [Finset.Icc_eq_empty (by omega), Finset.sum_empty]
          · unfold windowSum
            apply Finset.sum_eq_zero
            intro i _
            rw [Finset.Icc_eq_empty (by omega), Finset.sum_empty]
        have := hle'
        rw [hempty, add_zero] at this
        rw [this, hWfull]

/-- Witness for C9: two three-term views sharing ids 3 and 7. -/
theorem C9_dot_product_reduce_exact_witness :
    List.Pairwise (· < ·) ([1, 3, 7] : List Nat) ∧
    List.Pairwise (· < ·) ([3, 7, 9] : List Nat) ∧
    sparse_dot_product_reduce [1, 3, 7] [2, 5, 11] [3, 7, 9]
        [1 / 2, 4, 6] =
      ∑ i in Finset.range ([1, 3, 7] : List Nat).length,
        ∑ j in Finset.range ([3, 7, 9] : List Nat).length,
          (if ([1, 3, 7] : List Nat).getD i 0 =
              ([3, 7, 9] : List Nat).getD j 0
            then ([2, 5, 11] : List ℚ).getD i 0 *
              ([1 / 2, 4, 6] : List ℚ).getD j 0
            else 0) :=
  ⟨by decide, by decide,
    C9_dot_product_reduce_exact [1, 3, 7] [2, 5, 11] [3, 7, 9]
      [1 / 2, 4, 6] (by decide) (by decide)⟩

/-! ### C3: `search_knn`

The score of a candidate row combines the dense metric (`space_l2.h` /
`space_ip.h` reference kernels over the identity float quantizer) with the
optional sparse head.  `setup_metric` sets `reverse_query_score_` exactly
when the distance type is `l2`, and the `SparseDataHolder` logit is the
squared-L2 reduction in that same case (`set_params` with
`use_l2 = (distance_type == "l2")`), the dot-product reduction otherwise.
The priority queue `std::priority_queue<pair<float,uint64_t>, ...,
std::greater<...>>` is a min-heap on the lexicographic pair order; it is
modelled as the ascending-sorted list of its content, whose head is the
top. -/

/-- `l2_sqr_ref` (`space_l2.h`): the squared L2 distance over `dim`
floats. -/
def l2_sqr (dim : Nat) (v1 v2 : List ℚ) : ℚ :=
  ∑ i in Finset.range dim, (v1.getD i 0 - v2.getD i 0) * (v1.getD i 0 - v2.getD i 0)

/-- `inner_product_ref` (`space_ip.h`). -/
def inner_product (dim : Nat) (v1 v2 : List ℚ) : ℚ :=
  ∑ i in Finset.range dim, v1.getD i 0 * v2.getD i 0

/-- `SquaredL2ReduceTwo::operator()`: `*acc += (a - b)^2`. -/
def SquaredL2ReduceTwo (acc a b : ℚ) : ℚ := acc + (a - b) * (a - b)

/-- `SquaredL2ReduceOne::operator()`: `*acc += a^2`. -/
def SquaredL2ReduceOne (acc a : ℚ) : ℚ := acc + a * a

/-- Pointer/accumulator state of `sparse_distance_measure` (the variant
with a one-sided reducer); the pointers are `ssize_t`. -/
structure SDMFSt where
  i1f : Int
  i2f : Int
  i1b : Int
  i2b : Int
  r0 : ℚ
  r1 : ℚ
deriving DecidableEq

/-- One iteration of the branchless bidirectional loop of
`sparse_distance_measure`: the four `*Int(&v) &= -mask` bit tricks zero a
value whose pointer does not advance, so the two `reduce_two` calls always
run, on masked values. -/
def sdmFullStep (idx1 : List Nat) (vals1 : List ℚ) (idx2 : List Nat)
    (vals2 : List ℚ) (red2 : ℚ → ℚ → ℚ → ℚ) (st : SDMFSt) : SDMFSt :=
  let a1 : Nat := if idx1.getD st.i1f.toNat 0 ≤ idx2.getD st.i2f.toNat 0
    then 1 else 0
  let a2 : Nat := if idx2.getD st.i2f.toNat 0 ≤ idx1.getD st.i1f.toNat 0
    then 1 else 0
  let s2 : Nat := if idx1.getD st.i1b.toNat 0 ≤ idx2.getD st.i2b.toNat 0
    then 1 else 0
  let s1 : Nat := if idx2.getD st.i2b.toNat 0 ≤ idx1.getD st.i1b.toNat 0
    then 1 else 0
  let fl := if a1 = 1 then vals1.getD st.i1f.toNat 0 else 0
  let fr := if a2 = 1 then vals2.getD st.i2f.toNat 0 else 0
  let bl := if s1 = 1 then vals1.getD st.i1b.toNat 0 else 0
  let br := if s2 = 1 then vals2.getD st.i2b.toNat 0 else 0
  ⟨st.i1f + a1, st.i2f + a2, st.i1b - s1, st.i2b - s2,
    red2 st.r0 fl fr, red2 st.r1 bl br⟩

/-- The first `while (i1_front < i1_back && i2_front < i2_back)` loop. -/
def sdmFullLoop1 (idx1 : List Nat) (vals1 : List ℚ) (idx2 : List Nat)
    (vals2 : List ℚ) (red2 : ℚ → ℚ → ℚ → ℚ) : Nat → SDMFSt → SDMFSt
  | 0, st => st
  | fuel + 1, st =>
    if st.i1f < st.i1b ∧ st.i2f < st.i2b then
      sdmFullLoop1 idx1 vals1 idx2 vals2 red2 fuel
        (sdmFullStep idx1 vals1 idx2 vals2 red2 st)
    else st

/-- The second `while (i1_front <= i1_back && i2_front <= i2_back)` merge
loop, folding matches with `reduce_two` and lone ids with `reduce_one`. -/
def sdmFullLoop2 (idx1 : List Nat) (vals1 : List ℚ) (idx2 : List Nat)
    (vals2 : List ℚ) (red2 : ℚ → ℚ → ℚ → ℚ) (red1 : ℚ → ℚ → ℚ) :
    Nat → SDMFSt → SDMFSt
  | 0, st => st
  | fuel + 1, st =>
    if st.i1f ≤ st.i1b ∧ st.i2f ≤ st.i2b then
      if idx1.getD st.i1f.toNat 0 = idx2.getD st.i2f.toNat 0 then
        let r0 := red2 st.r0 (vals1.getD st.i1f.toNat 0)
          (vals2.getD st.i2f.toNat 0)
        sdmFullLoop2 idx1 vals1 idx2 vals2 red2 red1 fuel
          { st with i1f := st.i1f + 1, i2f := st.i2f + 1, r0 := r0 }
      else if idx1.getD st.i1f.toNat 0 < idx2.getD st.i2f.toNat 0 then
        let r0 := red1 st.r0 (vals1.getD st.i1f.toNat 0)
        sdmFullLoop2 idx1 vals1 idx2 vals2 red2 red1 fuel
          { st with i1f := st.i1f + 1, r0 := r0 }
      else
        let r0 := red1 st.r0 (vals2.getD st.i2f.toNat 0)
        sdmFullLoop2 idx1 vals1 idx2 vals2 red2 red1 fuel
          { st with i2f := st.i2f + 1, r0 := r0 }
    else st

/-- A trailing `for` over one side, folding every value with
`reduce_one`. -/
def sdmFullTail (vals : List ℚ) (red1 : ℚ → ℚ → ℚ) :
    Nat → Int → ℚ → ℚ
  | 0, _, acc => acc
  | fuel + 1, i, acc =>
    sdmFullTail vals red1 fuel (i + 1) (red1 acc (vals.getD i.toNat 0))

/-- `sparse_distance_measure` (`sparse_distance_measure.h` lines 117-179):
the branchless bidirectional loop, the front merge loop, the one-sided
tail, then `result0 + result1`. -/
def sparse_distance_measure (idx1 : List Nat) (vals1 : List ℚ) (n1 : Nat)
    (idx2 : List Nat) (vals2 : List ℚ) (n2 : Nat)
    (red2 : ℚ → ℚ → ℚ → ℚ) (red1 : ℚ → ℚ → ℚ) : ℚ :=
  let st0 : SDMFSt := ⟨0, 0, (n1 : Int) - 1, (n2 : Int) - 1, 0, 0⟩
  let st1 := sdmFullLoop1 idx1 vals1 idx2 vals2 red2
    ((st0.i1b + st0.i2b - st0.i1f - st0.i2f).toNat) st0
  let st2 := sdmFullLoop2 idx1 vals1 idx2 vals2 red2 red1
    ((st1.i1b - st1.i1f + 1 + (st1.i2b - st1.i2f + 1)).toNat) st1
  let r0 :=
    if st2.i1b < st2.i1f then
      sdmFullTail vals2 red1 ((st2.i2b - st2.i2f + 1).toNat) st2.i2f st2.r0
    else
      sdmFullTail vals1 red1 ((st2.i1b - st2.i1f + 1).toNat) st2.i1f st2.r0
  r0 + st2.r1

/-- `SparseRowIndex::sparse_squared_l2_reduce`: `sparse_distance(doc_ts, x,
SquaredL2ReduceTwo(), SquaredL2ReduceOne())`; `SquaredL2ReduceOne::is_noop`
is `false`, so this is the `sparse_distance_measure` path. -/
def sparse_squared_l2_reduce (docIdx : List Nat) (docVals : List ℚ)
    (xIdx : List Nat) (xVals : List ℚ) : ℚ :=
  sparse_distance_measure docIdx docVals docIdx.length xIdx xVals
    xIdx.length SquaredL2ReduceTwo SquaredL2ReduceOne

/-- `BruteforceSearch::transform_sparse_query`: `nullptr` unless the meta
has a positive fusion alpha, a sparse query was given, and the sparse head
exists. -/
def transform_sparse_query (meta : BFMeta) (sparse : Option (List (Nat × ℚ))) :
    Option (List (Nat × ℚ)) :=
  if meta.alpha = 0 ∨ sparse.isNone ∨ ¬meta.enableSparse then none else sparse

/-- `BruteforceSearch::compute_score` (`bruteforce.h` lines 413-431): the
dense raw metric, reversed to `1 - raw` exactly when `reverse_query_score_`
(the L2 space); then, with a live sparse head, the sparse logit --
ALSO reversed to `1 - raw` under L2 -- fused as
`dense * (1 - alpha) + sparse * alpha`. -/
def BFState.compute_score (s : BFState) (meta : BFMeta) (q : List ℚ)
    (qsv : Option (List (Nat × ℚ))) (idx : Nat) : ℚ :=
  let row := (s.rows.getD idx default).vec
  let denseRaw := if meta.distL2 then l2_sqr meta.dim q row
    else inner_product meta.dim q row
  let denseScore := if meta.distL2 then 1 - denseRaw else denseRaw
  match qsv with
  | none => denseScore
  | some qv =>
    if ¬meta.enableSparse ∨ meta.alpha ≤ 0 then denseScore
    else
      let doc := s.sparse_rows.getD idx []
      let sparseRaw :=
        if meta.distL2 then
          sparse_squared_l2_reduce (doc.map Prod.fst) (doc.map Prod.snd)
            (qv.map Prod.fst) (qv.map Prod.snd)
        else
          sparse_dot_product_reduce (doc.map Prod.fst) (doc.map Prod.snd)
            (qv.map Prod.fst) (qv.map Prod.snd)
      let sparseScore := if meta.distL2 then 1 - sparseRaw else sparseRaw
      denseScore * (1 - meta.alpha) + sparseScore * meta.alpha

/-- `std::greater` on `std::pair<float, uint64_t>`: the heap's strict-weak
order is lexicographic; the modelled queue keeps its content sorted by the
non-strict version, least (the heap top) first. -/
def pairLeB (p q : ℚ × Nat) : Bool :=
  if p.1 < q.1 then true else if p.1 = q.1 then decide (p.2 ≤ q.2) else false

/-- Insertion into the sorted queue model. -/
def pqInsert (p : ℚ × Nat) : List (ℚ × Nat) → List (ℚ × Nat)
  | [] => [p]
  | q :: rest => if pairLeB p q then p :: q :: rest else q :: pqInsert p rest

/-- One candidate against the bounded queue: push while below `k`, else
replace the top exactly when the new score strictly beats it
(`dist > pq.top().first`). -/
def pqStep (k : Nat) (pq : List (ℚ × Nat)) (c : ℚ × Nat) : List (ℚ × Nat) :=
  if pq.length < k then pqInsert c pq
  else if (pq.headD (0, 0)).1 < c.1 then pqInsert c pq.tail
  else pq

/-- The candidate `(score, label)` stream of `search_knn`: every row in
buffer order when there is no filter; otherwise the rows found through
`offset_map_` for the filter's ascending id list (ids without a live
offset are skipped). -/
def BFState.search_candidates (s : BFState) (meta : BFMeta) (q : List ℚ)
    (qsv : Option (List (Nat × ℚ))) (filter : Option Bitmap) :
    List (ℚ × Nat) :=
  match filter with
  | none =>
    (List.range s.rows.length).map (fun i =>
      (s.compute_score meta q qsv i, (s.rows.getD i default).label))
  | some f =>
    f.get_set_list.filterMap (fun o =>
      match mapFind s.offset_map o with
      | none => none
      | some idx =>
        some (s.compute_score meta q qsv idx,
          (s.rows.getD idx default).label))

/-- `BruteforceSearch::search_knn` (`bruteforce.h` lines 181-266).  Early
exits (`nullptr` query, `k = 0`, empty store, empty filter) leave the
output vectors empty.  Candidates stream through the bounded min-heap; the
flush loop writes the pops back-to-front, so the output is the heap content
in DESCENDING pair order: `(labels, scores)`. -/
def BFState.search_knn (s : BFState) (meta : BFMeta)
    (query : Option (List ℚ)) (k : Nat) (filter : Option Bitmap)
    (sparseQ : Option (List (Nat × ℚ))) : List Nat × List ℚ :=
  match query with
  | none => ([], [])
  | some q =>
    if k = 0 then ([], [])
    else if s.rows.length = 0 then ([], [])
    else
      match filter with
      | some f =>
        if f.isempty then ([], [])
        else
          let qsv := transform_sparse_query meta sparseQ
          let pq := (s.search_candidates meta q qsv (some f)).foldl
            (pqStep k) []
          (pq.reverse.map Prod.snd, pq.reverse.map Prod.fst)
      | none =>
        let qsv := transform_sparse_query meta sparseQ
        let pq := (s.search_candidates meta q qsv none).foldl (pqStep k) []
        (pq.reverse.map Prod.snd, pq.reverse.map Prod.fst)

/-- The C3 claim's score formula, written from the spec: the dense raw
score is reversed under L2, the sparse raw score is NOT, and the fusion is
`(1 - alpha) * dense + alpha * sparse`. -/
def claimScore (alpha denseRaw sparseRaw : ℚ) (l2 : Bool) : ℚ :=
  (1 - alpha) * (if l2 then 1 - denseRaw else denseRaw) + alpha * sparseRaw

/-- C3 counterexample.  On an L2 store with a sparse head (`alpha = 1/2`),
one row (label 5, dense vector `[0]`, sparse row `{1 ↦ 3}`) and the query
(dense `[0]`, sparse `{1 ↦ 1}`): the dense raw is `0` (reversed to `1`),
the sparse raw is the squared-L2 logit `(3-1)^2 = 4`.  The claim's formula
`(1-α)·dense + α·sparse_raw` gives `5/2`, but `compute_score` ALSO reverses
the sparse raw under L2 (`1 - 4 = -3`) and `search_knn` returns the score
`-1`. -/
theorem C3_sparse_raw_also_reversed_for_l2 :
    ((⟨[⟨[0], 5, 0⟩], [(5, 0)], [(0, 0)], [[(1, 3)]], 1⟩ :
        BFState).search_knn ⟨true, 1, true, 1 / 2⟩ (some [0]) 1 none
        (some [(1, 1)])).2 = [-1] ∧
    claimScore (1 / 2) (l2_sqr 1 [0] [0])
      (sparse_squared_l2_reduce [1] [3] [1] [1]) true = 5 / 2 ∧
    (-1 : ℚ) ≠ 5 / 2 := by
  refine ⟨?_, ?_, by norm_num⟩
  · norm_num [BFState.search_knn, BFState.search_candidates,
      transform_sparse_query, BFState.compute_score, l2_sqr,
      sparse_squared_l2_reduce, sparse_distance_measure, sdmFullLoop1,
      sdmFullLoop2, sdmFullStep, sdmFullTail, SquaredL2ReduceTwo,
      SquaredL2ReduceOne, pqStep, pqInsert, pairLeB, List.range_succ,
      Finset.sum_range_one, mapFind]
  · norm_num [claimScore, l2_sqr, sparse_squared_l2_reduce,
      sparse_distance_measure, sdmFullLoop1, sdmFullLoop2, sdmFullStep,
      sdmFullTail, SquaredL2ReduceTwo, SquaredL2ReduceOne,
      Finset.sum_range_one]

/-- The descending order on scores the spec sorts by. -/
def rdesc : ℚ → ℚ → Prop := fun a b => b ≤ a

instance : IsTotal ℚ rdesc := ⟨fun a b => le_total b a⟩

instance : IsTrans ℚ rdesc := ⟨fun _ _ _ h1 h2 => le_trans h2 h1⟩

instance : IsAntisymm ℚ rdesc := ⟨fun _ _ h1 h2 => le_antisymm h2 h1⟩

instance : DecidableRel rdesc := fun a b =>
  inferInstanceAs (Decidable (b ≤ a))

/-- The spec-side full descending sort of a score list. -/
def sortScoresDesc (xs : List ℚ) : List ℚ := List.insertionSort rdesc xs

lemma sortScoresDesc_sorted (xs : List ℚ) :
    (sortScoresDesc xs).Sorted rdesc :=
  List.sorted_insertionSort rdesc xs

lemma sortScoresDesc_perm (xs : List ℚ) : List.Perm (sortScoresDesc xs) xs :=
  List.perm_insertionSort rdesc xs

lemma sortScoresDesc_congr (xs ys : List ℚ) (h : List.Perm xs ys) :
    sortScoresDesc xs = sortScoresDesc ys :=
  List.eq_of_perm_of_sorted
    (((sortScoresDesc_perm xs).trans h).trans (sortScoresDesc_perm ys).symm)
    (sortScoresDesc_sorted xs) (sortScoresDesc_sorted ys)

lemma sortScoresDesc_cons (x : ℚ) (xs : List ℚ) :
    sortScoresDesc (x :: xs) =
      List.orderedInsert rdesc x (sortScoresDesc xs) := rfl

lemma getD_sorted_desc_le (L : List ℚ) (hs : L.Sorted rdesc) (i j : Nat)
    (hij : i ≤ j) (hj : j < L.length) : L.getD j 0 ≤ L.getD i 0 := by
  rcases Nat.lt_or_ge i j with hlt | hge
  · have hi : i < L.length := lt_trans hlt hj
    rw [List.getD_eq_getElem?_getD, List.getD_eq_getElem?_getD,
      List.getElem?_eq_getElem hi, List.getElem?_eq_getElem hj]
    exact List.pairwise_iff_getElem.mp hs i j hi hj hlt
  · have : i = j := by omega
    rw [this]

lemma take_succ_getD {α} (L : List α) (n : Nat) (d0 : α)
    (h : n < L.length) : L.take (n + 1) = L.take n ++ [L.getD n d0] := by
  rw [List.take_succ, List.getElem?_eq_getElem h,
    List.getD_eq_getElem?_getD, List.getElem?_eq_getElem h]
  rfl

lemma coe_cons_congr (x : ℚ) (A B : List ℚ)
    (h : (↑A : Multiset ℚ) = ↑B) :
    (↑(x :: A) : Multiset ℚ) = ↑(x :: B) := by
  rw [← Multiset.cons_coe, ← Multiset.cons_coe, h]

/-- Inserting a score that does not beat the `k`-th largest leaves the
top-`k` of a descending-sorted list unchanged (as a multiset). -/
lemma topk_insert_low (L : List ℚ) (hs : L.Sorted rdesc) (k : Nat)
    (hk0 : 0 < k) (hk : k ≤ L.length) (d : ℚ)
    (hd : d ≤ L.getD (k - 1) 0) :
    (↑(List.take k (List.orderedInsert rdesc d L)) : Multiset ℚ) =
      ↑(List.take k L) := by
  induction L generalizing k with
  | nil => exact absurd hk (by simp; omega)
  | cons x L ih =>
    rw [List.orderedInsert]
    obtain ⟨j, rfl⟩ : ∃ j, k = j + 1 := ⟨k - 1, by omega⟩
    simp only [Nat.add_sub_cancel] at hd
    by_cases hdx : rdesc d x
    · rw [if_pos hdx]
      have hmx : (x :: L).getD j 0 ≤ x :=
        getD_sorted_desc_le (x :: L) hs 0 j (by omega) (by omega)
      have hdex : d = x := le_antisymm (le_trans hd hmx) hdx
      by_cases hj0 : j = 0
      · subst hj0
        simp [hdex]
      · obtain ⟨i, rfl⟩ : ∃ i, j = i + 1 := ⟨j - 1, by omega⟩
        have hmval : (x :: L).getD (i + 1) 0 = L.getD i 0 := rfl
        have hiL : i < L.length := by
          simp only [List.length_cons] at hk
          omega
        have htake3 : L.take (i + 1) = L.take i ++ [L.getD i 0] :=
          take_succ_getD L i 0 hiL
        show (↑(d :: x :: L.take i) : Multiset ℚ) =
          ↑(x :: L.take (i + 1))
        rw [htake3]
        apply Multiset.coe_eq_coe.mpr
        have hdm : d = L.getD i 0 := by
          refine le_antisymm (by rw [← hmval]; exact hd) ?_
          rw [hdex]
          have := getD_sorted_desc_le (x :: L) hs 0 (i + 1) (by omega)
            (by simp; omega)
          exact this
        rw [hdm]
        refine (List.Perm.swap x (L.getD i 0) (L.take i)).trans ?_
        exact List.Perm.cons x (List.perm_append_singleton _ _).symm
    · rw [if_neg hdx]
      by_cases hj0 : j = 0
      · subst hj0
        simp
      · obtain ⟨i, rfl⟩ : ∃ i, j = i + 1 := ⟨j - 1, by omega⟩
        have hmval : (x :: L).getD (i + 1) 0 = L.getD i 0 := rfl
        have hIH := ih hs.of_cons (i + 1) (by omega)
          (by simp only [List.length_cons] at hk; omega) ?_
        · show (↑(x :: (List.orderedInsert rdesc d L).take (i + 1)) :
            Multiset ℚ) = ↑(x :: L.take (i + 1))
          exact coe_cons_congr x _ _ hIH
        · simp only [Nat.add_sub_cancel]
          rw [← hmval]
          exact hd

/-- Inserting a score that strictly beats the `k`-th largest replaces that
`k`-th largest in the top-`k` multiset. -/
lemma topk_insert_high (L : List ℚ) (hs : L.Sorted rdesc) (k : Nat)
    (hk0 : 0 < k) (hk : k ≤ L.length) (d : ℚ)
    (hd : L.getD (k - 1) 0 < d) :
    (↑(List.take k (List.orderedInsert rdesc d L)) : Multiset ℚ) +
      {L.getD (k - 1) 0} =
      d ::ₘ (↑(List.take k L) : Multiset ℚ) := by
  induction L generalizing k with
  | nil => exact absurd hk (by simp; omega)
  | cons x L ih =>
    rw [List.orderedInsert]
    obtain ⟨j, rfl⟩ : ∃ j, k = j + 1 := ⟨k - 1, by omega⟩
    simp only [Nat.add_sub_cancel] at hd ⊢
    by_cases hdx : rdesc d x
    · rw [if_pos hdx]
      have hjlen : j < (x :: L).length := by
        simp only [List.length_cons] at hk ⊢
        omega
      have htake : (x :: L).take (j + 1) =
          (x :: L).take j ++ [(x :: L).getD j 0] :=
        take_succ_getD (x :: L) j 0 hjlen
      show (↑(d :: (x :: L).take j) : Multiset ℚ) + {(x :: L).getD j 0} =
        d ::ₘ ↑((x :: L).take (j + 1))
      rw [htake, ← Multiset.cons_coe]
      rw [show ((↑((x :: L).take j ++ [(x :: L).getD j 0]) : Multiset ℚ)) =
        (↑((x :: L).take j) : Multiset ℚ) + {(x :: L).getD j 0} from by
          rw [← Multiset.coe_add]
          rfl]
      rw [Multiset.cons_add]
    · rw [if_neg hdx]
      have hxd : d < x := lt_of_not_le (fun h => hdx h)
      by_cases hj0 : j = 0
      · subst hj0
        exact absurd (show x < d from hd) (lt_asymm hxd)
      · obtain ⟨i, rfl⟩ : ∃ i, j = i + 1 := ⟨j - 1, by omega⟩
        have hmval : (x :: L).getD (i + 1) 0 = L.getD i 0 := rfl
        have hIH := ih hs.of_cons (i + 1) (by omega)
          (by simp only [List.length_cons] at hk; omega) ?_
        · show (↑(x :: (List.orderedInsert rdesc d L).take (i + 1)) :
              Multiset ℚ) + {(x :: L).getD (i + 1) 0} =
            d ::ₘ ↑(x :: L.take (i + 1))
          rw [hmval, ← Multiset.cons_coe, ← Multiset.cons_coe,
            Multiset.cons_add]
          simp only [Nat.add_sub_cancel] at hIH
          rw [hIH, Multiset.cons_swap]
        · simp only [Nat.add_sub_cancel]
          rw [← hmval]
          exact hd

lemma pairLeB_fst_le (p q : ℚ × Nat) (h : pairLeB p q = true) :
    p.1 ≤ q.1 := by
  unfold pairLeB at h
  split_ifs at h with h1 h2
  · exact le_of_lt h1
  · exact le_of_eq h2

lemma pairLeB_neg_fst_le (p q : ℚ × Nat) (h : ¬ pairLeB p q = true) :
    q.1 ≤ p.1 := by
  unfold pairLeB at h
  split_ifs at h with h1 h2
  · exact absurd rfl h
  · exact le_of_eq h2.symm
  · exact le_of_not_lt h1

lemma pqInsert_perm (p : ℚ × Nat) (pq : List (ℚ × Nat)) :
    List.Perm (pqInsert p pq) (p :: pq) := by
  induction pq with
  | nil => exact List.Perm.refl _
  | cons q rest ih =>
    rw [pqInsert]
    by_cases h : pairLeB p q
    · rw [if_pos h]
    · rw [if_neg h]
      exact (List.Perm.cons q ih).trans (List.Perm.swap p q rest)

lemma pqInsert_scores_sorted (p : ℚ × Nat) (pq : List (ℚ × Nat))
    (h : (pq.map Prod.fst).Sorted (· ≤ ·)) :
    ((pqInsert p pq).map Prod.fst).Sorted (· ≤ ·) := by
  induction pq with
  | nil => simp [pqInsert]
  | cons q rest ih =>
    rw [pqInsert]
    simp only [List.map_cons, List.sorted_cons] at h
    by_cases hle : pairLeB p q
    · rw [if_pos hle]
      simp only [List.map_cons, List.sorted_cons]
      refine ⟨?_, h.1, h.2⟩
      intro b hb
      simp only [List.mem_cons] at hb
      rcases hb with hb | hb
      · rw [hb]
        exact pairLeB_fst_le p q hle
      · exact le_trans (pairLeB_fst_le p q hle) (h.1 b hb)
    · rw [if_neg hle]
      simp only [List.map_cons, List.sorted_cons]
      constructor
      · intro b hb
        have hmem := ((pqInsert_perm p rest).map Prod.fst).mem_iff.mp hb
        simp only [List.map_cons, List.mem_cons] at hmem
        rcases hmem with hb' | hb'
        · rw [hb']
          exact pairLeB_neg_fst_le p q hle
        · exact h.1 b hb'
      · exact ih h.2

/-- The bounded-heap invariant after processing `seen`: the modelled heap
is sorted, holds `min k |seen|` entries, its score multiset is the top-`k`
of the seen scores, and its entries are a sub-multiset of the seen
candidates. -/
def PQInv (k : Nat) (pq seen : List (ℚ × Nat)) : Prop :=
  ((pq.map Prod.fst).Sorted (· ≤ ·)) ∧
  pq.length = min k seen.length ∧
  (↑(pq.map Prod.fst) : Multiset ℚ) =
    ↑(List.take k (sortScoresDesc (seen.map Prod.fst))) ∧
  (↑pq : Multiset (ℚ × Nat)) ≤ ↑seen

lemma reverse_take_headD (L : List ℚ) (k : Nat) (hk0 : 0 < k)
    (hk : k ≤ L.length) :
    ((List.take k L).reverse).headD 0 = L.getD (k - 1) 0 := by
  have hlen : (List.take k L).length = k := by
    rw [List.length_take]
    omega
  have h0 : ((List.take k L).reverse).headD 0 =
      ((List.take k L).reverse).getD 0 0 := by
    cases hrev : (List.take k L).reverse <;> rfl
  rw [h0, List.getD_eq_getElem?_getD, List.getElem?_reverse
    (by rw [hlen]; omega), hlen]
  simp only [Nat.sub_zero]
  rw [List.getElem?_take, if_pos (by omega), List.getD_eq_getElem?_getD]

lemma pqStep_inv (k : Nat) (hk : 0 < k) (pq seen : List (ℚ × Nat))
    (c : ℚ × Nat) (h : PQInv k pq seen) :
    PQInv k (pqStep k pq c) (seen ++ [c]) := by
  obtain ⟨hsort, hlen, hms, hsub⟩ := h
  set L := sortScoresDesc (seen.map Prod.fst) with hL
  have hLsorted : L.Sorted rdesc := sortScoresDesc_sorted _
  have hLlen : L.length = seen.length := by
    rw [hL]
    rw [(sortScoresDesc_perm (seen.map Prod.fst)).length_eq]
    simp
  have hL' : sortScoresDesc ((seen ++ [c]).map Prod.fst) =
      List.orderedInsert rdesc c.1 L := by
    rw [hL, ← sortScoresDesc_cons]
    apply sortScoresDesc_congr
    rw [List.map_append]
    exact List.perm_append_singleton c.1 (seen.map Prod.fst)
  have hcoe_app : (↑(seen ++ [c]) : Multiset (ℚ × Nat)) = c ::ₘ ↑seen :=
    calc (↑(seen ++ [c]) : Multiset (ℚ × Nat))
        = ↑(c :: seen) :=
          Multiset.coe_eq_coe.mpr (List.perm_append_singleton c seen)
      _ = c ::ₘ ↑seen := (Multiset.cons_coe c seen).symm
  unfold pqStep
  by_cases hroom : pq.length < k
  · rw [if_pos hroom]
    have hseenlt : seen.length < k := by
      rcases Nat.lt_or_ge seen.length k with h' | h'
      · exact h'
      · rw [min_eq_left h'] at hlen
        omega
    refine ⟨pqInsert_scores_sorted c pq hsort, ?_, ?_, ?_⟩
    · rw [(pqInsert_perm c pq).length_eq]
      simp only [List.length_cons, List.length_append, List.length_nil,
        Nat.zero_add]
      rw [min_eq_right (le_of_lt hseenlt)] at hlen
      have hmin : min k (seen.length + 1) = seen.length + 1 :=
        min_eq_right (by omega)
      rw [hmin]
      omega
    · have h1 : (↑((pqInsert c pq).map Prod.fst) : Multiset ℚ) =
          c.1 ::ₘ ↑(pq.map Prod.fst) :=
        calc (↑((pqInsert c pq).map Prod.fst) : Multiset ℚ)
            = ↑((c :: pq).map Prod.fst) :=
              Multiset.coe_eq_coe.mpr ((pqInsert_perm c pq).map Prod.fst)
          _ = ↑(c.1 :: pq.map Prod.fst) := by rw [List.map_cons]
          _ = c.1 ::ₘ ↑(pq.map Prod.fst) := (Multiset.cons_coe _ _).symm
      have hlenL : L.length ≤ k := by omega
      have htk1 : List.take k (List.orderedInsert rdesc c.1 L) =
          List.orderedInsert rdesc c.1 L := by
        apply List.take_of_length_le
        rw [List.orderedInsert_length]
        omega
      have htk2 : List.take k L = L := List.take_of_length_le hlenL
      rw [hL', h1, hms, htk1, htk2]
      calc c.1 ::ₘ (↑L : Multiset ℚ)
          = ↑(c.1 :: L) := Multiset.cons_coe _ _
        _ = ↑(List.orderedInsert rdesc c.1 L) :=
            (Multiset.coe_eq_coe.mpr
              (List.perm_orderedInsert rdesc c.1 L)).symm
    · have h1 : (↑(pqInsert c pq) : Multiset (ℚ × Nat)) = c ::ₘ ↑pq :=
        calc (↑(pqInsert c pq) : Multiset (ℚ × Nat))
            = ↑(c :: pq) := Multiset.coe_eq_coe.mpr (pqInsert_perm c pq)
          _ = c ::ₘ ↑pq := (Multiset.cons_coe _ _).symm
      rw [h1, hcoe_app]
      exact Multiset.cons_le_cons c hsub
  · rw [if_neg hroom]
    have hpqk : pq.length = k := by
      have h1 := min_le_left k seen.length
      omega
    have hseenk : k ≤ seen.length := by
      have h1 := min_le_right k seen.length
      omega
    have hperm : List.Perm (pq.map Prod.fst) (List.take k L) :=
      Multiset.coe_eq_coe.mp hms
    have htksorted : (List.take k L).Sorted rdesc :=
      List.Pairwise.sublist (List.take_sublist k L) hLsorted
    have hrevsorted : ((List.take k L).reverse).Sorted (· ≤ ·) := by
      rw [List.Sorted, List.pairwise_reverse]
      exact htksorted
    have hlist : pq.map Prod.fst = (List.take k L).reverse :=
      List.eq_of_perm_of_sorted
        (hperm.trans (List.reverse_perm _).symm) hsort hrevsorted
    have hhead : (pq.headD (0, 0)).1 = L.getD (k - 1) 0 := by
      cases pq with
      | nil =>
        rw [List.length_nil] at hpqk
        omega
      | cons p0 rest =>
        have h0 : ((p0 :: rest).map Prod.fst).headD 0 = p0.1 := rfl
        rw [hlist] at h0
        rw [reverse_take_headD L k hk (by omega)] at h0
        exact h0.symm ▸ rfl
    by_cases hbeat : (pq.headD (0, 0)).1 < c.1
    · rw [if_pos hbeat]
      cases pq with
      | nil =>
        rw [List.length_nil] at hpqk
        omega
      | cons p0 rest =>
        simp only [List.tail_cons]
        have hrestsort : (rest.map Prod.fst).Sorted (· ≤ ·) := by
          simp only [List.map_cons, List.sorted_cons] at hsort
          exact hsort.2
        refine ⟨pqInsert_scores_sorted c rest hrestsort, ?_, ?_, ?_⟩
        · rw [(pqInsert_perm c rest).length_eq]
          simp only [List.length_cons, List.length_append,
            List.length_nil, Nat.zero_add]
          simp only [List.length_cons] at hpqk
          have hmin : min k (seen.length + 1) = k :=
            min_eq_left (by omega)
          rw [hmin]
          omega
        · have h1 : (↑((pqInsert c rest).map Prod.fst) : Multiset ℚ) =
              c.1 ::ₘ ↑(rest.map Prod.fst) :=
            calc (↑((pqInsert c rest).map Prod.fst) : Multiset ℚ)
                = ↑((c :: rest).map Prod.fst) :=
                  Multiset.coe_eq_coe.mpr
                    ((pqInsert_perm c rest).map Prod.fst)
              _ = c.1 ::ₘ ↑(rest.map Prod.fst) :=
                  (Multiset.cons_coe _ _).symm
          rw [hL', h1]
          have hms' : (L.getD (k - 1) 0) ::ₘ ↑(rest.map Prod.fst) =
              (↑(List.take k L) : Multiset ℚ) := by
            rw [← hms]
            have hcc : (↑((p0 :: rest).map Prod.fst) : Multiset ℚ) =
                p0.1 ::ₘ ↑(rest.map Prod.fst) :=
              (Multiset.cons_coe p0.1 (rest.map Prod.fst)).symm
            rw [hcc]
            have hp0 : p0.1 = L.getD (k - 1) 0 := hhead
            rw [hp0]
          have hhigh := topk_insert_high L hLsorted k hk (by omega) c.1
            (by rw [← hhead]; exact hbeat)
          have hstep : c.1 ::ₘ (↑(rest.map Prod.fst) : Multiset ℚ) +
              {L.getD (k - 1) 0} =
              (↑(List.take k (List.orderedInsert rdesc c.1 L)) :
                Multiset ℚ) + {L.getD (k - 1) 0} := by
            rw [hhigh]
            rw [Multiset.cons_add]
            rw [show (↑(rest.map Prod.fst) : Multiset ℚ) +
                {L.getD (k - 1) 0} =
                (L.getD (k - 1) 0) ::ₘ ↑(rest.map Prod.fst) from by
              rw [← Multiset.singleton_add]
              exact add_comm _ _]
            rw [hms']
          exact add_right_cancel hstep
        · have h1 : (↑(pqInsert c rest) : Multiset (ℚ × Nat)) =
              c ::ₘ ↑rest :=
            calc (↑(pqInsert c rest) : Multiset (ℚ × Nat))
                = ↑(c :: rest) :=
                  Multiset.coe_eq_coe.mpr (pqInsert_perm c rest)
              _ = c ::ₘ ↑rest := (Multiset.cons_coe _ _).symm
          rw [h1, hcoe_app]
          refine Multiset.cons_le_cons c (le_trans ?_ hsub)
          rw [← Multiset.cons_coe]
          exact Multiset.le_cons_self _ _
    · rw [if_neg hbeat]
      refine ⟨hsort, ?_, ?_, ?_⟩
      · simp only [List.length_append, List.length_cons,
          List.length_nil, Nat.zero_add]
        have hmin : min k (seen.length + 1) = k :=
          min_eq_left (by omega)
        rw [hmin]
        omega
      · rw [hL', hms]
        exact (topk_insert_low L hLsorted k hk (by omega) c.1
          (by rw [← hhead]; exact le_of_not_lt hbeat)).symm
      · rw [hcoe_app]
        exact le_trans hsub (Multiset.le_cons_self _ _)

lemma pq_fold_inv (k : Nat) (hk : 0 < k) :
    ∀ (cs pq seen : List (ℚ × Nat)), PQInv k pq seen →
      PQInv k (cs.foldl (pqStep k) pq) (seen ++ cs) := by
  intro cs
  induction cs with
  | nil =>
    intro pq seen h
    simpa using h
  | cons c cs ih =>
    intro pq seen h
    have h2 := ih (pqStep k pq c) (seen ++ [c]) (pqStep_inv k hk pq seen c h)
    rw [List.foldl_cons]
    rw [show seen ++ c :: cs = (seen ++ [c]) ++ cs from by simp]
    exact h2

lemma PQInv_init (k : Nat) : PQInv k [] [] := by
  refine ⟨by simp, by simp, by simp [sortScoresDesc, List.insertionSort], ?_⟩
  simp

/-- The heap content, flushed back-to-front, lists exactly the `min k n`
top scores in descending order, drawn from the candidate stream. -/
lemma pq_final_spec (k : Nat) (hk : 0 < k) (cands : List (ℚ × Nat)) :
    ((cands.foldl (pqStep k) []).reverse.map Prod.fst =
      List.take k (sortScoresDesc (cands.map Prod.fst))) ∧
    (↑((cands.foldl (pqStep k) []).reverse) : Multiset (ℚ × Nat)) ≤
      ↑cands ∧
    (cands.foldl (pqStep k) []).reverse.length = min k cands.length := by
  have hinv := pq_fold_inv k hk cands [] [] (PQInv_init k)
  rw [List.nil_append] at hinv
  obtain ⟨hsort, hlen, hms, hsub⟩ := hinv
  set pq := cands.foldl (pqStep k) [] with hpq
  set L := sortScoresDesc (cands.map Prod.fst) with hL
  have hLsorted : L.Sorted rdesc := sortScoresDesc_sorted _
  have htksorted : (List.take k L).Sorted rdesc :=
    List.Pairwise.sublist (List.take_sublist k L) hLsorted
  have hrevsorted : ((List.take k L).reverse).Sorted (· ≤ ·) := by
    rw [List.Sorted, List.pairwise_reverse]
    exact htksorted
  have hlist : pq.map Prod.fst = (List.take k L).reverse :=
    List.eq_of_perm_of_sorted
      ((Multiset.coe_eq_coe.mp hms).trans (List.reverse_perm _).symm)
      hsort hrevsorted
  refine ⟨?_, ?_, ?_⟩
  · rw [List.map_reverse, hlist, List.reverse_reverse]
  · rw [show (↑pq.reverse : Multiset (ℚ × Nat)) = ↑pq from
      Multiset.coe_eq_coe.mpr (List.reverse_perm pq)]
    exact hsub
  · rw [List.length_reverse]
    exact hlen

lemma search_output_spec (k : Nat) (hk : 0 < k) (cand : List (ℚ × Nat)) :
    ((cand.foldl (pqStep k) []).reverse.map Prod.fst =
      List.take k (sortScoresDesc (cand.map Prod.fst))) ∧
    (↑(((cand.foldl (pqStep k) []).reverse.map Prod.fst).zip
        ((cand.foldl (pqStep k) []).reverse.map Prod.snd)) :
        Multiset (ℚ × Nat)) ≤ ↑cand ∧
    ((cand.foldl (pqStep k) []).reverse.map Prod.fst).length =
      min k cand.length ∧
    ((cand.foldl (pqStep k) []).reverse.map Prod.snd).length =
      min k cand.length := by
  obtain ⟨h1, h2, h3⟩ := pq_final_spec k hk cand
  refine ⟨h1, ?_, ?_, ?_⟩
  · rw [List.zip_map']
    have heta : ((cand.foldl (pqStep k) []).reverse.map
        (fun p : ℚ × Nat => (p.1, p.2))) =
        (cand.foldl (pqStep k) []).reverse := by
      simp
    rw [heta]
    exact h2
  · rw [List.length_map]
    exact h3
  · rw [List.length_map]
    exact h3

lemma empty_bitmap_get_set_list (f : Bitmap) (h : f.isempty = true) :
    f.get_set_list = [] := by
  unfold Bitmap.isempty at h
  have h' := of_decide_eq_true h
  unfold Bitmap.get_set_list
  by_cases hr : f.is_roaring
  · rw [if_pos hr, h'.1]
    exact Finset.sort_empty _
  · rw [if_neg hr, h'.2]
    exact Finset.sort_empty _

lemma search_candidates_nil (s : BFState) (meta : BFMeta) (q : List ℚ)
    (qsv : Option (List (Nat × ℚ))) (filter : Option Bitmap)
    (hrows : s.rows.length = 0) (hmap : s.offset_map = []) :
    s.search_candidates meta q qsv filter = [] := by
  unfold BFState.search_candidates
  cases filter with
  | none =>
    rw [hrows]
    rfl
  | some f =>
    rw [hmap]
    have hall : ∀ (os : List Nat), List.filterMap (fun o =>
        match mapFind ([] : List (Nat × Nat)) o with
        | none => none
        | some idx => some (s.compute_score meta q qsv idx,
            (s.rows.getD idx default).label)) os =
        ([] : List (ℚ × Nat)) := by
      intro os
      induction os with
      | nil => rfl
      | cons o os ih =>
        rw [List.filterMap_cons]
        exact ih
    exact hall f.get_set_list

/-- C3 (amended).  `search_knn` returns, for any `k`, exactly the `min k n`
HIGHEST combined scores among the `n` candidate `(score, label)` pairs --
where the combined score is the one `compute_score` actually computes,
reversing BOTH the dense and the sparse raw score under L2 -- in descending
order (the take of the full descending sort), with the returned
`(score, label)` pairs a sub-multiset of the candidate pairs.  The
hypothesis ties `offset_map_` to an empty row buffer, which every reachable
store satisfies (`BFInv`). -/
theorem C3_search_knn_topk (s : BFState) (meta : BFMeta) (q : List ℚ)
    (k : Nat) (filter : Option Bitmap) (sparseQ : Option (List (Nat × ℚ)))
    (hmap : s.rows.length = 0 → s.offset_map = []) :
    ((s.search_knn meta (some q) k filter sparseQ).2 =
      List.take k (sortScoresDesc
        ((s.search_candidates meta q (transform_sparse_query meta sparseQ)
          filter).map Prod.fst))) ∧
    (↑(((s.search_knn meta (some q) k filter sparseQ).2).zip
        ((s.search_knn meta (some q) k filter sparseQ).1)) :
        Multiset (ℚ × Nat)) ≤
      ↑(s.search_candidates meta q (transform_sparse_query meta sparseQ)
        filter) ∧
    (s.search_knn meta (some q) k filter sparseQ).2.length =
      min k (s.search_candidates meta q
        (transform_sparse_query meta sparseQ) filter).length ∧
    (s.search_knn meta (some q) k filter sparseQ).1.length =
      min k (s.search_candidates meta q
        (transform_sparse_query meta sparseQ) filter).length := by
  by_cases hk0 : k = 0
  · subst hk0
    have hout : s.search_knn meta (some q) 0 filter sparseQ = ([], []) := by
      unfold BFState.search_knn
      dsimp only
      rw [if_pos rfl]
    rw [hout]
    refine ⟨by simp, by simp, by simp, by simp⟩
  · have hk : 0 < k := Nat.pos_of_ne_zero hk0
    by_cases hrows : s.rows.length = 0
    · have hc0 := search_candidates_nil s meta q
        (transform_sparse_query meta sparseQ) filter hrows (hmap hrows)
      have hout : s.search_knn meta (some q) k filter sparseQ =
          ([], []) := by
        unfold BFState.search_knn
        dsimp only
        rw [if_neg hk0, if_pos hrows]
      rw [hout, hc0]
      refine ⟨by simp [sortScoresDesc, List.insertionSort], by simp,
        by simp, by simp⟩
    · cases filter with
      | none =>
        have hout : s.search_knn meta (some q) k none sparseQ =
            (((s.search_candidates meta q
                (transform_sparse_query meta sparseQ) none).foldl
                (pqStep k) []).reverse.map Prod.snd,
             ((s.search_candidates meta q
                (transform_sparse_query meta sparseQ) none).foldl
                (pqStep k) []).reverse.map Prod.fst) := by
          unfold BFState.search_knn
          dsimp only
          rw [if_neg hk0, if_neg hrows]
        rw [hout]
        exact search_output_spec k hk _
      | some f =>
        by_cases hf : f.isempty
        · have hc0 : s.search_candidates meta q
              (transform_sparse_query meta sparseQ) (some f) = [] := by
            unfold BFState.search_candidates
            dsimp only
            rw [empty_bitmap_get_set_list f hf]
            rfl
          have hout : s.search_knn meta (some q) k (some f) sparseQ =
              ([], []) := by
            unfold BFState.search_knn
            dsimp only
            rw [if_neg hk0, if_neg hrows]
            simp [hf]
          rw [hout, hc0]
          refine ⟨by simp [sortScoresDesc, List.insertionSort], by simp,
            by simp, by simp⟩
        · have hout : s.search_knn meta (some q) k (some f) sparseQ =
              (((s.search_candidates meta q
                  (transform_sparse_query meta sparseQ)
                  (some f)).foldl (pqStep k) []).reverse.map Prod.snd,
               ((s.search_candidates meta q
                  (transform_sparse_query meta sparseQ)
                  (some f)).foldl (pqStep k) []).reverse.map Prod.fst) := by
            unfold BFState.search_knn
            dsimp only
            rw [if_neg hk0, if_neg hrows]
            simp [hf]
          rw [hout]
          exact search_output_spec k hk _

/-- A two-row inner-product store for the C3 witness. -/
def c3wState : BFState :=
  ⟨[⟨[1], 4, 0⟩, ⟨[2], 9, 1⟩], [(4, 0), (9, 1)], [(0, 0), (1, 1)], [], 2⟩

/-- Witness for C3: a top-1 query against the two-row store. -/
theorem C3_search_knn_topk_witness :
    ((c3wState.search_knn meta0 (some [1]) 1 none none).2 =
      List.take 1 (sortScoresDesc
        ((c3wState.search_candidates meta0 [1]
          (transform_sparse_query meta0 none) none).map Prod.fst))) ∧
    (↑(((c3wState.search_knn meta0 (some [1]) 1 none none).2).zip
        ((c3wState.search_knn meta0 (some [1]) 1 none none).1)) :
        Multiset (ℚ × Nat)) ≤
      ↑(c3wState.search_candidates meta0 [1]
        (transform_sparse_query meta0 none) none) ∧
    (c3wState.search_knn meta0 (some [1]) 1 none none).2.length =
      min 1 (c3wState.search_candidates meta0 [1]
        (transform_sparse_query meta0 none) none).length ∧
    (c3wState.search_knn meta0 (some [1]) 1 none none).1.length =
      min 1 (c3wState.search_candidates meta0 [1]
        (transform_sparse_query meta0 none) none).length :=
  C3_search_knn_topk c3wState meta0 [1] 1 none none (by decide)

/-! ### C5 / C6: field bitmap groups and the filter DSL
(`bitmap_field_group.{h,cpp}`, `filter/filter_ops.cpp`)

Field names, enum keys and directory path prefixes are naturals (the C++
uses `std::string`; only equality and map lookup matter).  `std::map`
becomes an association list whose insert-or-assign replaces in place or
appends.  A `Bitmap` denotes the set held by its ACTIVE container
(`contents`); a bitmap is well-formed (`Bitmap.WF`) when the inactive
container is empty, which every bitmap built by the class's own operations
satisfies. -/

/-- The set a `Bitmap` denotes: its active container. -/
def Bitmap.contents (b : Bitmap) : Finset Nat :=
  if b.is_roaring then b.roaring else b.set

/-- The inactive container is empty.  Preserved by every `Bitmap`
operation. -/
def Bitmap.WF (b : Bitmap) : Prop :=
  if b.is_roaring then b.set = ∅ else b.roaring = ∅

instance (b : Bitmap) : Decidable b.WF := by
  unfold Bitmap.WF
  infer_instance

lemma contents_cache_off (b : Bitmap) (x : Bool) :
    Bitmap.contents { b with has_nbit_cache := x } = b.contents := rfl

lemma WF_cache_off (b : Bitmap) (x : Bool) :
    Bitmap.WF { b with has_nbit_cache := x } ↔ b.WF := Iff.rfl

lemma contents_roaring (b : Bitmap) (h : b.is_roaring = true) :
    b.contents = b.roaring := by
  simp [Bitmap.contents, h]

lemma contents_small (b : Bitmap) (h : b.is_roaring = false) :
    b.contents = b.set := by
  simp [Bitmap.contents, h]

lemma WF_init : Bitmap.init.WF := by
  simp [Bitmap.WF, Bitmap.init]

lemma to_roaring_spec (b : Bitmap) (h : b.WF) :
    (b.to_roaring).WF ∧ (b.to_roaring).is_roaring = true ∧
    (b.to_roaring).contents = b.contents := by
  obtain ⟨r, s, ir, n, c⟩ := b
  cases ir <;>
    simp_all [Bitmap.WF, Bitmap.contents, Bitmap.to_roaring]

lemma Set_spec (b : Bitmap) (id : Nat) (h : b.WF) :
    (b.Set id).WF ∧ (b.Set id).contents = insert id b.contents := by
  obtain ⟨r, s, ir, n, c⟩ := b
  cases ir
  · simp only [Bitmap.WF, Bool.false_eq_true, if_false] at h
    subst h
    by_cases hth : kSetThreshold < (insert id s).card <;>
      simp [Bitmap.WF, Bitmap.contents, Bitmap.Set, Bitmap.to_roaring, hth]
  · simp only [Bitmap.WF, if_true] at h
    simp [Bitmap.WF, Bitmap.contents, Bitmap.Set, h]

lemma Set_foldl_spec (l : List Nat) : ∀ (b : Bitmap), b.WF →
    (l.foldl Bitmap.Set b).WF ∧
    (l.foldl Bitmap.Set b).contents = b.contents ∪ l.toFinset := by
  induction l with
  | nil =>
    intro b h
    exact ⟨h, by simp⟩
  | cons x xs ih =>
    intro b h
    rw [List.foldl_cons]
    obtain ⟨h1, h2⟩ := ih (b.Set x) (Set_spec b x h).1
    refine ⟨h1, ?_⟩
    rw [h2, (Set_spec b x h).2]
    ext a
    simp only [Finset.mem_union, Finset.mem_insert, List.toFinset_cons]
    tauto

lemma Unset_spec (b : Bitmap) (id : Nat) (h : b.WF) :
    (b.Unset id).WF ∧ (b.Unset id).contents = b.contents.erase id := by
  obtain ⟨r, s, ir, n, c⟩ := b
  cases ir <;>
    simp_all [Bitmap.WF, Bitmap.contents, Bitmap.Unset]

lemma Unset_foldl_spec (l : List Nat) : ∀ (b : Bitmap), b.WF →
    (l.foldl Bitmap.Unset b).WF ∧
    (l.foldl Bitmap.Unset b).contents = b.contents \ l.toFinset := by
  induction l with
  | nil =>
    intro b h
    exact ⟨h, by simp⟩
  | cons x xs ih =>
    intro b h
    rw [List.foldl_cons]
    obtain ⟨h1, h2⟩ := ih (b.Unset x) (Unset_spec b x h).1
    refine ⟨h1, ?_⟩
    rw [h2, (Unset_spec b x h).2]
    ext a
    simp only [Finset.mem_sdiff, Finset.mem_erase, List.toFinset_cons,
      Finset.mem_insert]
    tauto

lemma SetRange_spec (b : Bitmap) (x y : Nat) (h : b.WF) :
    (b.SetRange x y).WF ∧
    (b.SetRange x y).contents = b.contents ∪ Finset.Ico x y := by
  obtain ⟨r, s, ir, n, c⟩ := b
  cases ir <;>
    simp_all [Bitmap.WF, Bitmap.contents, Bitmap.SetRange, Bitmap.to_roaring]

lemma Union_spec (b o : Bitmap) (hb : b.WF) :
    (b.Union o).WF ∧ (b.Union o).contents = b.contents ∪ o.contents := by
  by_cases hro : o.is_roaring = true
  · obtain ⟨h1, h2, h3⟩ := to_roaring_spec b hb
    have hset : (b.to_roaring).set = ∅ := by
      unfold Bitmap.WF at h1
      rw [h2] at h1
      simpa using h1
    have hroar : (b.to_roaring).roaring = b.contents := by
      rw [← h3, contents_roaring _ h2]
    constructor
    · simp [Bitmap.Union, hro, Bitmap.WF, h2, hset]
    · simp [Bitmap.Union, hro, Bitmap.contents, h2, hroar,
        contents_roaring o hro]
  · obtain ⟨h1, h2⟩ := Set_foldl_spec (o.set.sort (· ≤ ·)) b hb
    have hof : o.is_roaring = false := by simpa using hro
    have hoc : o.contents = o.set := contents_small o hof
    constructor
    · simp only [Bitmap.Union, hof, Bool.false_eq_true, if_false,
        WF_cache_off]
      exact h1
    · simp only [Bitmap.Union, hof, Bool.false_eq_true, if_false,
        contents_cache_off]
      rw [h2, Finset.sort_toFinset, hoc]

lemma Exclude_spec (b o : Bitmap) (hb : b.WF) :
    (b.Exclude o).WF ∧ (b.Exclude o).contents = b.contents \ o.contents := by
  by_cases hoi : o.is_roaring = true
  · by_cases hbi : b.is_roaring = true
    · have hbs : b.set = ∅ := by
        unfold Bitmap.WF at hb
        rwa [if_pos hbi] at hb
      constructor
      · simp [Bitmap.Exclude, hbi, hoi, Bitmap.WF, hbs]
      · simp [Bitmap.Exclude, hbi, hoi, Bitmap.contents]
    · have hbr : b.roaring = ∅ := by
        unfold Bitmap.WF at hb
        rwa [if_neg hbi] at hb
      have hoc : o.contents = o.roaring := contents_roaring o hoi
      have hbc : b.contents = b.set := contents_small b (by simpa using hbi)
      constructor
      · simp [Bitmap.Exclude, hbi, hoi, Bitmap.WF, hbr]
      · rw [hbc, hoc]
        simp only [Bitmap.Exclude, hoi, Bitmap.contents]
        simp [hbi]
        ext a
        simp [Bitmap.Isset, hoi]
  · have hof : o.is_roaring = false := by simpa using hoi
    obtain ⟨h1, h2⟩ := Unset_foldl_spec (o.set.sort (· ≤ ·)) b hb
    have hoc : o.contents = o.set := contents_small o hof
    constructor
    · simp only [Bitmap.Exclude, hof, Bool.and_false, Bool.false_eq_true,
        if_false, Bool.not_false, if_true, WF_cache_off]
      exact h1
    · simp only [Bitmap.Exclude, hof, Bool.and_false, Bool.false_eq_true,
        if_false, Bool.not_false, if_true, contents_cache_off]
      rw [h2, Finset.sort_toFinset, hoc]

lemma copy_spec (b o : Bitmap) (ho : o.WF) :
    (b.copy o).WF ∧ (b.copy o).contents = o.contents :=
  ⟨ho, rfl⟩

lemma ExcludeP_some_spec (b o : Bitmap) (hb : b.WF) :
    (b.ExcludeP (some o)).WF ∧
    (b.ExcludeP (some o)).contents = b.contents \ o.contents :=
  ⟨(Exclude_spec b o hb).1, (Exclude_spec b o hb).2⟩

lemma UnionP_some_spec (b o : Bitmap) (hb : b.WF) :
    (b.UnionP (some o)).WF ∧
    (b.UnionP (some o)).contents = b.contents ∪ o.contents :=
  ⟨(Union_spec b o hb).1, (Union_spec b o hb).2⟩

/-- Polymorphic association-list lookup (`std::map::find`). -/
def amFind {α : Type} (m : List (Nat × α)) (k : Nat) : Option α :=
  match m with
  | [] => none
  | (a, v) :: rest => if a = k then some v else amFind rest k

/-- `std::map::operator[] = v`: assign in place when the key exists,
append otherwise. -/
def amAssign {α : Type} (m : List (Nat × α)) (k : Nat) (v : α) :
    List (Nat × α) :=
  if (m.map Prod.fst).contains k then
    m.map (fun p => if p.1 = k then (k, v) else p)
  else m ++ [(k, v)]

/-- One field's `BitmapGroupBase`: the per-key bitmap map, the optional
ranged map, and (for path/`Dir` groups) the directory index.  The trie of
`DirIndex` is abstracted to its observable lookup table: for each queried
path prefix, the list of bitmap keys `get_merged_bitmap` reports. -/
structure BitmapGroup where
  bitmap_group : List (Nat × Bitmap)
  rangedmap_ptr : Option RangedMap
  dir_index : Option (List (Nat × List Nat))

/-- `FieldBitmapGroupSet`: field name → group, the element-count watermark,
and the set of path (`Dir`) field names. -/
structure FieldBitmapGroupSet where
  element_size : Nat
  field_bitmap_groups_map : List (Nat × BitmapGroup)
  path_field_names : List Nat

instance : Inhabited BitmapGroup := ⟨⟨[], none, none⟩⟩

instance : Inhabited FieldBitmapGroupSet := ⟨⟨0, [], []⟩⟩

/-- `BitmapGroupBase::get_editable_bitmap`: on a missing key a fresh
default-constructed `Bitmap` is INSERTED into the map and returned, so the
lookup can mutate the group; the updated group is returned alongside. -/
def BitmapGroup.get_editable_bitmap (g : BitmapGroup) (key : Nat) :
    Bitmap × BitmapGroup :=
  match amFind g.bitmap_group key with
  | some b => (b, g)
  | none =>
    (Bitmap.init,
     { g with bitmap_group := amAssign g.bitmap_group key Bitmap.init })

/-- `BitmapGroupBase::get_bitmap` just delegates to `get_editable_bitmap`
(and therefore inherits its insert-on-miss). -/
def BitmapGroup.get_bitmap (g : BitmapGroup) (key : Nat) :
    Bitmap × BitmapGroup :=
  g.get_editable_bitmap key

/-- `BitmapGroupBase::get_bitmap_copy`: never null (the inner `get_bitmap`
pointer is always non-null), copies into a fresh `Bitmap`. -/
def BitmapGroup.get_bitmap_copy (g : BitmapGroup) (key : Nat) :
    Option Bitmap × BitmapGroup :=
  let r := g.get_editable_bitmap key
  (some (Bitmap.init.copy r.1), r.2)

/-- `get_bitmap_by_prefix` / `..._by_contains` / `..._by_regex`
(read-only scans over the group map, abstracted over the key matcher):
null when the group map is empty or nothing matches; otherwise copy the
first match and `Union` the rest in. -/
def BitmapGroup.get_bitmap_by_scan (g : BitmapGroup)
    (keyMatch : Nat → Bool) : Option Bitmap :=
  if g.bitmap_group.isEmpty then none
  else
    g.bitmap_group.foldl (fun acc p =>
      if keyMatch p.1 then
        match acc with
        | none => some (Bitmap.init.copy p.2)
        | some r => some (r.Union p.2)
      else acc) none

/-- Replace field `F`'s group (all set-level mutation goes through
`field_bitmap_groups_map_[F]`, which for an existing field is in-place). -/
def FieldBitmapGroupSet.updGroup (fs : FieldBitmapGroupSet) (F : Nat)
    (g : BitmapGroup) : FieldBitmapGroupSet :=
  { fs with field_bitmap_groups_map :=
      amAssign fs.field_bitmap_groups_map F g }

/-- Set-level `get_editable_bitmap`: null for an unknown field, otherwise
the group-level lookup (which may insert). -/
def FieldBitmapGroupSet.get_editable_bitmap (fs : FieldBitmapGroupSet)
    (F key : Nat) : Option Bitmap × FieldBitmapGroupSet :=
  match amFind fs.field_bitmap_groups_map F with
  | none => (none, fs)
  | some g =>
    let r := g.get_editable_bitmap key
    (some r.1, fs.updGroup F r.2)

/-- Set-level `get_bitmap` delegates to `get_editable_bitmap`. -/
def FieldBitmapGroupSet.get_bitmap (fs : FieldBitmapGroupSet)
    (F key : Nat) : Option Bitmap × FieldBitmapGroupSet :=
  fs.get_editable_bitmap F key

/-- `FieldBitmapGroupSet::make_full_temp`: a fresh bitmap covering
`[0, element_size_)`. -/
def FieldBitmapGroupSet.make_full_temp (fs : FieldBitmapGroupSet) : Bitmap :=
  Bitmap.init.SetRange 0 fs.element_size

/-- `make_field_copy(field, key)` (single-key overload): null for an
unknown field, else the group's `get_bitmap_copy`. -/
def FieldBitmapGroupSet.make_field_copy1 (fs : FieldBitmapGroupSet)
    (F key : Nat) : Option Bitmap × FieldBitmapGroupSet :=
  match amFind fs.field_bitmap_groups_map F with
  | none => (none, fs)
  | some g =>
    let r := g.get_bitmap_copy key
    (r.1, fs.updGroup F r.2)

/-- One iteration of `make_field_copy`'s collection loop: look the key up
(set-level `get_bitmap`), skip nulls. -/
def mfcStep (F : Nat) (acc : List Bitmap × FieldBitmapGroupSet) (k : Nat) :
    List Bitmap × FieldBitmapGroupSet :=
  let r := acc.2.get_bitmap F k
  match r.1 with
  | none => (acc.1, r.2)
  | some b => (acc.1 ++ [b], r.2)

/-- `make_field_copy(field, keys)` (vector overload): one key dispatches to
the single-key overload; several keys collect `get_bitmap` results
(skipping nulls) and `FastUnion` them into a fresh bitmap, which is
returned even when everything was null; zero keys return null. -/
def FieldBitmapGroupSet.make_field_copy (fs : FieldBitmapGroupSet)
    (F : Nat) (keys : List Nat) : Option Bitmap × FieldBitmapGroupSet :=
  if keys.length = 1 then fs.make_field_copy1 F (keys.getD 0 0)
  else if 1 < keys.length then
    let st := keys.foldl (mfcStep F) ([], fs)
    let temp := if 0 < st.1.length
      then Bitmap.init.FastUnion st.1 else Bitmap.init
    (some temp, st.2)
  else (none, fs)

/-- `make_field_exclude_copy`: start from the full temp; no keys returns it
as is; one key excludes the set-level `get_bitmap` when non-null; several
keys exclude the `make_field_copy` union when non-null (`Exclude` is the
pointer overload in both cases). -/
def FieldBitmapGroupSet.make_field_exclude_copy (fs : FieldBitmapGroupSet)
    (F : Nat) (keys : List Nat) : Option Bitmap × FieldBitmapGroupSet :=
  let pres := fs.make_full_temp
  if keys.length = 0 then (some pres, fs)
  else if keys.length = 1 then
    let r := fs.get_bitmap F (keys.getD 0 0)
    match r.1 with
    | some b => (some (pres.ExcludeP (some b)), r.2)
    | none => (some pres, r.2)
  else
    let r := fs.make_field_copy F keys
    match r.1 with
    | some t => (some (pres.ExcludeP (some t)), r.2)
    | none => (some pres, r.2)

/-- One iteration of `make_path_field_copy`'s collection loop: the
group-level `get_bitmap` pointer is always non-null, so every key
contributes. -/
def mpfStep (acc : List Bitmap × BitmapGroup) (bk : Nat) :
    List Bitmap × BitmapGroup :=
  let r := acc.2.get_bitmap bk
  (acc.1 ++ [r.1], r.2)

/-- `make_path_field_copy`.  The root prefixes `"/"` and `""` are modelled
as the reserved key `0`.  Null for an unknown field; with `depth = -1` a
root prefix returns the full temp; a group without a directory index is
null.  Otherwise the deduplicated union of every prefix's merged bitmap
keys is looked up with the group-level `get_bitmap` (which INSERTS missing
keys) and `FastUnion`ed into a fresh bitmap, returned even when empty. -/
def FieldBitmapGroupSet.make_path_field_copy (fs : FieldBitmapGroupSet)
    (F : Nat) (keys : List Nat) (depth : Int) :
    Option Bitmap × FieldBitmapGroupSet :=
  match amFind fs.field_bitmap_groups_map F with
  | none => (none, fs)
  | some g =>
    if depth = -1 ∧ 0 ∈ keys then (some fs.make_full_temp, fs)
    else
      match g.dir_index with
      | none => (none, fs)
      | some d =>
        let allKeys :=
          (keys.foldl (fun acc p => acc ++ ((amFind d p).getD [])) []).dedup
        let st := allKeys.foldl mpfStep ([], g)
        let final := if st.1.isEmpty then Bitmap.init
          else Bitmap.init.FastUnion st.1
        (some final, fs.updGroup F st.2)

/-- `make_path_field_exclude_copy`: full temp minus the path copy (pointer
`Exclude`, so a null copy leaves the full temp). -/
def FieldBitmapGroupSet.make_path_field_exclude_copy
    (fs : FieldBitmapGroupSet) (F : Nat) (keys : List Nat) (depth : Int) :
    Option Bitmap × FieldBitmapGroupSet :=
  let pres := fs.make_full_temp
  let r := fs.make_path_field_copy F keys depth
  (some (pres.ExcludeP r.1), r.2)

/-- `FieldBitmapGroupSet::is_path_field_name`. -/
def FieldBitmapGroupSet.is_path_field_name (fs : FieldBitmapGroupSet)
    (F : Nat) : Bool :=
  F ∈ fs.path_field_names

/-- `make_range_copy`: read-only; null for an unknown field or a group
without a ranged map, else the ranged map's range query (whose collected
offsets are installed in a fresh roaring bitmap). -/
def FieldBitmapGroupSet.make_range_copy (fs : FieldBitmapGroupSet)
    (range_out : Bool) (F : Nat) (lt : ℚ) (ile : Bool) (gt : ℚ)
    (ige : Bool) : Option Bitmap :=
  match amFind fs.field_bitmap_groups_map F with
  | none => none
  | some g =>
    match g.rangedmap_ptr with
    | none => none
    | some m =>
      (m.get_range_bitmap range_out lt ile gt ige).map
        (fun s => (⟨s, ∅, true, 0, false⟩ : Bitmap))

/-- `make_range2d_copy`: read-only; requires exactly two fields with a
two-entry centre, both fields present with ranged maps. -/
def FieldBitmapGroupSet.make_range2d_copy (fs : FieldBitmapGroupSet)
    (fields : List Nat) (center : List ℚ) (radius : ℚ) : Option Bitmap :=
  if fields.length = 2 ∧ center.length = 2 then
    match amFind fs.field_bitmap_groups_map (fields.getD 0 0),
        amFind fs.field_bitmap_groups_map (fields.getD 1 0) with
    | some g0, some g1 =>
      match g0.rangedmap_ptr, g1.rangedmap_ptr with
      | some m0, some m1 =>
        ((RangedMap2D.mk m0 m1).get_range2d_bitmap (center.getD 0 0)
            (center.getD 1 0) radius).map
          (fun s => (⟨s, ∅, true, 0, false⟩ : Bitmap))
      | _, _ => none
    | _, _ => none
  else none

/-- `MustOp::calc_self_bitmap`: path fields dispatch to the directory
copy, the rest to `make_field_copy`. -/
def mustCalcSelf (fs : FieldBitmapGroupSet) (fields : List Nat)
    (conds : List Nat) (depth : Int) :
    Option Bitmap × FieldBitmapGroupSet :=
  if fs.is_path_field_name (fields.getD 0 0) then
    fs.make_path_field_copy (fields.getD 0 0) conds depth
  else fs.make_field_copy (fields.getD 0 0) conds

/-- `MustNotOp::calc_self_bitmap`. -/
def mustNotCalcSelf (fs : FieldBitmapGroupSet) (fields : List Nat)
    (conds : List Nat) (depth : Int) :
    Option Bitmap × FieldBitmapGroupSet :=
  if fs.is_path_field_name (fields.getD 0 0) then
    fs.make_path_field_exclude_copy (fields.getD 0 0) conds depth
  else fs.make_field_exclude_copy (fields.getD 0 0) conds

/-- The shared `calc_bitmap` tail of `LogicOpBase`, `MustOp` and `RangeOp`:
without a previous result, `calc_self`; with one, "and" intersects a
non-null self (null propagates), "or" unions a non-null self (null keeps
the previous result), any other combining op is null.  (`LogicOpBase`'s
"or" branch unions the raw pointer, so its null case also keeps `pres`.) -/
def presCombine
    (self : FieldBitmapGroupSet → Option Bitmap × FieldBitmapGroupSet)
    (fs : FieldBitmapGroupSet) (pres : Option Bitmap) (onop : String) :
    Option Bitmap × FieldBitmapGroupSet :=
  match pres with
  | none => self fs
  | some p =>
    if onop = "and" then
      let r := self fs
      match r.1 with
      | none => (none, r.2)
      | some t => (some (p.IntersectP (some t)), r.2)
    else if onop = "or" then
      let r := self fs
      (some (p.UnionP r.1), r.2)
    else (none, fs)

/-- `MustOp::calc_bitmap`: empty conditions are null; otherwise the shared
pres-combining tail over `MustOp::calc_self_bitmap`. -/
def mustCalcBitmap (fs : FieldBitmapGroupSet) (fields : List Nat)
    (conds : List Nat) (depth : Int) (pres : Option Bitmap)
    (onop : String) : Option Bitmap × FieldBitmapGroupSet :=
  if conds.length = 0 then (none, fs)
  else presCombine (fun s => mustCalcSelf s fields conds depth) fs pres onop

/-- `MustNotOp::calc_bitmap`.  Unlike the others, with a previous result
and "and" it excludes the field bitmaps directly from `pres` (single key:
the set-level `get_bitmap`; several: `make_field_copy`; zero: untouched),
and with "or" it unions a non-null `calc_self`. -/
def mustNotCalcBitmap (fs : FieldBitmapGroupSet) (fields : List Nat)
    (conds : List Nat) (depth : Int) (pres : Option Bitmap)
    (onop : String) : Option Bitmap × FieldBitmapGroupSet :=
  match pres with
  | none => mustNotCalcSelf fs fields conds depth
  | some p =>
    if onop = "and" then
      if conds.length = 1 then
        let r := fs.get_bitmap (fields.getD 0 0) (conds.getD 0 0)
        match r.1 with
        | some b => (some (p.ExcludeP (some b)), r.2)
        | none => (some p, r.2)
      else if 1 < conds.length then
        let r := fs.make_field_copy (fields.getD 0 0) conds
        (some (p.ExcludeP r.1), r.2)
      else (some p, fs)
    else if onop = "or" then
      let r := mustNotCalcSelf fs fields conds depth
      (some (p.UnionP r.1), r.2)
    else (none, fs)

/-- `RangeOp::calc_bitmap` (for a parsed, valid op): the shared tail over
`RangeOp::calc_self_bitmap`, which is read-only. -/
def rangeCalcBitmap (fs : FieldBitmapGroupSet) (range_out : Bool)
    (fields : List Nat) (lt : ℚ) (ile : Bool) (gt : ℚ) (ige : Bool)
    (center : List ℚ) (radius : ℚ) (pres : Option Bitmap) (onop : String) :
    Option Bitmap × FieldBitmapGroupSet :=
  presCombine (fun s =>
    (if fields.length = 2 ∧ center.length = 2 then
      s.make_range2d_copy fields center radius
    else s.make_range_copy range_out (fields.getD 0 0) lt ile gt ige, s))
    fs pres onop

/-- `PrefixOp` / `ContainsOp` / `RegexOp` `calc_bitmap` (abstracted over
the key matcher): the shared tail over the read-only group scan. -/
def scanCalcBitmap (fs : FieldBitmapGroupSet) (F : Nat)
    (keyMatch : Nat → Bool) (pres : Option Bitmap) (onop : String) :
    Option Bitmap × FieldBitmapGroupSet :=
  presCombine (fun s =>
    (match amFind s.field_bitmap_groups_map F with
     | none => none
     | some g => g.get_bitmap_by_scan keyMatch, s)) fs pres onop

/-- `LabelInOp::calc_self_bitmap`: with a non-empty label list, a missing
converter, a converter returning `false` or a thrown exception yield null;
then an empty offset list (always the case for an empty label list, whose
`offsets` stays empty) yields null; otherwise the offsets are `SetMany`ed
into a fresh bitmap.  The set is only read through
`convert_label_u64_to_offset`, never written. -/
def labelInCalcSelf (labels : List Nat)
    (conv : Option (List Nat → Option (List Nat))) : Option Bitmap :=
  let offs : Option (List Nat) :=
    if labels.isEmpty then some []
    else
      match conv with
      | none => none
      | some f => f labels
  match offs with
  | none => none
  | some offsets =>
    if offsets.isEmpty then none
    else some (Bitmap.init.SetMany offsets)

/-- `LabelInOp::calc_bitmap`: an empty label list is null; otherwise the
same pres-combining tail as the other ops ("and" intersects a non-null
self and propagates null; "or" unions a non-null self and keeps `pres` on
null; other combining ops are null), over the read-only
`calc_self_bitmap`. -/
def labelInCalcBitmap (fs : FieldBitmapGroupSet) (labels : List Nat)
    (conv : Option (List Nat → Option (List Nat))) (pres : Option Bitmap)
    (onop : String) : Option Bitmap × FieldBitmapGroupSet :=
  if labels.length = 0 then (none, fs)
  else presCombine (fun s => (labelInCalcSelf labels conv, s)) fs pres onop

/-- A parsed filter tree (`filter_ops.cpp`).  `andRel`/`orRel` are the
`AndOp`/`OrOp` relation nodes (`AndOp` with the optional
`ignore_empty_condition` flag); `scan` stands for the
`PrefixOp`/`ContainsOp`/`RegexOp` family, abstracted over its key
matcher; `labelIn` is the `LabelInOp` node, carrying its parsed label
list and the externally registered label→offset converter callback
(`label_u64_offset_converter_`, a member of the set the op merely calls),
abstracted as an optional function — `none` for an unregistered converter,
and a `none` result for a converter that returns `false` (or throws). -/
inductive FilterOp where
  | andRel (ignoreEmpty : Bool) (conds : List FilterOp)
  | orRel (conds : List FilterOp)
  | must (fields : List Nat) (conds : List Nat) (depth : Int)
  | mustNot (fields : List Nat) (conds : List Nat) (depth : Int)
  | range (range_out : Bool) (fields : List Nat) (lt : ℚ) (ile : Bool)
      (gt : ℚ) (ige : Bool) (center : List ℚ) (radius : ℚ)
  | scan (F : Nat) (keyMatch : Nat → Bool)
  | labelIn (labels : List Nat) (conv : Option (List Nat → Option (List Nat)))

/-- The general loop of `LogicOpBase::calc_self_bitmap`: thread `pres`
through the children with the relation's own op name; a null child result
continues under "or" (with a null `pres` from then on) and aborts with
null under "and". -/
def logicLoopGen
    (ev : FilterOp → FieldBitmapGroupSet → Option Bitmap → String →
      Option Bitmap × FieldBitmapGroupSet) (opname : String) :
    List FilterOp → FieldBitmapGroupSet → Option Bitmap →
    Option Bitmap × FieldBitmapGroupSet
  | [], fs, pres => (pres, fs)
  | c :: rest, fs, pres =>
    let r := ev c fs pres opname
    match r.1 with
    | some b => logicLoopGen ev opname rest r.2 (some b)
    | none =>
      if opname = "or" then logicLoopGen ev opname rest r.2 none
      else (none, r.2)

/-- The `ignore_empty_condition` loop of `LogicOpBase::calc_self_bitmap`
("and" only): evaluate each child with a null `pres`, skip null results,
intersect the rest. -/
def logicIgnoreLoopGen
    (ev : FilterOp → FieldBitmapGroupSet → Option Bitmap → String →
      Option Bitmap × FieldBitmapGroupSet) :
    List FilterOp → FieldBitmapGroupSet → Option Bitmap →
    Option Bitmap × FieldBitmapGroupSet
  | [], fs, pres => (pres, fs)
  | c :: rest, fs, pres =>
    let r := ev c fs none "and"
    match r.1 with
    | none => logicIgnoreLoopGen ev rest r.2 pres
    | some cres =>
      match pres with
      | none => logicIgnoreLoopGen ev rest r.2 (some cres)
      | some p =>
        logicIgnoreLoopGen ev rest r.2 (some (p.IntersectP (some cres)))

/-- `LogicOpBase::calc_self_bitmap`. -/
def logicCalcSelf
    (ev : FilterOp → FieldBitmapGroupSet → Option Bitmap → String →
      Option Bitmap × FieldBitmapGroupSet) (opname : String)
    (ignoreEmpty : Bool) (conds : List FilterOp)
    (fs : FieldBitmapGroupSet) : Option Bitmap × FieldBitmapGroupSet :=
  if opname = "and" ∧ ignoreEmpty then logicIgnoreLoopGen ev conds fs none
  else logicLoopGen ev opname conds fs none

/-- The recursive filter evaluation (`calc_bitmap` of the parsed tree),
fuelled to keep the recursion structural: any fuel at least the tree
height reproduces the source recursion, and every theorem below holds for
every fuel. -/
def evalFilter : Nat → FilterOp → FieldBitmapGroupSet → Option Bitmap →
    String → Option Bitmap × FieldBitmapGroupSet
  | 0, _, fs, _, _ => (none, fs)
  | fuel + 1, op, fs, pres, onop =>
    match op with
    | .andRel ie conds =>
      presCombine (logicCalcSelf (evalFilter fuel) "and" ie conds)
        fs pres onop
    | .orRel conds =>
      presCombine (logicCalcSelf (evalFilter fuel) "or" false conds)
        fs pres onop
    | .must fields conds depth =>
      mustCalcBitmap fs fields conds depth pres onop
    | .mustNot fields conds depth =>
      mustNotCalcBitmap fs fields conds depth pres onop
    | .range ro fields lt ile gt ige center radius =>
      rangeCalcBitmap fs ro fields lt ile gt ige center radius pres onop
    | .scan F keyMatch => scanCalcBitmap fs F keyMatch pres onop
    | .labelIn labels conv => labelInCalcBitmap fs labels conv pres onop

lemma copy_contents (b o : Bitmap) : (b.copy o).contents = o.contents := rfl

lemma make_full_temp_spec (fs : FieldBitmapGroupSet) :
    fs.make_full_temp.WF ∧
    fs.make_full_temp.contents = Finset.Ico 0 fs.element_size := by
  obtain ⟨h1, h2⟩ := SetRange_spec Bitmap.init 0 fs.element_size WF_init
  refine ⟨h1, ?_⟩
  rw [FieldBitmapGroupSet.make_full_temp, h2]
  simp [Bitmap.contents, Bitmap.init]

lemma make_field_copy_single (fs : FieldBitmapGroupSet) (F k : Nat)
    (g : BitmapGroup) (hg : amFind fs.field_bitmap_groups_map F = some g) :
    fs.make_field_copy F [k] =
      (some (Bitmap.init.copy (g.get_editable_bitmap k).1),
       fs.updGroup F (g.get_editable_bitmap k).2) := by
  unfold FieldBitmapGroupSet.make_field_copy
    FieldBitmapGroupSet.make_field_copy1 BitmapGroup.get_bitmap_copy
  simp [hg]

lemma get_bitmap_single (fs : FieldBitmapGroupSet) (F k : Nat)
    (g : BitmapGroup) (hg : amFind fs.field_bitmap_groups_map F = some g) :
    fs.get_bitmap F k =
      (some (g.get_editable_bitmap k).1,
       fs.updGroup F (g.get_editable_bitmap k).2) := by
  unfold FieldBitmapGroupSet.get_bitmap FieldBitmapGroupSet.get_editable_bitmap
  simp [hg]

lemma make_field_exclude_single (fs : FieldBitmapGroupSet) (F k : Nat)
    (g : BitmapGroup) (hg : amFind fs.field_bitmap_groups_map F = some g) :
    fs.make_field_exclude_copy F [k] =
      (some (fs.make_full_temp.ExcludeP (some (g.get_editable_bitmap k).1)),
       fs.updGroup F (g.get_editable_bitmap k).2) := by
  unfold FieldBitmapGroupSet.make_field_exclude_copy
  simp [get_bitmap_single fs F k g hg]

lemma make_field_copy_multi_shape (fs : FieldBitmapGroupSet) (F : Nat)
    (C : List Nat) (hlen : 1 < C.length) :
    ∃ t fs', fs.make_field_copy F C = (some t, fs') := by
  unfold FieldBitmapGroupSet.make_field_copy
  have h1 : ¬(C.length = 1) := by omega
  rw [if_neg h1, if_pos hlen]
  exact ⟨_, _, rfl⟩

lemma make_field_exclude_multi (fs : FieldBitmapGroupSet) (F : Nat)
    (C : List Nat) (hlen : 1 < C.length) (t : Bitmap)
    (fs' : FieldBitmapGroupSet)
    (hmc : fs.make_field_copy F C = (some t, fs')) :
    fs.make_field_exclude_copy F C =
      (some (fs.make_full_temp.ExcludeP (some t)), fs') := by
  unfold FieldBitmapGroupSet.make_field_exclude_copy
  have h0 : ¬(C.length = 0) := by omega
  have h1 : ¬(C.length = 1) := by omega
  simp only [if_neg h0, if_neg h1]
  rw [hmc]

lemma mfcStep_unknown (fs : FieldBitmapGroupSet) (F : Nat)
    (hg : amFind fs.field_bitmap_groups_map F = none) (l : List Bitmap)
    (C : List Nat) : C.foldl (mfcStep F) (l, fs) = (l, fs) := by
  induction C with
  | nil => rfl
  | cons k rest ih =>
    rw [List.foldl_cons]
    have hstep : mfcStep F (l, fs) k = (l, fs) := by
      unfold mfcStep FieldBitmapGroupSet.get_bitmap
        FieldBitmapGroupSet.get_editable_bitmap
      simp [hg]
    rw [hstep, ih]

lemma make_field_copy_multi_unknown (fs : FieldBitmapGroupSet) (F : Nat)
    (C : List Nat) (hg : amFind fs.field_bitmap_groups_map F = none)
    (hlen : 1 < C.length) :
    fs.make_field_copy F C = (some Bitmap.init, fs) := by
  unfold FieldBitmapGroupSet.make_field_copy
  have h1 : ¬(C.length = 1) := by omega
  rw [if_neg h1, if_pos hlen]
  simp only [mfcStep_unknown fs F hg]
  simp

/-- C5.  The claim: for every FieldSet with `element_size > 0`, field `F`
and non-empty key list `C`, the bitmap the `must_not` operator produces
equals the full bitmap `[0, element_size)` minus the bitmap the `must`
operator produces on the same `F` and `C`.  Confirmed for every field:
`must_not` always produces a bitmap, and its contents are exactly
`Ico 0 element_size` minus the contents of `must`'s result (the empty set
when `must` returns null).  For a non-path field that exists, with one key
both sides read the same stored bitmap (`must` copies it, `must_not`
excludes it from the full temp), and with several keys both sides build
the same `make_field_copy` union; for an unknown field, `must` is null
with one key and an empty bitmap with several, while `must_not` returns
the full temp; for a path field, `make_path_field_exclude_copy` is by
construction the full temp minus `make_path_field_copy`'s result. -/
theorem C5_must_not_is_full_minus_must (fs : FieldBitmapGroupSet)
    (F : Nat) (C : List Nat) (depth : Int)
    (helem : 0 < fs.element_size) (hC : C ≠ []) :
    ∃ bmn fs2,
      mustNotCalcSelf fs [F] C depth = (some bmn, fs2) ∧
      bmn.contents = Finset.Ico 0 fs.element_size \
        ((mustCalcSelf fs [F] C depth).1.elim ∅ Bitmap.contents) := by
  have hfull := make_full_temp_spec fs
  by_cases hpath : fs.is_path_field_name F = true
  · -- Path field: `must_not` is literally full minus the `must` copy.
    have hmcs : mustCalcSelf fs [F] C depth =
        fs.make_path_field_copy F C depth := by
      unfold mustCalcSelf
      simp [hpath]
    have hmns : mustNotCalcSelf fs [F] C depth =
        (some (fs.make_full_temp.ExcludeP
            (fs.make_path_field_copy F C depth).1),
          (fs.make_path_field_copy F C depth).2) := by
      unfold mustNotCalcSelf
      simp [hpath, FieldBitmapGroupSet.make_path_field_exclude_copy]
    refine ⟨_, _, hmns, ?_⟩
    rw [hmcs]
    cases hr : (fs.make_path_field_copy F C depth).1 with
    | none => simp [Bitmap.ExcludeP, hfull.2]
    | some t =>
      rw [(ExcludeP_some_spec fs.make_full_temp t hfull.1).2, hfull.2]
      simp
  · have hpathb : fs.is_path_field_name F = false := by
      revert hpath
      cases fs.is_path_field_name F <;> simp
    cases hgF : amFind fs.field_bitmap_groups_map F with
    | some g =>
      cases C with
      | nil => exact absurd rfl hC
      | cons k rest =>
        cases rest with
        | nil =>
          have hmcs : mustCalcSelf fs [F] [k] depth =
              (some (Bitmap.init.copy (g.get_editable_bitmap k).1),
               fs.updGroup F (g.get_editable_bitmap k).2) := by
            unfold mustCalcSelf
            simp only [List.getD_cons_zero, hpathb, Bool.false_eq_true,
              if_false]
            exact make_field_copy_single fs F k g hgF
          refine ⟨fs.make_full_temp.ExcludeP
              (some (g.get_editable_bitmap k).1),
            fs.updGroup F (g.get_editable_bitmap k).2, ?_, ?_⟩
          · unfold mustNotCalcSelf
            simp only [List.getD_cons_zero, hpathb, Bool.false_eq_true,
              if_false]
            exact make_field_exclude_single fs F k g hgF
          · rw [hmcs, (ExcludeP_some_spec fs.make_full_temp
              (g.get_editable_bitmap k).1 hfull.1).2, hfull.2]
            simp [copy_contents]
        | cons k2 r2 =>
          have hlen : 1 < (k :: k2 :: r2).length := by simp
          obtain ⟨t, fs', hmc⟩ := make_field_copy_multi_shape fs F _ hlen
          have hmcs : mustCalcSelf fs [F] (k :: k2 :: r2) depth =
              (some t, fs') := by
            unfold mustCalcSelf
            simp only [List.getD_cons_zero, hpathb, Bool.false_eq_true,
              if_false]
            exact hmc
          refine ⟨fs.make_full_temp.ExcludeP (some t), fs', ?_, ?_⟩
          · unfold mustNotCalcSelf
            simp only [List.getD_cons_zero, hpathb, Bool.false_eq_true,
              if_false]
            exact make_field_exclude_multi fs F _ hlen t fs' hmc
          · rw [hmcs, (ExcludeP_some_spec fs.make_full_temp t hfull.1).2,
              hfull.2]
            simp
    | none =>
      cases C with
      | nil => exact absurd rfl hC
      | cons k rest =>
        cases rest with
        | nil =>
          -- Single unknown key: `must` is null; `must_not` is the full temp.
          have hmcs : mustCalcSelf fs [F] [k] depth = (none, fs) := by
            unfold mustCalcSelf FieldBitmapGroupSet.make_field_copy
              FieldBitmapGroupSet.make_field_copy1
            simp [hpathb, hgF]
          have hmns : mustNotCalcSelf fs [F] [k] depth =
              (some fs.make_full_temp, fs) := by
            unfold mustNotCalcSelf
              FieldBitmapGroupSet.make_field_exclude_copy
              FieldBitmapGroupSet.get_bitmap
              FieldBitmapGroupSet.get_editable_bitmap
            simp [hpathb, hgF]
          refine ⟨_, _, hmns, ?_⟩
          rw [hmcs, hfull.2]
          simp
        | cons k2 r2 =>
          have hlen : 1 < (k :: k2 :: r2).length := by simp
          have hmc : fs.make_field_copy F (k :: k2 :: r2) =
              (some Bitmap.init, fs) :=
            make_field_copy_multi_unknown fs F _ hgF hlen
          have hmcs : mustCalcSelf fs [F] (k :: k2 :: r2) depth =
              (some Bitmap.init, fs) := by
            unfold mustCalcSelf
            simp only [List.getD_cons_zero, hpathb, Bool.false_eq_true,
              if_false]
            exact hmc
          refine ⟨fs.make_full_temp.ExcludeP (some Bitmap.init), fs, ?_, ?_⟩
          · unfold mustNotCalcSelf
            simp only [List.getD_cons_zero, hpathb, Bool.false_eq_true,
              if_false]
            exact make_field_exclude_multi fs F _ hlen Bitmap.init fs hmc
          · rw [hmcs, (ExcludeP_some_spec fs.make_full_temp Bitmap.init
              hfull.1).2, hfull.2]
            simp

/-- Well-formed field map: field names are unique (it is a `std::map`). -/
def FieldWF (fs : FieldBitmapGroupSet) : Prop :=
  (fs.field_bitmap_groups_map.map Prod.fst).Nodup

instance (fs : FieldBitmapGroupSet) : Decidable (FieldWF fs) := by
  unfold FieldWF
  infer_instance

lemma amFind_some_contains {α : Type} (m : List (Nat × α)) (k : Nat)
    (v : α) (h : amFind m k = some v) : (m.map Prod.fst).contains k := by
  induction m with
  | nil => simp [amFind] at h
  | cons p rest ih =>
    rw [amFind] at h
    by_cases hk : p.1 = k
    · simp [hk]
    · rw [if_neg hk] at h
      simp only [List.map_cons, List.contains_cons]
      rw [ih h]
      simp

lemma amFind_none_not_contains {α : Type} (m : List (Nat × α)) (k : Nat)
    (h : amFind m k = none) : ¬ (m.map Prod.fst).contains k = true := by
  induction m with
  | nil => simp
  | cons p rest ih =>
    rw [amFind] at h
    by_cases hk : p.1 = k
    · rw [if_pos hk] at h
      exact absurd h (by simp)
    · rw [if_neg hk] at h
      simp only [List.map_cons, List.contains_cons]
      simp only [Bool.or_eq_true, beq_iff_eq]
      rintro (h1 | h2)
      · exact hk h1.symm
      · exact ih h h2

lemma amFind_nodup_getElem {α : Type} (m : List (Nat × α))
    (hnd : (m.map Prod.fst).Nodup) (i : Nat) (hi : i < m.length) (v : α)
    (hk : amFind m (m[i].1) = some v) : m[i].2 = v := by
  induction m generalizing i with
  | nil => exact absurd hi (by simp)
  | cons p rest ih =>
    simp only [List.map_cons, List.nodup_cons] at hnd
    cases i with
    | zero =>
      simp only [List.getElem_cons_zero] at hk ⊢
      rw [amFind, if_pos rfl] at hk
      exact (Option.some.injEq _ _).mp hk
    | succ j =>
      have hj : j < rest.length := by
        simpa using hi
      simp only [List.getElem_cons_succ] at hk ⊢
      have hne : p.1 ≠ rest[j].1 := by
        intro he
        exact hnd.1 (he ▸ List.mem_map_of_mem Prod.fst (rest.getElem_mem hj))
      rw [amFind, if_neg hne] at hk
      exact ih hnd.2 j hj hk

/-- A query may only EXTEND a group: ranged map and directory index
untouched, bitmap map extended by fresh default bitmaps. -/
def GroupExt (g g' : BitmapGroup) : Prop :=
  g'.rangedmap_ptr = g.rangedmap_ptr ∧ g'.dir_index = g.dir_index ∧
  ∃ new : List (Nat × Bitmap), g'.bitmap_group = g.bitmap_group ++ new ∧
    ∀ p ∈ new, (p : Nat × Bitmap).2 = Bitmap.init

/-- A query may only EXTEND the FieldSet state: `element_size` and the
path-name set untouched, and positionally the same field map except that
each group may gain appended default bitmaps. -/
def StateExt (fs fs' : FieldBitmapGroupSet) : Prop :=
  fs'.element_size = fs.element_size ∧
  fs'.path_field_names = fs.path_field_names ∧
  fs'.field_bitmap_groups_map.length = fs.field_bitmap_groups_map.length ∧
  ∀ i : Nat, i < fs.field_bitmap_groups_map.length →
    (fs'.field_bitmap_groups_map.getD i default).1 =
      (fs.field_bitmap_groups_map.getD i default).1 ∧
    GroupExt (fs.field_bitmap_groups_map.getD i default).2
      (fs'.field_bitmap_groups_map.getD i default).2

lemma GroupExt_refl (g : BitmapGroup) : GroupExt g g :=
  ⟨rfl, rfl, [], by simp, by simp⟩

lemma GroupExt_trans {g g' g'' : BitmapGroup} (h1 : GroupExt g g')
    (h2 : GroupExt g' g'') : GroupExt g g'' := by
  obtain ⟨hr1, hd1, n1, hb1, hn1⟩ := h1
  obtain ⟨hr2, hd2, n2, hb2, hn2⟩ := h2
  refine ⟨hr2.trans hr1, hd2.trans hd1, n1 ++ n2, ?_, ?_⟩
  · rw [hb2, hb1, List.append_assoc]
  · intro p hp
    rcases List.mem_append.mp hp with h | h
    · exact hn1 p h
    · exact hn2 p h

lemma StateExt_refl (fs : FieldBitmapGroupSet) : StateExt fs fs :=
  ⟨rfl, rfl, rfl, fun i _ => ⟨rfl, GroupExt_refl _⟩⟩

lemma StateExt_trans {fs fs' fs'' : FieldBitmapGroupSet}
    (h1 : StateExt fs fs') (h2 : StateExt fs' fs'') : StateExt fs fs'' := by
  obtain ⟨he1, hp1, hl1, hi1⟩ := h1
  obtain ⟨he2, hp2, hl2, hi2⟩ := h2
  refine ⟨he2.trans he1, hp2.trans hp1, hl2.trans hl1, ?_⟩
  intro i hi
  have hi' : i < fs'.field_bitmap_groups_map.length := by omega
  obtain ⟨hk1, hg1⟩ := hi1 i hi
  obtain ⟨hk2, hg2⟩ := hi2 i hi'
  exact ⟨hk2.trans hk1, GroupExt_trans hg1 hg2⟩

lemma StateExt_keys {fs fs' : FieldBitmapGroupSet} (h : StateExt fs fs') :
    fs'.field_bitmap_groups_map.map Prod.fst =
      fs.field_bitmap_groups_map.map Prod.fst := by
  obtain ⟨_, _, hl, hi⟩ := h
  apply List.ext_getElem
  · simp [hl]
  · intro i h1 h2
    have hilt : i < fs.field_bitmap_groups_map.length := by
      simpa using h2
    have hilt' : i < fs'.field_bitmap_groups_map.length := by omega
    obtain ⟨hk, _⟩ := hi i hilt
    rw [List.getD_eq_getElem _ _ hilt, List.getD_eq_getElem _ _ hilt'] at hk
    simpa using hk

lemma FieldWF_of_StateExt {fs fs' : FieldBitmapGroupSet}
    (h : StateExt fs fs') (hwf : FieldWF fs) : FieldWF fs' := by
  unfold FieldWF at hwf ⊢
  rwa [StateExt_keys h]

lemma get_editable_bitmap_GroupExt (g : BitmapGroup) (k : Nat) :
    GroupExt g (g.get_editable_bitmap k).2 := by
  unfold BitmapGroup.get_editable_bitmap
  cases h : amFind g.bitmap_group k with
  | some b => exact GroupExt_refl g
  | none =>
    refine ⟨rfl, rfl, [(k, Bitmap.init)], ?_, ?_⟩
    · show amAssign g.bitmap_group k Bitmap.init = _
      unfold amAssign
      rw [if_neg (amFind_none_not_contains _ _ h)]
    · intro p hp
      simp only [List.mem_singleton] at hp
      rw [hp]

lemma updGroup_StateExt (fs : FieldBitmapGroupSet) (F : Nat)
    (g g' : BitmapGroup)
    (hg : amFind fs.field_bitmap_groups_map F = some g)
    (hwf : FieldWF fs) (hext : GroupExt g g') :
    StateExt fs (fs.updGroup F g') := by
  have hcont := amFind_some_contains _ _ _ hg
  unfold FieldBitmapGroupSet.updGroup amAssign
  rw [if_pos hcont]
  refine ⟨rfl, rfl, by simp, ?_⟩
  intro i hi
  have hmap : (fs.field_bitmap_groups_map.map
      (fun p => if p.1 = F then (F, g') else p)).getD i default =
      (fun p => if p.1 = F then (F, g') else p)
        (fs.field_bitmap_groups_map.getD i default) := by
    have hilt : i < (fs.field_bitmap_groups_map.map
        (fun p => if p.1 = F then (F, g') else p)).length := by
      simpa using hi
    rw [List.getD_eq_getElem _ _ hilt, List.getD_eq_getElem _ _ hi,
      List.getElem_map]
  rw [hmap]
  dsimp only
  by_cases hkey : (fs.field_bitmap_groups_map.getD i default).1 = F
  · rw [if_pos hkey]
    have hval : (fs.field_bitmap_groups_map.getD i default).2 = g := by
      rw [List.getD_eq_getElem _ _ hi]
      apply amFind_nodup_getElem fs.field_bitmap_groups_map hwf i hi g
      rw [← List.getD_eq_getElem fs.field_bitmap_groups_map default hi, hkey]
      exact hg
    rw [hval]
    exact ⟨hkey.symm, hext⟩
  · rw [if_neg hkey]
    exact ⟨rfl, GroupExt_refl _⟩

lemma get_editable_set_StateExt (fs : FieldBitmapGroupSet) (F k : Nat)
    (hwf : FieldWF fs) : StateExt fs (fs.get_editable_bitmap F k).2 := by
  unfold FieldBitmapGroupSet.get_editable_bitmap
  cases hg : amFind fs.field_bitmap_groups_map F with
  | none => exact StateExt_refl fs
  | some g =>
    exact updGroup_StateExt fs F g _ hg hwf (get_editable_bitmap_GroupExt g k)

lemma get_bitmap_set_StateExt (fs : FieldBitmapGroupSet) (F k : Nat)
    (hwf : FieldWF fs) : StateExt fs (fs.get_bitmap F k).2 :=
  get_editable_set_StateExt fs F k hwf

lemma make_field_copy1_StateExt (fs : FieldBitmapGroupSet) (F k : Nat)
    (hwf : FieldWF fs) : StateExt fs (fs.make_field_copy1 F k).2 := by
  unfold FieldBitmapGroupSet.make_field_copy1
  cases hg : amFind fs.field_bitmap_groups_map F with
  | none => exact StateExt_refl fs
  | some g =>
    exact updGroup_StateExt fs F g _ hg hwf (get_editable_bitmap_GroupExt g k)

lemma mfcStep_snd (F : Nat) (acc : List Bitmap × FieldBitmapGroupSet)
    (k : Nat) : (mfcStep F acc k).2 = (acc.2.get_bitmap F k).2 := by
  unfold mfcStep
  dsimp only
  cases (acc.2.get_bitmap F k).1 <;> rfl

lemma mfc_fold_StateExt (F : Nat) (C : List Nat) :
    ∀ (acc : List Bitmap × FieldBitmapGroupSet) (fs0 : FieldBitmapGroupSet),
      FieldWF fs0 → StateExt fs0 acc.2 →
      StateExt fs0 (C.foldl (mfcStep F) acc).2 := by
  induction C with
  | nil =>
    intro acc fs0 _ h
    exact h
  | cons k rest ih =>
    intro acc fs0 hwf h
    rw [List.foldl_cons]
    apply ih
    · exact hwf
    · have hwf2 : FieldWF acc.2 := FieldWF_of_StateExt h hwf
      have hstep := get_bitmap_set_StateExt acc.2 F k hwf2
      rw [← mfcStep_snd F acc k] at hstep
      exact StateExt_trans h hstep

lemma make_field_copy_StateExt (fs : FieldBitmapGroupSet) (F : Nat)
    (C : List Nat) (hwf : FieldWF fs) :
    StateExt fs (fs.make_field_copy F C).2 := by
  unfold FieldBitmapGroupSet.make_field_copy
  by_cases h1 : C.length = 1
  · rw [if_pos h1]
    exact make_field_copy1_StateExt fs F _ hwf
  · rw [if_neg h1]
    by_cases h2 : 1 < C.length
    · rw [if_pos h2]
      exact mfc_fold_StateExt F C ([], fs) fs hwf (StateExt_refl fs)
    · rw [if_neg h2]
      exact StateExt_refl fs

lemma make_field_exclude_copy_StateExt (fs : FieldBitmapGroupSet) (F : Nat)
    (C : List Nat) (hwf : FieldWF fs) :
    StateExt fs (fs.make_field_exclude_copy F C).2 := by
  unfold FieldBitmapGroupSet.make_field_exclude_copy
  by_cases h0 : C.length = 0
  · rw [if_pos h0]
    exact StateExt_refl fs
  · rw [if_neg h0]
    by_cases h1 : C.length = 1
    · rw [if_pos h1]
      dsimp only
      have hst := get_bitmap_set_StateExt fs F (C.getD 0 0) hwf
      cases hr : (fs.get_bitmap F (C.getD 0 0)).1 <;> exact hst
    · rw [if_neg h1]
      dsimp only
      have hst := make_field_copy_StateExt fs F C hwf
      cases hr : (fs.make_field_copy F C).1 <;> exact hst

lemma mpf_fold_GroupExt (keys : List Nat) :
    ∀ (acc : List Bitmap × BitmapGroup) (g0 : BitmapGroup),
      GroupExt g0 acc.2 → GroupExt g0 (keys.foldl mpfStep acc).2 := by
  induction keys with
  | nil =>
    intro acc g0 h
    exact h
  | cons k rest ih =>
    intro acc g0 h
    rw [List.foldl_cons]
    apply ih
    have hstep : GroupExt acc.2 (mpfStep acc k).2 :=
      get_editable_bitmap_GroupExt acc.2 k
    exact GroupExt_trans h hstep

lemma make_path_field_copy_StateExt (fs : FieldBitmapGroupSet) (F : Nat)
    (keys : List Nat) (depth : Int) (hwf : FieldWF fs) :
    StateExt fs (fs.make_path_field_copy F keys depth).2 := by
  unfold FieldBitmapGroupSet.make_path_field_copy
  cases hg : amFind fs.field_bitmap_groups_map F with
  | none => exact StateExt_refl fs
  | some g =>
    dsimp only
    by_cases hroot : depth = -1 ∧ 0 ∈ keys
    · rw [if_pos hroot]
      exact StateExt_refl fs
    · rw [if_neg hroot]
      cases hd : g.dir_index with
      | none => exact StateExt_refl fs
      | some d =>
        dsimp only
        apply updGroup_StateExt fs F g _ hg hwf
        exact mpf_fold_GroupExt _ ([], g) g (GroupExt_refl g)

lemma make_path_field_exclude_copy_StateExt (fs : FieldBitmapGroupSet)
    (F : Nat) (keys : List Nat) (depth : Int) (hwf : FieldWF fs) :
    StateExt fs (fs.make_path_field_exclude_copy F keys depth).2 :=
  make_path_field_copy_StateExt fs F keys depth hwf

lemma mustCalcSelf_StateExt (fs : FieldBitmapGroupSet) (fields : List Nat)
    (conds : List Nat) (depth : Int) (hwf : FieldWF fs) :
    StateExt fs (mustCalcSelf fs fields conds depth).2 := by
  unfold mustCalcSelf
  by_cases hp : fs.is_path_field_name (fields.getD 0 0) = true
  · rw [if_pos hp]
    exact make_path_field_copy_StateExt fs _ conds depth hwf
  · rw [if_neg hp]
    exact make_field_copy_StateExt fs _ conds hwf

lemma mustNotCalcSelf_StateExt (fs : FieldBitmapGroupSet)
    (fields : List Nat) (conds : List Nat) (depth : Int) (hwf : FieldWF fs) :
    StateExt fs (mustNotCalcSelf fs fields conds depth).2 := by
  unfold mustNotCalcSelf
  by_cases hp : fs.is_path_field_name (fields.getD 0 0) = true
  · rw [if_pos hp]
    exact make_path_field_exclude_copy_StateExt fs _ conds depth hwf
  · rw [if_neg hp]
    exact make_field_exclude_copy_StateExt fs _ conds hwf

lemma presCombine_StateExt
    (self : FieldBitmapGroupSet → Option Bitmap × FieldBitmapGroupSet)
    (fs : FieldBitmapGroupSet) (pres : Option Bitmap) (onop : String)
    (hself : ∀ s : FieldBitmapGroupSet, FieldWF s → StateExt s (self s).2)
    (hwf : FieldWF fs) : StateExt fs (presCombine self fs pres onop).2 := by
  unfold presCombine
  cases pres with
  | none => exact hself fs hwf
  | some p =>
    dsimp only
    by_cases ha : onop = "and"
    · rw [if_pos ha]
      have hst := hself fs hwf
      cases hr : (self fs).1 <;> exact hst
    · rw [if_neg ha]
      by_cases ho : onop = "or"
      · rw [if_pos ho]
        exact hself fs hwf
      · rw [if_neg ho]
        exact StateExt_refl fs

lemma mustCalcBitmap_StateExt (fs : FieldBitmapGroupSet)
    (fields : List Nat) (conds : List Nat) (depth : Int)
    (pres : Option Bitmap) (onop : String) (hwf : FieldWF fs) :
    StateExt fs (mustCalcBitmap fs fields conds depth pres onop).2 := by
  unfold mustCalcBitmap
  by_cases h0 : conds.length = 0
  · rw [if_pos h0]
    exact StateExt_refl fs
  · rw [if_neg h0]
    exact presCombine_StateExt _ fs pres onop
      (fun s hws => mustCalcSelf_StateExt s fields conds depth hws) hwf

lemma mustNotCalcBitmap_StateExt (fs : FieldBitmapGroupSet)
    (fields : List Nat) (conds : List Nat) (depth : Int)
    (pres : Option Bitmap) (onop : String) (hwf : FieldWF fs) :
    StateExt fs (mustNotCalcBitmap fs fields conds depth pres onop).2 := by
  unfold mustNotCalcBitmap
  cases pres with
  | none => exact mustNotCalcSelf_StateExt fs fields conds depth hwf
  | some p =>
    dsimp only
    by_cases ha : onop = "and"
    · rw [if_pos ha]
      by_cases h1 : conds.length = 1
      · rw [if_pos h1]
        have hst := get_bitmap_set_StateExt fs (fields.getD 0 0)
          (conds.getD 0 0) hwf
        cases hr : (fs.get_bitmap (fields.getD 0 0) (conds.getD 0 0)).1 <;>
          exact hst
      · rw [if_neg h1]
        by_cases h2 : 1 < conds.length
        · rw [if_pos h2]
          exact make_field_copy_StateExt fs _ conds hwf
        · rw [if_neg h2]
          exact StateExt_refl fs
    · rw [if_neg ha]
      by_cases ho : onop = "or"
      · rw [if_pos ho]
        exact mustNotCalcSelf_StateExt fs fields conds depth hwf
      · rw [if_neg ho]
        exact StateExt_refl fs

lemma rangeCalcBitmap_StateExt (fs : FieldBitmapGroupSet) (ro : Bool)
    (fields : List Nat) (lt : ℚ) (ile : Bool) (gt : ℚ) (ige : Bool)
    (center : List ℚ) (radius : ℚ) (pres : Option Bitmap) (onop : String)
    (hwf : FieldWF fs) :
    StateExt fs
      (rangeCalcBitmap fs ro fields lt ile gt ige center radius
        pres onop).2 := by
  unfold rangeCalcBitmap
  exact presCombine_StateExt _ fs pres onop (fun s _ => StateExt_refl s) hwf

lemma scanCalcBitmap_StateExt (fs : FieldBitmapGroupSet) (F : Nat)
    (keyMatch : Nat → Bool) (pres : Option Bitmap) (onop : String)
    (hwf : FieldWF fs) :
    StateExt fs (scanCalcBitmap fs F keyMatch pres onop).2 := by
  unfold scanCalcBitmap
  exact presCombine_StateExt _ fs pres onop (fun s _ => StateExt_refl s) hwf

lemma labelInCalcBitmap_StateExt (fs : FieldBitmapGroupSet)
    (labels : List Nat) (conv : Option (List Nat → Option (List Nat)))
    (pres : Option Bitmap) (onop : String) (hwf : FieldWF fs) :
    StateExt fs (labelInCalcBitmap fs labels conv pres onop).2 := by
  unfold labelInCalcBitmap
  by_cases h0 : labels.length = 0
  · rw [if_pos h0]
    exact StateExt_refl fs
  · rw [if_neg h0]
    exact presCombine_StateExt _ fs pres onop (fun s _ => StateExt_refl s) hwf

lemma logicLoopGen_StateExt
    (ev : FilterOp → FieldBitmapGroupSet → Option Bitmap → String →
      Option Bitmap × FieldBitmapGroupSet)
    (hev : ∀ c s p o, FieldWF s → StateExt s (ev c s p o).2)
    (opname : String) (conds : List FilterOp) :
    ∀ (fs : FieldBitmapGroupSet) (pres : Option Bitmap), FieldWF fs →
      StateExt fs (logicLoopGen ev opname conds fs pres).2 := by
  induction conds with
  | nil =>
    intro fs pres _
    exact StateExt_refl fs
  | cons c rest ih =>
    intro fs pres hwf
    rw [logicLoopGen]
    have h1 := hev c fs pres opname hwf
    have hwf1 : FieldWF (ev c fs pres opname).2 := FieldWF_of_StateExt h1 hwf
    cases hr : (ev c fs pres opname).1 with
    | some b =>
      exact StateExt_trans h1 (ih (ev c fs pres opname).2 (some b) hwf1)
    | none =>
      by_cases ho : opname = "or"
      · rw [if_pos ho]
        exact StateExt_trans h1 (ih _ none hwf1)
      · rw [if_neg ho]
        exact h1

lemma logicIgnoreLoopGen_StateExt
    (ev : FilterOp → FieldBitmapGroupSet → Option Bitmap → String →
      Option Bitmap × FieldBitmapGroupSet)
    (hev : ∀ c s p o, FieldWF s → StateExt s (ev c s p o).2)
    (conds : List FilterOp) :
    ∀ (fs : FieldBitmapGroupSet) (pres : Option Bitmap), FieldWF fs →
      StateExt fs (logicIgnoreLoopGen ev conds fs pres).2 := by
  induction conds with
  | nil =>
    intro fs pres _
    exact StateExt_refl fs
  | cons c rest ih =>
    intro fs pres hwf
    rw [logicIgnoreLoopGen]
    have h1 := hev c fs none "and" hwf
    have hwf1 : FieldWF (ev c fs none "and").2 := FieldWF_of_StateExt h1 hwf
    cases hr : (ev c fs none "and").1 with
    | none => exact StateExt_trans h1 (ih _ pres hwf1)
    | some cres =>
      cases pres with
      | none => exact StateExt_trans h1 (ih _ (some cres) hwf1)
      | some p => exact StateExt_trans h1 (ih _ _ hwf1)

lemma logicCalcSelf_StateExt
    (ev : FilterOp → FieldBitmapGroupSet → Option Bitmap → String →
      Option Bitmap × FieldBitmapGroupSet)
    (hev : ∀ c s p o, FieldWF s → StateExt s (ev c s p o).2)
    (opname : String) (ie : Bool) (conds : List FilterOp)
    (fs : FieldBitmapGroupSet) (hwf : FieldWF fs) :
    StateExt fs (logicCalcSelf ev opname ie conds fs).2 := by
  unfold logicCalcSelf
  by_cases h : opname = "and" ∧ ie = true
  · rw [if_pos h]
    exact logicIgnoreLoopGen_StateExt ev hev conds fs none hwf
  · rw [if_neg h]
    exact logicLoopGen_StateExt ev hev opname conds fs none hwf

/-- C6.  The claim says evaluating any parsed filter tree (`calc_bitmap`
on any operator, in particular must/must_not with keys never written to
the field) leaves the FieldSet state unchanged.  That is false — see the
counterexample theorem: `BitmapGroupBase::get_editable_bitmap` INSERTS a
fresh empty bitmap when the queried key is missing, and every non-range
read path goes through it.  The amended frame property proved here, for
every operator of the registry (`and`/`or`, `must`, `must_not`, the range
family, the prefix/contains/regex scans and `label_in`): evaluation never
touches `element_size`, the path-name set, any ranged map or directory
index, and never modifies a stored bitmap — at most it appends
`(key, default Bitmap)` entries to the queried groups. -/
theorem C6_eval_only_appends_empty_bitmaps (fuel : Nat) (op : FilterOp)
    (fs : FieldBitmapGroupSet) (pres : Option Bitmap) (onop : String)
    (hwf : FieldWF fs) :
    StateExt fs (evalFilter fuel op fs pres onop).2 := by
  induction fuel generalizing op fs pres onop hwf with
  | zero => exact StateExt_refl fs
  | succ n ih =>
    have hev : ∀ c s p o, FieldWF s → StateExt s (evalFilter n c s p o).2 :=
      fun c s p o hws => ih c s p o hws
    cases op with
    | andRel ie conds =>
      exact presCombine_StateExt _ fs pres onop
        (fun s hws =>
          logicCalcSelf_StateExt (evalFilter n) hev "and" ie conds s hws) hwf
    | orRel conds =>
      exact presCombine_StateExt _ fs pres onop
        (fun s hws =>
          logicCalcSelf_StateExt (evalFilter n) hev "or" false conds s hws)
        hwf
    | must fields conds depth =>
      exact mustCalcBitmap_StateExt fs fields conds depth pres onop hwf
    | mustNot fields conds depth =>
      exact mustNotCalcBitmap_StateExt fs fields conds depth pres onop hwf
    | range ro fields lt ile gt ige center radius =>
      exact rangeCalcBitmap_StateExt fs ro fields lt ile gt ige center
        radius pres onop hwf
    | scan F keyMatch =>
      exact scanCalcBitmap_StateExt fs F keyMatch pres onop hwf
    | labelIn labels conv =>
      exact labelInCalcBitmap_StateExt fs labels conv pres onop hwf

/-- The FieldSet for the C6 counterexample: one field (name 1) whose group
holds no bitmaps at all. -/
def c6fs : FieldBitmapGroupSet := ⟨4, [(1, ⟨[], none, none⟩)], []⟩

/-- C6 counterexample.  Evaluating the filter `must(field 1, key 5)` — a
key never written to the field — INSERTS the entry `(5, default Bitmap)`
into field 1's group map, so the claimed frame property ("evaluation
leaves the FieldSet state unchanged") fails: before the query field 1's
group holds no keys, afterwards it holds key 5. -/
theorem C6_must_query_inserts_empty_bitmap :
    (evalFilter 1 (FilterOp.must [1] [5] 0) c6fs none
        "and").2.field_bitmap_groups_map.map
      (fun p => (p.1, p.2.bitmap_group.map Prod.fst)) = [(1, [5])] ∧
    c6fs.field_bitmap_groups_map.map
      (fun p => (p.1, p.2.bitmap_group.map Prod.fst)) = [(1, [])] := by
  exact ⟨rfl, rfl⟩

theorem C6_eval_only_appends_empty_bitmaps_witness :
    FieldWF c6fs ∧
    StateExt c6fs
      (evalFilter 1 (FilterOp.mustNot [1] [5] 0) c6fs none "and").2 :=
  ⟨by decide, C6_eval_only_appends_empty_bitmaps 1
    (FilterOp.mustNot [1] [5] 0) c6fs none "and" (by decide)⟩

/-- A two-field concrete FieldSet for the C5 witness: field 1 holds the
key-2 bitmap `{1, 3}`. -/
def c5fs : FieldBitmapGroupSet :=
  ⟨4, [(1, ⟨[(2, ⟨∅, {1, 3}, false, 0, false⟩)], none, none⟩)], []⟩

theorem C5_must_not_is_full_minus_must_witness :
    0 < c5fs.element_size ∧ ([2] : List Nat) ≠ [] ∧
    (∃ bmn fs2,
      mustNotCalcSelf c5fs [1] [2] 0 = (some bmn, fs2) ∧
      bmn.contents = Finset.Ico 0 c5fs.element_size \
        ((mustCalcSelf c5fs [1] [2] 0).1.elim ∅ Bitmap.contents)) :=
  ⟨by decide, by decide,
   C5_must_not_is_full_minus_must c5fs 1 [2] 0 (by decide) (by decide)⟩

/-! ### C2: exactness of the range query on well-formed maps

The development below proves the amended range-query contract: on every
`RangedMap` reachable by `add_offset_and_score` / `delete_offset` from
empty, the bitmap returned by `get_range_bitmap` contains exactly the
live offsets whose value satisfies the interval predicate, and a null
return means no offset matches.  (The original claim's "null exactly when
empty" direction fails — see `C2_crossed_borders_return_nonnull_empty`.) -/

/-- The high-side condition of the query (`value ≤/< lower_than`). -/
def ltSideQ (lt : ℚ) (ile : Bool) (v : ℚ) : Prop :=
  if ile then v ≤ lt else v < lt

instance (lt : ℚ) (ile : Bool) (v : ℚ) : Decidable (ltSideQ lt ile v) := by
  unfold ltSideQ
  infer_instance

/-- The low-side condition of the query (`value ≥/> greater_than`). -/
def gtSideQ (gt : ℚ) (ige : Bool) (v : ℚ) : Prop :=
  if ige then gt ≤ v else gt < v

instance (gt : ℚ) (ige : Bool) (v : ℚ) : Decidable (gtSideQ gt ige v) := by
  unfold gtSideQ
  infer_instance

lemma inIntervalQ_iff (lt : ℚ) (ile : Bool) (gt : ℚ) (ige : Bool) (v : ℚ) :
    inIntervalQ lt ile gt ige v ↔ ltSideQ lt ile v ∧ gtSideQ gt ige v :=
  Iff.rfl

lemma twLen_le {α} (P : α → Bool) (l : List α) :
    (l.takeWhile P).length ≤ l.length := by
  induction l with
  | nil => simp
  | cons x xs ih =>
    by_cases hx : P x
    · rw [List.takeWhile_cons, if_pos hx]
      simpa using ih
    · rw [List.takeWhile_cons, if_neg hx]
      simp

lemma twLen_lt_elem {α} [Inhabited α] (P : α → Bool) (l : List α) (p : Nat)
    (h : p < (l.takeWhile P).length) : P (l.getD p default) = true := by
  induction l generalizing p with
  | nil => simp at h
  | cons x xs ih =>
    by_cases hx : P x
    · rw [List.takeWhile_cons, if_pos hx] at h
      cases p with
      | zero => simpa using hx
      | succ q =>
        simp only [List.length_cons] at h
        have := ih q (by omega)
        simpa using this
    · rw [List.takeWhile_cons, if_neg hx] at h
      simp at h

lemma twLen_stop {α} [Inhabited α] (P : α → Bool) (l : List α)
    (h : (l.takeWhile P).length < l.length) :
    P (l.getD (l.takeWhile P).length default) = false := by
  induction l with
  | nil => simp at h
  | cons x xs ih =>
    by_cases hx : P x
    · rw [List.takeWhile_cons, if_pos hx] at h ⊢
      simp only [List.length_cons] at h ⊢
      have := ih (by omega)
      simpa using this
    · rw [List.takeWhile_cons, if_neg hx]
      simpa using hx

lemma sorted_getD_mono (vs : List ℚ) (hs : vs.Sorted (· ≤ ·)) (p q : Nat)
    (hpq : p ≤ q) (hq : q < vs.length) : vs.getD p 0 ≤ vs.getD q 0 := by
  rcases Nat.lt_or_ge p q with hlt | hge
  · have hp : p < vs.length := lt_trans hlt hq
    rw [List.getD_eq_getElem?_getD, List.getD_eq_getElem?_getD,
      List.getElem?_eq_getElem hp, List.getElem?_eq_getElem hq]
    exact List.pairwise_iff_getElem.mp hs p q hp hq hlt
  · have : p = q := by omega
    rw [this]

lemma ubIdx_le (vs : List ℚ) (v : ℚ) : ubIdx vs v ≤ vs.length :=
  twLen_le _ vs

lemma lbIdx_le (vs : List ℚ) (v : ℚ) : lbIdx vs v ≤ vs.length :=
  twLen_le _ vs

lemma ubIdx_spec (vs : List ℚ) (hs : vs.Sorted (· ≤ ·)) (v : ℚ) (p : Nat)
    (hp : p < vs.length) : p < ubIdx vs v ↔ vs.getD p 0 ≤ v := by
  constructor
  · intro h
    have := twLen_lt_elem (fun x => decide (x ≤ v)) vs p h
    simpa using this
  · intro h
    by_contra hc
    push_neg at hc
    have hstop : ubIdx vs v < vs.length := by omega
    have h1 := twLen_stop (fun x => decide (x ≤ v)) vs hstop
    simp only [decide_eq_false_iff_not] at h1
    have h2 := sorted_getD_mono vs hs (ubIdx vs v) p hc hp
    exact h1 (le_trans h2 h)

lemma lbIdx_spec (vs : List ℚ) (hs : vs.Sorted (· ≤ ·)) (v : ℚ) (p : Nat)
    (hp : p < vs.length) : p < lbIdx vs v ↔ vs.getD p 0 < v := by
  constructor
  · intro h
    have := twLen_lt_elem (fun x => decide (x < v)) vs p h
    simpa using this
  · intro h
    by_contra hc
    push_neg at hc
    have hstop : lbIdx vs v < vs.length := by omega
    have h1 := twLen_stop (fun x => decide (x < v)) vs hstop
    simp only [decide_eq_false_iff_not] at h1
    have h2 := sorted_getD_mono vs hs (lbIdx vs v) p hc hp
    exact h1 (lt_of_le_of_lt h2 h)

lemma headD_eq_getD {α} (l : List α) (d : α) : l.headD d = l.getD 0 d := by
  cases l <;> rfl

lemma getLastD_eq_getD {α} (l : List α) :
    ∀ (d : α), l.getLastD d = l.getD (l.length - 1) d := by
  induction l with
  | nil =>
    intro d
    rfl
  | cons x xs ih =>
    intro d
    cases xs with
    | nil => rfl
    | cons y t =>
      show (y :: t).getLastD x = _
      rw [ih x]
      have hlen : (x :: y :: t).length - 1 = ((y :: t).length - 1) + 1 := by
        simp
      rw [hlen, List.getD_cons_succ]
      have hr : (y :: t).length - 1 < (y :: t).length := by simp
      rw [List.getD_eq_getElem?_getD, List.getD_eq_getElem?_getD,
        List.getElem?_eq_getElem hr]
      rfl

/-- Well-formedness of one slot: non-empty parallel vectors sorted by
value, boundary fields caching head/last, the bitmap mirroring the offset
vector, and the size cap `add_offset_and_score` maintains by splitting. -/
def SlotWF (s : SlotMeta) : Prop :=
  s.value_vec ≠ [] ∧
  s.value_vec.length = s.offset_vec.length ∧
  s.value_vec.Sorted (· ≤ ·) ∧
  s.left = s.value_vec.headD 0 ∧
  s.right = s.value_vec.getLastD 0 ∧
  s.bitmap = s.offset_vec.toFinset ∧
  s.value_vec.length ≤ 2 * kRangedMapSlotSize

lemma slot_value_bounds (s : SlotMeta) (hs : SlotWF s) (p : Nat)
    (hp : p < s.value_vec.length) :
    s.left ≤ s.value_vec.getD p 0 ∧ s.value_vec.getD p 0 ≤ s.right := by
  obtain ⟨hne, _, hsort, hleft, hright, _⟩ := hs
  have hpos : 0 < s.value_vec.length := List.length_pos.mpr hne
  constructor
  · rw [hleft, headD_eq_getD]
    exact sorted_getD_mono _ hsort 0 p (by omega) hp
  · rw [hright, getLastD_eq_getD]
    exact sorted_getD_mono _ hsort p (s.value_vec.length - 1) (by omega)
      (by omega)

lemma slot_left_le_right (s : SlotMeta) (hs : SlotWF s) :
    s.left ≤ s.right := by
  have hpos : 0 < s.value_vec.length :=
    List.length_pos.mpr hs.1
  obtain ⟨h1, h2⟩ := slot_value_bounds s hs 0 hpos
  exact le_trans h1 h2

/-- The `RangedMap` invariant maintained by `add_offset_and_score` and
`delete_offset` from the empty map: every slot well-formed, slot value
ranges ordered, every slot position linked to a live `offset_to_value_`
entry with the same value, every live entry covered by a slot position,
and all slot positions holding pairwise distinct offsets. -/
def RMInv (m : RangedMap) : Prop :=
  (∀ i, i < m.slots.length → SlotWF (m.slots.getD i default)) ∧
  (∀ i j, i < j → j < m.slots.length →
    (m.slots.getD i default).right ≤ (m.slots.getD j default).left) ∧
  (∀ i, i < m.slots.length →
    ∀ p, p < (m.slots.getD i default).value_vec.length →
      m.lookupValue ((m.slots.getD i default).offset_vec.getD p 0) =
        some ((m.slots.getD i default).value_vec.getD p 0)) ∧
  (∀ o v, m.lookupValue o = some v →
    ∃ i, i < m.slots.length ∧
      ∃ p, p < (m.slots.getD i default).value_vec.length ∧
        (m.slots.getD i default).offset_vec.getD p 0 = o ∧
        (m.slots.getD i default).value_vec.getD p 0 = v) ∧
  (∀ i j p q, i < m.slots.length → j < m.slots.length →
    p < (m.slots.getD i default).offset_vec.length →
    q < (m.slots.getD j default).offset_vec.length →
    ¬(i = j ∧ p = q) →
    (m.slots.getD i default).offset_vec.getD p 0 ≠
      (m.slots.getD j default).offset_vec.getD q 0)

lemma slotLowerBoundAux_spec (slots : List SlotMeta) (val : ℚ)
    (hlr : ∀ i, i < slots.length →
      (slots.getD i default).left ≤ (slots.getD i default).right)
    (hchain : ∀ i j, i < j → j < slots.length →
      (slots.getD i default).right ≤ (slots.getD j default).left) :
    ∀ fuel l r, l ≤ r → r ≤ slots.length → r - l ≤ fuel →
      (∀ i, i < l → (slots.getD i default).right < val) →
      (∀ i, r ≤ i → i < slots.length →
        val ≤ (slots.getD i default).left) →
      l ≤ slotLowerBoundAux slots val fuel l r ∧
      slotLowerBoundAux slots val fuel l r ≤ r ∧
      (∀ i, i < slotLowerBoundAux slots val fuel l r →
        (slots.getD i default).right < val) ∧
      (∀ i, slotLowerBoundAux slots val fuel l r < i → i < slots.length →
        val ≤ (slots.getD i default).left) := by
  intro fuel
  induction fuel with
  | zero =>
    intro l r hlr' hrn hfuel hbelow habove
    rw [slotLowerBoundAux]
    exact ⟨le_refl l, by omega, hbelow,
      fun i hi hin => habove i (by omega) hin⟩
  | succ n ih =>
    intro l r hlr' hrn hfuel hbelow habove
    rw [slotLowerBoundAux]
    by_cases hlt : l < r
    · rw [if_pos hlt]
      by_cases hb1 : (slots.getD (l + (r - l) / 2) default).right < val
      · rw [if_pos hb1]
        have hres := ih (l + (r - l) / 2 + 1) r (by omega) hrn (by omega)
          ?_ habove
        · exact ⟨by omega, hres.2.1, hres.2.2.1, hres.2.2.2⟩
        · intro i hi
          rcases Nat.lt_or_ge i (l + (r - l) / 2) with h | h
          · have hc := hchain i (l + (r - l) / 2) h (by omega)
            have hl := hlr (l + (r - l) / 2) (by omega)
            exact lt_of_le_of_lt (le_trans hc hl) hb1
          · have : i = l + (r - l) / 2 := by omega
            rw [this]
            exact hb1
      · rw [if_neg hb1]
        by_cases hb2 : val ≤ (slots.getD (l + (r - l) / 2) default).left
        · rw [if_pos hb2]
          have hres := ih l (l + (r - l) / 2) (by omega) (by omega) (by omega)
            hbelow ?_
          · exact ⟨hres.1, by omega, hres.2.2.1, hres.2.2.2⟩
          · intro i hi hin
            rcases Nat.lt_or_ge (l + (r - l) / 2) i with h | h
            · have hl := hlr (l + (r - l) / 2) (by omega)
              have hc := hchain (l + (r - l) / 2) i h hin
              exact le_trans hb2 (le_trans hl hc)
            · have : i = l + (r - l) / 2 := by omega
              rw [this]
              exact hb2
        · rw [if_neg hb2]
          push_neg at hb1 hb2
          refine ⟨by omega, by omega, ?_, ?_⟩
          · intro i hi
            have hc := hchain i (l + (r - l) / 2) hi (by omega)
            exact lt_of_le_of_lt hc hb2
          · intro i hi hin
            have hc := hchain (l + (r - l) / 2) i hi hin
            exact le_trans hb1 hc
    · rw [if_neg hlt]
      exact ⟨le_refl l, by omega, hbelow,
        fun i hi hin => habove i (by omega) hin⟩

lemma slotUpperBoundAux_spec (slots : List SlotMeta) (val : ℚ)
    (hlr : ∀ i, i < slots.length →
      (slots.getD i default).left ≤ (slots.getD i default).right)
    (hchain : ∀ i j, i < j → j < slots.length →
      (slots.getD i default).right ≤ (slots.getD j default).left) :
    ∀ fuel l r, l ≤ r → r ≤ slots.length → r - l ≤ fuel →
      (∀ i, i < l → (slots.getD i default).right ≤ val) →
      (∀ i, r ≤ i → i < slots.length →
        val < (slots.getD i default).left) →
      l ≤ slotUpperBoundAux slots val fuel l r ∧
      slotUpperBoundAux slots val fuel l r ≤ r ∧
      (∀ i, i < slotUpperBoundAux slots val fuel l r →
        (slots.getD i default).right ≤ val) ∧
      (∀ i, slotUpperBoundAux slots val fuel l r < i → i < slots.length →
        val < (slots.getD i default).left) := by
  intro fuel
  induction fuel with
  | zero =>
    intro l r hlr' hrn hfuel hbelow habove
    rw [slotUpperBoundAux]
    exact ⟨le_refl l, by omega, hbelow,
      fun i hi hin => habove i (by omega) hin⟩
  | succ n ih =>
    intro l r hlr' hrn hfuel hbelow habove
    rw [slotUpperBoundAux]
    by_cases hlt : l < r
    · rw [if_pos hlt]
      by_cases hb1 : (slots.getD (l + (r - l) / 2) default).right ≤ val
      · rw [if_pos hb1]
        have hres := ih (l + (r - l) / 2 + 1) r (by omega) hrn (by omega)
          ?_ habove
        · exact ⟨by omega, hres.2.1, hres.2.2.1, hres.2.2.2⟩
        · intro i hi
          rcases Nat.lt_or_ge i (l + (r - l) / 2) with h | h
          · have hc := hchain i (l + (r - l) / 2) h (by omega)
            have hl := hlr (l + (r - l) / 2) (by omega)
            exact le_trans (le_trans hc hl) hb1
          · have : i = l + (r - l) / 2 := by omega
            rw [this]
            exact hb1
      · rw [if_neg hb1]
        by_cases hb2 : val < (slots.getD (l + (r - l) / 2) default).left
        · rw [if_pos hb2]
          have hres := ih l (l + (r - l) / 2) (by omega) (by omega) (by omega)
            hbelow ?_
          · exact ⟨hres.1, by omega, hres.2.2.1, hres.2.2.2⟩
          · intro i hi hin
            rcases Nat.lt_or_ge (l + (r - l) / 2) i with h | h
            · have hl := hlr (l + (r - l) / 2) (by omega)
              have hc := hchain (l + (r - l) / 2) i h hin
              exact lt_of_lt_of_le hb2 (le_trans hl hc)
            · have : i = l + (r - l) / 2 := by omega
              rw [this]
              exact hb2
        · rw [if_neg hb2]
          push_neg at hb1 hb2
          refine ⟨by omega, by omega, ?_, ?_⟩
          · intro i hi
            have hc := hchain i (l + (r - l) / 2) hi (by omega)
            exact le_trans hc hb2
          · intro i hi hin
            have hc := hchain (l + (r - l) / 2) i hi hin
            exact lt_of_lt_of_le hb1 hc
    · rw [if_neg hlt]
      exact ⟨le_refl l, by omega, hbelow,
        fun i hi hin => habove i (by omega) hin⟩

lemma slot_lower_bound_idx_spec (m : RangedMap) (val : ℚ)
    (hwf : ∀ i, i < m.slots.length → SlotWF (m.slots.getD i default))
    (hchain : ∀ i j, i < j → j < m.slots.length →
      (m.slots.getD i default).right ≤ (m.slots.getD j default).left) :
    m.slot_lower_bound_idx val ≤ m.slots.length ∧
    (∀ i, i < m.slot_lower_bound_idx val →
      (m.slots.getD i default).right < val) ∧
    (∀ i, m.slot_lower_bound_idx val < i → i < m.slots.length →
      val ≤ (m.slots.getD i default).left) := by
  have h := slotLowerBoundAux_spec m.slots val
    (fun i hi => slot_left_le_right _ (hwf i hi)) hchain
    m.slots.length 0 m.slots.length (by omega) (le_refl _) (by omega)
    (by omega) (fun i h1 h2 => absurd h1 (by omega))
  exact ⟨h.2.1, h.2.2.1, h.2.2.2⟩

lemma slot_upper_bound_idx_spec (m : RangedMap) (val : ℚ)
    (hwf : ∀ i, i < m.slots.length → SlotWF (m.slots.getD i default))
    (hchain : ∀ i j, i < j → j < m.slots.length →
      (m.slots.getD i default).right ≤ (m.slots.getD j default).left) :
    m.slot_upper_bound_idx val ≤ m.slots.length ∧
    (∀ i, i < m.slot_upper_bound_idx val →
      (m.slots.getD i default).right ≤ val) ∧
    (∀ i, m.slot_upper_bound_idx val < i → i < m.slots.length →
      val < (m.slots.getD i default).left) := by
  have h := slotUpperBoundAux_spec m.slots val
    (fun i hi => slot_left_le_right _ (hwf i hi)) hchain
    m.slots.length 0 m.slots.length (by omega) (le_refl _) (by omega)
    (by omega) (fun i h1 h2 => absurd h1 (by omega))
  exact ⟨h.2.1, h.2.2.1, h.2.2.2⟩

lemma find_left_slot_index_spec (m : RangedMap) (gt : ℚ) (ige : Bool)
    (hwf : ∀ i, i < m.slots.length → SlotWF (m.slots.getD i default))
    (hchain : ∀ i j, i < j → j < m.slots.length →
      (m.slots.getD i default).right ≤ (m.slots.getD j default).left) :
    0 ≤ m.find_left_slot_index gt ige ∧
    m.find_left_slot_index gt ige ≤ (m.slots.length : Int) ∧
    (∀ i : Nat, (i : Int) < m.find_left_slot_index gt ige →
      i < m.slots.length →
      ∀ p, p < (m.slots.getD i default).value_vec.length →
        ¬ gtSideQ gt ige ((m.slots.getD i default).value_vec.getD p 0)) ∧
    (∀ i : Nat, m.find_left_slot_index gt ige < (i : Int) →
      i < m.slots.length →
      ∀ p, p < (m.slots.getD i default).value_vec.length →
        gtSideQ gt ige ((m.slots.getD i default).value_vec.getD p 0)) := by
  unfold RangedMap.find_left_slot_index
  cases ige with
  | true =>
    obtain ⟨hle, h1, h2⟩ := slot_lower_bound_idx_spec m gt hwf hchain
    rw [if_pos rfl]
    refine ⟨by omega, by omega, ?_, ?_⟩
    · intro i hi hin p hp
      have hbd := (slot_value_bounds _ (hwf i hin) p hp).2
      have hr := h1 i (by omega)
      unfold gtSideQ
      simp only [if_true]
      intro hcon
      exact absurd (lt_of_le_of_lt (le_trans hcon hbd) hr) (lt_irrefl gt)
    · intro i hi hin p hp
      have hbd := (slot_value_bounds _ (hwf i hin) p hp).1
      have hl := h2 i (by omega) hin
      unfold gtSideQ
      simp only [if_true]
      exact le_trans hl hbd
  | false =>
    obtain ⟨hle, h1, h2⟩ := slot_upper_bound_idx_spec m gt hwf hchain
    rw [if_neg (by simp)]
    refine ⟨by omega, by omega, ?_, ?_⟩
    · intro i hi hin p hp
      have hbd := (slot_value_bounds _ (hwf i hin) p hp).2
      have hr := h1 i (by omega)
      unfold gtSideQ
      simp only [Bool.false_eq_true, if_false]
      intro hcon
      exact absurd (lt_of_lt_of_le hcon (le_trans hbd hr)) (lt_irrefl gt)
    · intro i hi hin p hp
      have hbd := (slot_value_bounds _ (hwf i hin) p hp).1
      have hl := h2 i (by omega) hin
      unfold gtSideQ
      simp only [Bool.false_eq_true, if_false]
      exact lt_of_lt_of_le hl hbd

lemma find_right_slot_index_spec (m : RangedMap) (lt : ℚ) (ile : Bool)
    (hne : m.slots ≠ [])
    (hwf : ∀ i, i < m.slots.length → SlotWF (m.slots.getD i default))
    (hchain : ∀ i j, i < j → j < m.slots.length →
      (m.slots.getD i default).right ≤ (m.slots.getD j default).left) :
    -1 ≤ m.find_right_slot_index lt ile ∧
    m.find_right_slot_index lt ile ≤ (m.slots.length : Int) - 1 ∧
    (∀ i : Nat, (i : Int) < m.find_right_slot_index lt ile →
      i < m.slots.length →
      ∀ p, p < (m.slots.getD i default).value_vec.length →
        ltSideQ lt ile ((m.slots.getD i default).value_vec.getD p 0)) ∧
    (∀ i : Nat, m.find_right_slot_index lt ile < (i : Int) →
      i < m.slots.length →
      ∀ p, p < (m.slots.getD i default).value_vec.length →
        ¬ ltSideQ lt ile ((m.slots.getD i default).value_vec.getD p 0)) := by
  have hn : 0 < m.slots.length := List.length_pos.mpr hne
  unfold RangedMap.find_right_slot_index
  cases ile with
  | true =>
    obtain ⟨hle, h1, h2⟩ := slot_upper_bound_idx_spec m lt hwf hchain
    rw [if_pos rfl]
    rcases Nat.lt_or_ge (m.slot_upper_bound_idx lt) m.slots.length with
      hu | hu
    · have hmin : min ((m.slot_upper_bound_idx lt : Nat) : Int)
          ((m.slots.length : Int) - 1) = (m.slot_upper_bound_idx lt : Int) :=
        min_eq_left (by omega)
      rw [hmin]
      dsimp only
      have htn : ((m.slot_upper_bound_idx lt : Int)).toNat =
          m.slot_upper_bound_idx lt := by omega
      rw [htn]
      by_cases hcond :
          lt < (m.slots.getD (m.slot_upper_bound_idx lt) default).left
      · rw [if_pos hcond]
        refine ⟨by omega, by omega, ?_, ?_⟩
        · intro i hi hin p hp
          have hbd := (slot_value_bounds _ (hwf i hin) p hp).2
          have hr := h1 i (by omega)
          unfold ltSideQ
          simp only [if_true]
          exact le_trans hbd hr
        · intro i hi hin p hp
          have hbd := (slot_value_bounds _ (hwf i hin) p hp).1
          unfold ltSideQ
          simp only [if_true]
          intro hcon
          rcases Nat.lt_or_ge i (m.slot_upper_bound_idx lt) with hi2 | hi2
          · omega
          · rcases Nat.eq_or_lt_of_le hi2 with hi3 | hi3
            · rw [hi3] at hcond
              exact absurd (lt_of_lt_of_le hcond (le_trans hbd hcon))
                (lt_irrefl lt)
            · have hl := h2 i hi3 hin
              exact absurd (lt_of_lt_of_le hl (le_trans hbd hcon))
                (lt_irrefl lt)
      · rw [if_neg hcond]
        refine ⟨by omega, by omega, ?_, ?_⟩
        · intro i hi hin p hp
          have hbd := (slot_value_bounds _ (hwf i hin) p hp).2
          have hr := h1 i (by omega)
          unfold ltSideQ
          simp only [if_true]
          exact le_trans hbd hr
        · intro i hi hin p hp
          have hbd := (slot_value_bounds _ (hwf i hin) p hp).1
          have hl := h2 i (by omega) hin
          unfold ltSideQ
          simp only [if_true]
          intro hcon
          exact absurd (lt_of_lt_of_le hl (le_trans hbd hcon)) (lt_irrefl lt)
    · have hu' : m.slot_upper_bound_idx lt = m.slots.length := by omega
      have hmin : min ((m.slot_upper_bound_idx lt : Nat) : Int)
          ((m.slots.length : Int) - 1) = (m.slots.length : Int) - 1 :=
        min_eq_right (by omega)
      rw [hmin]
      dsimp only
      have htn : (((m.slots.length : Int) - 1)).toNat =
          m.slots.length - 1 := by omega
      rw [htn]
      have hlast := h1 (m.slots.length - 1) (by omega)
      have hlr := slot_left_le_right _ (hwf (m.slots.length - 1) (by omega))
      have hcnd : ¬ lt < (m.slots.getD (m.slots.length - 1) default).left := by
        intro hcon
        exact absurd (lt_of_lt_of_le hcon (le_trans hlr hlast))
          (lt_irrefl lt)
      rw [if_neg hcnd]
      refine ⟨by omega, by omega, ?_, ?_⟩
      · intro i hi hin p hp
        have hbd := (slot_value_bounds _ (hwf i hin) p hp).2
        have hr := h1 i (by omega)
        unfold ltSideQ
        simp only [if_true]
        exact le_trans hbd hr
      · intro i hi hin p hp
        omega
  | false =>
    obtain ⟨hle, h1, h2⟩ := slot_lower_bound_idx_spec m lt hwf hchain
    rw [if_neg (by simp)]
    rcases Nat.lt_or_ge (m.slot_lower_bound_idx lt) m.slots.length with
      hu | hu
    · have hmin : min ((m.slot_lower_bound_idx lt : Nat) : Int)
          ((m.slots.length : Int) - 1) = (m.slot_lower_bound_idx lt : Int) :=
        min_eq_left (by omega)
      rw [hmin]
      dsimp only
      have htn : ((m.slot_lower_bound_idx lt : Int)).toNat =
          m.slot_lower_bound_idx lt := by omega
      rw [htn]
      by_cases hcond :
          lt ≤ (m.slots.getD (m.slot_lower_bound_idx lt) default).left
      · rw [if_pos hcond]
        refine ⟨by omega, by omega, ?_, ?_⟩
        · intro i hi hin p hp
          have hbd := (slot_value_bounds _ (hwf i hin) p hp).2
          have hr := h1 i (by omega)
          unfold ltSideQ
          simp only [Bool.false_eq_true, if_false]
          exact lt_of_le_of_lt hbd hr
        · intro i hi hin p hp
          have hbd := (slot_value_bounds _ (hwf i hin) p hp).1
          unfold ltSideQ
          simp only [Bool.false_eq_true, if_false]
          intro hcon
          rcases Nat.lt_or_ge i (m.slot_lower_bound_idx lt) with hi2 | hi2
          · omega
          · rcases Nat.eq_or_lt_of_le hi2 with hi3 | hi3
            · rw [hi3] at hcond
              exact absurd (lt_of_le_of_lt (le_trans hcond hbd) hcon)
                (lt_irrefl lt)
            · have hl := h2 i hi3 hin
              exact absurd (lt_of_le_of_lt (le_trans hl hbd) hcon)
                (lt_irrefl lt)
      · rw [if_neg hcond]
        refine ⟨by omega, by omega, ?_, ?_⟩
        · intro i hi hin p hp
          have hbd := (slot_value_bounds _ (hwf i hin) p hp).2
          have hr := h1 i (by omega)
          unfold ltSideQ
          simp only [Bool.false_eq_true, if_false]
          exact lt_of_le_of_lt hbd hr
        · intro i hi hin p hp
          have hbd := (slot_value_bounds _ (hwf i hin) p hp).1
          have hl := h2 i (by omega) hin
          unfold ltSideQ
          simp only [Bool.false_eq_true, if_false]
          intro hcon
          exact absurd (lt_of_le_of_lt (le_trans hl hbd) hcon) (lt_irrefl lt)
    · have hu' : m.slot_lower_bound_idx lt = m.slots.length := by omega
      have hmin : min ((m.slot_lower_bound_idx lt : Nat) : Int)
          ((m.slots.length : Int) - 1) = (m.slots.length : Int) - 1 :=
        min_eq_right (by omega)
      rw [hmin]
      dsimp only
      have htn : (((m.slots.length : Int) - 1)).toNat =
          m.slots.length - 1 := by omega
      rw [htn]
      have hlast := h1 (m.slots.length - 1) (by omega)
      have hlr := slot_left_le_right _ (hwf (m.slots.length - 1) (by omega))
      have hcnd : ¬ lt ≤ (m.slots.getD (m.slots.length - 1) default).left := by
        intro hcon
        exact absurd (lt_of_le_of_lt (le_trans hcon hlr) hlast)
          (lt_irrefl lt)
      rw [if_neg hcnd]
      refine ⟨by omega, by omega, ?_, ?_⟩
      · intro i hi hin p hp
        have hbd := (slot_value_bounds _ (hwf i hin) p hp).2
        have hr := h1 i (by omega)
        unfold ltSideQ
        simp only [Bool.false_eq_true, if_false]
        exact lt_of_le_of_lt hbd hr
      · intro i hi hin p hp
        omega

lemma slotsBetweenAux_mem (lo hi : Int) (o : Nat) :
    ∀ (slots : List SlotMeta) (k : Nat) (acc : Finset Nat × Nat),
      o ∈ ((slots.enumFrom k).foldl
        (fun acc p =>
          if lo < (p.1 : Int) ∧ (p.1 : Int) < hi then
            (acc.1 ∪ p.2.bitmap, (acc.2 + p.2.offset_vec.length) % 2 ^ 32)
          else acc) acc).1 ↔
        o ∈ acc.1 ∨ ∃ j, j < slots.length ∧ lo < ((k + j : Nat) : Int) ∧
          ((k + j : Nat) : Int) < hi ∧
          o ∈ (slots.getD j default).bitmap := by
  intro slots
  induction slots with
  | nil =>
    intro k acc
    simp
  | cons s rest ih =>
    intro k acc
    rw [List.enumFrom_cons, List.foldl_cons]
    dsimp only
    by_cases hc : lo < (k : Int) ∧ (k : Int) < hi
    · rw [if_pos hc]
      rw [ih (k + 1)]
      simp only [Finset.mem_union]
      constructor
      · rintro ((ho | hs) | ⟨j, hj, h1, h2, hb⟩)
        · exact Or.inl ho
        · refine Or.inr ⟨0, by simp, ?_, ?_, ?_⟩
          · simpa using hc.1
          · simpa using hc.2
          · simpa using hs
        · refine Or.inr ⟨j + 1, by simp; omega, ?_, ?_, ?_⟩
          · have he : k + 1 + j = k + (j + 1) := by omega
            rw [← he]
            exact h1
          · have he : k + 1 + j = k + (j + 1) := by omega
            rw [← he]
            exact h2
          · rw [List.getD_cons_succ]
            exact hb
      · rintro (ho | ⟨j, hj, h1, h2, hb⟩)
        · exact Or.inl (Or.inl ho)
        · cases j with
          | zero =>
            rw [List.getD_cons_zero] at hb
            exact Or.inl (Or.inr hb)
          | succ j' =>
            refine Or.inr ⟨j', by simp at hj; omega, ?_, ?_, ?_⟩
            · have he : k + 1 + j' = k + (j' + 1) := by omega
              rw [he]
              exact h1
            · have he : k + 1 + j' = k + (j' + 1) := by omega
              rw [he]
              exact h2
            · rw [List.getD_cons_succ] at hb
              exact hb
    · rw [if_neg hc]
      rw [ih (k + 1)]
      constructor
      · rintro (ho | ⟨j, hj, h1, h2, hb⟩)
        · exact Or.inl ho
        · refine Or.inr ⟨j + 1, by simp; omega, ?_, ?_, ?_⟩
          · have he : k + 1 + j = k + (j + 1) := by omega
            rw [← he]
            exact h1
          · have he : k + 1 + j = k + (j + 1) := by omega
            rw [← he]
            exact h2
          · rw [List.getD_cons_succ]
            exact hb
      · rintro (ho | ⟨j, hj, h1, h2, hb⟩)
        · exact Or.inl ho
        · cases j with
          | zero =>
            simp only [Nat.add_zero] at h1 h2
            exact absurd ⟨h1, h2⟩ hc
          | succ j' =>
            refine Or.inr ⟨j', by simp at hj; omega, ?_, ?_, ?_⟩
            · have he : k + 1 + j' = k + (j' + 1) := by omega
              rw [he]
              exact h1
            · have he : k + 1 + j' = k + (j' + 1) := by omega
              rw [he]
              exact h2
            · rw [List.getD_cons_succ] at hb
              exact hb

lemma slotsBetweenAux_cnt_le (lo hi : Int) :
    ∀ (slots : List SlotMeta) (k : Nat) (acc : Finset Nat × Nat),
      ((slots.enumFrom k).foldl
        (fun acc p =>
          if lo < (p.1 : Int) ∧ (p.1 : Int) < hi then
            (acc.1 ∪ p.2.bitmap, (acc.2 + p.2.offset_vec.length) % 2 ^ 32)
          else acc) acc).2 ≤
        acc.2 + (slots.map (fun s => s.offset_vec.length)).sum := by
  intro slots
  induction slots with
  | nil =>
    intro k acc
    simp
  | cons s rest ih =>
    intro k acc
    rw [List.enumFrom_cons, List.foldl_cons]
    dsimp only
    simp only [List.map_cons, List.sum_cons]
    by_cases hc : lo < (k : Int) ∧ (k : Int) < hi
    · rw [if_pos hc]
      have h1 := ih (k + 1) (acc.1 ∪ s.bitmap,
        (acc.2 + s.offset_vec.length) % 2 ^ 32)
      dsimp only at h1
      have h2 : (acc.2 + s.offset_vec.length) % 2 ^ 32 ≤
          acc.2 + s.offset_vec.length := Nat.mod_le _ _
      omega
    · rw [if_neg hc]
      have h1 := ih (k + 1) acc
      omega

lemma slotsBetween_cnt_le (slots : List SlotMeta) (lo hi : Int) :
    (slotsBetween slots lo hi).2 ≤
      (slots.map (fun s => s.offset_vec.length)).sum := by
  unfold slotsBetween
  rw [show slots.enum = slots.enumFrom 0 from rfl]
  have h := slotsBetweenAux_cnt_le lo hi slots 0 (∅, 0)
  simpa using h

lemma sum_getD_le (slots : List SlotMeta) (i : Nat) (hi : i < slots.length) :
    (slots.getD i default).offset_vec.length ≤
      (slots.map (fun s => s.offset_vec.length)).sum := by
  induction slots generalizing i with
  | nil => simp at hi
  | cons s rest ih =>
    cases i with
    | zero =>
      rw [List.getD_cons_zero]
      simp only [List.map_cons, List.sum_cons]
      omega
    | succ j =>
      rw [List.getD_cons_succ]
      simp only [List.map_cons, List.sum_cons]
      have h := ih j (by simpa using hi)
      omega

lemma get_range_data_cnt_lt (s : SlotMeta) (acc : Finset Nat) (lt : ℚ)
    (ile : Bool) (gt : ℚ) (ige : Bool) :
    (s.get_range_data acc lt ile gt ige).2 < 2 ^ 32 := by
  unfold SlotMeta.get_range_data
  dsimp only
  have h1 : ((s.get_right_border lt ile : Int) -
      (s.get_left_border gt ige : Int)).emod (2 ^ 32) < 2 ^ 32 :=
    Int.emod_lt_of_pos _ (by norm_num)
  have h2 : (0 : Int) ≤ ((s.get_right_border lt ile : Int) -
      (s.get_left_border gt ige : Int)).emod (2 ^ 32) :=
    Int.emod_nonneg _ (by norm_num)
  omega

lemma slotsBetweenAux_cnt (lo hi : Int) :
    ∀ (slots : List SlotMeta) (k : Nat) (acc : Finset Nat × Nat),
      acc.2 + (slots.map (fun s => s.offset_vec.length)).sum < 2 ^ 32 →
      (((slots.enumFrom k).foldl
        (fun acc p =>
          if lo < (p.1 : Int) ∧ (p.1 : Int) < hi then
            (acc.1 ∪ p.2.bitmap, (acc.2 + p.2.offset_vec.length) % 2 ^ 32)
          else acc) acc).2 = 0 ↔
        acc.2 = 0 ∧ ∀ j, j < slots.length → lo < ((k + j : Nat) : Int) →
          ((k + j : Nat) : Int) < hi →
          (slots.getD j default).offset_vec.length = 0) := by
  intro slots
  induction slots with
  | nil =>
    intro k acc hsm
    simp
  | cons s rest ih =>
    intro k acc hsm
    simp only [List.map_cons, List.sum_cons] at hsm
    rw [List.enumFrom_cons, List.foldl_cons]
    dsimp only
    by_cases hc : lo < (k : Int) ∧ (k : Int) < hi
    · rw [if_pos hc]
      have hnw : (acc.2 + s.offset_vec.length) % 2 ^ 32 =
          acc.2 + s.offset_vec.length := Nat.mod_eq_of_lt (by omega)
      rw [hnw]
      rw [ih (k + 1) (acc.1 ∪ s.bitmap, acc.2 + s.offset_vec.length)
        (by dsimp only; omega)]
      constructor
      · rintro ⟨hz, hall⟩
        refine ⟨by omega, ?_⟩
        intro j hj h1 h2
        cases j with
        | zero =>
          rw [List.getD_cons_zero]
          omega
        | succ j' =>
          rw [List.getD_cons_succ]
          have he : k + 1 + j' = k + (j' + 1) := by omega
          exact hall j' (by simp at hj; omega) (by rw [he]; exact h1)
            (by rw [he]; exact h2)
      · rintro ⟨hz, hall⟩
        have h0 := hall 0 (by simp) (by simpa using hc.1)
          (by simpa using hc.2)
        rw [List.getD_cons_zero] at h0
        refine ⟨by omega, ?_⟩
        intro j hj h1 h2
        have he : k + 1 + j = k + (j + 1) := by omega
        have := hall (j + 1) (by simp; omega) (by rw [← he]; exact h1)
          (by rw [← he]; exact h2)
        rw [List.getD_cons_succ] at this
        exact this
    · rw [if_neg hc]
      rw [ih (k + 1) acc (by omega)]
      constructor
      · rintro ⟨hz, hall⟩
        refine ⟨hz, ?_⟩
        intro j hj h1 h2
        cases j with
        | zero =>
          simp only [Nat.add_zero] at h1 h2
          exact absurd ⟨h1, h2⟩ hc
        | succ j' =>
          rw [List.getD_cons_succ]
          have he : k + 1 + j' = k + (j' + 1) := by omega
          exact hall j' (by simp at hj; omega) (by rw [he]; exact h1)
            (by rw [he]; exact h2)
      · rintro ⟨hz, hall⟩
        refine ⟨hz, ?_⟩
        intro j hj h1 h2
        have he : k + 1 + j = k + (j + 1) := by omega
        have := hall (j + 1) (by simp; omega) (by rw [← he]; exact h1)
          (by rw [← he]; exact h2)
        rw [List.getD_cons_succ] at this
        exact this

lemma slotsBetween_mem (slots : List SlotMeta) (lo hi : Int) (o : Nat) :
    o ∈ (slotsBetween slots lo hi).1 ↔
      ∃ j, j < slots.length ∧ lo < (j : Int) ∧ (j : Int) < hi ∧
        o ∈ (slots.getD j default).bitmap := by
  unfold slotsBetween
  rw [show slots.enum = slots.enumFrom 0 from rfl]
  rw [slotsBetweenAux_mem]
  simp

lemma slotsBetween_cnt_zero (slots : List SlotMeta) (lo hi : Int)
    (hsm : (slots.map (fun s => s.offset_vec.length)).sum < 2 ^ 32) :
    (slotsBetween slots lo hi).2 = 0 ↔
      ∀ j, j < slots.length → lo < (j : Int) → (j : Int) < hi →
        (slots.getD j default).offset_vec.length = 0 := by
  unfold slotsBetween
  rw [show slots.enum = slots.enumFrom 0 from rfl]
  rw [slotsBetweenAux_cnt lo hi slots 0 (∅, 0) (by simpa using hsm)]
  simp

lemma live_pred_iff_slot (m : RangedMap) (hinv : RMInv m) (P : ℚ → Prop)
    (o : Nat) :
    (∃ v, m.lookupValue o = some v ∧ P v) ↔
      ∃ i, i < m.slots.length ∧ ∃ p,
        p < (m.slots.getD i default).value_vec.length ∧
        (m.slots.getD i default).offset_vec.getD p 0 = o ∧
        P ((m.slots.getD i default).value_vec.getD p 0) := by
  obtain ⟨hwf, hchain, hlink, hcov, hnd⟩ := hinv
  constructor
  · rintro ⟨v, hv, hp⟩
    obtain ⟨i, hi, p, hp2, ho, hval⟩ := hcov o v hv
    exact ⟨i, hi, p, hp2, ho, by rw [hval]; exact hp⟩
  · rintro ⟨i, hi, p, hp2, ho, hP⟩
    have hl := hlink i hi p hp2
    rw [ho] at hl
    exact ⟨_, hl, hP⟩

lemma mem_take_iff_nat (l : List Nat) (n : Nat) (o : Nat) :
    o ∈ (l.take n).toFinset ↔
      ∃ p, p < n ∧ p < l.length ∧ l.getD p 0 = o := by
  rw [List.mem_toFinset]
  constructor
  · intro h
    obtain ⟨p, hp, he⟩ := List.getElem_of_mem h
    have hlt : p < n ∧ p < l.length := by
      rw [List.length_take] at hp
      omega
    refine ⟨p, hlt.1, hlt.2, ?_⟩
    rw [List.getElem_take] at he
    rw [List.getD_eq_getElem l 0 hlt.2]
    exact he
  · rintro ⟨p, h1, h2, h3⟩
    have hp : p < (l.take n).length := by
      rw [List.length_take]
      omega
    have : (l.take n)[p] = o := by
      rw [List.getElem_take]
      rw [List.getD_eq_getElem l 0 h2] at h3
      exact h3
    rw [← this]
    exact List.getElem_mem hp

lemma mem_drop_iff_nat (l : List Nat) (n : Nat) (o : Nat) :
    o ∈ (l.drop n).toFinset ↔
      ∃ p, n ≤ p ∧ p < l.length ∧ l.getD p 0 = o := by
  rw [List.mem_toFinset]
  constructor
  · intro h
    obtain ⟨q, hq, he⟩ := List.getElem_of_mem h
    have hlen : q < l.length - n := by
      rw [List.length_drop] at hq
      omega
    refine ⟨n + q, by omega, by omega, ?_⟩
    rw [List.getElem_drop] at he
    rw [List.getD_eq_getElem l 0 (by omega)]
    exact he
  · rintro ⟨p, h1, h2, h3⟩
    have hq : p - n < (l.drop n).length := by
      rw [List.length_drop]
      omega
    have : (l.drop n)[p - n] = o := by
      rw [List.getElem_drop]
      rw [List.getD_eq_getElem l 0 h2] at h3
      have he : n + (p - n) = p := by omega
      simp only [he]
      exact h3
    rw [← this]
    exact List.getElem_mem hq

lemma mem_slice_iff_nat (l : List Nat) (lb rb : Nat) (o : Nat) :
    o ∈ ((l.take rb).drop lb).toFinset ↔
      ∃ p, lb ≤ p ∧ p < rb ∧ p < l.length ∧ l.getD p 0 = o := by
  rw [mem_drop_iff_nat]
  constructor
  · rintro ⟨p, h1, h2, h3⟩
    rw [List.length_take] at h2
    have hp : p < l.length := by omega
    refine ⟨p, h1, by omega, hp, ?_⟩
    rw [List.getD_eq_getElem _ 0 (by rw [List.length_take]; omega)] at h3
    rw [List.getElem_take] at h3
    rw [List.getD_eq_getElem l 0 hp]
    exact h3
  · rintro ⟨p, h1, h2, h3, h4⟩
    refine ⟨p, h1, by rw [List.length_take]; omega, ?_⟩
    rw [List.getD_eq_getElem _ 0 (by rw [List.length_take]; omega)]
    rw [List.getElem_take]
    rw [List.getD_eq_getElem l 0 h3] at h4
    exact h4

lemma get_right_border_le (s : SlotMeta) (lt : ℚ) (ile : Bool) :
    s.get_right_border lt ile ≤ s.value_vec.length := by
  unfold SlotMeta.get_right_border
  cases ile
  · simp only [Bool.false_eq_true, if_false]
    exact lbIdx_le _ _
  · simp only [if_true]
    exact ubIdx_le _ _

lemma get_left_border_le (s : SlotMeta) (gt : ℚ) (ige : Bool) :
    s.get_left_border gt ige ≤ s.value_vec.length := by
  unfold SlotMeta.get_left_border
  cases ige
  · simp only [Bool.false_eq_true, if_false]
    exact ubIdx_le _ _
  · simp only [if_true]
    exact lbIdx_le _ _

lemma get_right_border_iff (s : SlotMeta) (hs : SlotWF s) (lt : ℚ)
    (ile : Bool) (p : Nat) (hp : p < s.value_vec.length) :
    p < s.get_right_border lt ile ↔
      ltSideQ lt ile (s.value_vec.getD p 0) := by
  have hsort := hs.2.2.1
  unfold SlotMeta.get_right_border ltSideQ
  cases ile
  · simp only [Bool.false_eq_true, if_false]
    exact lbIdx_spec _ hsort lt p hp
  · simp only [if_true]
    exact ubIdx_spec _ hsort lt p hp

lemma get_left_border_iff (s : SlotMeta) (hs : SlotWF s) (gt : ℚ)
    (ige : Bool) (p : Nat) (hp : p < s.value_vec.length) :
    s.get_left_border gt ige ≤ p ↔
      gtSideQ gt ige (s.value_vec.getD p 0) := by
  have hsort := hs.2.2.1
  unfold SlotMeta.get_left_border gtSideQ
  cases ige
  · simp only [Bool.false_eq_true, if_false]
    rw [← not_lt, ubIdx_spec _ hsort gt p hp]
    exact not_le
  · simp only [if_true]
    rw [← not_lt, lbIdx_spec _ hsort gt p hp]
    exact not_lt

lemma get_lower_than_data_mem (s : SlotMeta) (hs : SlotWF s)
    (acc : Finset Nat) (lt : ℚ) (ile : Bool) (o : Nat) :
    o ∈ (s.get_lower_than_data acc lt ile).1 ↔
      o ∈ acc ∨ ∃ p, p < s.value_vec.length ∧ s.offset_vec.getD p 0 = o ∧
        ltSideQ lt ile (s.value_vec.getD p 0) := by
  have hlen := hs.2.1
  have hb := get_right_border_le s lt ile
  unfold SlotMeta.get_lower_than_data
  dsimp only
  rw [Finset.mem_union, mem_take_iff_nat]
  constructor
  · rintro (ha | ⟨p, h1, h2, h3⟩)
    · exact Or.inl ha
    · exact Or.inr ⟨p, by omega, h3,
        (get_right_border_iff s hs lt ile p (by omega)).mp h1⟩
  · rintro (ha | ⟨p, h1, h2, h3⟩)
    · exact Or.inl ha
    · exact Or.inr ⟨p, (get_right_border_iff s hs lt ile p h1).mpr h3,
        by omega, h2⟩

lemma get_greater_than_data_mem (s : SlotMeta) (hs : SlotWF s)
    (acc : Finset Nat) (gt : ℚ) (ige : Bool) (o : Nat) :
    o ∈ (s.get_greater_than_data acc gt ige).1 ↔
      o ∈ acc ∨ ∃ p, p < s.value_vec.length ∧ s.offset_vec.getD p 0 = o ∧
        gtSideQ gt ige (s.value_vec.getD p 0) := by
  have hlen := hs.2.1
  unfold SlotMeta.get_greater_than_data
  dsimp only
  rw [Finset.mem_union, mem_drop_iff_nat]
  constructor
  · rintro (ha | ⟨p, h1, h2, h3⟩)
    · exact Or.inl ha
    · exact Or.inr ⟨p, by omega, h3,
        (get_left_border_iff s hs gt ige p (by omega)).mp h1⟩
  · rintro (ha | ⟨p, h1, h2, h3⟩)
    · exact Or.inl ha
    · exact Or.inr ⟨p, (get_left_border_iff s hs gt ige p h1).mpr h3,
        by omega, h2⟩

lemma get_range_data_mem (s : SlotMeta) (hs : SlotWF s) (acc : Finset Nat)
    (lt : ℚ) (ile : Bool) (gt : ℚ) (ige : Bool) (o : Nat) :
    o ∈ (s.get_range_data acc lt ile gt ige).1 ↔
      o ∈ acc ∨ ∃ p, p < s.value_vec.length ∧ s.offset_vec.getD p 0 = o ∧
        ltSideQ lt ile (s.value_vec.getD p 0) ∧
        gtSideQ gt ige (s.value_vec.getD p 0) := by
  have hlen := hs.2.1
  unfold SlotMeta.get_range_data
  dsimp only
  rw [Finset.mem_union, mem_slice_iff_nat]
  constructor
  · rintro (ha | ⟨p, h1, h2, h3, h4⟩)
    · exact Or.inl ha
    · exact Or.inr ⟨p, by omega, h4,
        (get_right_border_iff s hs lt ile p (by omega)).mp h2,
        (get_left_border_iff s hs gt ige p (by omega)).mp h1⟩
  · rintro (ha | ⟨p, h1, h2, h3, h4⟩)
    · exact Or.inl ha
    · exact Or.inr ⟨p, (get_left_border_iff s hs gt ige p h1).mpr h4,
        (get_right_border_iff s hs lt ile p h1).mpr h3, by omega, h2⟩

lemma get_range_data_cnt_zero (s : SlotMeta) (hs : SlotWF s)
    (acc : Finset Nat) (lt : ℚ) (ile : Bool) (gt : ℚ) (ige : Bool) :
    ((s.get_range_data acc lt ile gt ige).2 = 0 ↔
      s.get_right_border lt ile = s.get_left_border gt ige) := by
  have hrb := get_right_border_le s lt ile
  have hlb := get_left_border_le s gt ige
  have hcap := hs.2.2.2.2.2.2
  unfold SlotMeta.get_range_data
  dsimp only
  show ((((s.get_right_border lt ile : Int) -
      (s.get_left_border gt ige : Int)) % (2 ^ 32)).toNat = 0 ↔ _)
  have hk : kRangedMapSlotSize = 10000 := rfl
  rw [hk] at hcap
  omega

lemma mem_toFinset_getD (l : List Nat) (o : Nat) :
    o ∈ l.toFinset ↔ ∃ p, p < l.length ∧ l.getD p 0 = o := by
  rw [List.mem_toFinset]
  constructor
  · intro h
    obtain ⟨p, hp, he⟩ := List.getElem_of_mem h
    refine ⟨p, hp, ?_⟩
    rw [List.getD_eq_getElem l 0 hp]
    exact he
  · rintro ⟨p, hp, he⟩
    rw [List.getD_eq_getElem l 0 hp] at he
    rw [← he]
    exact List.getElem_mem hp

lemma slotWF_len_eq (s : SlotMeta) (hs : SlotWF s) :
    s.value_vec.length = s.offset_vec.length := hs.2.1

lemma bitmap_pos (s : SlotMeta) (hs : SlotWF s) (o : Nat) :
    o ∈ s.bitmap ↔
      ∃ p, p < s.value_vec.length ∧ s.offset_vec.getD p 0 = o := by
  rw [hs.2.2.2.2.2.1, mem_toFinset_getD, slotWF_len_eq s hs]

lemma option_glue (x : Nat) (st : Finset Nat × Nat) (M : Prop)
    (hmem : x ∈ st.1 ↔ M) (hzero : st.2 = 0 → ¬ M) :
    (∀ bm, (if st.2 = 0 then none else some st.1) = some bm →
      (x ∈ bm ↔ M)) ∧
    ((if st.2 = 0 then none else some st.1) = none → ¬ M) := by
  constructor
  · intro bm hbm
    by_cases hz : st.2 = 0
    · rw [if_pos hz] at hbm
      exact absurd hbm (by simp)
    · rw [if_neg hz] at hbm
      have hb : st.1 = bm := Option.some.inj hbm
      rw [← hb]
      exact hmem
  · intro hn
    by_cases hz : st.2 = 0
    · exact hzero hz
    · rw [if_neg hz] at hn
      exact absurd hn (by simp)

lemma grb_in_exact (m : RangedMap) (hinv : RMInv m) (lt : ℚ) (ile : Bool)
    (gt : ℚ) (ige : Bool) (o : Nat)
    (hsmall : 4 * (m.slots.map (fun s => s.offset_vec.length)).sum <
      2 ^ 32) :
    (∀ bm, m.get_range_bitmap false lt ile gt ige = some bm →
      (o ∈ bm ↔ m.specMatches false lt ile gt ige o)) ∧
    (m.get_range_bitmap false lt ile gt ige = none →
      ¬ m.specMatches false lt ile gt ige o) := by
  have hwf := hinv.1
  have hchain := hinv.2.1
  have hmatch : m.specMatches false lt ile gt ige o ↔
      ∃ i, i < m.slots.length ∧ ∃ p,
        p < (m.slots.getD i default).value_vec.length ∧
        (m.slots.getD i default).offset_vec.getD p 0 = o ∧
        (ltSideQ lt ile ((m.slots.getD i default).value_vec.getD p 0) ∧
         gtSideQ gt ige ((m.slots.getD i default).value_vec.getD p 0)) :=
    live_pred_iff_slot m hinv
      (fun v => ltSideQ lt ile v ∧ gtSideQ gt ige v) o
  by_cases hemp : m.slots.isEmpty
  · have hnil : m.slots = [] := by simpa [List.isEmpty_iff] using hemp
    constructor
    · intro bm hbm
      unfold RangedMap.get_range_bitmap
        RangedMap.get_range_bitmap_with_slot_data at hbm
      rw [if_pos hemp] at hbm
      exact absurd hbm (by simp)
    · intro _
      rw [hmatch]
      rintro ⟨i, hi, _⟩
      rw [hnil] at hi
      simp at hi
  · have hne : m.slots ≠ [] := by
      intro h
      rw [h] at hemp
      simp at hemp
    have hn : 0 < m.slots.length := List.length_pos.mpr hne
    obtain ⟨hrlo, hrhi, hR2, hR1⟩ :=
      find_right_slot_index_spec m lt ile hne hwf hchain
    obtain ⟨hllo, hlhi, hG1, hG2⟩ :=
      find_left_slot_index_spec m gt ige hwf hchain
    rw [RangedMap.get_range_bitmap, RangedMap.get_range_bitmap_with_slot_data]
    rw [if_neg hemp]
    have hsw : ¬((false : Bool) = true ∧ lt < gt) := by simp
    rw [if_neg hsw]
    dsimp only
    rw [show (!false) = true from rfl]
    rw [if_pos rfl]
    refine option_glue o _ _ ?hmem ?hzero
    case hzero =>
      intro hz
      rw [hmatch]
      rintro ⟨i, hi, p, hp, hpo, hplt, hpgt⟩
      have hil : m.find_left_slot_index gt ige ≤ (i : Int) := by
        by_contra hcon
        push_neg at hcon
        exact hG1 i hcon hi p hp hpgt
      have hir : (i : Int) ≤ m.find_right_slot_index lt ile := by
        by_contra hcon
        push_neg at hcon
        exact hR1 i hcon hi p hp hplt
      have hguard : m.find_right_slot_index lt ile ≠ -1 ∧
          m.find_left_slot_index gt ige ≠ (m.slots.length : Int) := by
        constructor
        · omega
        · omega
      rw [if_pos hguard] at hz
      rcases lt_trichotomy (m.find_left_slot_index gt ige)
        (m.find_right_slot_index lt ile) with hlr | hlr | hlr
      · rw [if_pos hlr] at hz
        dsimp only at hz
        have hRn' : (m.find_right_slot_index lt ile).toNat <
            m.slots.length := by omega
        have hLn' : (m.find_left_slot_index gt ige).toNat <
            m.slots.length := by omega
        have hq1 : ((m.slots.getD (m.find_right_slot_index lt ile).toNat
            default).get_lower_than_data
            (slotsBetween m.slots (m.find_left_slot_index gt ige)
              (m.find_right_slot_index lt ile)).1 lt ile).2 =
            (m.slots.getD (m.find_right_slot_index lt ile).toNat
              default).get_right_border lt ile := rfl
        have hq2 : ((m.slots.getD (m.find_left_slot_index gt ige).toNat
            default).get_greater_than_data
            ((m.slots.getD (m.find_right_slot_index lt ile).toNat
              default).get_lower_than_data
              (slotsBetween m.slots (m.find_left_slot_index gt ige)
                (m.find_right_slot_index lt ile)).1 lt ile).1 gt ige).2 =
            (m.slots.getD (m.find_left_slot_index gt ige).toNat
              default).offset_vec.length -
            (m.slots.getD (m.find_left_slot_index gt ige).toNat
              default).get_left_border gt ige := rfl
        have hsble := slotsBetween_cnt_le m.slots
          (m.find_left_slot_index gt ige) (m.find_right_slot_index lt ile)
        have hsumR := sum_getD_le m.slots _ hRn'
        have hsumL := sum_getD_le m.slots _ hLn'
        have hlenR := slotWF_len_eq _ (hwf _ hRn')
        have hlenL := slotWF_len_eq _ (hwf _ hLn')
        have hrbR := get_right_border_le
          (m.slots.getD (m.find_right_slot_index lt ile).toNat default)
          lt ile
        rcases lt_trichotomy ((i : Int)) (m.find_right_slot_index lt ile)
          with hi2 | hi2 | hi2
        · rcases lt_trichotomy (m.find_left_slot_index gt ige) ((i : Int))
            with hi3 | hi3 | hi3
          · -- strictly between: the slotsBetween count is zero
            have hz0 : (slotsBetween m.slots (m.find_left_slot_index gt ige)
                (m.find_right_slot_index lt ile)).2 = 0 := by omega
            have := (slotsBetween_cnt_zero _ _ _ (by omega)).mp hz0 i hi hi3 hi2
            have hlen := slotWF_len_eq _ (hwf i hi)
            omega
          · -- i = l_index: the greater-than border count is zero
            have hL : (m.find_left_slot_index gt ige).toNat = i := by omega
            have hz2 : (m.slots.getD
                (m.find_left_slot_index gt ige).toNat default
                ).offset_vec.length -
                (m.slots.getD (m.find_left_slot_index gt ige).toNat default
                ).get_left_border gt ige = 0 := by
              have h2 : ((m.slots.getD
                  (m.find_left_slot_index gt ige).toNat
                  default).get_greater_than_data
                  ((m.slots.getD (m.find_right_slot_index lt ile).toNat
                    default).get_lower_than_data
                    (slotsBetween m.slots (m.find_left_slot_index gt ige)
                      (m.find_right_slot_index lt ile)).1 lt ile).1
                  gt ige).2 =
                  (m.slots.getD (m.find_left_slot_index gt ige).toNat
                    default).offset_vec.length -
                  (m.slots.getD (m.find_left_slot_index gt ige).toNat
                    default).get_left_border gt ige := rfl
              omega
            rw [hL] at hz2
            have hlb := (get_left_border_iff _ (hwf i hi) gt ige p hp).mpr hpgt
            have hlen := slotWF_len_eq _ (hwf i hi)
            omega
          · omega
        · -- i = r_index: the lower-than border count is zero
          have hR : (m.find_right_slot_index lt ile).toNat = i := by omega
          have hz1 : (m.slots.getD
              (m.find_right_slot_index lt ile).toNat default
              ).get_right_border lt ile = 0 := by
            have h1 : ((m.slots.getD (m.find_right_slot_index lt ile).toNat
                default).get_lower_than_data
                (slotsBetween m.slots (m.find_left_slot_index gt ige)
                  (m.find_right_slot_index lt ile)).1 lt ile).2 =
                (m.slots.getD (m.find_right_slot_index lt ile).toNat
                  default).get_right_border lt ile := rfl
            omega
          rw [hR] at hz1
          have hrb := (get_right_border_iff _ (hwf i hi) lt ile p hp).mpr hplt
          omega
        · omega
      · rw [if_neg (by omega), if_pos hlr] at hz
        dsimp only at hz
        have hieq : (i : Int) = m.find_right_slot_index lt ile := by omega
        have hR : (m.find_right_slot_index lt ile).toNat = i := by omega
        have hsble := slotsBetween_cnt_le m.slots
          (m.find_left_slot_index gt ige) (m.find_right_slot_index lt ile)
        have hglt := get_range_data_cnt_lt
          (m.slots.getD (m.find_right_slot_index lt ile).toNat default)
          (slotsBetween m.slots (m.find_left_slot_index gt ige)
            (m.find_right_slot_index lt ile)).1 lt ile gt ige
        have hst0 : (slotsBetween m.slots (m.find_left_slot_index gt ige)
            (m.find_right_slot_index lt ile)).2 = 0 := by
          rw [slotsBetween_cnt_zero _ _ _ (by omega)]
          intro j hj h1 h2
          omega
        have hz1 : ((m.slots.getD (m.find_right_slot_index lt ile).toNat
            default).get_range_data
            (slotsBetween m.slots (m.find_left_slot_index gt ige)
              (m.find_right_slot_index lt ile)).1 lt ile gt ige).2 = 0 := by
          omega
        have hz2 := (get_range_data_cnt_zero _
          (hwf _ (by rw [hR]; exact hi)) _ lt ile gt ige).mp hz1
        rw [hR] at hz2
        have hrb := (get_right_border_iff _ (hwf i hi) lt ile p hp).mpr hplt
        have hlb := (get_left_border_iff _ (hwf i hi) gt ige p hp).mpr hpgt
        omega
      · omega
    case hmem =>
      rw [hmatch]
      by_cases hguard : m.find_right_slot_index lt ile ≠ -1 ∧
          m.find_left_slot_index gt ige ≠ (m.slots.length : Int)
      · rw [if_pos hguard]
        rcases lt_trichotomy (m.find_left_slot_index gt ige)
          (m.find_right_slot_index lt ile) with hlr | hlr | hlr
        · rw [if_pos hlr]
          dsimp only
          have hRn : (m.find_right_slot_index lt ile).toNat <
              m.slots.length := by omega
          have hLn : (m.find_left_slot_index gt ige).toNat <
              m.slots.length := by omega
          have hRc : ((m.find_right_slot_index lt ile).toNat : Int) =
              m.find_right_slot_index lt ile := by omega
          have hLc : ((m.find_left_slot_index gt ige).toNat : Int) =
              m.find_left_slot_index gt ige := by omega
          rw [get_greater_than_data_mem _ (hwf _ hLn),
            get_lower_than_data_mem _ (hwf _ hRn), slotsBetween_mem]
          constructor
          · rintro ((⟨j, hj, hj1, hj2, hjb⟩ | ⟨p, hp, hpo, hplt⟩) |
              ⟨p, hp, hpo, hpgt⟩)
            · obtain ⟨p, hp, hpo⟩ := (bitmap_pos _ (hwf j hj) o).mp hjb
              exact ⟨j, hj, p, hp, hpo, hR2 j (by omega) hj p hp,
                hG2 j (by omega) hj p hp⟩
            · refine ⟨(m.find_right_slot_index lt ile).toNat, hRn, p, hp,
                hpo, hplt, ?_⟩
              exact hG2 _ (by omega) hRn p hp
            · refine ⟨(m.find_left_slot_index gt ige).toNat, hLn, p, hp,
                hpo, ?_, hpgt⟩
              exact hR2 _ (by omega) hLn p hp
          · rintro ⟨i, hi, p, hp, hpo, hplt, hpgt⟩
            have hil : m.find_left_slot_index gt ige ≤ (i : Int) := by
              by_contra hcon
              push_neg at hcon
              exact hG1 i hcon hi p hp hpgt
            have hir : (i : Int) ≤ m.find_right_slot_index lt ile := by
              by_contra hcon
              push_neg at hcon
              exact hR1 i hcon hi p hp hplt
            rcases lt_trichotomy ((i : Int))
              (m.find_right_slot_index lt ile) with hi2 | hi2 | hi2
            · rcases lt_trichotomy (m.find_left_slot_index gt ige)
                ((i : Int)) with hi3 | hi3 | hi3
              · exact Or.inl (Or.inl ⟨i, hi, hi3, hi2,
                  (bitmap_pos _ (hwf i hi) o).mpr ⟨p, hp, hpo⟩⟩)
              · refine Or.inr ⟨p, ?_, ?_, ?_⟩
                · rw [show (m.find_left_slot_index gt ige).toNat = i by omega]
                  exact hp
                · rw [show (m.find_left_slot_index gt ige).toNat = i by omega]
                  exact hpo
                · rw [show (m.find_left_slot_index gt ige).toNat = i by omega]
                  exact hpgt
              · omega
            · refine Or.inl (Or.inr ⟨p, ?_, ?_, ?_⟩)
              · rw [show (m.find_right_slot_index lt ile).toNat = i by omega]
                exact hp
              · rw [show (m.find_right_slot_index lt ile).toNat = i by omega]
                exact hpo
              · rw [show (m.find_right_slot_index lt ile).toNat = i by omega]
                exact hplt
            · omega
        · rw [if_neg (by omega), if_pos hlr]
          dsimp only
          have hRn : (m.find_right_slot_index lt ile).toNat <
              m.slots.length := by omega
          rw [get_range_data_mem _ (hwf _ hRn), slotsBetween_mem]
          constructor
          · rintro (⟨j, hj, hj1, hj2, hjb⟩ | ⟨p, hp, hpo, hplt, hpgt⟩)
            · omega
            · exact ⟨(m.find_right_slot_index lt ile).toNat, hRn, p, hp,
                hpo, hplt, hpgt⟩
          · rintro ⟨i, hi, p, hp, hpo, hplt, hpgt⟩
            have hil : m.find_left_slot_index gt ige ≤ (i : Int) := by
              by_contra hcon
              push_neg at hcon
              exact hG1 i hcon hi p hp hpgt
            have hir : (i : Int) ≤ m.find_right_slot_index lt ile := by
              by_contra hcon
              push_neg at hcon
              exact hR1 i hcon hi p hp hplt
            refine Or.inr ⟨p, ?_, ?_, ?_, ?_⟩
            · rw [show (m.find_right_slot_index lt ile).toNat = i by omega]
              exact hp
            · rw [show (m.find_right_slot_index lt ile).toNat = i by omega]
              exact hpo
            · rw [show (m.find_right_slot_index lt ile).toNat = i by omega]
              exact hplt
            · rw [show (m.find_right_slot_index lt ile).toNat = i by omega]
              exact hpgt
        · rw [if_neg (by omega), if_neg (by omega)]
          rw [slotsBetween_mem]
          constructor
          · rintro ⟨j, hj, hj1, hj2, hjb⟩
            omega
          · rintro ⟨i, hi, p, hp, hpo, hplt, hpgt⟩
            have hil : m.find_left_slot_index gt ige ≤ (i : Int) := by
              by_contra hcon
              push_neg at hcon
              exact hG1 i hcon hi p hp hpgt
            have hir : (i : Int) ≤ m.find_right_slot_index lt ile := by
              by_contra hcon
              push_neg at hcon
              exact hR1 i hcon hi p hp hplt
            omega
      · rw [if_neg hguard]
        rw [slotsBetween_mem]
        have hor : m.find_right_slot_index lt ile = -1 ∨
            m.find_left_slot_index gt ige = (m.slots.length : Int) := by
          by_contra hcon
          push_neg at hcon
          exact hguard ⟨hcon.1, hcon.2⟩
        constructor
        · rintro ⟨j, hj, hj1, hj2, hjb⟩
          rcases hor with h | h <;> omega
        · rintro ⟨i, hi, p, hp, hpo, hplt, hpgt⟩
          have hil : m.find_left_slot_index gt ige ≤ (i : Int) := by
            by_contra hcon
            push_neg at hcon
            exact hG1 i hcon hi p hp hpgt
          have hir : (i : Int) ≤ m.find_right_slot_index lt ile := by
            by_contra hcon
            push_neg at hcon
            exact hR1 i hcon hi p hp hplt
          rcases hor with h | h <;> omega

lemma ltSideQ_not (g : ℚ) (i : Bool) (v : ℚ) :
    ltSideQ g (!i) v ↔ ¬ gtSideQ g i v := by
  cases i <;> simp [ltSideQ, gtSideQ]

lemma gtSideQ_not (l : ℚ) (i : Bool) (v : ℚ) :
    gtSideQ l (!i) v ↔ ¬ ltSideQ l i v := by
  cases i <;> simp [ltSideQ, gtSideQ]

lemma grb_out_exact_noswap (m : RangedMap) (hinv : RMInv m) (lt : ℚ)
    (ile : Bool) (gt : ℚ) (ige : Bool) (o : Nat) (hnoswap : ¬ lt < gt)
    (hsmall : 4 * (m.slots.map (fun s => s.offset_vec.length)).sum <
      2 ^ 32) :
    (∀ bm, m.get_range_bitmap true lt ile gt ige = some bm →
      (o ∈ bm ↔ m.specMatches true lt ile gt ige o)) ∧
    (m.get_range_bitmap true lt ile gt ige = none →
      ¬ m.specMatches true lt ile gt ige o) := by
  have hwf := hinv.1
  have hchain := hinv.2.1
  have hpred : ∀ v, specRangePred true lt ile gt ige v ↔
      ¬ (ltSideQ lt ile v ∧ gtSideQ gt ige v) := by
    intro v
    unfold specRangePred
    rw [if_pos rfl, if_neg hnoswap]
    exact Iff.rfl
  have hmatch : m.specMatches true lt ile gt ige o ↔
      ∃ i, i < m.slots.length ∧ ∃ p,
        p < (m.slots.getD i default).value_vec.length ∧
        (m.slots.getD i default).offset_vec.getD p 0 = o ∧
        ¬ (ltSideQ lt ile ((m.slots.getD i default).value_vec.getD p 0) ∧
           gtSideQ gt ige ((m.slots.getD i default).value_vec.getD p 0)) := by
    have hl := live_pred_iff_slot m hinv
      (fun v => ¬ (ltSideQ lt ile v ∧ gtSideQ gt ige v)) o
    unfold RangedMap.specMatches
    constructor
    · rintro ⟨v, hv, hp⟩
      exact hl.mp ⟨v, hv, (hpred v).mp hp⟩
    · intro h
      obtain ⟨v, hv, hp⟩ := hl.mpr h
      exact ⟨v, hv, (hpred v).mpr hp⟩
  by_cases hemp : m.slots.isEmpty
  · have hnil : m.slots = [] := by simpa [List.isEmpty_iff] using hemp
    constructor
    · intro bm hbm
      unfold RangedMap.get_range_bitmap
        RangedMap.get_range_bitmap_with_slot_data at hbm
      rw [if_pos hemp] at hbm
      exact absurd hbm (by simp)
    · intro _
      rw [hmatch]
      rintro ⟨i, hi, _⟩
      rw [hnil] at hi
      simp at hi
  · have hne : m.slots ≠ [] := by
      intro h
      rw [h] at hemp
      simp at hemp
    have hn : 0 < m.slots.length := List.length_pos.mpr hne
    obtain ⟨hrlo, hrhi, hR2, hR1⟩ :=
      find_right_slot_index_spec m lt ile hne hwf hchain
    obtain ⟨hllo, hlhi, hG1, hG2⟩ :=
      find_left_slot_index_spec m gt ige hwf hchain
    rw [RangedMap.get_range_bitmap, RangedMap.get_range_bitmap_with_slot_data]
    rw [if_neg hemp]
    have hsw : ¬((true : Bool) = true ∧ lt < gt) := fun h => hnoswap h.2
    rw [if_neg hsw]
    dsimp only
    rw [show (!true) = false from rfl]
    rw [if_neg (by simp)]
    -- shared facts
    have hnotgt_le : ∀ i, i < m.slots.length →
        ∀ p, p < (m.slots.getD i default).value_vec.length →
        ¬ gtSideQ gt ige ((m.slots.getD i default).value_vec.getD p 0) →
        (i : Int) ≤ m.find_left_slot_index gt ige := by
      intro i hi p hp hng
      by_contra hcon
      push_neg at hcon
      exact hng (hG2 i hcon hi p hp)
    have hnotlt_ge : ∀ i, i < m.slots.length →
        ∀ p, p < (m.slots.getD i default).value_vec.length →
        ¬ ltSideQ lt ile ((m.slots.getD i default).value_vec.getD p 0) →
        m.find_right_slot_index lt ile ≤ (i : Int) := by
      intro i hi p hp hnl
      by_contra hcon
      push_neg at hcon
      exact hnl (hR2 i hcon hi p hp)
    refine option_glue o _ _ ?hmem ?hzero
    case hzero =>
      intro hz
      rw [hmatch]
      rintro ⟨i, hi, p, hp, hpo, hnot⟩
      have hside : ¬ ltSideQ lt ile
            ((m.slots.getD i default).value_vec.getD p 0) ∨
          ¬ gtSideQ gt ige
            ((m.slots.getD i default).value_vec.getD p 0) := by
        by_cases h1 : ltSideQ lt ile
            ((m.slots.getD i default).value_vec.getD p 0)
        · exact Or.inr (fun h2 => hnot ⟨h1, h2⟩)
        · exact Or.inl h1
      by_cases hg1 : m.find_left_slot_index gt ige ≠
          (m.slots.length : Int) ∧ m.find_left_slot_index gt ige ≠ -1
      · rw [if_pos hg1] at hz
        by_cases hg2 : m.find_right_slot_index lt ile ≠ -1 ∧
            m.find_right_slot_index lt ile ≠ (m.slots.length : Int)
        · rw [if_pos hg2] at hz
          dsimp only at hz
          have hcnt1 : ((m.slots.getD
              (m.find_left_slot_index gt ige).toNat
              default).get_lower_than_data
              (slotsBetween m.slots (-1) (m.find_left_slot_index gt ige)).1
              gt (!ige)).2 =
              (m.slots.getD (m.find_left_slot_index gt ige).toNat
                default).get_right_border gt (!ige) := rfl
          have hcnt2 : ∀ (acc : Finset Nat),
              ((m.slots.getD (m.find_right_slot_index lt ile).toNat
                default).get_greater_than_data acc lt (!ile)).2 =
              (m.slots.getD (m.find_right_slot_index lt ile).toNat
                default).offset_vec.length -
              (m.slots.getD (m.find_right_slot_index lt ile).toNat
                default).get_left_border lt (!ile) := fun acc => rfl
          have hLn' : (m.find_left_slot_index gt ige).toNat <
              m.slots.length := by omega
          have hRn' : (m.find_right_slot_index lt ile).toNat <
              m.slots.length := by omega
          have hq2 := hcnt2 (((m.slots.getD
              (m.find_left_slot_index gt ige).toNat
              default).get_lower_than_data
              (slotsBetween m.slots (-1)
                (m.find_left_slot_index gt ige)).1 gt (!ige)).1 ∪
            (slotsBetween m.slots (m.find_right_slot_index lt ile)
              (m.slots.length : Int)).1)
          have hsble1 := slotsBetween_cnt_le m.slots (-1)
            (m.find_left_slot_index gt ige)
          have hsble2 := slotsBetween_cnt_le m.slots
            (m.find_right_slot_index lt ile) (m.slots.length : Int)
          have hsumL := sum_getD_le m.slots _ hLn'
          have hsumR := sum_getD_le m.slots _ hRn'
          have hlenL := slotWF_len_eq _ (hwf _ hLn')
          have hlenR := slotWF_len_eq _ (hwf _ hRn')
          have hrbL := get_right_border_le
            (m.slots.getD (m.find_left_slot_index gt ige).toNat default)
            gt (!ige)
          rcases hside with hnl | hng
          · have hri := hnotlt_ge i hi p hp hnl
            rcases lt_or_eq_of_le hri with h2 | h2
            · have hz2 : (slotsBetween m.slots
                  (m.find_right_slot_index lt ile)
                  (m.slots.length : Int)).2 = 0 := by omega
              have := (slotsBetween_cnt_zero _ _ _ (by omega)).mp hz2 i hi h2
                (by omega)
              have hlen := slotWF_len_eq _ (hwf i hi)
              omega
            · have hR : (m.find_right_slot_index lt ile).toNat = i := by
                omega
              have hz3 : (m.slots.getD
                  (m.find_right_slot_index lt ile).toNat
                  default).offset_vec.length -
                  (m.slots.getD (m.find_right_slot_index lt ile).toNat
                    default).get_left_border lt (!ile) = 0 := by
                have := hcnt2 (((m.slots.getD
                    (m.find_left_slot_index gt ige).toNat
                    default).get_lower_than_data
                    (slotsBetween m.slots (-1)
                      (m.find_left_slot_index gt ige)).1 gt (!ige)).1 ∪
                  (slotsBetween m.slots (m.find_right_slot_index lt ile)
                    (m.slots.length : Int)).1)
                omega
              rw [hR] at hz3
              have hlb := (get_left_border_iff _ (hwf i hi) lt (!ile) p
                hp).mpr ((gtSideQ_not lt ile _).mpr hnl)
              have hlen := slotWF_len_eq _ (hwf i hi)
              omega
          · have hli := hnotgt_le i hi p hp hng
            rcases lt_or_eq_of_le hli with h2 | h2
            · have hz2 : (slotsBetween m.slots (-1)
                  (m.find_left_slot_index gt ige)).2 = 0 := by omega
              have := (slotsBetween_cnt_zero _ _ _ (by omega)).mp hz2 i hi
                (by omega) h2
              have hlen := slotWF_len_eq _ (hwf i hi)
              omega
            · have hL : (m.find_left_slot_index gt ige).toNat = i := by
                omega
              have hz3 : (m.slots.getD
                  (m.find_left_slot_index gt ige).toNat
                  default).get_right_border gt (!ige) = 0 := by omega
              rw [hL] at hz3
              have hrb := (get_right_border_iff _ (hwf i hi) gt (!ige) p
                hp).mpr ((ltSideQ_not gt ige _).mpr hng)
              omega
        · rw [if_neg hg2] at hz
          have hr1 : m.find_right_slot_index lt ile = -1 := by omega
          dsimp only at hz
          have hLn' : (m.find_left_slot_index gt ige).toNat <
              m.slots.length := by omega
          have hcnt1 : ((m.slots.getD
              (m.find_left_slot_index gt ige).toNat
              default).get_lower_than_data
              (slotsBetween m.slots (-1) (m.find_left_slot_index gt ige)).1
              gt (!ige)).2 =
              (m.slots.getD (m.find_left_slot_index gt ige).toNat
                default).get_right_border gt (!ige) := rfl
          have hsble1 := slotsBetween_cnt_le m.slots (-1)
            (m.find_left_slot_index gt ige)
          have hsble2 := slotsBetween_cnt_le m.slots
            (m.find_right_slot_index lt ile) (m.slots.length : Int)
          have hsumL := sum_getD_le m.slots _ hLn'
          have hlenL := slotWF_len_eq _ (hwf _ hLn')
          have hrbL := get_right_border_le
            (m.slots.getD (m.find_left_slot_index gt ige).toNat default)
            gt (!ige)
          rcases hside with hnl | hng
          · have hri := hnotlt_ge i hi p hp hnl
            have hz2 : (slotsBetween m.slots
                (m.find_right_slot_index lt ile)
                (m.slots.length : Int)).2 = 0 := by omega
            have := (slotsBetween_cnt_zero _ _ _ (by omega)).mp hz2 i hi (by omega)
              (by omega)
            have hlen := slotWF_len_eq _ (hwf i hi)
            omega
          · have hli := hnotgt_le i hi p hp hng
            rcases lt_or_eq_of_le hli with h2 | h2
            · have hz2 : (slotsBetween m.slots (-1)
                  (m.find_left_slot_index gt ige)).2 = 0 := by omega
              have := (slotsBetween_cnt_zero _ _ _ (by omega)).mp hz2 i hi
                (by omega) h2
              have hlen := slotWF_len_eq _ (hwf i hi)
              omega
            · have hL : (m.find_left_slot_index gt ige).toNat = i := by
                omega
              have hcnt1 : ((m.slots.getD
                  (m.find_left_slot_index gt ige).toNat
                  default).get_lower_than_data
                  (slotsBetween m.slots (-1)
                    (m.find_left_slot_index gt ige)).1
                  gt (!ige)).2 =
                  (m.slots.getD (m.find_left_slot_index gt ige).toNat
                    default).get_right_border gt (!ige) := rfl
              have hz3 : (m.slots.getD
                  (m.find_left_slot_index gt ige).toNat
                  default).get_right_border gt (!ige) = 0 := by omega
              rw [hL] at hz3
              have hrb := (get_right_border_iff _ (hwf i hi) gt (!ige) p
                hp).mpr ((ltSideQ_not gt ige _).mpr hng)
              omega
      · rw [if_neg hg1] at hz
        have hl1 : m.find_left_slot_index gt ige = (m.slots.length : Int) :=
          by omega
        by_cases hg2 : m.find_right_slot_index lt ile ≠ -1 ∧
            m.find_right_slot_index lt ile ≠ (m.slots.length : Int)
        · rw [if_pos hg2] at hz
          dsimp only at hz
          have hcnt2 : ∀ (acc : Finset Nat),
              ((m.slots.getD (m.find_right_slot_index lt ile).toNat
                default).get_greater_than_data acc lt (!ile)).2 =
              (m.slots.getD (m.find_right_slot_index lt ile).toNat
                default).offset_vec.length -
              (m.slots.getD (m.find_right_slot_index lt ile).toNat
                default).get_left_border lt (!ile) := fun acc => rfl
          have hRn' : (m.find_right_slot_index lt ile).toNat <
              m.slots.length := by omega
          have hq2 := hcnt2 ((slotsBetween m.slots (-1)
              (m.find_left_slot_index gt ige)).1 ∪
            (slotsBetween m.slots (m.find_right_slot_index lt ile)
              (m.slots.length : Int)).1)
          have hsble1 := slotsBetween_cnt_le m.slots (-1)
            (m.find_left_slot_index gt ige)
          have hsble2 := slotsBetween_cnt_le m.slots
            (m.find_right_slot_index lt ile) (m.slots.length : Int)
          have hsumR := sum_getD_le m.slots _ hRn'
          have hlenR := slotWF_len_eq _ (hwf _ hRn')
          rcases hside with hnl | hng
          · have hri := hnotlt_ge i hi p hp hnl
            rcases lt_or_eq_of_le hri with h2 | h2
            · have hz2 : (slotsBetween m.slots
                  (m.find_right_slot_index lt ile)
                  (m.slots.length : Int)).2 = 0 := by omega
              have := (slotsBetween_cnt_zero _ _ _ (by omega)).mp hz2 i hi h2
                (by omega)
              have hlen := slotWF_len_eq _ (hwf i hi)
              omega
            · have hR : (m.find_right_slot_index lt ile).toNat = i := by
                omega
              have hz3 : (m.slots.getD
                  (m.find_right_slot_index lt ile).toNat
                  default).offset_vec.length -
                  (m.slots.getD (m.find_right_slot_index lt ile).toNat
                    default).get_left_border lt (!ile) = 0 := by
                omega
              rw [hR] at hz3
              have hlb := (get_left_border_iff _ (hwf i hi) lt (!ile) p
                hp).mpr ((gtSideQ_not lt ile _).mpr hnl)
              have hlen := slotWF_len_eq _ (hwf i hi)
              omega
          · have hli := hnotgt_le i hi p hp hng
            have hz2 : (slotsBetween m.slots (-1)
                (m.find_left_slot_index gt ige)).2 = 0 := by omega
            have := (slotsBetween_cnt_zero _ _ _ (by omega)).mp hz2 i hi
              (by omega) (by omega)
            have hlen := slotWF_len_eq _ (hwf i hi)
            omega
        · rw [if_neg hg2] at hz
          have hr1 : m.find_right_slot_index lt ile = -1 := by omega
          dsimp only at hz
          have hsble1 := slotsBetween_cnt_le m.slots (-1)
            (m.find_left_slot_index gt ige)
          have hsble2 := slotsBetween_cnt_le m.slots
            (m.find_right_slot_index lt ile) (m.slots.length : Int)
          rcases hside with hnl | hng
          · have hri := hnotlt_ge i hi p hp hnl
            have hz2 : (slotsBetween m.slots
                (m.find_right_slot_index lt ile)
                (m.slots.length : Int)).2 = 0 := by omega
            have := (slotsBetween_cnt_zero _ _ _ (by omega)).mp hz2 i hi (by omega)
              (by omega)
            have hlen := slotWF_len_eq _ (hwf i hi)
            omega
          · have hli := hnotgt_le i hi p hp hng
            have hz2 : (slotsBetween m.slots (-1)
                (m.find_left_slot_index gt ige)).2 = 0 := by omega
            have := (slotsBetween_cnt_zero _ _ _ (by omega)).mp hz2 i hi
              (by omega) (by omega)
            have hlen := slotWF_len_eq _ (hwf i hi)
            omega
    case hmem =>
      rw [hmatch]
      by_cases hg1 : m.find_left_slot_index gt ige ≠
          (m.slots.length : Int) ∧ m.find_left_slot_index gt ige ≠ -1
      · rw [if_pos hg1]
        have hLn : (m.find_left_slot_index gt ige).toNat <
            m.slots.length := by omega
        by_cases hg2 : m.find_right_slot_index lt ile ≠ -1 ∧
            m.find_right_slot_index lt ile ≠ (m.slots.length : Int)
        · rw [if_pos hg2]
          have hRn : (m.find_right_slot_index lt ile).toNat <
              m.slots.length := by omega
          dsimp only
          rw [get_greater_than_data_mem _ (hwf _ hRn), Finset.mem_union,
            get_lower_than_data_mem _ (hwf _ hLn), slotsBetween_mem,
            slotsBetween_mem]
          constructor
          · rintro (((⟨j, hj, hj1, hj2, hjb⟩ | ⟨p, hp, hpo, hplt⟩) |
              ⟨j, hj, hj1, hj2, hjb⟩) | ⟨p, hp, hpo, hpgt⟩)
            · obtain ⟨p, hp, hpo⟩ := (bitmap_pos _ (hwf j hj) o).mp hjb
              exact ⟨j, hj, p, hp, hpo,
                fun hc => hG1 j hj2 hj p hp hc.2⟩
            · refine ⟨(m.find_left_slot_index gt ige).toNat, hLn, p, hp,
                hpo, fun hc => ?_⟩
              exact ((ltSideQ_not gt ige _).mp hplt) hc.2
            · obtain ⟨p, hp, hpo⟩ := (bitmap_pos _ (hwf j hj) o).mp hjb
              exact ⟨j, hj, p, hp, hpo,
                fun hc => hR1 j hj1 hj p hp hc.1⟩
            · refine ⟨(m.find_right_slot_index lt ile).toNat, hRn, p, hp,
                hpo, fun hc => ?_⟩
              exact ((gtSideQ_not lt ile _).mp hpgt) hc.1
          · rintro ⟨i, hi, p, hp, hpo, hnot⟩
            have hside : ¬ ltSideQ lt ile
                  ((m.slots.getD i default).value_vec.getD p 0) ∨
                ¬ gtSideQ gt ige
                  ((m.slots.getD i default).value_vec.getD p 0) := by
              by_cases h1 : ltSideQ lt ile
                  ((m.slots.getD i default).value_vec.getD p 0)
              · exact Or.inr (fun h2 => hnot ⟨h1, h2⟩)
              · exact Or.inl h1
            rcases hside with hnl | hng
            · have hri := hnotlt_ge i hi p hp hnl
              rcases lt_or_eq_of_le hri with h2 | h2
              · exact Or.inl (Or.inr ⟨i, hi, h2, by omega,
                  (bitmap_pos _ (hwf i hi) o).mpr ⟨p, hp, hpo⟩⟩)
              · refine Or.inr ⟨p, ?_, ?_, ?_⟩
                · rw [show (m.find_right_slot_index lt ile).toNat = i by
                    omega]
                  exact hp
                · rw [show (m.find_right_slot_index lt ile).toNat = i by
                    omega]
                  exact hpo
                · rw [show (m.find_right_slot_index lt ile).toNat = i by
                    omega]
                  exact (gtSideQ_not lt ile _).mpr hnl
            · have hli := hnotgt_le i hi p hp hng
              rcases lt_or_eq_of_le hli with h2 | h2
              · exact Or.inl (Or.inl (Or.inl ⟨i, hi, by omega, h2,
                  (bitmap_pos _ (hwf i hi) o).mpr ⟨p, hp, hpo⟩⟩))
              · refine Or.inl (Or.inl (Or.inr ⟨p, ?_, ?_, ?_⟩))
                · rw [show (m.find_left_slot_index gt ige).toNat = i by
                    omega]
                  exact hp
                · rw [show (m.find_left_slot_index gt ige).toNat = i by
                    omega]
                  exact hpo
                · rw [show (m.find_left_slot_index gt ige).toNat = i by
                    omega]
                  exact (ltSideQ_not gt ige _).mpr hng
        · rw [if_neg hg2]
          have hr1 : m.find_right_slot_index lt ile = -1 := by omega
          dsimp only
          rw [Finset.mem_union, get_lower_than_data_mem _ (hwf _ hLn),
            slotsBetween_mem, slotsBetween_mem]
          constructor
          · rintro ((⟨j, hj, hj1, hj2, hjb⟩ | ⟨p, hp, hpo, hplt⟩) |
              ⟨j, hj, hj1, hj2, hjb⟩)
            · obtain ⟨p, hp, hpo⟩ := (bitmap_pos _ (hwf j hj) o).mp hjb
              exact ⟨j, hj, p, hp, hpo,
                fun hc => hG1 j hj2 hj p hp hc.2⟩
            · refine ⟨(m.find_left_slot_index gt ige).toNat, hLn, p, hp,
                hpo, fun hc => ?_⟩
              exact ((ltSideQ_not gt ige _).mp hplt) hc.2
            · obtain ⟨p, hp, hpo⟩ := (bitmap_pos _ (hwf j hj) o).mp hjb
              exact ⟨j, hj, p, hp, hpo,
                fun hc => hR1 j hj1 hj p hp hc.1⟩
          · rintro ⟨i, hi, p, hp, hpo, hnot⟩
            have hside : ¬ ltSideQ lt ile
                  ((m.slots.getD i default).value_vec.getD p 0) ∨
                ¬ gtSideQ gt ige
                  ((m.slots.getD i default).value_vec.getD p 0) := by
              by_cases h1 : ltSideQ lt ile
                  ((m.slots.getD i default).value_vec.getD p 0)
              · exact Or.inr (fun h2 => hnot ⟨h1, h2⟩)
              · exact Or.inl h1
            rcases hside with hnl | hng
            · exact Or.inr ⟨i, hi, by omega, by omega,
                (bitmap_pos _ (hwf i hi) o).mpr ⟨p, hp, hpo⟩⟩
            · have hli := hnotgt_le i hi p hp hng
              rcases lt_or_eq_of_le hli with h2 | h2
              · exact Or.inl (Or.inl ⟨i, hi, by omega, h2,
                  (bitmap_pos _ (hwf i hi) o).mpr ⟨p, hp, hpo⟩⟩)
              · refine Or.inl (Or.inr ⟨p, ?_, ?_, ?_⟩)
                · rw [show (m.find_left_slot_index gt ige).toNat = i by
                    omega]
                  exact hp
                · rw [show (m.find_left_slot_index gt ige).toNat = i by
                    omega]
                  exact hpo
                · rw [show (m.find_left_slot_index gt ige).toNat = i by
                    omega]
                  exact (ltSideQ_not gt ige _).mpr hng
      · rw [if_neg hg1]
        have hl1 : m.find_left_slot_index gt ige = (m.slots.length : Int) :=
          by omega
        by_cases hg2 : m.find_right_slot_index lt ile ≠ -1 ∧
            m.find_right_slot_index lt ile ≠ (m.slots.length : Int)
        · rw [if_pos hg2]
          have hRn : (m.find_right_slot_index lt ile).toNat <
              m.slots.length := by omega
          dsimp only
          rw [get_greater_than_data_mem _ (hwf _ hRn), Finset.mem_union,
            slotsBetween_mem, slotsBetween_mem]
          constructor
          · rintro ((⟨j, hj, hj1, hj2, hjb⟩ | ⟨j, hj, hj1, hj2, hjb⟩) |
              ⟨p, hp, hpo, hpgt⟩)
            · obtain ⟨p, hp, hpo⟩ := (bitmap_pos _ (hwf j hj) o).mp hjb
              exact ⟨j, hj, p, hp, hpo,
                fun hc => hG1 j hj2 hj p hp hc.2⟩
            · obtain ⟨p, hp, hpo⟩ := (bitmap_pos _ (hwf j hj) o).mp hjb
              exact ⟨j, hj, p, hp, hpo,
                fun hc => hR1 j hj1 hj p hp hc.1⟩
            · refine ⟨(m.find_right_slot_index lt ile).toNat, hRn, p, hp,
                hpo, fun hc => ?_⟩
              exact ((gtSideQ_not lt ile _).mp hpgt) hc.1
          · rintro ⟨i, hi, p, hp, hpo, hnot⟩
            have hside : ¬ ltSideQ lt ile
                  ((m.slots.getD i default).value_vec.getD p 0) ∨
                ¬ gtSideQ gt ige
                  ((m.slots.getD i default).value_vec.getD p 0) := by
              by_cases h1 : ltSideQ lt ile
                  ((m.slots.getD i default).value_vec.getD p 0)
              · exact Or.inr (fun h2 => hnot ⟨h1, h2⟩)
              · exact Or.inl h1
            rcases hside with hnl | hng
            · have hri := hnotlt_ge i hi p hp hnl
              rcases lt_or_eq_of_le hri with h2 | h2
              · exact Or.inl (Or.inr ⟨i, hi, h2, by omega,
                  (bitmap_pos _ (hwf i hi) o).mpr ⟨p, hp, hpo⟩⟩)
              · refine Or.inr ⟨p, ?_, ?_, ?_⟩
                · rw [show (m.find_right_slot_index lt ile).toNat = i by
                    omega]
                  exact hp
                · rw [show (m.find_right_slot_index lt ile).toNat = i by
                    omega]
                  exact hpo
                · rw [show (m.find_right_slot_index lt ile).toNat = i by
                    omega]
                  exact (gtSideQ_not lt ile _).mpr hnl
            · exact Or.inl (Or.inl ⟨i, hi, by omega, by omega,
                (bitmap_pos _ (hwf i hi) o).mpr ⟨p, hp, hpo⟩⟩)
        · rw [if_neg hg2]
          have hr1 : m.find_right_slot_index lt ile = -1 := by omega
          rw [Finset.mem_union, slotsBetween_mem, slotsBetween_mem]
          constructor
          · rintro (⟨j, hj, hj1, hj2, hjb⟩ | ⟨j, hj, hj1, hj2, hjb⟩)
            · obtain ⟨p, hp, hpo⟩ := (bitmap_pos _ (hwf j hj) o).mp hjb
              exact ⟨j, hj, p, hp, hpo,
                fun hc => hG1 j hj2 hj p hp hc.2⟩
            · obtain ⟨p, hp, hpo⟩ := (bitmap_pos _ (hwf j hj) o).mp hjb
              exact ⟨j, hj, p, hp, hpo,
                fun hc => hR1 j hj1 hj p hp hc.1⟩
          · rintro ⟨i, hi, p, hp, hpo, hnot⟩
            exact Or.inr ⟨i, hi, by omega, by omega,
              (bitmap_pos _ (hwf i hi) o).mpr ⟨p, hp, hpo⟩⟩

lemma grb_swap (m : RangedMap) (lt : ℚ) (ile : Bool) (gt : ℚ) (ige : Bool)
    (h : lt < gt) :
    m.get_range_bitmap true lt ile gt ige =
      m.get_range_bitmap true gt ige lt ile := by
  rw [RangedMap.get_range_bitmap, RangedMap.get_range_bitmap,
    RangedMap.get_range_bitmap_with_slot_data,
    RangedMap.get_range_bitmap_with_slot_data]
  by_cases hemp : m.slots.isEmpty
  · rw [if_pos hemp, if_pos hemp]
  · rw [if_neg hemp, if_neg hemp]
    have h1 : ((true : Bool) = true ∧ lt < gt) := ⟨rfl, h⟩
    have h2 : ¬((true : Bool) = true ∧ gt < lt) := fun hc =>
      absurd h (asymm hc.2)
    rw [if_pos h1, if_neg h2]

lemma specRangePred_swap (lt : ℚ) (ile : Bool) (gt : ℚ) (ige : Bool)
    (v : ℚ) (h : lt < gt) :
    specRangePred true lt ile gt ige v ↔
      specRangePred true gt ige lt ile v := by
  unfold specRangePred
  rw [if_pos rfl, if_pos rfl, if_pos h, if_neg (asymm h)]

lemma get_range_bitmap_exact (m : RangedMap) (hinv : RMInv m) (ro : Bool)
    (lt : ℚ) (ile : Bool) (gt : ℚ) (ige : Bool) (o : Nat)
    (hsmall : 4 * (m.slots.map (fun s => s.offset_vec.length)).sum <
      2 ^ 32) :
    (∀ bm, m.get_range_bitmap ro lt ile gt ige = some bm →
      (o ∈ bm ↔ m.specMatches ro lt ile gt ige o)) ∧
    (m.get_range_bitmap ro lt ile gt ige = none →
      ¬ m.specMatches ro lt ile gt ige o) := by
  cases ro with
  | false => exact grb_in_exact m hinv lt ile gt ige o hsmall
  | true =>
    by_cases hswap : lt < gt
    · have hq := grb_swap m lt ile gt ige hswap
      have hm : m.specMatches true lt ile gt ige o ↔
          m.specMatches true gt ige lt ile o := by
        unfold RangedMap.specMatches
        constructor
        · rintro ⟨v, hv, hp⟩
          exact ⟨v, hv, (specRangePred_swap lt ile gt ige v hswap).mp hp⟩
        · rintro ⟨v, hv, hp⟩
          exact ⟨v, hv, (specRangePred_swap lt ile gt ige v hswap).mpr hp⟩
      obtain ⟨h1, h2⟩ := grb_out_exact_noswap m hinv gt ige lt ile o
        (asymm hswap) hsmall
      constructor
      · intro bm hbm
        rw [hq] at hbm
        rw [hm]
        exact h1 bm hbm
      · intro hn
        rw [hq] at hn
        rw [hm]
        exact h2 hn
    · exact grb_out_exact_noswap m hinv lt ile gt ige o hswap hsmall

lemma insertIdx_eq {α} (l : List α) (n : Nat) (x : α) (hn : n ≤ l.length) :
    l.insertIdx n x = l.take n ++ x :: l.drop n := by
  induction l generalizing n with
  | nil =>
    have h0 : n = 0 := by simpa using hn
    subst h0
    rfl
  | cons a t ih =>
    cases n with
    | zero => rfl
    | succ k =>
      rw [List.insertIdx_succ_cons, List.take_succ_cons, List.drop_succ_cons,
        ih k (by simpa using hn)]
      rfl

lemma getD_take' {α} (l : List α) (n p : Nat) (d : α) (h : p < n) :
    (l.take n).getD p d = l.getD p d := by
  rw [List.getD_eq_getElem?_getD, List.getD_eq_getElem?_getD,
    List.getElem?_take, if_pos h]

lemma getD_drop' {α} (l : List α) (n p : Nat) (d : α) :
    (l.drop n).getD p d = l.getD (n + p) d := by
  rw [List.getD_eq_getElem?_getD, List.getD_eq_getElem?_getD,
    List.getElem?_drop]

lemma getD_set' {α} (l : List α) (idx : Nat) (x : α) (i : Nat) (d : α) :
    (l.set idx x).getD i d =
      if idx = i ∧ idx < l.length then x else l.getD i d := by
  rw [List.getD_eq_getElem?_getD, List.getD_eq_getElem?_getD,
    List.getElem?_set]
  by_cases h1 : idx = i
  · subst h1
    by_cases h2 : idx < l.length
    · simp [h2]
    · simp only [h2, and_false, if_false, if_true]
      rw [List.getElem?_eq_none (by omega)]
  · simp [h1]

lemma getD_insertIdx {α} (l : List α) (n : Nat) (x : α)
    (hn : n ≤ l.length) (p : Nat) (d : α) :
    (l.insertIdx n x).getD p d =
      if p < n then l.getD p d else if p = n then x else l.getD (p - 1) d := by
  rw [insertIdx_eq l n x hn]
  have hlt : (l.take n).length = n := by
    rw [List.length_take]
    omega
  rcases Nat.lt_trichotomy p n with h | h | h
  · rw [if_pos h, List.getD_append _ _ _ _ (by omega)]
    exact getD_take' l n p d h
  · subst h
    rw [if_neg (lt_irrefl _), if_pos rfl,
      List.getD_append_right _ _ _ _ (by omega), hlt]
    simp
  · rw [if_neg (by omega), if_neg (by omega),
      List.getD_append_right _ _ _ _ (by omega), hlt]
    have h1 : p - n = (p - n - 1) + 1 := by omega
    rw [h1, List.getD_cons_succ, getD_drop']
    congr 1
    omega

lemma length_insertIdx' {α} (l : List α) (n : Nat) (x : α)
    (hn : n ≤ l.length) : (l.insertIdx n x).length = l.length + 1 :=
  List.length_insertIdx n l hn

lemma toFinset_insertIdx (l : List Nat) (n : Nat) (x : Nat)
    (hn : n ≤ l.length) : (l.insertIdx n x).toFinset = insert x l.toFinset := by
  have hp : List.Perm (l.insertIdx n x) (x :: l) := by
    rw [insertIdx_eq l n x hn]
    have := @List.perm_middle _ x (l.take n) (l.drop n)
    rwa [List.take_append_drop] at this
  rw [List.toFinset_eq_of_perm _ _ hp, List.toFinset_cons]

lemma sorted_insert (vs : List ℚ) (hs : vs.Sorted (· ≤ ·)) (v : ℚ)
    (n : Nat) (hn : n ≤ vs.length)
    (hb : ∀ p, p < n → vs.getD p 0 ≤ v)
    (ha : ∀ p, n ≤ p → p < vs.length → v ≤ vs.getD p 0) :
    (vs.insertIdx n v).Sorted (· ≤ ·) := by
  rw [insertIdx_eq vs n v hn]
  rw [show ((vs.take n ++ v :: vs.drop n).Sorted (· ≤ ·)) =
    ((vs.take n ++ v :: vs.drop n).Pairwise (· ≤ ·)) from rfl]
  rw [List.pairwise_append]
  refine ⟨List.Pairwise.sublist (List.take_sublist n vs) hs, ?_, ?_⟩
  · rw [List.pairwise_cons]
    constructor
    · intro y hy
      obtain ⟨q, hq, he⟩ := List.getElem_of_mem hy
      rw [List.getElem_drop] at he
      have hq2 : n + q < vs.length := by
        rw [List.length_drop] at hq
        omega
      have := ha (n + q) (by omega) hq2
      rw [List.getD_eq_getElem _ _ hq2] at this
      rw [← he]
      exact this
    · exact List.Pairwise.sublist (List.drop_sublist n vs) hs
  · intro x hx y hy
    obtain ⟨qx, hqx, hex⟩ := List.getElem_of_mem hx
    have hqx2 : qx < n := by
      rw [List.length_take] at hqx
      omega
    have hqxlen : qx < vs.length := by
      rw [List.length_take] at hqx
      omega
    rw [List.getElem_take] at hex
    have hxv : x ≤ v := by
      have := hb qx hqx2
      rw [List.getD_eq_getElem _ _ hqxlen] at this
      rw [← hex]
      exact this
    rcases List.mem_cons.mp hy with hyv | hyd
    · rw [hyv]
      exact hxv
    · obtain ⟨q, hq, he⟩ := List.getElem_of_mem hyd
      rw [List.getElem_drop] at he
      have hq2 : n + q < vs.length := by
        rw [List.length_drop] at hq
        omega
      have hmono := sorted_getD_mono vs hs qx (n + q) (by omega) hq2
      rw [List.getD_eq_getElem _ _ hqxlen,
        List.getD_eq_getElem _ _ hq2] at hmono
      rw [← hex, ← he]
      exact hmono

lemma getD_pad_none (l : List (Option ℚ)) (k i : Nat) :
    (l ++ List.replicate k none).getD i none = l.getD i none := by
  rcases Nat.lt_or_ge i l.length with h | h
  · exact List.getD_append _ _ _ _ h
  · rw [List.getD_append_right _ _ _ _ h, List.getD_eq_default _ _ h]
    rcases Nat.lt_or_ge (i - l.length) k with h2 | h2
    · rw [List.getD_eq_getElem _ _ (by simpa using h2)]
      simp
    · rw [List.getD_eq_default]
      simpa using h2

lemma nodup_getD_distinct (l : List Nat)
    (h : ∀ p q, p < l.length → q < l.length → p ≠ q →
      l.getD p 0 ≠ l.getD q 0) : l.Nodup := by
  rw [List.nodup_iff_getElem?_ne_getElem?]
  intro i j hij hj
  have hi : i < l.length := by omega
  rw [List.getElem?_eq_getElem hi, List.getElem?_eq_getElem hj]
  intro hcon
  apply h i j hi hj (by omega)
  rw [List.getD_eq_getElem _ _ hi, List.getD_eq_getElem _ _ hj]
  exact Option.some.inj hcon

lemma toFinset_eraseIdx (l : List Nat) (hnd : l.Nodup) (j : Nat)
    (hj : j < l.length) :
    (l.eraseIdx j).toFinset = l.toFinset.erase (l.getD j 0) := by
  rw [List.eraseIdx_eq_take_drop_succ]
  ext a
  simp only [List.toFinset_append, Finset.mem_union, List.mem_toFinset,
    Finset.mem_erase]
  rw [List.getD_eq_getElem _ _ hj]
  constructor
  · rintro (ha | ha)
    · obtain ⟨q, hq, he⟩ := List.getElem_of_mem ha
      have hq2 : q < j := by
        rw [List.length_take] at hq
        omega
      rw [List.getElem_take] at he
      constructor
      · intro hcon
        rw [← he] at hcon
        exact (List.nodup_iff_getElem?_ne_getElem?.mp hnd q j hq2 hj)
          (by rw [List.getElem?_eq_getElem (by omega),
            List.getElem?_eq_getElem hj, hcon])
      · rw [← he]
        exact List.getElem_mem (by omega)
    · obtain ⟨q, hq, he⟩ := List.getElem_of_mem ha
      rw [List.getElem_drop] at he
      have hq2 : j + 1 + q < l.length := by
        rw [List.length_drop] at hq
        omega
      constructor
      · intro hcon
        rw [← he] at hcon
        exact (List.nodup_iff_getElem?_ne_getElem?.mp hnd j (j + 1 + q)
          (by omega) hq2)
          (by rw [List.getElem?_eq_getElem hj,
            List.getElem?_eq_getElem hq2, hcon])
      · rw [← he]
        exact List.getElem_mem hq2
  · rintro ⟨hne, ha⟩
    obtain ⟨q, hq, he⟩ := List.getElem_of_mem ha
    rcases Nat.lt_trichotomy q j with h1 | h1 | h1
    · left
      rw [← he]
      have hq3 : q < (l.take j).length := by
        rw [List.length_take]
        omega
      have : (l.take j)[q] = l[q] := List.getElem_take _
      rw [← this]
      exact List.getElem_mem hq3
    · subst h1
      rw [he] at hne
      exact absurd rfl hne
    · right
      rw [← he]
      have hq3 : q - (j + 1) < (l.drop (j + 1)).length := by
        rw [List.length_drop]
        omega
      have : (l.drop (j + 1))[q - (j + 1)] = l[q] := by
        rw [List.getElem_drop]
        congr 1
        omega
      rw [← this]
      exact List.getElem_mem hq3

lemma getD_eraseIdx {α} (l : List α) (j : Nat) (hj : j < l.length)
    (p : Nat) (d : α) :
    (l.eraseIdx j).getD p d =
      if p < j then l.getD p d else l.getD (p + 1) d := by
  rw [List.eraseIdx_eq_take_drop_succ]
  have hlt : (l.take j).length = j := by
    rw [List.length_take]
    omega
  rcases Nat.lt_or_ge p j with h | h
  · rw [if_pos h, List.getD_append _ _ _ _ (by omega)]
    exact getD_take' l j p d h
  · rw [if_neg (by omega), List.getD_append_right _ _ _ _ (by omega), hlt,
      getD_drop']
    congr 1
    omega

lemma insert_sorted (s : SlotMeta) (hs : SlotWF s) (v : ℚ) :
    (s.value_vec.insertIdx (ubIdx s.value_vec v) v).Sorted (· ≤ ·) := by
  apply sorted_insert _ hs.2.2.1 v _ (ubIdx_le _ _)
  · intro p hp
    have hub := ubIdx_le s.value_vec v
    exact (ubIdx_spec _ hs.2.2.1 v p (by omega)).mp hp
  · intro p hp1 hp2
    by_contra hcon
    push_neg at hcon
    exact absurd ((ubIdx_spec _ hs.2.2.1 v p hp2).mpr (le_of_lt hcon))
      (by omega)

lemma insert_head (s : SlotMeta) (hs : SlotWF s) (v : ℚ) :
    (s.value_vec.insertIdx (ubIdx s.value_vec v) v).headD 0 =
      min v s.left := by
  have hlen0 : 0 < s.value_vec.length := List.length_pos.mpr hs.1
  have hub := ubIdx_le s.value_vec v
  rw [headD_eq_getD, getD_insertIdx _ _ _ hub]
  have hleft : s.left = s.value_vec.getD 0 0 := by
    rw [hs.2.2.2.1, headD_eq_getD]
  by_cases h0 : 0 < ubIdx s.value_vec v
  · rw [if_pos h0, hleft]
    have hv0 : s.value_vec.getD 0 0 ≤ v :=
      (ubIdx_spec _ hs.2.2.1 v 0 hlen0).mp h0
    rw [min_eq_right hv0]
  · rw [if_neg h0, if_pos (by omega)]
    have hv0 : ¬ (s.value_vec.getD 0 0 ≤ v) := fun hc =>
      h0 ((ubIdx_spec _ hs.2.2.1 v 0 hlen0).mpr hc)
    rw [hleft, min_eq_left (le_of_lt (not_le.mp hv0))]

lemma insert_last (s : SlotMeta) (hs : SlotWF s) (v : ℚ) :
    (s.value_vec.insertIdx (ubIdx s.value_vec v) v).getLastD 0 =
      max v s.right := by
  have hlen0 : 0 < s.value_vec.length := List.length_pos.mpr hs.1
  have hub := ubIdx_le s.value_vec v
  rw [getLastD_eq_getD, length_insertIdx' _ _ _ hub]
  simp only [Nat.add_sub_cancel]
  rw [getD_insertIdx _ _ _ hub]
  have hright : s.right = s.value_vec.getD (s.value_vec.length - 1) 0 := by
    rw [hs.2.2.2.2.1, getLastD_eq_getD]
  by_cases hfull : ubIdx s.value_vec v = s.value_vec.length
  · rw [if_neg (by omega), if_pos (by omega)]
    have hlast : s.value_vec.getD (s.value_vec.length - 1) 0 ≤ v :=
      (ubIdx_spec _ hs.2.2.1 v _ (by omega)).mp (by omega)
    rw [hright, max_eq_left hlast]
  · have hlt : ubIdx s.value_vec v < s.value_vec.length := by omega
    rw [if_neg (by omega), if_neg (by omega)]
    have h1 : ¬ (s.value_vec.getD (ubIdx s.value_vec v) 0 ≤ v) := fun hc =>
      absurd ((ubIdx_spec _ hs.2.2.1 v _ hlt).mpr hc) (lt_irrefl _)
    have h2 := sorted_getD_mono _ hs.2.2.1 (ubIdx s.value_vec v)
      (s.value_vec.length - 1) (by omega) (by omega)
    rw [hright, max_eq_right (le_trans (le_of_lt (not_le.mp h1)) h2)]

lemma addOtv_lookup (m : RangedMap) (offset : Nat) (value : ℚ) (o2 : Nat) :
    (m.addOtv offset value).getD o2 none =
      if o2 = offset then some value
      else m.offset_to_value.getD o2 none := by
  unfold RangedMap.addOtv
  dsimp only
  by_cases hlt : offset < m.offset_to_value.length
  · rw [if_pos hlt, getD_set']
    by_cases h : o2 = offset
    · rw [if_pos ⟨h.symm, hlt⟩, if_pos h]
    · rw [if_neg (fun hc => h hc.1.symm), if_neg h]
  · rw [if_neg hlt]
    rw [getD_set']
    have hlen : (m.offset_to_value ++
        List.replicate (offset + 1 - m.offset_to_value.length) none).length =
        offset + 1 := by
      simp only [List.length_append, List.length_replicate]
      omega
    by_cases h : o2 = offset
    · rw [if_pos ⟨h.symm, by omega⟩, if_pos h]
    · rw [if_neg (fun hc => h hc.1.symm), if_neg h, getD_pad_none]

lemma RMInv_init : RMInv RangedMap.init := by
  refine ⟨?_, ?_, ?_, ?_, ?_⟩
  · intro i hi
    simp [RangedMap.init] at hi
  · intro i j hij hj
    simp [RangedMap.init] at hj
  · intro i hi
    simp [RangedMap.init] at hi
  · intro o v h
    simp [RangedMap.init, RangedMap.lookupValue] at h
  · intro i j p q hi hj
    simp [RangedMap.init] at hi

lemma split_slot_inv (otv' : List (Option ℚ)) (slots1 : List SlotMeta)
    (SI : Nat) (S2 : SlotMeta)
    (hsi : SI < slots1.length)
    (hT : slots1.getD SI default = S2)
    (hlen2 : S2.value_vec.length = S2.offset_vec.length)
    (hsort2 : S2.value_vec.Sorted (· ≤ ·))
    (hleft2 : S2.left = S2.value_vec.headD 0)
    (hright2 : S2.right = S2.value_vec.getLastD 0)
    (hbig : 2 ≤ S2.value_vec.length)
    (hcap2 : S2.value_vec.length ≤ 2 * kRangedMapSlotSize + 1)
    (hwf1 : ∀ i, i < slots1.length → i ≠ SI →
      SlotWF (slots1.getD i default))
    (hchain1 : ∀ i j, i < j → j < slots1.length →
      (slots1.getD i default).right ≤ (slots1.getD j default).left)
    (hlink1 : ∀ i, i < slots1.length →
      ∀ p, p < (slots1.getD i default).value_vec.length →
        otv'.getD ((slots1.getD i default).offset_vec.getD p 0) none =
          some ((slots1.getD i default).value_vec.getD p 0))
    (hcov1 : ∀ o v, otv'.getD o none = some v →
      ∃ i, i < slots1.length ∧
        ∃ p, p < (slots1.getD i default).value_vec.length ∧
          (slots1.getD i default).offset_vec.getD p 0 = o ∧
          (slots1.getD i default).value_vec.getD p 0 = v)
    (hnd1 : ∀ i j p q, i < slots1.length → j < slots1.length →
      p < (slots1.getD i default).offset_vec.length →
      q < (slots1.getD j default).offset_vec.length →
      ¬(i = j ∧ p = q) →
      (slots1.getD i default).offset_vec.getD p 0 ≠
        (slots1.getD j default).offset_vec.getD q 0) :
    RMInv ⟨otv',
      (slots1.set SI (S2.split_half_to_new_slot default).1).insertIdx
        (SI + 1) (S2.split_half_to_new_slot default).2⟩ := by
  have hk : kRangedMapSlotSize = 10000 := rfl
  have hP : S2.split_half_to_new_slot default =
      (⟨S2.left, (S2.value_vec.take (S2.value_vec.length / 2)).getLastD 0,
        (S2.offset_vec.take (S2.value_vec.length / 2)).toFinset,
        S2.value_vec.take (S2.value_vec.length / 2),
        S2.offset_vec.take (S2.value_vec.length / 2)⟩,
       ⟨(S2.value_vec.drop (S2.value_vec.length / 2)).headD 0,
        (S2.value_vec.drop (S2.value_vec.length / 2)).getLastD 0,
        (∅ : Finset Nat) ∪
          (S2.offset_vec.drop (S2.value_vec.length / 2)).toFinset,
        S2.value_vec.drop (S2.value_vec.length / 2),
        S2.offset_vec.drop (S2.value_vec.length / 2)⟩) := by
    unfold SlotMeta.split_half_to_new_slot
    rw [if_neg (by omega)]
    rfl
  set K := S2.value_vec.length / 2 with hKdef
  rw [show (S2.split_half_to_new_slot default).1 =
      (⟨S2.left, (S2.value_vec.take K).getLastD 0,
        (S2.offset_vec.take K).toFinset, S2.value_vec.take K,
        S2.offset_vec.take K⟩ : SlotMeta) from by rw [hP],
    show (S2.split_half_to_new_slot default).2 =
      (⟨(S2.value_vec.drop K).headD 0, (S2.value_vec.drop K).getLastD 0,
        (∅ : Finset Nat) ∪ (S2.offset_vec.drop K).toFinset,
        S2.value_vec.drop K, S2.offset_vec.drop K⟩ : SlotMeta) from by
      rw [hP]]
  set P1 : SlotMeta := ⟨S2.left, (S2.value_vec.take K).getLastD 0,
    (S2.offset_vec.take K).toFinset, S2.value_vec.take K,
    S2.offset_vec.take K⟩ with hP1def
  set P2 : SlotMeta := ⟨(S2.value_vec.drop K).headD 0,
    (S2.value_vec.drop K).getLastD 0,
    (∅ : Finset Nat) ∪ (S2.offset_vec.drop K).toFinset,
    S2.value_vec.drop K, S2.offset_vec.drop K⟩ with hP2def
  set L : List SlotMeta := (slots1.set SI P1).insertIdx (SI + 1) P2
    with hLdef
  have hK1 : 1 ≤ K := by omega
  have hKlt : K < S2.value_vec.length := by omega
  have hlenP1 : (S2.value_vec.take K).length = K := by
    rw [List.length_take]
    omega
  have hlenP1o : (S2.offset_vec.take K).length = K := by
    rw [List.length_take]
    omega
  have hlenP2 : (S2.value_vec.drop K).length = S2.value_vec.length - K := by
    rw [List.length_drop]
  have hlenP2o : (S2.offset_vec.drop K).length =
      S2.value_vec.length - K := by
    rw [List.length_drop]
    omega
  have hP1v : P1.value_vec = S2.value_vec.take K := by rw [hP1def]
  have hP1o : P1.offset_vec = S2.offset_vec.take K := by rw [hP1def]
  have hP1l : P1.left = S2.left := by rw [hP1def]
  have hP1r : P1.right = (S2.value_vec.take K).getLastD 0 := by rw [hP1def]
  have hP1b : P1.bitmap = (S2.offset_vec.take K).toFinset := by
    rw [hP1def]
  have hP2v : P2.value_vec = S2.value_vec.drop K := by rw [hP2def]
  have hP2o : P2.offset_vec = S2.offset_vec.drop K := by rw [hP2def]
  have hP2l : P2.left = (S2.value_vec.drop K).headD 0 := by rw [hP2def]
  have hP2r : P2.right = (S2.value_vec.drop K).getLastD 0 := by
    rw [hP2def]
  have hP2b : P2.bitmap = ∅ ∪ (S2.offset_vec.drop K).toFinset := by
    rw [hP2def]
  have hLlen : L.length = slots1.length + 1 := by
    rw [hLdef, length_insertIdx' (slots1.set SI P1) (SI + 1) P2
      (by rw [List.length_set]; omega), List.length_set]
  have hgdA : ∀ a, a < SI → L.getD a default = slots1.getD a default := by
    intro a ha
    rw [hLdef, getD_insertIdx (slots1.set SI P1) (SI + 1) P2
        (by rw [List.length_set]; omega),
      if_pos (show a < SI + 1 by omega), getD_set',
      if_neg (show ¬(SI = a ∧ SI < slots1.length) by omega)]
  have hgdB : L.getD SI default = P1 := by
    rw [hLdef, getD_insertIdx (slots1.set SI P1) (SI + 1) P2
        (by rw [List.length_set]; omega),
      if_pos (show SI < SI + 1 by omega), getD_set', if_pos ⟨rfl, hsi⟩]
  have hgdC : L.getD (SI + 1) default = P2 := by
    rw [hLdef, getD_insertIdx (slots1.set SI P1) (SI + 1) P2
        (by rw [List.length_set]; omega),
      if_neg (show ¬(SI + 1 < SI + 1) by omega), if_pos rfl]
  have hgdD : ∀ a, SI + 1 < a →
      L.getD a default = slots1.getD (a - 1) default := by
    intro a ha
    rw [hLdef, getD_insertIdx (slots1.set SI P1) (SI + 1) P2
        (by rw [List.length_set]; omega),
      if_neg (show ¬(a < SI + 1) by omega),
      if_neg (show ¬(a = SI + 1) by omega), getD_set',
      if_neg (show ¬(SI = a - 1 ∧ SI < slots1.length) by omega)]
  -- positional values of the two halves
  have hv1 : ∀ p, p < K →
      (S2.value_vec.take K).getD p 0 = S2.value_vec.getD p 0 :=
    fun p hp => getD_take' _ _ _ _ hp
  have ho1 : ∀ p, p < K →
      (S2.offset_vec.take K).getD p 0 = S2.offset_vec.getD p 0 :=
    fun p hp => getD_take' _ _ _ _ hp
  have hv2 : ∀ p, (S2.value_vec.drop K).getD p 0 =
      S2.value_vec.getD (K + p) 0 := fun p => getD_drop' _ _ _ _
  have ho2 : ∀ p, (S2.offset_vec.drop K).getD p 0 =
      S2.offset_vec.getD (K + p) 0 := fun p => getD_drop' _ _ _ _
  -- boundary values
  have hP1left : S2.left = (S2.value_vec.take K).headD 0 := by
    rw [hleft2, headD_eq_getD, headD_eq_getD, hv1 0 hK1]
  have hP1right : (S2.value_vec.take K).getLastD 0 =
      S2.value_vec.getD (K - 1) 0 := by
    rw [getLastD_eq_getD, hlenP1, hv1 (K - 1) (by omega)]
  have hP2left : (S2.value_vec.drop K).headD 0 =
      S2.value_vec.getD K 0 := by
    rw [headD_eq_getD, hv2 0, Nat.add_zero]
  have hP2right : (S2.value_vec.drop K).getLastD 0 =
      S2.value_vec.getD (S2.value_vec.length - 1) 0 := by
    rw [getLastD_eq_getD, hlenP2, hv2]
    congr 1
    omega
  have hS2right : S2.right =
      S2.value_vec.getD (S2.value_vec.length - 1) 0 := by
    rw [hright2, getLastD_eq_getD]
  have hS2left : S2.left = S2.value_vec.getD 0 0 := by
    rw [hleft2, headD_eq_getD]
  refine ⟨?_, ?_, ?_, ?_, ?_⟩
  · -- SlotWF for every slot of the new list
    intro i hi
    replace hi : i < L.length := hi
    rw [hLlen] at hi
    show SlotWF (L.getD i default)
    rcases Nat.lt_trichotomy i SI with h1 | h1 | h1
    · rw [hgdA i h1]
      exact hwf1 i (by omega) (by omega)
    · rw [h1, hgdB]
      refine ⟨?_, ?_, ?_, ?_, ?_, ?_, ?_⟩
      · rw [hP1v]
        intro hc
        rw [← List.length_eq_zero] at hc
        omega
      · rw [hP1v, hP1o, hlenP1, hlenP1o]
      · rw [hP1v]
        exact List.Pairwise.sublist (List.take_sublist K _) hsort2
      · rw [hP1l, hP1v]
        exact hP1left
      · rw [hP1r, hP1v]
      · rw [hP1b, hP1o]
      · rw [hP1v, hlenP1]
        omega
    · rcases Nat.lt_trichotomy i (SI + 1) with h2 | h2 | h2
      · omega
      · rw [h2, hgdC]
        refine ⟨?_, ?_, ?_, ?_, ?_, ?_, ?_⟩
        · rw [hP2v]
          intro hc
          rw [← List.length_eq_zero] at hc
          omega
        · rw [hP2v, hP2o, hlenP2, hlenP2o]
        · rw [hP2v]
          exact List.Pairwise.sublist (List.drop_sublist K _) hsort2
        · rw [hP2l, hP2v]
        · rw [hP2r, hP2v]
        · rw [hP2b, hP2o, Finset.empty_union]
        · rw [hP2v, hlenP2]
          omega
      · rw [hgdD i h2]
        exact hwf1 (i - 1) (by omega) (by omega)
  · -- chain of borders
    intro i j hij hj
    replace hj : j < L.length := hj
    rw [hLlen] at hj
    show (L.getD i default).right ≤ (L.getD j default).left
    have hmono := sorted_getD_mono S2.value_vec hsort2
    have hchainT : ∀ a, a < SI →
        (slots1.getD a default).right ≤ S2.left := by
      intro a ha
      have h := hchain1 a SI ha hsi
      rw [hT] at h
      exact h
    have hchainT2 : ∀ b, SI < b → b < slots1.length →
        S2.right ≤ (slots1.getD b default).left := by
      intro b hb hblen
      have h := hchain1 SI b hb hblen
      rw [hT] at h
      exact h
    have hP1r' : P1.right = S2.value_vec.getD (K - 1) 0 := by
      rw [hP1r]
      exact hP1right
    have hP2l' : P2.left = S2.value_vec.getD K 0 := by
      rw [hP2l]
      exact hP2left
    have hP2r' : P2.right =
        S2.value_vec.getD (S2.value_vec.length - 1) 0 := by
      rw [hP2r]
      exact hP2right
    rcases Nat.lt_trichotomy j SI with hj1 | hj1 | hj1
    · rw [hgdA i (by omega), hgdA j hj1]
      exact hchain1 i j hij (by omega)
    · rw [hj1, hgdB, hgdA i (by omega), hP1l]
      exact hchainT i (by omega)
    · rcases Nat.lt_trichotomy j (SI + 1) with hj2 | hj2 | hj2
      · omega
      · rw [hj2, hgdC]
        rcases Nat.lt_trichotomy i SI with hi1 | hi1 | hi1
        · rw [hgdA i hi1, hP2l']
          have h1 := hchainT i hi1
          have h2 : S2.left ≤ S2.value_vec.getD K 0 := by
            rw [hS2left]
            exact hmono 0 K (by omega) (by omega)
          exact le_trans h1 h2
        · rw [hi1, hgdB, hP1r', hP2l']
          exact hmono (K - 1) K (by omega) (by omega)
        · omega
      · rw [hgdD j hj2]
        have hjlen : j - 1 < slots1.length := by omega
        have hj3 : SI < j - 1 := by omega
        rcases Nat.lt_trichotomy i SI with hi1 | hi1 | hi1
        · rw [hgdA i hi1]
          exact hchain1 i (j - 1) (by omega) hjlen
        · rw [hi1, hgdB, hP1r']
          have h2 : S2.value_vec.getD (K - 1) 0 ≤ S2.right := by
            rw [hS2right]
            exact hmono (K - 1) (S2.value_vec.length - 1) (by omega)
              (by omega)
          exact le_trans h2 (hchainT2 (j - 1) hj3 hjlen)
        · rcases Nat.lt_trichotomy i (SI + 1) with hi2 | hi2 | hi2
          · omega
          · rw [hi2, hgdC, hP2r']
            have h := hchainT2 (j - 1) hj3 hjlen
            rw [hS2right] at h
            exact h
          · rw [hgdD i hi2]
            exact hchain1 (i - 1) (j - 1) (by omega) hjlen
  · -- link: every stored position is live in offset_to_value
    intro i hi p hp
    replace hi : i < L.length := hi
    rw [hLlen] at hi
    replace hp : p < (L.getD i default).value_vec.length := hp
    show otv'.getD ((L.getD i default).offset_vec.getD p 0) none =
      some ((L.getD i default).value_vec.getD p 0)
    rcases Nat.lt_trichotomy i SI with h1 | h1 | h1
    · rw [hgdA i h1] at hp ⊢
      exact hlink1 i (by omega) p hp
    · rw [h1] at hp ⊢
      rw [hgdB] at hp ⊢
      rw [hP1v, hlenP1] at hp
      rw [hP1v, hP1o, hv1 p hp, ho1 p hp]
      have h := hlink1 SI hsi p (by rw [hT]; omega)
      rw [hT] at h
      exact h
    · rcases Nat.lt_trichotomy i (SI + 1) with h2 | h2 | h2
      · omega
      · rw [h2] at hp ⊢
        rw [hgdC] at hp ⊢
        rw [hP2v, hlenP2] at hp
        rw [hP2v, hP2o, hv2 p, ho2 p]
        have h := hlink1 SI hsi (K + p) (by rw [hT]; omega)
        rw [hT] at h
        exact h
      · rw [hgdD i h2] at hp ⊢
        exact hlink1 (i - 1) (by omega) p hp
  · -- coverage: every live offset is stored somewhere
    intro o v hov
    replace hov : otv'.getD o none = some v := hov
    obtain ⟨i, hi, p, hp, ho, hv⟩ := hcov1 o v hov
    rcases Nat.lt_trichotomy i SI with h1 | h1 | h1
    · refine ⟨i, ?_, p, ?_⟩
      · show i < L.length
        rw [hLlen]
        omega
      · show p < (L.getD i default).value_vec.length ∧ _ ∧ _
        rw [hgdA i h1]
        exact ⟨hp, ho, hv⟩
    · rw [h1, hT] at hp ho hv
      rcases Nat.lt_or_ge p K with h2 | h2
      · refine ⟨SI, ?_, p, ?_⟩
        · show SI < L.length
          rw [hLlen]
          omega
        · show p < (L.getD SI default).value_vec.length ∧ _ ∧ _
          rw [hgdB, hP1v, hP1o, hlenP1, hv1 p h2, ho1 p h2]
          exact ⟨h2, ho, hv⟩
      · refine ⟨SI + 1, ?_, p - K, ?_⟩
        · show SI + 1 < L.length
          rw [hLlen]
          omega
        · show p - K < (L.getD (SI + 1) default).value_vec.length ∧ _ ∧ _
          rw [hgdC, hP2v, hP2o, hlenP2, hv2 (p - K), ho2 (p - K),
            show K + (p - K) = p by omega]
          exact ⟨by omega, ho, hv⟩
    · refine ⟨i + 1, ?_, p, ?_⟩
      · show i + 1 < L.length
        rw [hLlen]
        omega
      · show p < (L.getD (i + 1) default).value_vec.length ∧ _ ∧ _
        rw [hgdD (i + 1) (by omega), Nat.add_sub_cancel]
        exact ⟨hp, ho, hv⟩
  · -- cross-slot distinctness of stored offsets
    intro i j p q hi hj hp hq hne
    replace hi : i < L.length := hi
    replace hj : j < L.length := hj
    rw [hLlen] at hi hj
    replace hp : p < (L.getD i default).offset_vec.length := hp
    replace hq : q < (L.getD j default).offset_vec.length := hq
    show (L.getD i default).offset_vec.getD p 0 ≠
      (L.getD j default).offset_vec.getD q 0
    have hmap : ∀ a r, a < slots1.length + 1 →
        r < (L.getD a default).offset_vec.length →
        ∃ a2 r2, a2 < slots1.length ∧
          r2 < (slots1.getD a2 default).offset_vec.length ∧
          (slots1.getD a2 default).offset_vec.getD r2 0 =
            (L.getD a default).offset_vec.getD r 0 ∧
          ((a < SI ∧ a2 = a ∧ r2 = r) ∨
           (a = SI ∧ a2 = SI ∧ r2 = r ∧ r < K) ∨
           (a = SI + 1 ∧ a2 = SI ∧ r2 = K + r) ∨
           (SI + 1 < a ∧ a2 = a - 1 ∧ r2 = r)) := by
      intro a r ha hr
      rcases Nat.lt_trichotomy a SI with h1 | h1 | h1
      · rw [hgdA a h1] at hr ⊢
        exact ⟨a, r, by omega, hr, rfl, Or.inl ⟨h1, rfl, rfl⟩⟩
      · rw [h1] at hr ⊢
        rw [hgdB] at hr ⊢
        rw [hP1o] at hr ⊢
        rw [hlenP1o] at hr
        refine ⟨SI, r, hsi, by rw [hT]; omega, ?_,
          Or.inr (Or.inl ⟨rfl, rfl, rfl, hr⟩)⟩
        rw [hT, ho1 r hr]
      · rcases Nat.lt_trichotomy a (SI + 1) with h2 | h2 | h2
        · omega
        · rw [h2] at hr ⊢
          rw [hgdC] at hr ⊢
          rw [hP2o] at hr ⊢
          rw [hlenP2o] at hr
          refine ⟨SI, K + r, hsi, by rw [hT]; omega, ?_,
            Or.inr (Or.inr (Or.inl ⟨rfl, rfl, rfl⟩))⟩
          rw [hT, ho2 r]
        · rw [hgdD a h2] at hr ⊢
          exact ⟨a - 1, r, by omega, hr, rfl,
            Or.inr (Or.inr (Or.inr ⟨h2, rfl, rfl⟩))⟩
    obtain ⟨i2, p2, hi2, hp2, hoi, hci⟩ := hmap i p hi hp
    obtain ⟨j2, q2, hj2, hq2, hoj, hcj⟩ := hmap j q hj hq
    rw [← hoi, ← hoj]
    apply hnd1 i2 j2 p2 q2 hi2 hj2 hp2 hq2
    rintro ⟨he1, he2⟩
    apply hne
    rcases hci with ⟨hA, hA1, hA2⟩ | ⟨hB, hB1, hB2, hB3⟩ |
        ⟨hC, hC1, hC2⟩ | ⟨hD, hD1, hD2⟩ <;>
      rcases hcj with ⟨hA', hA1', hA2'⟩ | ⟨hB', hB1', hB2', hB3'⟩ |
        ⟨hC', hC1', hC2'⟩ | ⟨hD', hD1', hD2'⟩ <;>
      exact ⟨by omega, by omega⟩

lemma addSlots_inv (m : RangedMap) (hinv : RMInv m) (offset : Nat)
    (value : ℚ) (hne : m.slots ≠ [])
    (hdead : m.lookupValue offset = none)
    (otv2 : List (Option ℚ))
    (hlook : ∀ o2, otv2.getD o2 none =
      if o2 = offset then some value
      else m.offset_to_value.getD o2 none) :
    RMInv ⟨otv2, m.addSlots offset value⟩ := by
  obtain ⟨hwf, hchain, hlink, hcov, hnd⟩ := hinv
  have hn : 0 < m.slots.length := List.length_pos.mpr hne
  obtain ⟨hsige, hsile, hbelow, habove⟩ :=
    find_right_slot_index_spec m value true hne hwf hchain
  unfold RangedMap.addSlots
  dsimp only
  set SI : Nat := if m.find_right_slot_index value true = -1 then 0
    else (m.find_right_slot_index value true).toNat with hSIdef
  set S0 : SlotMeta := m.slots.getD SI default with hS0def
  set VI : Nat := ubIdx S0.value_vec value with hVIdef
  set S2 : SlotMeta := ⟨min value S0.left, max value S0.right,
    insert offset S0.bitmap, S0.value_vec.insertIdx VI value,
    S0.offset_vec.insertIdx VI offset⟩ with hS2def
  set SL1 : List SlotMeta := m.slots.set SI S2 with hSL1def
  have hSIlt : SI < m.slots.length := by
    rw [hSIdef]
    by_cases hsi1 : m.find_right_slot_index value true = -1
    · rw [if_pos hsi1]
      omega
    · rw [if_neg hsi1]
      omega
  have hS0wf : SlotWF S0 := by
    rw [hS0def]
    exact hwf SI hSIlt
  have hvleft : ∀ i, i < SI → ∀ p,
      p < (m.slots.getD i default).value_vec.length →
      (m.slots.getD i default).value_vec.getD p 0 ≤ value := by
    intro i hi p hp
    have hcast : (i : Int) < m.find_right_slot_index value true := by
      rw [hSIdef] at hi
      by_cases hsi1 : m.find_right_slot_index value true = -1
      · rw [if_pos hsi1] at hi
        omega
      · rw [if_neg hsi1] at hi
        omega
    have h := hbelow i hcast (by omega) p hp
    unfold ltSideQ at h
    rw [if_pos rfl] at h
    exact h
  have hvright : ∀ i, SI < i → i < m.slots.length → ∀ p,
      p < (m.slots.getD i default).value_vec.length →
      value < (m.slots.getD i default).value_vec.getD p 0 := by
    intro i hi hin p hp
    have hcast : m.find_right_slot_index value true < (i : Int) := by
      rw [hSIdef] at hi
      by_cases hsi1 : m.find_right_slot_index value true = -1
      · rw [hsi1]
        omega
      · rw [if_neg hsi1] at hi
        omega
    have h := habove i hcast hin p hp
    unfold ltSideQ at h
    rw [if_pos rfl] at h
    exact not_le.mp h
  have hVIle : VI ≤ S0.value_vec.length := by
    rw [hVIdef]
    exact ubIdx_le _ _
  have hS0len : S0.value_vec.length = S0.offset_vec.length := hS0wf.2.1
  have hVIole : VI ≤ S0.offset_vec.length := by omega
  have hS0pos : 0 < S0.value_vec.length := List.length_pos.mpr hS0wf.1
  have hS2v : S2.value_vec = S0.value_vec.insertIdx VI value := by
    rw [hS2def]
  have hS2o : S2.offset_vec = S0.offset_vec.insertIdx VI offset := by
    rw [hS2def]
  have hS2l : S2.left = min value S0.left := by rw [hS2def]
  have hS2r : S2.right = max value S0.right := by rw [hS2def]
  have hS2b : S2.bitmap = insert offset S0.bitmap := by rw [hS2def]
  have hS2vlen : S2.value_vec.length = S0.value_vec.length + 1 := by
    rw [hS2v]
    exact length_insertIdx' _ _ _ hVIle
  have hS2olen : S2.offset_vec.length = S0.offset_vec.length + 1 := by
    rw [hS2o]
    exact length_insertIdx' _ _ _ hVIole
  have hS2sort : S2.value_vec.Sorted (· ≤ ·) := by
    rw [hS2v, hVIdef]
    exact insert_sorted S0 hS0wf value
  have hS2left : S2.left = S2.value_vec.headD 0 := by
    rw [hS2l, hS2v, hVIdef, insert_head S0 hS0wf value]
  have hS2right : S2.right = S2.value_vec.getLastD 0 := by
    rw [hS2r, hS2v, hVIdef, insert_last S0 hS0wf value]
  have hS2bit : S2.bitmap = S2.offset_vec.toFinset := by
    rw [hS2b, hS2o, toFinset_insertIdx _ _ _ hVIole,
      hS0wf.2.2.2.2.2.1]
  have hS2vp : ∀ p, S2.value_vec.getD p 0 =
      if p < VI then S0.value_vec.getD p 0
      else if p = VI then value else S0.value_vec.getD (p - 1) 0 := by
    intro p
    rw [hS2v, getD_insertIdx _ _ _ hVIle]
  have hS2op : ∀ p, S2.offset_vec.getD p 0 =
      if p < VI then S0.offset_vec.getD p 0
      else if p = VI then offset else S0.offset_vec.getD (p - 1) 0 := by
    intro p
    rw [hS2o, getD_insertIdx _ _ _ hVIole]
  have hnotoff : ∀ i, i < m.slots.length →
      ∀ p, p < (m.slots.getD i default).offset_vec.length →
      (m.slots.getD i default).offset_vec.getD p 0 ≠ offset := by
    intro i hi p hp hcon
    have hleni := (hwf i hi).2.1
    have h := hlink i hi p (by omega)
    rw [hcon, hdead] at h
    exact Option.noConfusion h
  have hSL1len : SL1.length = m.slots.length := by
    rw [hSL1def, List.length_set]
  have hSL1get : ∀ i, SL1.getD i default =
      if i = SI then S2 else m.slots.getD i default := by
    intro i
    rw [hSL1def, getD_set']
    by_cases h : i = SI
    · rw [if_pos ⟨h.symm, hSIlt⟩, if_pos h]
    · rw [if_neg (fun hc => h hc.1.symm), if_neg h]
  have hSL1SI : SL1.getD SI default = S2 := by
    rw [hSL1get, if_pos rfl]
  have hSL1O : ∀ i, i ≠ SI →
      SL1.getD i default = m.slots.getD i default := by
    intro i h
    rw [hSL1get, if_neg h]
  -- every old slot strictly left of SI tops out at `value`, and every old
  -- slot strictly right of SI starts above it
  have hrightle : ∀ i, i < SI → (m.slots.getD i default).right ≤ value := by
    intro i hi
    have hwfi := hwf i (by omega)
    have hpos : 0 < (m.slots.getD i default).value_vec.length :=
      List.length_pos.mpr hwfi.1
    have h := hvleft i hi ((m.slots.getD i default).value_vec.length - 1)
      (by omega)
    rw [hwfi.2.2.2.2.1, getLastD_eq_getD]
    exact h
  have hleftgt : ∀ j, SI < j → j < m.slots.length →
      value < (m.slots.getD j default).left := by
    intro j hj hjn
    have hwfj := hwf j hjn
    have hpos : 0 < (m.slots.getD j default).value_vec.length :=
      List.length_pos.mpr hwfj.1
    have h := hvright j hj hjn 0 hpos
    rw [hwfj.2.2.2.1, headD_eq_getD]
    exact h
  have hchainL : ∀ i j, i < j → j < SL1.length →
      (SL1.getD i default).right ≤ (SL1.getD j default).left := by
    intro i j hij hj
    rw [hSL1len] at hj
    by_cases hiSI : i = SI
    · by_cases hjSI : j = SI
      · omega
      · rw [hiSI, hSL1SI, hSL1O j hjSI, hS2r]
        have h1 := hchain SI j (by omega) hj
        rw [← hS0def] at h1
        exact max_le (le_of_lt (hleftgt j (by omega) hj)) h1
    · by_cases hjSI : j = SI
      · rw [hSL1O i hiSI, hjSI, hSL1SI, hS2l]
        have h1 := hchain i SI (by omega) hSIlt
        rw [← hS0def] at h1
        exact le_min (hrightle i (by omega)) h1
      · rw [hSL1O i hiSI, hSL1O j hjSI]
        exact hchain i j hij hj
  have hwfL : ∀ i, i < SL1.length → i ≠ SI →
      SlotWF (SL1.getD i default) := by
    intro i hi hiSI
    rw [hSL1O i hiSI]
    rw [hSL1len] at hi
    exact hwf i hi
  have hlinkL : ∀ i, i < SL1.length →
      ∀ p, p < (SL1.getD i default).value_vec.length →
      otv2.getD ((SL1.getD i default).offset_vec.getD p 0) none =
        some ((SL1.getD i default).value_vec.getD p 0) := by
    intro i hi p hp
    rw [hSL1len] at hi
    by_cases hiSI : i = SI
    · rw [hiSI, hSL1SI] at hp ⊢
      rw [hS2vlen] at hp
      rw [hS2vp p, hS2op p]
      rcases Nat.lt_trichotomy p VI with h1 | h1 | h1
      · rw [if_pos h1, if_pos h1]
        have hno := hnotoff SI hSIlt p (by rw [← hS0def]; omega)
        rw [← hS0def] at hno
        rw [hlook, if_neg hno]
        have h := hlink SI hSIlt p (by rw [← hS0def]; omega)
        rw [← hS0def] at h
        exact h
      · have hnl : ¬ p < VI := by omega
        rw [if_neg hnl, if_pos h1, if_neg hnl, if_pos h1]
        rw [hlook, if_pos rfl]
      · have hnl : ¬ p < VI := by omega
        have hne1 : p ≠ VI := by omega
        rw [if_neg hnl, if_neg hne1, if_neg hnl, if_neg hne1]
        have hno := hnotoff SI hSIlt (p - 1) (by rw [← hS0def]; omega)
        rw [← hS0def] at hno
        rw [hlook, if_neg hno]
        have h := hlink SI hSIlt (p - 1) (by rw [← hS0def]; omega)
        rw [← hS0def] at h
        exact h
    · rw [hSL1O i hiSI] at hp ⊢
      have hno := hnotoff i hi p (by
        have := (hwf i hi).2.1
        omega)
      rw [hlook, if_neg hno]
      exact hlink i hi p hp
  have hcovL : ∀ o v, otv2.getD o none = some v →
      ∃ i, i < SL1.length ∧
        ∃ p, p < (SL1.getD i default).value_vec.length ∧
          (SL1.getD i default).offset_vec.getD p 0 = o ∧
          (SL1.getD i default).value_vec.getD p 0 = v := by
    intro o v hov
    rw [hlook] at hov
    by_cases ho : o = offset
    · rw [if_pos ho] at hov
      refine ⟨SI, by rw [hSL1len]; omega, VI, ?_, ?_, ?_⟩
      · rw [hSL1SI, hS2vlen]
        omega
      · rw [hSL1SI, hS2op VI, if_neg (lt_irrefl VI), if_pos rfl]
        exact ho.symm
      · rw [hSL1SI, hS2vp VI, if_neg (lt_irrefl VI), if_pos rfl]
        exact Option.some.inj hov
    · rw [if_neg ho] at hov
      obtain ⟨i, hi, p, hp, hpo, hpv⟩ := hcov o v hov
      by_cases hiSI : i = SI
      · rw [hiSI, ← hS0def] at hp hpo hpv
        rcases Nat.lt_or_ge p VI with h2 | h2
        · refine ⟨SI, by rw [hSL1len]; omega, p, ?_, ?_, ?_⟩
          · rw [hSL1SI, hS2vlen]
            omega
          · rw [hSL1SI, hS2op p, if_pos h2]
            exact hpo
          · rw [hSL1SI, hS2vp p, if_pos h2]
            exact hpv
        · refine ⟨SI, by rw [hSL1len]; omega, p + 1, ?_, ?_, ?_⟩
          · rw [hSL1SI, hS2vlen]
            omega
          · rw [hSL1SI, hS2op (p + 1),
              if_neg (show ¬ p + 1 < VI by omega),
              if_neg (show ¬ (p + 1 = VI) by omega), Nat.add_sub_cancel]
            exact hpo
          · rw [hSL1SI, hS2vp (p + 1),
              if_neg (show ¬ p + 1 < VI by omega),
              if_neg (show ¬ (p + 1 = VI) by omega), Nat.add_sub_cancel]
            exact hpv
      · refine ⟨i, by rw [hSL1len]; omega, p, ?_, ?_, ?_⟩
        · rw [hSL1O i hiSI]
          exact hp
        · rw [hSL1O i hiSI]
          exact hpo
        · rw [hSL1O i hiSI]
          exact hpv
  have hndL : ∀ i j p q, i < SL1.length → j < SL1.length →
      p < (SL1.getD i default).offset_vec.length →
      q < (SL1.getD j default).offset_vec.length →
      ¬(i = j ∧ p = q) →
      (SL1.getD i default).offset_vec.getD p 0 ≠
        (SL1.getD j default).offset_vec.getD q 0 := by
    intro i j p q hi hj hp hq hne2
    rw [hSL1len] at hi hj
    have hmap : ∀ a r, a < m.slots.length →
        r < (SL1.getD a default).offset_vec.length →
        ((SL1.getD a default).offset_vec.getD r 0 = offset ∧
          a = SI ∧ r = VI) ∨
        (∃ r2, r2 < (m.slots.getD a default).offset_vec.length ∧
          (m.slots.getD a default).offset_vec.getD r2 0 =
            (SL1.getD a default).offset_vec.getD r 0 ∧
          ((a ≠ SI ∧ r2 = r) ∨
           (a = SI ∧ r < VI ∧ r2 = r) ∨
           (a = SI ∧ VI < r ∧ r2 = r - 1))) := by
      intro a r ha hr
      by_cases haSI : a = SI
      · rw [haSI, hSL1SI] at hr ⊢
        rw [hS2olen] at hr
        rcases Nat.lt_trichotomy r VI with h1 | h1 | h1
        · refine Or.inr ⟨r, ?_, ?_, Or.inr (Or.inl ⟨rfl, h1, rfl⟩)⟩
          · rw [← hS0def]
            omega
          · rw [← hS0def, hS2op r, if_pos h1]
        · exact Or.inl ⟨by rw [hS2op r, if_neg (lt_irrefl VI ∘
            (h1 ▸ id)), if_pos h1], rfl, h1⟩
        · refine Or.inr ⟨r - 1, ?_, ?_, Or.inr (Or.inr ⟨rfl, h1, rfl⟩)⟩
          · rw [← hS0def]
            omega
          · rw [← hS0def, hS2op r,
              if_neg (show ¬ r < VI by omega),
              if_neg (show ¬ (r = VI) by omega)]
      · rw [hSL1O a haSI] at hr ⊢
        exact Or.inr ⟨r, hr, rfl, Or.inl ⟨haSI, rfl⟩⟩
    rcases hmap i p hi hp with ⟨hio, hiS, hiV⟩ | ⟨p2, hp2, hpe, htagi⟩
    · rcases hmap j q hj hq with ⟨hjo, hjS, hjV⟩ | ⟨q2, hq2, hqe, htagj⟩
      · exact absurd ⟨by omega, by omega⟩ hne2
      · rw [hio, ← hqe]
        have hno := hnotoff j hj q2 hq2
        exact fun hc => hno hc.symm
    · rcases hmap j q hj hq with ⟨hjo, hjS, hjV⟩ | ⟨q2, hq2, hqe, htagj⟩
      · rw [hjo, ← hpe]
        exact hnotoff i hi p2 hp2
      · rw [← hpe, ← hqe]
        apply hnd i j p2 q2 hi hj hp2 hq2
        rintro ⟨he1, he2⟩
        apply hne2
        rcases htagi with ⟨hi1, hi2⟩ | ⟨hi1, hi2, hi3⟩ | ⟨hi1, hi2, hi3⟩ <;>
          rcases htagj with ⟨hj1, hj2⟩ | ⟨hj1, hj2, hj3⟩ |
            ⟨hj1, hj2, hj3⟩ <;>
          exact ⟨by omega, by omega⟩
  by_cases hsplit : kRangedMapSlotSize * 2 <
      (List.insertIdx VI value S0.value_vec).length
  · rw [if_pos hsplit]
    exact split_slot_inv otv2 SL1 SI S2
      (by rw [hSL1len]; exact hSIlt)
      hSL1SI
      (by rw [hS2vlen, hS2olen]; omega)
      hS2sort hS2left hS2right
      (by rw [hS2vlen]; omega)
      (by
        rw [hS2vlen]
        have hc := hS0wf.2.2.2.2.2.2
        omega)
      hwfL hchainL hlinkL hcovL hndL
  · rw [if_neg hsplit]
    have hcap : S2.value_vec.length ≤ 2 * kRangedMapSlotSize := by
      have hlen := length_insertIdx' S0.value_vec VI value hVIle
      rw [hS2vlen]
      omega
    have hS2ne : S2.value_vec ≠ [] := by
      intro hc
      have hz : S2.value_vec.length = 0 := by
        rw [hc]
        rfl
      omega
    have hS2wf : SlotWF S2 :=
      ⟨hS2ne, by rw [hS2vlen, hS2olen]; omega, hS2sort, hS2left,
        hS2right, hS2bit, hcap⟩
    refine ⟨?_, ?_, ?_, ?_, ?_⟩
    · intro i hi
      replace hi : i < SL1.length := hi
      show SlotWF (SL1.getD i default)
      by_cases hiSI : i = SI
      · rw [hiSI, hSL1SI]
        exact hS2wf
      · exact hwfL i hi hiSI
    · intro i j hij hj
      replace hj : j < SL1.length := hj
      show (SL1.getD i default).right ≤ (SL1.getD j default).left
      exact hchainL i j hij hj
    · intro i hi p hp
      replace hi : i < SL1.length := hi
      replace hp : p < (SL1.getD i default).value_vec.length := hp
      show otv2.getD ((SL1.getD i default).offset_vec.getD p 0) none =
        some ((SL1.getD i default).value_vec.getD p 0)
      exact hlinkL i hi p hp
    · intro o v hov
      replace hov : otv2.getD o none = some v := hov
      exact hcovL o v hov
    · intro i j p q hi hj hp hq hne2
      replace hi : i < SL1.length := hi
      replace hj : j < SL1.length := hj
      replace hp : p < (SL1.getD i default).offset_vec.length := hp
      replace hq : q < (SL1.getD j default).offset_vec.length := hq
      show (SL1.getD i default).offset_vec.getD p 0 ≠
        (SL1.getD j default).offset_vec.getD q 0
      exact hndL i j p q hi hj hp hq hne2

lemma RMInv_add (m : RangedMap) (hinv : RMInv m) (offset : Nat)
    (value : ℚ) : RMInv (m.add_offset_and_score offset value).2 := by
  unfold RangedMap.add_offset_and_score
  by_cases hrej : offset < m.offset_to_value.length ∧
      (m.offset_to_value.getD offset none).isSome
  · rw [if_pos hrej]
    exact hinv
  · rw [if_neg hrej]
    have hdead : m.lookupValue offset = none := by
      unfold RangedMap.lookupValue
      rcases Nat.lt_or_ge offset m.offset_to_value.length with h | h
      · by_cases hs : (m.offset_to_value.getD offset none).isSome
        · exact absurd ⟨h, hs⟩ hrej
        · exact Option.not_isSome_iff_eq_none.mp hs
      · exact List.getD_eq_default _ _ h
    by_cases hemp : m.slots.isEmpty
    · rw [if_pos hemp]
      dsimp only
      have hsl : m.slots = [] := List.isEmpty_iff.mp hemp
      have hcov := hinv.2.2.2.1
      refine ⟨?_, ?_, ?_, ?_, ?_⟩
      · intro i hi
        replace hi : i < 1 := hi
        have hi0 : i = 0 := by omega
        subst hi0
        refine ⟨by simp, rfl, by simp, rfl, rfl, by simp, ?_⟩
        show 1 ≤ 2 * kRangedMapSlotSize
        norm_num [kRangedMapSlotSize]
      · intro i j hij hj
        replace hj : j < 1 := hj
        omega
      · intro i hi p hp
        replace hi : i < 1 := hi
        have hi0 : i = 0 := by omega
        subst hi0
        replace hp : p < 1 := hp
        have hp0 : p = 0 := by omega
        subst hp0
        show (m.addOtv offset value).getD offset none = some value
        rw [addOtv_lookup, if_pos rfl]
      · intro o v hov
        replace hov : (m.addOtv offset value).getD o none = some v := hov
        rw [addOtv_lookup] at hov
        by_cases ho : o = offset
        · rw [if_pos ho] at hov
          refine ⟨0, Nat.zero_lt_one, 0, Nat.zero_lt_one, ?_, ?_⟩
          · exact ho.symm
          · exact Option.some.inj hov
        · rw [if_neg ho] at hov
          obtain ⟨i, hi, _⟩ := hcov o v hov
          rw [hsl] at hi
          simp at hi
      · intro i j p q hi hj hp hq hne2
        replace hi : i < 1 := hi
        replace hj : j < 1 := hj
        have hi0 : i = 0 := by omega
        have hj0 : j = 0 := by omega
        subst hi0
        subst hj0
        replace hp : p < 1 := hp
        replace hq : q < 1 := hq
        exact absurd ⟨rfl, by omega⟩ hne2
    · rw [if_neg hemp]
      dsimp only
      have hnem : m.slots ≠ [] := by
        intro hc
        rw [hc] at hemp
        exact hemp rfl
      exact addSlots_inv m hinv offset value hnem hdead
        (m.addOtv offset value) (addOtv_lookup m offset value)

lemma findSlotFromAux_spec (offset : Nat) : ∀ (l : List SlotMeta) (k : Nat),
    (findSlotFromAux offset l k = none ∧
      ∀ t, t < l.length → offset ∉ (l.getD t default).bitmap) ∨
    (∃ t, t < l.length ∧ findSlotFromAux offset l k = some (k + t) ∧
      offset ∈ (l.getD t default).bitmap ∧
      ∀ u, u < t → offset ∉ (l.getD u default).bitmap) := by
  intro l
  induction l with
  | nil =>
    intro k
    exact Or.inl ⟨rfl, fun t ht => absurd ht (by simp)⟩
  | cons s rest ih =>
    intro k
    by_cases hs : offset ∈ s.bitmap
    · refine Or.inr ⟨0, by simp, ?_, hs, fun u hu => absurd hu (by omega)⟩
      show (if offset ∈ s.bitmap then some k
        else findSlotFromAux offset rest (k + 1)) = some (k + 0)
      rw [if_pos hs, Nat.add_zero]
    · rcases ih (k + 1) with ⟨hnone, hall⟩ | ⟨t, ht, heq, hmem, hmin⟩
      · refine Or.inl ⟨?_, ?_⟩
        · show (if offset ∈ s.bitmap then some k
            else findSlotFromAux offset rest (k + 1)) = none
          rw [if_neg hs]
          exact hnone
        · intro t ht
          cases t with
          | zero => exact hs
          | succ t2 =>
            have ht2 : t2 < rest.length := by
              simp only [List.length_cons] at ht
              omega
            exact hall t2 ht2
      · refine Or.inr ⟨t + 1, by simp only [List.length_cons]; omega,
          ?_, hmem, ?_⟩
        · show (if offset ∈ s.bitmap then some k
            else findSlotFromAux offset rest (k + 1)) = some (k + (t + 1))
          rw [if_neg hs, heq]
          congr 1
          omega
        · intro u hu
          cases u with
          | zero => exact hs
          | succ u2 => exact hmin u2 (by omega)

lemma findOffsetFromAux_spec (offset : Nat) : ∀ (l : List Nat) (k : Nat),
    (findOffsetFromAux offset l k = none ∧
      ∀ t, t < l.length → l.getD t 0 ≠ offset) ∨
    (∃ t, t < l.length ∧ findOffsetFromAux offset l k = some (k + t) ∧
      l.getD t 0 = offset ∧ ∀ u, u < t → l.getD u 0 ≠ offset) := by
  intro l
  induction l with
  | nil =>
    intro k
    exact Or.inl ⟨rfl, fun t ht => absurd ht (by simp)⟩
  | cons o rest ih =>
    intro k
    by_cases hs : o = offset
    · refine Or.inr ⟨0, by simp, ?_, hs, fun u hu => absurd hu (by omega)⟩
      show (if o = offset then some k
        else findOffsetFromAux offset rest (k + 1)) = some (k + 0)
      rw [if_pos hs, Nat.add_zero]
    · rcases ih (k + 1) with ⟨hnone, hall⟩ | ⟨t, ht, heq, hmem, hmin⟩
      · refine Or.inl ⟨?_, ?_⟩
        · show (if o = offset then some k
            else findOffsetFromAux offset rest (k + 1)) = none
          rw [if_neg hs]
          exact hnone
        · intro t ht
          cases t with
          | zero => exact hs
          | succ t2 =>
            have ht2 : t2 < rest.length := by
              simp only [List.length_cons] at ht
              omega
            exact hall t2 ht2
      · refine Or.inr ⟨t + 1, by simp only [List.length_cons]; omega,
          ?_, hmem, ?_⟩
        · show (if o = offset then some k
            else findOffsetFromAux offset rest (k + 1)) = some (k + (t + 1))
          rw [if_neg hs, heq]
          congr 1
          omega
        · intro u hu
          cases u with
          | zero => exact hs
          | succ u2 => exact hmin u2 (by omega)

lemma RMInv_del (m : RangedMap) (hinv : RMInv m) (offset : Nat) :
    RMInv (m.delete_offset offset).2 := by
  obtain ⟨hwf, hchain, hlink, hcov, hnd⟩ := hinv
  unfold RangedMap.delete_offset
  by_cases hemp : m.slots.isEmpty
  · rw [if_pos hemp]
    exact ⟨hwf, hchain, hlink, hcov, hnd⟩
  · rw [if_neg hemp]
    by_cases hnone : (m.lookupValue offset).isNone
    · rw [if_pos hnone]
      exact ⟨hwf, hchain, hlink, hcov, hnd⟩
    · rw [if_neg hnone]
      dsimp only
      obtain ⟨v0, hv0⟩ : ∃ v, m.lookupValue offset = some v := by
        cases hlv : m.lookupValue offset with
        | none =>
          rw [hlv] at hnone
          exact absurd rfl hnone
        | some v => exact ⟨v, rfl⟩
      set V : ℚ := (m.lookupValue offset).getD 0 with hVdef
      have hVv0 : V = v0 := by
        rw [hVdef, hv0]
        rfl
      set START : Nat := (m.find_left_slot_index V true).toNat with hSTdef
      set OTV : List (Option ℚ) := m.offset_to_value.set offset none
        with hOTVdef
      have hofflen : offset < m.offset_to_value.length := by
        by_contra hc
        push_neg at hc
        unfold RangedMap.lookupValue at hv0
        rw [List.getD_eq_default _ _ hc] at hv0
        exact Option.noConfusion hv0
      have hlook2 : ∀ o2, OTV.getD o2 none =
          if o2 = offset then none
          else m.offset_to_value.getD o2 none := by
        intro o2
        rw [hOTVdef, getD_set']
        by_cases h : o2 = offset
        · rw [if_pos ⟨h.symm, hofflen⟩, if_pos h]
        · rw [if_neg (fun hc => h hc.1.symm), if_neg h]
      obtain ⟨isi, hisi, p0, hp00, hov0, hvv0⟩ := hcov offset v0 hv0
      have hlenisi := (hwf isi hisi).2.1
      have hp0o : p0 < (m.slots.getD isi default).offset_vec.length := by
        omega
      have huniqpos : ∀ t q, t < m.slots.length →
          q < (m.slots.getD t default).offset_vec.length →
          (m.slots.getD t default).offset_vec.getD q 0 = offset →
          t = isi ∧ q = p0 := by
        intro t q ht hq he
        by_contra hc
        exact hnd t isi q p0 ht hisi hq hp0o
          (fun hand => hc ⟨hand.1, hand.2⟩) (by rw [he, hov0])
      obtain ⟨hfl0, hfln, hflbelow, hflabove⟩ :=
        find_left_slot_index_spec m V true hwf hchain
      have hstartle : START ≤ isi := by
        by_contra hc
        push_neg at hc
        have hcast : (isi : Int) < m.find_left_slot_index V true := by
          rw [hSTdef] at hc
          omega
        have h := hflbelow isi hcast hisi p0 hp00
        unfold gtSideQ at h
        rw [if_pos rfl] at h
        rw [hvv0] at h
        exact h (le_of_eq hVv0)
      have hfs : findSlotFrom m.slots START offset = some isi := by
        unfold findSlotFrom
        rcases findSlotFromAux_spec offset (m.slots.drop START) START with
          ⟨hn, hall⟩ | ⟨t, ht, heq, hmem, hmin⟩
        · exfalso
          apply hall (isi - START) (by
            rw [List.length_drop]
            omega)
          have hd : (m.slots.drop START).getD (isi - START) default =
              m.slots.getD (START + (isi - START)) default :=
            getD_drop' _ _ _ _
          rw [hd, show START + (isi - START) = isi by omega,
            (hwf isi hisi).2.2.2.2.2.1, mem_toFinset_getD]
          exact ⟨p0, hp0o, hov0⟩
        · rw [heq]
          have htlen : START + t < m.slots.length := by
            rw [List.length_drop] at ht
            omega
          have hd : (m.slots.drop START).getD t default =
              m.slots.getD (START + t) default := getD_drop' _ _ _ _
          rw [hd, (hwf (START + t) htlen).2.2.2.2.2.1,
            mem_toFinset_getD] at hmem
          obtain ⟨q, hq, hqe⟩ := hmem
          have hu := huniqpos (START + t) q htlen hq hqe
          rw [hu.1]
      rw [hfs]
      dsimp only
      set S : SlotMeta := m.slots.getD isi default with hSdef
      have hSwf : SlotWF S := by
        rw [hSdef]
        exact hwf isi hisi
      have hov0' : S.offset_vec.getD p0 0 = offset := by
        rw [hSdef]
        exact hov0
      have hvv0' : S.value_vec.getD p0 0 = v0 := by
        rw [hSdef]
        exact hvv0
      have hp00' : p0 < S.value_vec.length := by
        rw [hSdef]
        exact hp00
      have hlenS : S.value_vec.length = S.offset_vec.length := hSwf.2.1
      have hp0o' : p0 < S.offset_vec.length := by omega
      have hp0ge : lbIdx S.value_vec V ≤ p0 := by
        by_contra hc
        push_neg at hc
        have h := (lbIdx_spec S.value_vec hSwf.2.2.1 V p0 hp00').mp hc
        rw [hvv0', hVv0] at h
        exact lt_irrefl v0 h
      have hfo : findOffsetFrom S.offset_vec (lbIdx S.value_vec V)
          offset = some p0 := by
        unfold findOffsetFrom
        rcases findOffsetFromAux_spec offset
            (S.offset_vec.drop (lbIdx S.value_vec V))
            (lbIdx S.value_vec V) with ⟨hn, hall⟩ | ⟨t, ht, heq, hte, hmin⟩
        · exfalso
          apply hall (p0 - lbIdx S.value_vec V) (by
            rw [List.length_drop]
            omega)
          rw [getD_drop',
            show lbIdx S.value_vec V + (p0 - lbIdx S.value_vec V) = p0
              by omega]
          exact hov0'
        · rw [heq]
          rw [getD_drop'] at hte
          have htlen : lbIdx S.value_vec V + t <
              (m.slots.getD isi default).offset_vec.length := by
            rw [List.length_drop] at ht
            rw [← hSdef]
            omega
          have hte2 : (m.slots.getD isi default).offset_vec.getD
              (lbIdx S.value_vec V + t) 0 = offset := by
            rw [← hSdef]
            exact hte
          have hu := huniqpos isi (lbIdx S.value_vec V + t) hisi
            htlen hte2
          rw [hu.2]
      rw [hfo]
      dsimp only
      have hlenvE : (S.value_vec.eraseIdx p0).length =
          S.value_vec.length - 1 := by
        rw [List.length_eraseIdx]
        simp [hp00']
      have hlenoE : (S.offset_vec.eraseIdx p0).length =
          S.offset_vec.length - 1 := by
        rw [List.length_eraseIdx]
        simp [hp0o']
      have hvE : ∀ p, (S.value_vec.eraseIdx p0).getD p 0 =
          if p < p0 then S.value_vec.getD p 0
          else S.value_vec.getD (p + 1) 0 :=
        fun p => getD_eraseIdx _ _ hp00' _ _
      have hoE : ∀ p, (S.offset_vec.eraseIdx p0).getD p 0 =
          if p < p0 then S.offset_vec.getD p 0
          else S.offset_vec.getD (p + 1) 0 :=
        fun p => getD_eraseIdx _ _ hp0o' _ _
      have hSnd : S.offset_vec.Nodup := by
        apply nodup_getD_distinct
        intro p q hp hq hpq
        have h := hnd isi isi p q hisi hisi
          (by rw [← hSdef]; exact hp) (by rw [← hSdef]; exact hq)
          (fun hand => hpq hand.2)
        rw [hSdef]
        exact h
      have hnotoffO : ∀ t, t < m.slots.length → t ≠ isi →
          ∀ q, q < (m.slots.getD t default).offset_vec.length →
          (m.slots.getD t default).offset_vec.getD q 0 ≠ offset := by
        intro t ht htne q hq he
        exact htne (huniqpos t q ht hq he).1
      have hnotoffP : ∀ q, q < S.offset_vec.length → q ≠ p0 →
          S.offset_vec.getD q 0 ≠ offset := by
        intro q hq hqne he
        apply hqne
        refine (huniqpos isi q hisi ?_ ?_).2
        · rw [← hSdef]
          exact hq
        · rw [← hSdef]
          exact he
      by_cases hE : (S.value_vec.eraseIdx p0).isEmpty
      · rw [if_pos hE]
        have hlen1 : S.value_vec.length = 1 := by
          have h := List.isEmpty_iff.mp hE
          rw [← List.length_eq_zero, hlenvE] at h
          omega
        show RMInv ⟨OTV, m.slots.eraseIdx isi⟩
        have hlenE : (m.slots.eraseIdx isi).length =
            m.slots.length - 1 := by
          rw [List.length_eraseIdx]
          simp [hisi]
        have hgd2 : ∀ i, (m.slots.eraseIdx isi).getD i default =
            if i < isi then m.slots.getD i default
            else m.slots.getD (i + 1) default :=
          fun i => getD_eraseIdx _ _ hisi _ _
        refine ⟨?_, ?_, ?_, ?_, ?_⟩
        · intro i hi
          replace hi : i < (m.slots.eraseIdx isi).length := hi
          rw [hlenE] at hi
          show SlotWF ((m.slots.eraseIdx isi).getD i default)
          rw [hgd2 i]
          by_cases h : i < isi
          · rw [if_pos h]
            exact hwf i (by omega)
          · rw [if_neg h]
            exact hwf (i + 1) (by omega)
        · intro i j hij hj
          replace hj : j < (m.slots.eraseIdx isi).length := hj
          rw [hlenE] at hj
          show ((m.slots.eraseIdx isi).getD i default).right ≤
            ((m.slots.eraseIdx isi).getD j default).left
          rw [hgd2 i, hgd2 j]
          by_cases hi3 : i < isi <;> by_cases hj3 : j < isi
          · rw [if_pos hi3, if_pos hj3]
            exact hchain i j hij (by omega)
          · rw [if_pos hi3, if_neg hj3]
            exact hchain i (j + 1) (by omega) (by omega)
          · omega
          · rw [if_neg hi3, if_neg hj3]
            exact hchain (i + 1) (j + 1) (by omega) (by omega)
        · intro i hi p hp
          replace hi : i < (m.slots.eraseIdx isi).length := hi
          rw [hlenE] at hi
          replace hp : p <
            ((m.slots.eraseIdx isi).getD i default).value_vec.length := hp
          rw [hgd2 i] at hp
          show OTV.getD
            (((m.slots.eraseIdx isi).getD i default).offset_vec.getD p 0)
            none =
            some (((m.slots.eraseIdx isi).getD i default).value_vec.getD
              p 0)
          rw [hgd2 i]
          by_cases h : i < isi
          · rw [if_pos h] at hp ⊢
            rw [hlook2, if_neg (hnotoffO i (by omega) (by omega) p (by
              have := (hwf i (by omega)).2.1
              omega))]
            exact hlink i (by omega) p hp
          · rw [if_neg h] at hp ⊢
            rw [hlook2, if_neg (hnotoffO (i + 1) (by omega) (by omega) p
              (by
                have := (hwf (i + 1) (by omega)).2.1
                omega))]
            exact hlink (i + 1) (by omega) p hp
        · intro o v hov
          replace hov : OTV.getD o none = some v := hov
          rw [hlook2] at hov
          by_cases ho : o = offset
          · rw [if_pos ho] at hov
            exact Option.noConfusion hov
          · rw [if_neg ho] at hov
            obtain ⟨i2, hi2, p2, hp2, hpo2, hpv2⟩ := hcov o v hov
            have hi2ne : i2 ≠ isi := by
              intro hc
              apply ho
              rw [hc] at hp2 hpo2
              have hl1 : (m.slots.getD isi default).value_vec.length =
                  1 := by
                rw [← hSdef]
                exact hlen1
              have hp20 : p2 = p0 := by omega
              rw [← hpo2, hp20]
              exact hov0
            by_cases h : i2 < isi
            · refine ⟨i2, ?_, p2, ?_, ?_, ?_⟩
              · show i2 < (m.slots.eraseIdx isi).length
                rw [hlenE]
                omega
              · show p2 < ((m.slots.eraseIdx isi).getD i2
                  default).value_vec.length
                rw [hgd2 i2, if_pos h]
                exact hp2
              · show ((m.slots.eraseIdx isi).getD i2
                  default).offset_vec.getD p2 0 = o
                rw [hgd2 i2, if_pos h]
                exact hpo2
              · show ((m.slots.eraseIdx isi).getD i2
                  default).value_vec.getD p2 0 = v
                rw [hgd2 i2, if_pos h]
                exact hpv2
            · refine ⟨i2 - 1, ?_, p2, ?_, ?_, ?_⟩
              · show i2 - 1 < (m.slots.eraseIdx isi).length
                rw [hlenE]
                omega
              · show p2 < ((m.slots.eraseIdx isi).getD (i2 - 1)
                  default).value_vec.length
                rw [hgd2 (i2 - 1), if_neg (by omega),
                  show i2 - 1 + 1 = i2 by omega]
                exact hp2
              · show ((m.slots.eraseIdx isi).getD (i2 - 1)
                  default).offset_vec.getD p2 0 = o
                rw [hgd2 (i2 - 1), if_neg (by omega),
                  show i2 - 1 + 1 = i2 by omega]
                exact hpo2
              · show ((m.slots.eraseIdx isi).getD (i2 - 1)
                  default).value_vec.getD p2 0 = v
                rw [hgd2 (i2 - 1), if_neg (by omega),
                  show i2 - 1 + 1 = i2 by omega]
                exact hpv2
        · intro i j p q hi hj hp hq hne2
          replace hi : i < (m.slots.eraseIdx isi).length := hi
          replace hj : j < (m.slots.eraseIdx isi).length := hj
          rw [hlenE] at hi hj
          replace hp : p <
            ((m.slots.eraseIdx isi).getD i default).offset_vec.length := hp
          replace hq : q <
            ((m.slots.eraseIdx isi).getD j default).offset_vec.length := hq
          rw [hgd2 i] at hp
          rw [hgd2 j] at hq
          show ((m.slots.eraseIdx isi).getD i default).offset_vec.getD
              p 0 ≠
            ((m.slots.eraseIdx isi).getD j default).offset_vec.getD q 0
          rw [hgd2 i, hgd2 j]
          by_cases hi3 : i < isi <;> by_cases hj3 : j < isi
          · rw [if_pos hi3] at hp ⊢
            rw [if_pos hj3] at hq ⊢
            exact hnd i j p q (by omega) (by omega) hp hq
              (fun hand => hne2 ⟨hand.1, hand.2⟩)
          · rw [if_pos hi3] at hp ⊢
            rw [if_neg hj3] at hq ⊢
            exact hnd i (j + 1) p q (by omega) (by omega) hp hq
              (fun hand => absurd hand.1 (by omega))
          · rw [if_neg hi3] at hp ⊢
            rw [if_pos hj3] at hq ⊢
            exact hnd (i + 1) j p q (by omega) (by omega) hp hq
              (fun hand => absurd hand.1 (by omega))
          · rw [if_neg hi3] at hp ⊢
            rw [if_neg hj3] at hq ⊢
            exact hnd (i + 1) (j + 1) p q (by omega) (by omega) hp hq
              (fun hand => hne2 ⟨by omega, hand.2⟩)
      · rw [if_neg hE]
        set S3 : SlotMeta := ⟨(S.value_vec.eraseIdx p0).headD 0,
          (S.value_vec.eraseIdx p0).getLastD 0, S.bitmap.erase offset,
          S.value_vec.eraseIdx p0, S.offset_vec.eraseIdx p0⟩ with hS3def
        set SL3 : List SlotMeta := m.slots.set isi S3 with hSL3def
        have hnE : S.value_vec.length - 1 ≠ 0 := by
          intro hc
          apply hE
          rw [List.isEmpty_iff, ← List.length_eq_zero, hlenvE]
          exact hc
        have hS3v : S3.value_vec = S.value_vec.eraseIdx p0 := by
          rw [hS3def]
        have hS3o : S3.offset_vec = S.offset_vec.eraseIdx p0 := by
          rw [hS3def]
        have hS3wf : SlotWF S3 := by
          refine ⟨?_, ?_, ?_, ?_, ?_, ?_, ?_⟩
          · rw [hS3v]
            intro hc
            rw [← List.length_eq_zero, hlenvE] at hc
            omega
          · rw [hS3v, hS3o, hlenvE, hlenoE]
            omega
          · rw [hS3v]
            exact List.Pairwise.sublist (List.eraseIdx_sublist _ _)
              hSwf.2.2.1
          · rw [hS3def]
          · rw [hS3def]
          · rw [hS3def]
            dsimp only
            rw [toFinset_eraseIdx _ hSnd p0 hp0o', hov0',
              hSwf.2.2.2.2.2.1]
          · rw [hS3v, hlenvE]
            have hc := hSwf.2.2.2.2.2.2
            omega
        have hS3elem : ∀ p, p < S3.value_vec.length →
            S.left ≤ S3.value_vec.getD p 0 ∧
            S3.value_vec.getD p 0 ≤ S.right := by
          intro p hp
          rw [hS3v] at hp ⊢
          rw [hvE p]
          rw [hlenvE] at hp
          by_cases h : p < p0
          · rw [if_pos h]
            exact slot_value_bounds S hSwf p (by omega)
          · rw [if_neg h]
            exact slot_value_bounds S hSwf (p + 1) (by omega)
        have hS3left : S.left ≤ S3.left ∧ S3.left ≤ S.right := by
          have hL : S3.left = S3.value_vec.getD 0 0 := by
            rw [hS3def]
            dsimp only
            rw [headD_eq_getD]
          rw [hL]
          exact hS3elem 0 (by
            rw [hS3v, hlenvE]
            omega)
        have hS3right : S.left ≤ S3.right ∧ S3.right ≤ S.right := by
          have hR : S3.right =
              S3.value_vec.getD (S3.value_vec.length - 1) 0 := by
            rw [hS3def]
            dsimp only
            rw [getLastD_eq_getD]
          rw [hR]
          exact hS3elem (S3.value_vec.length - 1) (by
            rw [hS3v, hlenvE]
            omega)
        have hSL3len : SL3.length = m.slots.length := by
          rw [hSL3def, List.length_set]
        have hSL3get : ∀ i, SL3.getD i default =
            if i = isi then S3 else m.slots.getD i default := by
          intro i
          rw [hSL3def, getD_set']
          by_cases h : i = isi
          · rw [if_pos ⟨h.symm, hisi⟩, if_pos h]
          · rw [if_neg (fun hc => h hc.1.symm), if_neg h]
        have hSL3SI : SL3.getD isi default = S3 := by
          rw [hSL3get, if_pos rfl]
        have hSL3O : ∀ i, i ≠ isi →
            SL3.getD i default = m.slots.getD i default := by
          intro i h
          rw [hSL3get, if_neg h]
        refine ⟨?_, ?_, ?_, ?_, ?_⟩
        · intro i hi
          replace hi : i < SL3.length := hi
          rw [hSL3len] at hi
          show SlotWF (SL3.getD i default)
          by_cases h : i = isi
          · rw [h, hSL3SI]
            exact hS3wf
          · rw [hSL3O i h]
            exact hwf i hi
        · intro i j hij hj
          replace hj : j < SL3.length := hj
          rw [hSL3len] at hj
          show (SL3.getD i default).right ≤ (SL3.getD j default).left
          by_cases hi3 : i = isi
          · by_cases hj3 : j = isi
            · omega
            · rw [hi3, hSL3SI, hSL3O j hj3]
              have h1 := hchain isi j (by omega) hj
              rw [← hSdef] at h1
              exact le_trans hS3right.2 h1
          · by_cases hj3 : j = isi
            · rw [hSL3O i hi3, hj3, hSL3SI]
              have h1 := hchain i isi (by omega) hisi
              rw [← hSdef] at h1
              exact le_trans h1 hS3left.1
            · rw [hSL3O i hi3, hSL3O j hj3]
              exact hchain i j hij hj
        · intro i hi p hp
          replace hi : i < SL3.length := hi
          rw [hSL3len] at hi
          replace hp : p < (SL3.getD i default).value_vec.length := hp
          show OTV.getD ((SL3.getD i default).offset_vec.getD p 0) none =
            some ((SL3.getD i default).value_vec.getD p 0)
          by_cases h : i = isi
          · rw [h, hSL3SI] at hp ⊢
            rw [hS3v, hlenvE] at hp
            rw [hS3v, hS3o, hvE p, hoE p]
            by_cases h2 : p < p0
            · rw [if_pos h2, if_pos h2]
              rw [hlook2, if_neg (hnotoffP p (by omega) (by omega))]
              have hl := hlink isi hisi p (by rw [← hSdef]; omega)
              rw [← hSdef] at hl
              exact hl
            · rw [if_neg h2, if_neg h2]
              rw [hlook2, if_neg (hnotoffP (p + 1) (by omega) (by omega))]
              have hl := hlink isi hisi (p + 1) (by rw [← hSdef]; omega)
              rw [← hSdef] at hl
              exact hl
          · rw [hSL3O i h] at hp ⊢
            rw [hlook2, if_neg (hnotoffO i hi h p (by
              have := (hwf i hi).2.1
              omega))]
            exact hlink i hi p hp
        · intro o v hov
          replace hov : OTV.getD o none = some v := hov
          rw [hlook2] at hov
          by_cases ho : o = offset
          · rw [if_pos ho] at hov
            exact Option.noConfusion hov
          · rw [if_neg ho] at hov
            obtain ⟨i2, hi2, p2, hp2, hpo2, hpv2⟩ := hcov o v hov
            by_cases h : i2 = isi
            · rw [h] at hp2 hpo2 hpv2
              rw [← hSdef] at hp2 hpo2 hpv2
              have hp2ne : p2 ≠ p0 := by
                intro hc
                apply ho
                rw [← hpo2, hc]
                exact hov0'
              rcases Nat.lt_or_ge p2 p0 with h2 | h2
              · refine ⟨isi, ?_, p2, ?_, ?_, ?_⟩
                · show isi < SL3.length
                  rw [hSL3len]
                  omega
                · show p2 < (SL3.getD isi default).value_vec.length
                  rw [hSL3SI, hS3v, hlenvE]
                  omega
                · show (SL3.getD isi default).offset_vec.getD p2 0 = o
                  rw [hSL3SI, hS3o, hoE p2, if_pos h2]
                  exact hpo2
                · show (SL3.getD isi default).value_vec.getD p2 0 = v
                  rw [hSL3SI, hS3v, hvE p2, if_pos h2]
                  exact hpv2
              · have h3 : p0 < p2 := by omega
                refine ⟨isi, ?_, p2 - 1, ?_, ?_, ?_⟩
                · show isi < SL3.length
                  rw [hSL3len]
                  omega
                · show p2 - 1 < (SL3.getD isi default).value_vec.length
                  rw [hSL3SI, hS3v, hlenvE]
                  omega
                · show (SL3.getD isi default).offset_vec.getD
                    (p2 - 1) 0 = o
                  rw [hSL3SI, hS3o, hoE (p2 - 1),
                    if_neg (show ¬ p2 - 1 < p0 by omega),
                    show p2 - 1 + 1 = p2 by omega]
                  exact hpo2
                · show (SL3.getD isi default).value_vec.getD
                    (p2 - 1) 0 = v
                  rw [hSL3SI, hS3v, hvE (p2 - 1),
                    if_neg (show ¬ p2 - 1 < p0 by omega),
                    show p2 - 1 + 1 = p2 by omega]
                  exact hpv2
            · refine ⟨i2, ?_, p2, ?_, ?_, ?_⟩
              · show i2 < SL3.length
                rw [hSL3len]
                omega
              · show p2 < (SL3.getD i2 default).value_vec.length
                rw [hSL3O i2 h]
                exact hp2
              · show (SL3.getD i2 default).offset_vec.getD p2 0 = o
                rw [hSL3O i2 h]
                exact hpo2
              · show (SL3.getD i2 default).value_vec.getD p2 0 = v
                rw [hSL3O i2 h]
                exact hpv2
        · intro i j p q hi hj hp hq hne2
          replace hi : i < SL3.length := hi
          replace hj : j < SL3.length := hj
          rw [hSL3len] at hi hj
          replace hp : p < (SL3.getD i default).offset_vec.length := hp
          replace hq : q < (SL3.getD j default).offset_vec.length := hq
          show (SL3.getD i default).offset_vec.getD p 0 ≠
            (SL3.getD j default).offset_vec.getD q 0
          have hmap : ∀ a r, a < m.slots.length →
              r < (SL3.getD a default).offset_vec.length →
              ∃ r2, r2 < (m.slots.getD a default).offset_vec.length ∧
                (m.slots.getD a default).offset_vec.getD r2 0 =
                  (SL3.getD a default).offset_vec.getD r 0 ∧
                ((a ≠ isi ∧ r2 = r) ∨
                 (a = isi ∧ r < p0 ∧ r2 = r) ∨
                 (a = isi ∧ p0 ≤ r ∧ r2 = r + 1)) := by
            intro a r ha hr
            by_cases haSI : a = isi
            · rw [haSI, hSL3SI] at hr ⊢
              rw [hS3o, hlenoE] at hr
              rw [hS3o, hoE r]
              by_cases h2 : r < p0
              · refine ⟨r, ?_, ?_, Or.inr (Or.inl ⟨rfl, h2, rfl⟩)⟩
                · rw [← hSdef]
                  omega
                · rw [← hSdef, if_pos h2]
              · refine ⟨r + 1, ?_, ?_,
                  Or.inr (Or.inr ⟨rfl, by omega, rfl⟩)⟩
                · rw [← hSdef]
                  omega
                · rw [← hSdef, if_neg h2]
            · rw [hSL3O a haSI] at hr ⊢
              exact ⟨r, hr, rfl, Or.inl ⟨haSI, rfl⟩⟩
          obtain ⟨p2, hp2, hpe, htagi⟩ := hmap i p hi hp
          obtain ⟨q2, hq2, hqe, htagj⟩ := hmap j q hj hq
          rw [← hpe, ← hqe]
          apply hnd i j p2 q2 hi hj hp2 hq2
          rintro ⟨he1, he2⟩
          apply hne2
          rcases htagi with ⟨hia, hib⟩ | ⟨hia, hib, hic⟩ |
              ⟨hia, hib, hic⟩ <;>
            rcases htagj with ⟨hja, hjb⟩ | ⟨hja, hjb, hjc⟩ |
              ⟨hja, hjb, hjc⟩ <;>
            exact ⟨he1, by omega⟩

lemma RMInv_apply (m : RangedMap) (hinv : RMInv m) (op : RMOp) :
    RMInv (RMOp.apply m op) := by
  cases op with
  | add o v => exact RMInv_add m hinv o v
  | del o => exact RMInv_del m hinv o

lemma RMInv_foldl : ∀ (l : List RMOp) (m : RangedMap), RMInv m →
    RMInv (l.foldl RMOp.apply m) := by
  intro l
  induction l with
  | nil =>
    intro m hm
    exact hm
  | cons op rest ih =>
    intro m hm
    exact ih (RMOp.apply m op) (RMInv_apply m hm op)

lemma RMInv_reachable (ops : List RMOp) :
    RMInv (applyRMOps ops RangedMap.init) :=
  RMInv_foldl ops RangedMap.init RMInv_init

/-- C2: on every `RangedMap` state reachable from the empty map by any
sequence of `add_offset_and_score` / `delete_offset` calls, and for every
query `(range_out, lower_than, include_le, greater_than, include_ge)`,
`get_range_bitmap` is membership-exact: any returned bitmap contains
exactly the offsets whose stored (non-`NaN`) value satisfies the interval
predicate — inside the interval, or outside it when `range_out` is set.
A null return implies that no offset matches provided the state is small
enough that the wrapping `uint32_t` per-query counter `cnt` cannot reach
`2^32` (four times the stored-position count bounds every accumulation
path); on states with about `2^31` stored offsets a `range_out` query can
wrap `cnt` to zero and return null despite matches.  The claim's remaining
direction, null exactly when the matching set is empty, is refuted by
`C2_crossed_borders_return_nonnull_empty`: crossed borders inside one slot
underflow the `uint32_t` count and return a non-null empty bitmap. -/
theorem C2_range_query_exact_on_reachable (ops : List RMOp)
    (ro ile ige : Bool) (lt gt : ℚ) (o : Nat)
    (hsmall : 4 * ((applyRMOps ops RangedMap.init).slots.map
      (fun s => s.offset_vec.length)).sum < 2 ^ 32) :
    (∀ bm, (applyRMOps ops RangedMap.init).get_range_bitmap ro lt ile gt
        ige = some bm →
      (o ∈ bm ↔ (applyRMOps ops RangedMap.init).specMatches ro lt ile gt
        ige o)) ∧
    ((applyRMOps ops RangedMap.init).get_range_bitmap ro lt ile gt ige =
        none →
      ¬ (applyRMOps ops RangedMap.init).specMatches ro lt ile gt ige o) :=
  get_range_bitmap_exact _ (RMInv_reachable ops) ro lt ile gt ige o hsmall

theorem C2_range_query_exact_on_reachable_witness :
    4 * ((applyRMOps [.add 0 1, .add 1 5, .add 2 9]
        RangedMap.init).slots.map (fun s => s.offset_vec.length)).sum <
      2 ^ 32 ∧
    ((applyRMOps [.add 0 1, .add 1 5, .add 2 9]
        RangedMap.init).get_range_bitmap false 6 true 2 true =
      some ({1} : Finset Nat) ∧
    ((1 : Nat) ∈ ({1} : Finset Nat) ↔
      (applyRMOps [.add 0 1, .add 1 5, .add 2 9]
        RangedMap.init).specMatches false 6 true 2 true 1)) :=
  ⟨by decide,
   by decide,
   (C2_range_query_exact_on_reachable [.add 0 1, .add 1 5, .add 2 9]
     false true true 6 2 1 (by decide)).1 {1} (by decide)⟩

end Pigo
